import Mathlib

/-!
# graft: unscented Kalman filter engines

A shallow embedding of `src/GraftUKFAbsolute.cpp` (13-dimensional state) and
`src/GraftUKFAttitude.cpp` (7-dimensional state).

Conventions of the embedding.

* The cycle is embedded over a linearly ordered field `K` with exact arithmetic.
  Routines of external libraries (`std::sqrt`, the trigonometric functions,
  `std::isfinite`, Eigen's Cholesky factor and LU inverse) are the fields of a
  `Platform K` record, so every definition is executable once such a record is given
  (for instance over `ℚ`).
* The functions whose arithmetic is written out in the source files
  (`unitQuaternion`, `normalized_acceleration`, `generateSigmaPoints`,
  `meanFromSigmaPoints`, `covarianceFromSigmaPoints`, the renormalisation and the
  commit) are written over any number type with the operations they use, so that they
  also run on `Double`, the IEEE 754 binary64 numbers with rounding, overflow and
  underflow; statements about rounding are made there.
* A column vector with `n` rows is a function `Fin n → K`, an `n × m` matrix is a
  `Matrix (Fin n) (Fin m) K`, a `std::vector` or a dynamically sized `VectorXd`
  is a `List`.
* `ros::Time::now()` is an argument of the cycle function, in seconds.
-/

namespace Graft

/-- What the filters take from their platform: routines of the C++ standard library
and of Eigen, and the contents of the storage that quaternionCovFromEuler reads
without having written it. -/
structure Platform (K : Type) where
  /-- The function std::sqrt. -/
  sqrt : K → K
  /-- The function atan. -/
  atan : K → K
  /-- The function asin. -/
  asin : K → K
  /-- The function sin. -/
  sin : K → K
  /-- The function cos. -/
  cos : K → K
  /-- The predicate std::isfinite. -/
  isfinite : K → Bool
  /-- The lower Cholesky factor, Eigen::LLT(matrix).matrixL(). -/
  llt : {n : Nat} → Matrix (Fin n) (Fin n) K → Matrix (Fin n) (Fin n) K
  /-- The inverse computed by partialPivLu().inverse(). -/
  luInverse : {n : Nat} → Matrix (Fin n) (Fin n) K → Matrix (Fin n) (Fin n) K
  /-- The indeterminate value found in the entry (i, j), i ≠ j, of the local matrix
  euler_cov of quaternionCovFromEuler, which the function never writes. -/
  uninitialized : Fin 3 → Fin 3 → K

section UnscentedTransform

variable {K : Type} [LinearOrderedField K]

/-- Source `matrixSqrt`: the Cholesky factor of the argument. -/
def matrixSqrt {F : Type} (env : Platform F) {n : Nat} (matrix : Matrix (Fin n) (Fin n) F) :
    Matrix (Fin n) (Fin n) F :=
  env.llt matrix

/-- Source `unitQuaternion` (both files; the full-state one also logs a warning
when the magnitude is below 0.1): the quaternion divided by its magnitude. -/
def unitQuaternion {F : Type} [Add F] [Mul F] [Div F] (env : Platform F) (q : Fin 4 → F) :
    Fin 4 → F :=
  let q_mag := env.sqrt (q 0 * q 0 + q 1 * q 1 + q 2 * q 2 + q 3 * q 3)
  fun i => q i / q_mag

/-- Source `generateSigmaPoints` (identical in both files).  The first loop,
`i = 1..n`, pushes `state + sig_sqrt.col(i-1)`; the second, `i = n+1..2n`, pushes
`state - sig_sqrt.col(i-(n+1))`; both run over the columns `0..n-1` in order. -/
def generateSigmaPoints {F : Type} [Add F] [Sub F] [Mul F] [NatCast F] (env : Platform F)
    {n : Nat} (state : Fin n → F) (covariance : Matrix (Fin n) (Fin n) F) (lambda : F) :
    List (Fin n → F) :=
  let gamma := env.sqrt ((n : F) + lambda)
  let sig_sqrt : Matrix (Fin n) (Fin n) F := gamma • matrixSqrt env covariance
  let out : List (Fin n → F) := [state]
  let out := out ++ (List.finRange n).map (fun c => state + fun r => sig_sqrt r c)
  let out := out ++ (List.finRange n).map (fun c => state - fun r => sig_sqrt r c)
  out

/-- Source `meanFromSigmaPoints` (identical in both files).  The argument `n` is
the integer the caller passes (`graft_state_.rows()`), converted to `double` in
the weights; `sigma_points[i]` reads entry `i` of the list. -/
def meanFromSigmaPoints {F : Type} [Zero F] [One F] [Add F] [Mul F] [Div F] [NatCast F]
    [OfNat F 2] {m : Nat} (sigma_points : List (Fin m → F)) (n : Nat) (lambda : F) :
    Fin m → F :=
  let weight_zero := lambda / ((n : F) + lambda)
  let out := weight_zero • sigma_points.getD 0 0
  let weight_i := 1 / (2 * ((n : F) + lambda))
  (List.range' 1 (2 * n)).foldl (fun out i => out + weight_i • sigma_points.getD i 0) out

/-- Source `covarianceFromSigmaPoints` (identical in both files). -/
def covarianceFromSigmaPoints {F : Type} [Zero F] [One F] [Add F] [Sub F] [Mul F] [Div F]
    [NatCast F] [OfNat F 2] {m : Nat} (sigma_points : List (Fin m → F)) (mean : Fin m → F)
    (process_noise : Matrix (Fin m) (Fin m) F) (n : Nat) (alpha beta lambda : F) :
    Matrix (Fin m) (Fin m) F :=
  let cov_weight_zero := lambda / ((n : F) + lambda) + (1 - alpha * alpha + beta)
  let out := Matrix.vecMulVec (cov_weight_zero • (sigma_points.getD 0 0 - mean))
    (sigma_points.getD 0 0 - mean)
  let weight_i := 1 / (2 * ((n : F) + lambda))
  let out := (List.range' 1 (2 * n)).foldl
    (fun out i => out + Matrix.vecMulVec (weight_i • (sigma_points.getD i 0 - mean))
      (sigma_points.getD i 0 - mean)) out
  out + process_noise

/-- Source `crossCovariance` (identical in both files); `n` is the number of rows of
`sigma_points[0]`, the dimension of the state points. -/
def crossCovariance {n m : Nat} (sigma_points : List (Fin n → K)) (mean : Fin n → K)
    (meas_sigma_points : List (Fin m → K)) (meas_mean : Fin m → K) (alpha beta lambda : K) :
    Matrix (Fin n) (Fin m) K :=
  let cov_weight_zero := lambda / ((n : K) + lambda) + (1 - alpha * alpha + beta)
  let out := Matrix.vecMulVec (cov_weight_zero • (sigma_points.getD 0 0 - mean))
    (meas_sigma_points.getD 0 0 - meas_mean)
  let weight_i := 1 / (2 * ((n : K) + lambda))
  (List.range' 1 (2 * n)).foldl
    (fun out i => out + Matrix.vecMulVec (weight_i • (sigma_points.getD i 0 - mean))
      (meas_sigma_points.getD i 0 - meas_mean)) out

/-- Source `quaternionUpdateMatrix` (identical in both files). -/
def quaternionUpdateMatrix (wx wy wz : K) : Matrix (Fin 4) (Fin 4) K :=
  Matrix.of ![![0, wx, wy, wz],
              ![-wx, 0, -wz, wy],
              ![-wy, wz, 0, -wx],
              ![-wz, -wy, wx, 0]]

/-- Source `updatedQuaternion` (identical in both files).  The values `out_mag` and
`out_err` are computed and never used. -/
def updatedQuaternion (env : Platform K) (q : Fin 4 → K) (wx wy wz dt : K) : Fin 4 → K :=
  let I : Matrix (Fin 4) (Fin 4) K := 1
  let s := 1 / 2 * env.sqrt (wx * wx * dt * dt + wy * wy * dt * dt + wz * wz * dt * dt)
  let k : K := 0
  let q_mag := env.sqrt (q 0 * q 0 + q 1 * q 1 + q 2 * q 2 + q 3 * q 3)
  let err := 1 - q_mag * q_mag
  let correction_factor := 1 - 1 / 2 * s * s + 1 / 24 * s * s * s * s + k * dt * err
  let correction := correction_factor • I
  let update_factor := 1 / 2 * dt * (1 - 1 / 6 * s * s + 1 / 120 * s * s * s * s)
  let quaterion_update_matrix := quaternionUpdateMatrix wx wy wz
  let update := update_factor • quaterion_update_matrix
  (correction - update).mulVec q

/-- The tf library (external): `tf::Transform(q, tf::Vector3(0, 0, 0)) * v`, the
rotation matrix that `tf::Matrix3x3::setRotation` builds from the quaternion
`q = (x, y, z, w)`, applied to `v`. -/
def tfRotate (x y z w : K) (v : Fin 3 → K) : Fin 3 → K :=
  let d := x * x + y * y + z * z + w * w
  let s := 2 / d
  let xs := x * s
  let ys := y * s
  let zs := z * s
  let wx := w * xs
  let wy := w * ys
  let wz := w * zs
  let xx := x * xs
  let xy := x * ys
  let xz := x * zs
  let yy := y * ys
  let yz := y * zs
  let zz := z * zs
  ![(1 - (yy + zz)) * v 0 + (xy - wz) * v 1 + (xz + wy) * v 2,
    (xy + wz) * v 0 + (1 - (xx + zz)) * v 1 + (yz - wx) * v 2,
    (xz - wy) * v 0 + (yz + wx) * v 1 + (1 - (xx + yy)) * v 2]

/-- Source `transformVelocitites` (full-state file); `quaternion` is `(w, x, y, z)`.
The conversion `tf::quaternionMsgToTF` in between renormalises a quaternion that is
not of unit length; it receives `unit_q`, which `unitQuaternion` has normalised. -/
def transformVelocitites (env : Platform K) (vel : Fin 3 → K) (quaternion : Fin 4 → K) :
    Fin 3 → K :=
  let unit_q := unitQuaternion env quaternion
  tfRotate (unit_q 1) (unit_q 2) (unit_q 3) (unit_q 0) vel

end UnscentedTransform

/-- Source `quaternionCovFromEuler` (full-state file).  The local 3×3 matrix
`euler_cov` is declared without initialiser and only its entries 0, 4 and 8 (the
diagonal) are written; the other six are read from `env.uninitialized`.  The result
is the diagonal of `G * euler_cov * GT`.  The function is written over any number
type with the operations it uses, so that it can also be run on values that are not
finite. -/
def quaternionCovFromEuler {F : Type} [Add F] [Sub F] [Mul F] [Div F] [Neg F] [OfNat F 2]
    (env : Platform F) (roll_cov pitch_cov yaw_cov q1 q2 q3 q4 : F) : Fin 4 → F :=
  let euler_cov : Fin 3 → Fin 3 → F := fun i j =>
    if i = j then (if i = 0 then roll_cov else if i = 1 then pitch_cov else yaw_cov)
    else env.uninitialized i j
  let yaw := env.atan ((q3 + q2) / (q4 + q1)) + env.atan ((q3 - q1) / (q4 - q1))
  let pitch := env.asin (2 * (q2 * q3 + q1 * q4))
  let roll := env.atan ((q3 + q2) / (q4 + q1)) - env.atan ((q3 - q2) / (q4 - q1))
  let sss := env.sin (yaw / 2) * env.sin (roll / 2) * env.sin (pitch / 2) / 2
  let ssc := env.sin (yaw / 2) * env.sin (roll / 2) * env.cos (pitch / 2) / 2
  let scs := env.sin (yaw / 2) * env.cos (roll / 2) * env.sin (pitch / 2) / 2
  let scc := env.sin (yaw / 2) * env.cos (roll / 2) * env.cos (pitch / 2) / 2
  let ccc := env.cos (yaw / 2) * env.cos (roll / 2) * env.cos (pitch / 2) / 2
  let ccs := env.cos (yaw / 2) * env.cos (roll / 2) * env.sin (pitch / 2) / 2
  let csc := env.cos (yaw / 2) * env.sin (roll / 2) * env.cos (pitch / 2) / 2
  let css := env.cos (yaw / 2) * env.sin (roll / 2) * env.sin (pitch / 2) / 2
  let G : Fin 4 → Fin 3 → F :=
    ![![-scs - csc, ccc + sss, -css - scc],
      ![ccs - ssc, ssc - css, -sss + ccc],
      ![ccc - sss, -scs + csc, -ssc + ccs],
      ![-scc - css, -ccs - ssc, -csc - scs]]
  fun i =>
    let G_euler_cov : Fin 3 → F := fun c =>
      G i 0 * euler_cov 0 c + G i 1 * euler_cov 1 c + G i 2 * euler_cov 2 c
    G_euler_cov 0 * G i 0 + G_euler_cov 1 * G i 1 + G_euler_cov 2 * G i 2

/-! ### Messages and sensors

The message types (`geometry_msgs`, `graft/GraftState`, `graft/GraftSensorResidual`)
and the class `GraftSensor` are declared outside the two source files; the records
below carry the fields that the source files read and write. -/

/-- The message geometry_msgs/Vector3 (also used for geometry_msgs/Point). -/
structure Vector3 (K : Type) where
  x : K
  y : K
  z : K

/-- The message geometry_msgs/Quaternion. -/
structure Quaternion (K : Type) where
  x : K
  y : K
  z : K
  w : K

/-- The message geometry_msgs/Pose. -/
structure Pose (K : Type) where
  position : Vector3 K
  orientation : Quaternion K

/-- The message geometry_msgs/Twist. -/
structure Twist (K : Type) where
  linear : Vector3 K
  angular : Vector3 K

/-- Modelled from the spec: the snapshot message graft/GraftState, "position,
orientation quaternion, linear velocity, angular velocity, flattened N×N covariance";
the covariance array is the list of the entries written so far. -/
structure GraftState (K : Type) where
  pose : Pose K
  twist : Twist K
  covariance : List K

/-- Modelled from the spec: the sample message graft/GraftSensorResidual; the
covariance arrays have the 36, 36 and 9 entries that the indices used by
getMeasurements address. -/
structure GraftSensorResidual (K : Type) where
  pose : Pose K
  twist : Twist K
  accel : Vector3 K
  pose_covariance : Fin 36 → K
  twist_covariance : Fin 36 → K
  accel_covariance : Fin 9 → K

/-- Modelled from the spec: the sensor collaborator `GraftSensor`: its name, its
pending sample `z()` (absent when there is no fresh data) and its predicted
measurement `h` of a hypothesised state. -/
structure GraftSensor (K : Type) where
  getName : String
  z : Option (GraftSensorResidual K)
  h : GraftState K → GraftSensorResidual K

/-- Modelled from the spec: `GraftSensor::clearMessage`, "clears the pending sample". -/
def GraftSensor.clearMessage {K : Type} (s : GraftSensor K) : GraftSensor K :=
  { s with z := none }

section Engine

variable {K : Type} [LinearOrderedField K]

/-- A freshly constructed `graft::GraftState`: every number is 0. -/
def GraftState.new : GraftState K :=
  { pose := { position := ⟨0, 0, 0⟩, orientation := ⟨0, 0, 0, 0⟩ },
    twist := { linear := ⟨0, 0, 0⟩, angular := ⟨0, 0, 0⟩ },
    covariance := [] }

/-- Eigen's one-index coefficient access `m(i)` on a square matrix in the default
column-major storage order: entry `i` is row `i % n`, column `i / n`.  An index
outside the storage reads 0 here. -/
def coeff {n : Nat} (m : Matrix (Fin n) (Fin n) K) (i : Nat) : K :=
  if h : i < n * n then
    m ⟨i % n, Nat.mod_lt i (Nat.pos_of_ne_zero (fun h0 => by subst h0; simp at h))⟩
      ⟨i / n, Nat.div_lt_of_lt_mul h⟩
  else 0

/-- Eigen's one-index coefficient write `m(i) = v` on a square matrix in the default
column-major storage order: the entry in row `r`, column `c` is entry `c * n + r`. -/
def setCoeff {n : Nat} (m : Matrix (Fin n) (Fin n) K) (i : Nat) (v : K) :
    Matrix (Fin n) (Fin n) K :=
  fun r c => if (c : Nat) * n + (r : Nat) = i then v else m r c

/-- Source `addElementToVector` (both files). -/
def addElementToVector (vec : List K) (element : K) : List K :=
  vec ++ [element]

/-- Source `addElementToColumnMatrix` (both files); a column matrix is the list of
its entries. -/
def addElementToColumnMatrix (mat : List K) (element : K) : List K :=
  mat ++ [element]

/-- The three outputs of `getMeasurements` while they are being built: the return
value `actual_measurement`, the vector `innovation_covariance_diagonal` whose
`asDiagonal()` is stored in `output_innovation_covariance`, and
`output_measurement_sigmas`, one column per sigma point. -/
structure Measurements (K : Type) where
  actual_measurement : List K
  innovation_covariance_diagonal : List K
  output_measurement_sigmas : List (List K)

/-- The block repeated for every scalar channel in `getMeasurements`: append the
measured value, its variance, and to column `j` the value predicted for sigma
point `j`. -/
def Measurements.addChannel (acc : Measurements K) (value variance : K)
    (residuals : List K) : Measurements K :=
  { actual_measurement := addElementToVector acc.actual_measurement value,
    innovation_covariance_diagonal :=
      addElementToVector acc.innovation_covariance_diagonal variance,
    output_measurement_sigmas :=
      List.zipWith addElementToColumnMatrix acc.output_measurement_sigmas residuals }

/-- A dynamically sized vector read as a vector with `m` rows. -/
def toVec (m : Nat) (v : List K) : Fin m → K :=
  fun i => v.getD i 0

/-- Dereferencing every pointer of `topics_`; a null pointer has no referent. -/
def derefTopics : List (Option (GraftSensor K)) → Option (List (GraftSensor K))
  | [] => some []
  | none :: _ => none
  | some topic :: rest => (derefTopics rest).map (fun topics => topic :: topics)

/-- The first test of `predictAndUpdate` (both files),
`topics_.size() == 0 || topics_[0] == NULL`. -/
def noFirstTopic (topics : List (Option (GraftSensor K))) : Bool :=
  match topics with
  | [] => true
  | none :: _ => true
  | some _ :: _ => false

/-- Source `clearMessages` (both files). -/
def clearMessages {F : Type} (topics : List (GraftSensor F)) : List (GraftSensor F) :=
  topics.map GraftSensor.clearMessage

/-- The covariance scan of `predictAndUpdate`: true when some entry is not finite. -/
def hasNonFinite {F : Type} (env : Platform F) {n : Nat} (m : Matrix (Fin n) (Fin n) F) :
    Bool :=
  (List.finRange n).any (fun i => (List.finRange n).any (fun j => !env.isfinite (m i j)))

end Engine

/-! ### The full-state filter, `GraftUKFAbsolute.cpp` -/

/-- The members of the class `GraftUKFAbsolute` that its methods read or write. -/
structure GraftUKFAbsolute (K : Type) where
  graft_state_ : Fin 13 → K
  graft_covariance_ : Matrix (Fin 13) (Fin 13) K
  Q_ : Matrix (Fin 13) (Fin 13) K
  alpha_ : K
  beta_ : K
  kappa_ : K
  topics_ : List (Option (GraftSensor K))
  last_update_time_ : K
  diverged_ : Bool

namespace GraftUKFAbsolute

variable {K : Type} [LinearOrderedField K]

/-- Modelled from the spec: the constant `SIZE` of the class declaration, the state
dimension, "a full 13-dimensional state". -/
abbrev SIZE : Nat := 13

/-- Source `GraftUKFAbsolute::expected_interval_`. -/
def expected_interval_ : K := 0.1

/-- Source constructor `GraftUKFAbsolute::GraftUKFAbsolute`.  It does not write
`alpha_`, `beta_` and `kappa_`, whose values are arguments here; the timestamp and
the topic list are default-constructed. -/
def new (alpha beta kappa : K) : GraftUKFAbsolute K :=
  { graft_state_ := fun i => if i = 3 then 1 else 0,
    graft_covariance_ := 1,
    Q_ := 0,
    alpha_ := alpha,
    beta_ := beta,
    kappa_ := kappa,
    topics_ := [],
    last_update_time_ := 0,
    diverged_ := false }

/-- Source `GraftUKFAbsolute::f`. -/
def f (env : Platform K) (x : Fin 13 → K) (dt : K) : Fin 13 → K :=
  let rotated_linear_velocity :=
    transformVelocitites env ![x 7, x 8, x 9] ![x 3, x 4, x 5, x 6]
  let new_q := updatedQuaternion env ![x 3, x 4, x 5, x 6] (x 10) (x 11) (x 12) dt
  ![x 0 + rotated_linear_velocity 0 * dt,
    x 1 + rotated_linear_velocity 1 * dt,
    x 2 + rotated_linear_velocity 2 * dt,
    new_q 0, new_q 1, new_q 2, new_q 3,
    x 7, x 8, x 9, x 10, x 11, x 12]

/-- Source `stateMsgFromMatrix` (full-state file). -/
def stateMsgFromMatrix (env : Platform K) (state : Fin 13 → K) : GraftState K :=
  let q := unitQuaternion env ![state 3, state 4, state 5, state 6]
  { pose := { position := ⟨state 0, state 1, state 2⟩,
              orientation := { w := q 0, x := q 1, y := q 2, z := q 3 } },
    twist := { linear := ⟨state 7, state 8, state 9⟩,
               angular := ⟨state 10, state 11, state 12⟩ },
    covariance := [] }

/-- Source `GraftUKFAbsolute::predict_sigma_points`. -/
def predict_sigma_points (env : Platform K) (sigma_points : List (Fin 13 → K)) (dt : K) :
    List (Fin 13 → K) :=
  sigma_points.map (fun p => f env p dt)

/-- Source `GraftUKFAbsolute::getMessageFromState(state, covariance)`. -/
def getMessageFromState (state : Fin 13 → K) (covariance : Matrix (Fin 13) (Fin 13) K) :
    GraftState K :=
  { pose := { position := ⟨state 0, state 1, state 2⟩,
              orientation := { w := state 3, x := state 4, y := state 5, z := state 6 } },
    twist := { linear := ⟨state 7, state 8, state 9⟩,
               angular := ⟨state 10, state 11, state 12⟩ },
    covariance := (List.range (SIZE * SIZE)).map (fun i => coeff covariance i) }

/-- The body of the loop `for each topic` of `getMeasurements` (full-state file). -/
def getMeasurementsTopic (env : Platform K) (predicted_sigma_msgs : List (GraftState K))
    (acc : Measurements K) (topic : GraftSensor K) : Measurements K :=
  let residuals_msgs := predicted_sigma_msgs.map topic.h
  match topic.z with
  | none => acc
  | some meas =>
    -- Position X, Y, Z
    let acc := if meas.pose_covariance 0 > 1e-20 then
        acc.addChannel meas.pose.position.x (meas.pose_covariance 0)
          (residuals_msgs.map (fun r => r.pose.position.x))
      else acc
    let acc := if meas.pose_covariance 7 > 1e-20 then
        acc.addChannel meas.pose.position.y (meas.pose_covariance 7)
          (residuals_msgs.map (fun r => r.pose.position.y))
      else acc
    let acc := if meas.pose_covariance 14 > 1e-20 then
        acc.addChannel meas.pose.position.z (meas.pose_covariance 14)
          (residuals_msgs.map (fun r => r.pose.position.z))
      else acc
    -- Orientation X, Y, Z and W
    let acc := if meas.pose_covariance 21 > 1e-20 ∨ meas.pose_covariance 28 > 1e-20
        ∨ meas.pose_covariance 35 > 1e-20 then
        let quaternion_cov := quaternionCovFromEuler env (meas.pose_covariance 21)
          (meas.pose_covariance 28) (meas.pose_covariance 35) meas.pose.orientation.x
          meas.pose.orientation.y meas.pose.orientation.z meas.pose.orientation.w
        if !env.isfinite (quaternion_cov 0) || !env.isfinite (quaternion_cov 1) ||
            !env.isfinite (quaternion_cov 2) || !env.isfinite (quaternion_cov 3) then
          acc
        else
          (((acc.addChannel meas.pose.orientation.x (quaternion_cov 0)
                (residuals_msgs.map (fun r => r.pose.orientation.x))).addChannel
              meas.pose.orientation.y (quaternion_cov 1)
                (residuals_msgs.map (fun r => r.pose.orientation.y))).addChannel
            meas.pose.orientation.z (quaternion_cov 2)
              (residuals_msgs.map (fun r => r.pose.orientation.z))).addChannel
          meas.pose.orientation.w (quaternion_cov 3)
            (residuals_msgs.map (fun r => r.pose.orientation.w))
      else acc
    -- Linear Velocity X, Y, Z
    let acc := if meas.twist_covariance 0 > 1e-20 then
        acc.addChannel meas.twist.linear.x (meas.twist_covariance 0)
          (residuals_msgs.map (fun r => r.twist.linear.x))
      else acc
    let acc := if meas.twist_covariance 7 > 1e-20 then
        acc.addChannel meas.twist.linear.y (meas.twist_covariance 7)
          (residuals_msgs.map (fun r => r.twist.linear.y))
      else acc
    let acc := if meas.twist_covariance 14 > 1e-20 then
        acc.addChannel meas.twist.linear.z (meas.twist_covariance 14)
          (residuals_msgs.map (fun r => r.twist.linear.z))
      else acc
    -- Angular Velocity X, Y, Z
    let acc := if meas.twist_covariance 21 > 1e-20 then
        acc.addChannel meas.twist.angular.x (meas.twist_covariance 21)
          (residuals_msgs.map (fun r => r.twist.angular.x))
      else acc
    let acc := if meas.twist_covariance 28 > 1e-20 then
        acc.addChannel meas.twist.angular.y (meas.twist_covariance 28)
          (residuals_msgs.map (fun r => r.twist.angular.y))
      else acc
    let acc := if meas.twist_covariance 35 > 1e-20 then
        acc.addChannel meas.twist.angular.z (meas.twist_covariance 35)
          (residuals_msgs.map (fun r => r.twist.angular.z))
      else acc
    acc

/-- Source `getMeasurements` (full-state file), on the sensors the pointers of
`topics` refer to. -/
def getMeasurements (env : Platform K) (topics : List (GraftSensor K))
    (predicted_sigma_points : List (Fin 13 → K)) : Measurements K :=
  let predicted_sigma_msgs := predicted_sigma_points.map (stateMsgFromMatrix env)
  let start : Measurements K :=
    { actual_measurement := [],
      innovation_covariance_diagonal := [],
      output_measurement_sigmas := predicted_sigma_points.map (fun _ => []) }
  topics.foldl (getMeasurementsTopic env predicted_sigma_msgs) start

/-- Lines 495 to 546 of `GraftUKFAbsolute::predictAndUpdate`: prediction, update,
divergence scan and clearing of the samples, for the `dt` computed by the lines
before.  The result is the returned value and the filter afterwards, or nothing
when a null pointer of `topics_` is dereferenced. -/
def predictAndUpdateBody (env : Platform K) (est : GraftUKFAbsolute K) (dt : K) :
    Option (K × GraftUKFAbsolute K) :=
  match derefTopics est.topics_ with
  | none => none
  | some topics =>
    -- Prediction
    let lambda := est.alpha_ * est.alpha_ * ((SIZE : K) + est.kappa_) - (SIZE : K)
    let previous_sigma_points :=
      generateSigmaPoints env est.graft_state_ est.graft_covariance_ lambda
    let predicted_sigma_points := predict_sigma_points env previous_sigma_points dt
    let predicted_mean := meanFromSigmaPoints predicted_sigma_points SIZE lambda
    let predicted_covariance := covarianceFromSigmaPoints predicted_sigma_points
      predicted_mean est.Q_ SIZE est.alpha_ est.beta_ lambda
    -- Update
    let observation_sigma_points :=
      generateSigmaPoints env predicted_mean predicted_covariance lambda
    let meas := getMeasurements env topics observation_sigma_points
    let z := meas.actual_measurement
    if z.length = 0 then some (0, est)
    else
      let predicted_observation_sigma_points :=
        meas.output_measurement_sigmas.map (toVec z.length)
      let measurement_noise : Matrix (Fin z.length) (Fin z.length) K :=
        Matrix.diagonal (toVec z.length meas.innovation_covariance_diagonal)
      let predicted_measurement :=
        meanFromSigmaPoints predicted_observation_sigma_points SIZE lambda
      let predicted_measurement_uncertainty :=
        covarianceFromSigmaPoints predicted_observation_sigma_points predicted_measurement
          measurement_noise SIZE est.alpha_ est.beta_ lambda
      let cross_covariance := crossCovariance observation_sigma_points predicted_mean
        predicted_observation_sigma_points predicted_measurement est.alpha_ est.beta_ lambda
      let K_ := cross_covariance * env.luInverse predicted_measurement_uncertainty
      let graft_state := predicted_mean + K_.mulVec (toVec z.length z - predicted_measurement)
      let unit_q := unitQuaternion env
        ![graft_state 3, graft_state 4, graft_state 5, graft_state 6]
      let graft_state : Fin 13 → K := fun i =>
        if i = 3 then unit_q 0 else if i = 4 then unit_q 1 else if i = 5 then unit_q 2
        else if i = 6 then unit_q 3 else graft_state i
      let graft_covariance :=
        predicted_covariance - K_ * predicted_measurement_uncertainty * K_.transpose
      let diverged := est.diverged_ || hasNonFinite env graft_covariance
      some (dt, { est with
        graft_state_ := graft_state,
        graft_covariance_ := graft_covariance,
        diverged_ := diverged,
        topics_ := (clearMessages topics).map some })

/-- Source `GraftUKFAbsolute::predictAndUpdate`; `t` is the value of
`ros::Time::now()`. -/
def predictAndUpdate (env : Platform K) (est : GraftUKFAbsolute K) (t : K) :
    Option (K × GraftUKFAbsolute K) :=
  if noFirstTopic est.topics_ then some (0, est)
  else if est.diverged_ then some (0, est)
  else
    let dt := t - est.last_update_time_
    if est.last_update_time_ < 0.0001 then
      some (0, { est with last_update_time_ := t })
    else
      let dt := if dt > expected_interval_ * 2 then expected_interval_ * 2.0 else dt
      predictAndUpdateBody env { est with last_update_time_ := t } dt

/-- Source `GraftUKFAbsolute::setTopics`. -/
def setTopics (est : GraftUKFAbsolute K) (topics : List (Option (GraftSensor K))) :
    GraftUKFAbsolute K :=
  { est with topics_ := topics }

/-- Source `GraftUKFAbsolute::setInitialCovariance`. -/
def setInitialCovariance (est : GraftUKFAbsolute K) (P : List K) : GraftUKFAbsolute K :=
  let graft_covariance : Matrix (Fin 13) (Fin 13) K := 0
  let diagonal_size := Nat.sqrt (SIZE * SIZE)
  if P.length = SIZE * SIZE then
    { est with
      graft_covariance_ := (List.range P.length).foldl
        (fun m i => setCoeff m i (P.getD i 0)) graft_covariance }
  else if P.length = diagonal_size then
    { est with
      graft_covariance_ := (List.range P.length).foldl
        (fun m i => setCoeff m (i * (diagonal_size + 1)) (P.getD i 0)) graft_covariance }
  else
    { est with graft_covariance_ := (0.1 : K) • (1 : Matrix (Fin 13) (Fin 13) K) }

/-- Source `GraftUKFAbsolute::setProcessNoise`. -/
def setProcessNoise (est : GraftUKFAbsolute K) (Q : List K) : GraftUKFAbsolute K :=
  let Q_ : Matrix (Fin 13) (Fin 13) K := 0
  let diagonal_size := Nat.sqrt (SIZE * SIZE)
  if Q.length = SIZE * SIZE then
    { est with Q_ := (List.range Q.length).foldl (fun m i => setCoeff m i (Q.getD i 0)) Q_ }
  else if Q.length = diagonal_size then
    { est with
      Q_ := (List.range Q.length).foldl
        (fun m i => setCoeff m (i * (diagonal_size + 1)) (Q.getD i 0)) Q_ }
  else
    { est with Q_ := (0.1 : K) • (1 : Matrix (Fin 13) (Fin 13) K) }

/-- Source `GraftUKFAbsolute::setAlpha`. -/
def setAlpha (est : GraftUKFAbsolute K) (alpha : K) : GraftUKFAbsolute K :=
  { est with alpha_ := alpha }

/-- Source `GraftUKFAbsolute::setKappa`. -/
def setKappa (est : GraftUKFAbsolute K) (kappa : K) : GraftUKFAbsolute K :=
  { est with kappa_ := kappa }

/-- Source `GraftUKFAbsolute::setBeta`. -/
def setBeta (est : GraftUKFAbsolute K) (beta : K) : GraftUKFAbsolute K :=
  { est with beta_ := beta }

end GraftUKFAbsolute

/-! ### The attitude-only filter, `GraftUKFAttitude.cpp` -/

/-- The members of the class `GraftUKFAttitude` that its methods read or write. -/
structure GraftUKFAttitude (K : Type) where
  graft_state_ : Fin 7 → K
  graft_covariance_ : Matrix (Fin 7) (Fin 7) K
  Q_ : Matrix (Fin 7) (Fin 7) K
  alpha_ : K
  beta_ : K
  kappa_ : K
  topics_ : List (Option (GraftSensor K))
  last_update_time_ : K
  diverged_ : Bool

namespace GraftUKFAttitude

variable {K : Type} [LinearOrderedField K]

/-- Modelled from the spec: the constant `SIZE` of the class declaration, the state
dimension, "a reduced 7-dimensional attitude-only state". -/
abbrev SIZE : Nat := 7

/-- Source constructor `GraftUKFAttitude::GraftUKFAttitude`.  It does not write
`alpha_`, `beta_` and `kappa_`, whose values are arguments here; the timestamp and
the topic list are default-constructed. -/
def new (alpha beta kappa : K) : GraftUKFAttitude K :=
  { graft_state_ := fun i => if i = 0 then 1 else 0,
    graft_covariance_ := 1,
    Q_ := 0,
    alpha_ := alpha,
    beta_ := beta,
    kappa_ := kappa,
    topics_ := [],
    last_update_time_ := 0,
    diverged_ := false }

/-- Source `GraftUKFAttitude::f`. -/
def f (env : Platform K) (x : Fin 7 → K) (dt : K) : Fin 7 → K :=
  let new_q := updatedQuaternion env ![x 0, x 1, x 2, x 3] (x 4) (x 5) (x 6) dt
  ![new_q 0, new_q 1, new_q 2, new_q 3, x 4, x 5, x 6]

/-- Source `stateMsgFromMatrix` (attitude file). -/
def stateMsgFromMatrix (state : Fin 7 → K) : GraftState K :=
  { GraftState.new with
    pose := { position := ⟨0, 0, 0⟩,
              orientation := { w := state 0, x := state 1, y := state 2, z := state 3 } },
    twist := { linear := ⟨0, 0, 0⟩, angular := ⟨state 4, state 5, state 6⟩ } }

/-- Source `GraftUKFAttitude::predict_sigma_points`. -/
def predict_sigma_points (env : Platform K) (sigma_points : List (Fin 7 → K)) (dt : K) :
    List (Fin 7 → K) :=
  sigma_points.map (fun p => f env p dt)

/-- Source `GraftUKFAttitude::getMessageFromState(state, covariance)`; position and
linear velocity keep the zeros of the fresh message. -/
def getMessageFromState (state : Fin 7 → K) (covariance : Matrix (Fin 7) (Fin 7) K) :
    GraftState K :=
  { pose := { position := ⟨0, 0, 0⟩,
              orientation := { w := state 0, x := state 1, y := state 2, z := state 3 } },
    twist := { linear := ⟨0, 0, 0⟩, angular := ⟨state 4, state 5, state 6⟩ },
    covariance := (List.range (SIZE * SIZE)).map (fun i => coeff covariance i) }

/-- Source `normalized_acceleration`. -/
def normalized_acceleration {F : Type} [Add F] [Mul F] [Div F] (env : Platform F)
    (accel : Vector3 F) : Vector3 F :=
  let mag := env.sqrt (accel.x * accel.x + accel.y * accel.y + accel.z * accel.z)
  { x := accel.x / mag, y := accel.y / mag, z := accel.z / mag }

/-- The body of the loop `for each topic` of `getMeasurements` (attitude file). -/
def getMeasurementsTopic (env : Platform K) (predicted_sigma_msgs : List (GraftState K))
    (acc : Measurements K) (topic : GraftSensor K) : Measurements K :=
  let residuals_msgs := predicted_sigma_msgs.map topic.h
  match topic.z with
  | none => acc
  | some meas =>
    -- Angular Velocity X, Y, Z
    let acc := if meas.twist_covariance 21 > 1e-20 then
        acc.addChannel meas.twist.angular.x (meas.twist_covariance 21)
          (residuals_msgs.map (fun r => r.twist.angular.x))
      else acc
    let acc := if meas.twist_covariance 28 > 1e-20 then
        acc.addChannel meas.twist.angular.y (meas.twist_covariance 28)
          (residuals_msgs.map (fun r => r.twist.angular.y))
      else acc
    let acc := if meas.twist_covariance 35 > 1e-20 then
        acc.addChannel meas.twist.angular.z (meas.twist_covariance 35)
          (residuals_msgs.map (fun r => r.twist.angular.z))
      else acc
    -- Linear Acceleration
    let acc := if meas.accel_covariance 0 > 1e-20 ∧ meas.accel_covariance 4 > 1e-20
        ∧ meas.accel_covariance 8 > 1e-20 then
        let accel_meas_norm := normalized_acceleration env meas.accel
        ((acc.addChannel accel_meas_norm.x (meas.accel_covariance 0)
              (residuals_msgs.map (fun r => (normalized_acceleration env r.accel).x))).addChannel
            accel_meas_norm.y (meas.accel_covariance 4)
              (residuals_msgs.map (fun r => (normalized_acceleration env r.accel).y))).addChannel
          accel_meas_norm.z (meas.accel_covariance 8)
            (residuals_msgs.map (fun r => (normalized_acceleration env r.accel).z))
      else acc
    acc

/-- Source `getMeasurements` (attitude file), on the sensors the pointers of `topics`
refer to. -/
def getMeasurements (env : Platform K) (topics : List (GraftSensor K))
    (predicted_sigma_points : List (Fin 7 → K)) : Measurements K :=
  let predicted_sigma_msgs := predicted_sigma_points.map stateMsgFromMatrix
  let start : Measurements K :=
    { actual_measurement := [],
      innovation_covariance_diagonal := [],
      output_measurement_sigmas := predicted_sigma_points.map (fun _ => []) }
  topics.foldl (getMeasurementsTopic env predicted_sigma_msgs) start

/-- Lines 345 to 395 of `GraftUKFAttitude::predictAndUpdate`: prediction, update,
divergence scan and clearing of the samples, for the `dt` computed by the lines
before.  The result is the returned value and the filter afterwards, or nothing
when a null pointer of `topics_` is dereferenced. -/
def predictAndUpdateBody (env : Platform K) (est : GraftUKFAttitude K) (dt : K) :
    Option (K × GraftUKFAttitude K) :=
  match derefTopics est.topics_ with
  | none => none
  | some topics =>
    -- Prediction
    let lambda := est.alpha_ * est.alpha_ * ((SIZE : K) + est.kappa_) - (SIZE : K)
    let previous_sigma_points :=
      generateSigmaPoints env est.graft_state_ est.graft_covariance_ lambda
    let predicted_sigma_points := predict_sigma_points env previous_sigma_points dt
    let predicted_mean := meanFromSigmaPoints predicted_sigma_points SIZE lambda
    let predicted_covariance := covarianceFromSigmaPoints predicted_sigma_points
      predicted_mean est.Q_ SIZE est.alpha_ est.beta_ lambda
    -- Update
    let observation_sigma_points :=
      generateSigmaPoints env predicted_mean predicted_covariance lambda
    let meas := getMeasurements env topics observation_sigma_points
    let z := meas.actual_measurement
    if z.length = 0 then some (0, est)
    else
      let predicted_observation_sigma_points :=
        meas.output_measurement_sigmas.map (toVec z.length)
      let measurement_noise : Matrix (Fin z.length) (Fin z.length) K :=
        Matrix.diagonal (toVec z.length meas.innovation_covariance_diagonal)
      let predicted_measurement :=
        meanFromSigmaPoints predicted_observation_sigma_points SIZE lambda
      let predicted_measurement_uncertainty :=
        covarianceFromSigmaPoints predicted_observation_sigma_points predicted_measurement
          measurement_noise SIZE est.alpha_ est.beta_ lambda
      let cross_covariance := crossCovariance observation_sigma_points predicted_mean
        predicted_observation_sigma_points predicted_measurement est.alpha_ est.beta_ lambda
      let K_ := cross_covariance * env.luInverse predicted_measurement_uncertainty
      let graft_state := predicted_mean + K_.mulVec (toVec z.length z - predicted_measurement)
      let unit_q := unitQuaternion env
        ![graft_state 0, graft_state 1, graft_state 2, graft_state 3]
      let graft_state : Fin 7 → K := fun i =>
        if i = 0 then unit_q 0 else if i = 1 then unit_q 1 else if i = 2 then unit_q 2
        else if i = 3 then unit_q 3 else graft_state i
      let graft_covariance :=
        predicted_covariance - K_ * predicted_measurement_uncertainty * K_.transpose
      let diverged := est.diverged_ || hasNonFinite env graft_covariance
      some (dt, { est with
        graft_state_ := graft_state,
        graft_covariance_ := graft_covariance,
        diverged_ := diverged,
        topics_ := (clearMessages topics).map some })

/-- Source `GraftUKFAttitude::predictAndUpdate`; `t` is the value of
`ros::Time::now()`. -/
def predictAndUpdate (env : Platform K) (est : GraftUKFAttitude K) (t : K) :
    Option (K × GraftUKFAttitude K) :=
  if noFirstTopic est.topics_ then some (0, est)
  else if est.diverged_ then some (0, est)
  else
    let dt := t - est.last_update_time_
    if est.last_update_time_ < 0.0001 then
      some (0, { est with last_update_time_ := t })
    else
      predictAndUpdateBody env { est with last_update_time_ := t } dt

/-- Source `GraftUKFAttitude::setTopics`. -/
def setTopics (est : GraftUKFAttitude K) (topics : List (Option (GraftSensor K))) :
    GraftUKFAttitude K :=
  { est with topics_ := topics }

/-- Source `GraftUKFAttitude::setInitialCovariance`. -/
def setInitialCovariance (est : GraftUKFAttitude K) (P : List K) : GraftUKFAttitude K :=
  let graft_covariance : Matrix (Fin 7) (Fin 7) K := 0
  let diagonal_size := Nat.sqrt (SIZE * SIZE)
  if P.length = SIZE * SIZE then
    { est with
      graft_covariance_ := (List.range P.length).foldl
        (fun m i => setCoeff m i (P.getD i 0)) graft_covariance }
  else if P.length = diagonal_size then
    { est with
      graft_covariance_ := (List.range P.length).foldl
        (fun m i => setCoeff m (i * (diagonal_size + 1)) (P.getD i 0)) graft_covariance }
  else
    { est with graft_covariance_ := (1 : Matrix (Fin 7) (Fin 7) K) }

/-- Source `GraftUKFAttitude::setProcessNoise`. -/
def setProcessNoise (est : GraftUKFAttitude K) (Q : List K) : GraftUKFAttitude K :=
  let Q_ : Matrix (Fin 7) (Fin 7) K := 0
  let diagonal_size := Nat.sqrt (SIZE * SIZE)
  if Q.length = SIZE * SIZE then
    { est with Q_ := (List.range Q.length).foldl (fun m i => setCoeff m i (Q.getD i 0)) Q_ }
  else if Q.length = diagonal_size then
    { est with
      Q_ := (List.range Q.length).foldl
        (fun m i => setCoeff m (i * (diagonal_size + 1)) (Q.getD i 0)) Q_ }
  else
    { est with Q_ := (0.1 : K) • (1 : Matrix (Fin 7) (Fin 7) K) }

/-- Source `GraftUKFAttitude::setAlpha`. -/
def setAlpha (est : GraftUKFAttitude K) (alpha : K) : GraftUKFAttitude K :=
  { est with alpha_ := alpha }

/-- Source `GraftUKFAttitude::setKappa`. -/
def setKappa (est : GraftUKFAttitude K) (kappa : K) : GraftUKFAttitude K :=
  { est with kappa_ := kappa }

/-- Source `GraftUKFAttitude::setBeta`. -/
def setBeta (est : GraftUKFAttitude K) (beta : K) : GraftUKFAttitude K :=
  { est with beta_ := beta }

end GraftUKFAttitude

/-! ### Sequences of calls -/

/-- One call of a public method that can change a filter, with its arguments;
`setTopics` also stands for whatever the delivery of samples did to the sensors
since the previous call. -/
inductive Call (K : Type) where
  | predictAndUpdate (t : K)
  | setTopics (topics : List (Option (GraftSensor K)))
  | setInitialCovariance (P : List K)
  | setProcessNoise (Q : List K)
  | setAlpha (alpha : K)
  | setKappa (kappa : K)
  | setBeta (beta : K)

section Calls

variable {K : Type} [LinearOrderedField K]

/-- The full-state filter after one call; nothing when the call dereferences a null
pointer. -/
def GraftUKFAbsolute.call (env : Platform K) (est : GraftUKFAbsolute K) :
    Call K → Option (GraftUKFAbsolute K)
  | .predictAndUpdate t => (est.predictAndUpdate env t).map Prod.snd
  | .setTopics topics => some (est.setTopics topics)
  | .setInitialCovariance P => some (est.setInitialCovariance P)
  | .setProcessNoise Q => some (est.setProcessNoise Q)
  | .setAlpha alpha => some (est.setAlpha alpha)
  | .setKappa kappa => some (est.setKappa kappa)
  | .setBeta beta => some (est.setBeta beta)

/-- The full-state filter after a sequence of calls. -/
def GraftUKFAbsolute.run (env : Platform K) :
    GraftUKFAbsolute K → List (Call K) → Option (GraftUKFAbsolute K)
  | est, [] => some est
  | est, c :: cs =>
    match est.call env c with
    | none => none
    | some est' => GraftUKFAbsolute.run env est' cs

/-- The attitude-only filter after one call; nothing when the call dereferences a
null pointer. -/
def GraftUKFAttitude.call (env : Platform K) (est : GraftUKFAttitude K) :
    Call K → Option (GraftUKFAttitude K)
  | .predictAndUpdate t => (est.predictAndUpdate env t).map Prod.snd
  | .setTopics topics => some (est.setTopics topics)
  | .setInitialCovariance P => some (est.setInitialCovariance P)
  | .setProcessNoise Q => some (est.setProcessNoise Q)
  | .setAlpha alpha => some (est.setAlpha alpha)
  | .setKappa kappa => some (est.setKappa kappa)
  | .setBeta beta => some (est.setBeta beta)

/-- The attitude-only filter after a sequence of calls. -/
def GraftUKFAttitude.run (env : Platform K) :
    GraftUKFAttitude K → List (Call K) → Option (GraftUKFAttitude K)
  | est, [] => some est
  | est, c :: cs =>
    match est.call env c with
    | none => none
    | some est' => GraftUKFAttitude.run env est' cs

end Calls

/-! ### Predicates and a concrete platform used in the statements -/

section Statements

variable {K : Type} [LinearOrderedField K]

/-- Every variance that the full-state `getMeasurements` compares with the activity
threshold is at most 1e-20 in the sample. -/
def GraftUKFAbsolute.Inactive (meas : GraftSensorResidual K) : Prop :=
  meas.pose_covariance 0 ≤ 1e-20 ∧ meas.pose_covariance 7 ≤ 1e-20 ∧
  meas.pose_covariance 14 ≤ 1e-20 ∧ meas.pose_covariance 21 ≤ 1e-20 ∧
  meas.pose_covariance 28 ≤ 1e-20 ∧ meas.pose_covariance 35 ≤ 1e-20 ∧
  meas.twist_covariance 0 ≤ 1e-20 ∧ meas.twist_covariance 7 ≤ 1e-20 ∧
  meas.twist_covariance 14 ≤ 1e-20 ∧ meas.twist_covariance 21 ≤ 1e-20 ∧
  meas.twist_covariance 28 ≤ 1e-20 ∧ meas.twist_covariance 35 ≤ 1e-20

/-- Every variance that the attitude `getMeasurements` compares with the activity
threshold is at most 1e-20 in the sample. -/
def GraftUKFAttitude.Inactive (meas : GraftSensorResidual K) : Prop :=
  meas.twist_covariance 21 ≤ 1e-20 ∧ meas.twist_covariance 28 ≤ 1e-20 ∧
  meas.twist_covariance 35 ≤ 1e-20 ∧ meas.accel_covariance 0 ≤ 1e-20 ∧
  meas.accel_covariance 4 ≤ 1e-20 ∧ meas.accel_covariance 8 ≤ 1e-20

/-- A sample whose pose and twist are zero, with the given diagonal variances. -/
def sampleWith (variance : K) : GraftSensorResidual K :=
  { pose := { position := ⟨0, 0, 0⟩, orientation := ⟨0, 0, 0, 1⟩ },
    twist := { linear := ⟨0, 0, 0⟩, angular := ⟨0, 0, 0⟩ },
    accel := ⟨0, 0, 1⟩,
    pose_covariance := fun _ => variance,
    twist_covariance := fun _ => variance,
    accel_covariance := fun _ => variance }

/-- A sensor with a pending sample of the given variances, predicting the zero
sample for every state. -/
def sensorWith (variance : K) : GraftSensor K :=
  { getName := "sensor",
    z := some (sampleWith variance),
    h := fun _ => sampleWith 0 }

end Statements

/-- The square root of a rational number, exact on squares of rationals. -/
def ratSqrt (q : ℚ) : ℚ :=
  (Nat.sqrt q.num.toNat : ℚ) / (Nat.sqrt q.den : ℚ)

/-- A platform over the rationals on which every definition can be run: square
roots exact on squares, Cholesky factor and inverse exact on diagonal matrices,
trigonometric functions exact at 0, every number finite, zeros in the storage that
is never written. -/
def testPlatform : Platform ℚ :=
  { sqrt := ratSqrt,
    atan := fun x => x,
    asin := fun x => x,
    sin := fun x => x,
    cos := fun _ => 1,
    isfinite := fun _ => true,
    llt := fun m => Matrix.diagonal (fun i => ratSqrt (m i i)),
    luInverse := fun m => Matrix.diagonal (fun i => (m i i)⁻¹),
    uninitialized := fun _ _ => 0 }

/-- A full-state filter over the rationals with alpha = 1, beta = 2, kappa = 0, one
sensor whose pending sample has the given variances, and the given timestamp. -/
def absoluteFilter (variance last : ℚ) : GraftUKFAbsolute ℚ :=
  { GraftUKFAbsolute.new 1 2 0 with
    topics_ := [some (sensorWith variance)],
    last_update_time_ := last }

/-- An attitude-only filter over the rationals with alpha = 1, beta = 2, kappa = 0, one
sensor whose pending sample has the given variances, and the given timestamp. -/
def attitudeFilter (variance last : ℚ) : GraftUKFAttitude ℚ :=
  { GraftUKFAttitude.new 1 2 0 with
    topics_ := [some (sensorWith variance)],
    last_update_time_ := last }

/-- Reading a flattened covariance array back into an `n × n` matrix in the element
order in which `getMessageFromState` wrote it: entry `c * n + r` is row `r`, column
`c`. -/
def matrixFromArray {K : Type} [Zero K] (n : Nat) (array : List K) :
    Matrix (Fin n) (Fin n) K :=
  fun r c => array.getD ((c : Nat) * n + (r : Nat)) 0

/-! ### Numbers that are not finite -/

/-- A `double` that may fail to be finite: `finite x` is the number `x`, `nan` is the
not-a-number of IEEE 754, which every arithmetic operation propagates.  The result
of a division by zero is not finite either and is identified with `nan`. -/
inductive Ieee (K : Type) where
  | finite (x : K)
  | nan

namespace Ieee

variable {K : Type} [LinearOrderedField K]

/-- Addition; not-a-number is absorbing. -/
def add : Ieee K → Ieee K → Ieee K
  | finite a, finite b => finite (a + b)
  | _, _ => nan

/-- Subtraction; not-a-number is absorbing. -/
def sub : Ieee K → Ieee K → Ieee K
  | finite a, finite b => finite (a - b)
  | _, _ => nan

/-- Multiplication; not-a-number is absorbing. -/
def mul : Ieee K → Ieee K → Ieee K
  | finite a, finite b => finite (a * b)
  | _, _ => nan

/-- Division; not-a-number is absorbing and a division by zero is not finite. -/
def div : Ieee K → Ieee K → Ieee K
  | finite a, finite b => if b = 0 then nan else finite (a / b)
  | _, _ => nan

/-- Negation. -/
def neg : Ieee K → Ieee K
  | finite a => finite (-a)
  | nan => nan

/-- The predicate std::isfinite. -/
def isfinite : Ieee K → Bool
  | finite _ => true
  | nan => false

instance : Add (Ieee K) := ⟨add⟩

instance : Sub (Ieee K) := ⟨sub⟩

instance : Mul (Ieee K) := ⟨mul⟩

instance : Div (Ieee K) := ⟨div⟩

instance : Neg (Ieee K) := ⟨neg⟩

instance : OfNat (Ieee K) 2 := ⟨finite 2⟩

end Ieee

/-- A platform whose numbers may fail to be finite, with the given trigonometric
functions, on which the storage that quaternionCovFromEuler never writes holds
not-a-number. -/
def nanPlatform (atan asin sin cos : Ieee ℚ → Ieee ℚ) : Platform (Ieee ℚ) :=
  { sqrt := fun x => x,
    atan := atan,
    asin := asin,
    sin := sin,
    cos := cos,
    isfinite := Ieee.isfinite,
    llt := fun m => m,
    luInverse := fun m => m,
    uninitialized := fun _ _ => Ieee.nan }

/-! ### The correction of a cycle -/

/-- The values that the prediction and update steps of `predictAndUpdate` have computed
when they reach the commit, in a cycle whose measurement vector has `m` entries,
`m` not 0: the local variables of the same names, `z` and `measurement_noise` read
at size `m`, and the state and covariance assigned by lines 514 and 517 (before the
quaternion is renormalised). -/
structure Correction (K : Type) (n : Nat) where
  m : Nat
  predicted_mean : Fin n → K
  predicted_covariance : Matrix (Fin n) (Fin n) K
  observation_sigma_points : List (Fin n → K)
  z : Fin m → K
  predicted_observation_sigma_points : List (Fin m → K)
  measurement_noise : Matrix (Fin m) (Fin m) K
  predicted_measurement : Fin m → K
  predicted_measurement_uncertainty : Matrix (Fin m) (Fin m) K
  cross_covariance : Matrix (Fin n) (Fin m) K
  K_ : Matrix (Fin n) (Fin m) K
  graft_state : Fin n → K
  graft_covariance : Matrix (Fin n) (Fin n) K

namespace GraftUKFAbsolute

variable {K : Type} [LinearOrderedField K]

/-- Lines 495 to 517 of `GraftUKFAbsolute::predictAndUpdate` without the
renormalisation of line 515: what the cycle computes on the sensors `topics` for
the given `dt`, or nothing when the measurement vector is empty. -/
def correction (env : Platform K) (est : GraftUKFAbsolute K) (topics : List (GraftSensor K))
    (dt : K) : Option (Correction K 13) :=
  let lambda := est.alpha_ * est.alpha_ * ((SIZE : K) + est.kappa_) - (SIZE : K)
  let previous_sigma_points :=
    generateSigmaPoints env est.graft_state_ est.graft_covariance_ lambda
  let predicted_sigma_points := predict_sigma_points env previous_sigma_points dt
  let predicted_mean := meanFromSigmaPoints predicted_sigma_points SIZE lambda
  let predicted_covariance := covarianceFromSigmaPoints predicted_sigma_points
    predicted_mean est.Q_ SIZE est.alpha_ est.beta_ lambda
  let observation_sigma_points :=
    generateSigmaPoints env predicted_mean predicted_covariance lambda
  let meas := getMeasurements env topics observation_sigma_points
  let z := meas.actual_measurement
  if z.length = 0 then none
  else
    let predicted_observation_sigma_points :=
      meas.output_measurement_sigmas.map (toVec z.length)
    let measurement_noise : Matrix (Fin z.length) (Fin z.length) K :=
      Matrix.diagonal (toVec z.length meas.innovation_covariance_diagonal)
    let predicted_measurement :=
      meanFromSigmaPoints predicted_observation_sigma_points SIZE lambda
    let predicted_measurement_uncertainty :=
      covarianceFromSigmaPoints predicted_observation_sigma_points predicted_measurement
        measurement_noise SIZE est.alpha_ est.beta_ lambda
    let cross_covariance := crossCovariance observation_sigma_points predicted_mean
      predicted_observation_sigma_points predicted_measurement est.alpha_ est.beta_ lambda
    let K_ := cross_covariance * env.luInverse predicted_measurement_uncertainty
    some
      { m := z.length,
        predicted_mean := predicted_mean,
        predicted_covariance := predicted_covariance,
        observation_sigma_points := observation_sigma_points,
        z := toVec z.length z,
        predicted_observation_sigma_points := predicted_observation_sigma_points,
        measurement_noise := measurement_noise,
        predicted_measurement := predicted_measurement,
        predicted_measurement_uncertainty := predicted_measurement_uncertainty,
        cross_covariance := cross_covariance,
        K_ := K_,
        graft_state := predicted_mean + K_.mulVec (toVec z.length z - predicted_measurement),
        graft_covariance :=
          predicted_covariance - K_ * predicted_measurement_uncertainty * K_.transpose }

/-- Line 515 of `GraftUKFAbsolute::predictAndUpdate`: the quaternion block, entries 3
to 6, is replaced by its `unitQuaternion`. -/
def renormalized {F : Type} [Add F] [Mul F] [Div F] (env : Platform F)
    (graft_state : Fin 13 → F) : Fin 13 → F :=
  let unit_q := unitQuaternion env
    ![graft_state 3, graft_state 4, graft_state 5, graft_state 6]
  fun i =>
    if i = 3 then unit_q 0 else if i = 4 then unit_q 1 else if i = 5 then unit_q 2
    else if i = 6 then unit_q 3 else graft_state i

/-- Lines 514 to 545 of `GraftUKFAbsolute::predictAndUpdate`: the filter after the
correction `c` has been committed and the samples of `topics` cleared. -/
def commit {F : Type} [Add F] [Mul F] [Div F] (env : Platform F) (est : GraftUKFAbsolute F)
    (c : Correction F 13) (topics : List (GraftSensor F)) : GraftUKFAbsolute F :=
  { est with
    graft_state_ := renormalized env c.graft_state,
    graft_covariance_ := c.graft_covariance,
    diverged_ := est.diverged_ || hasNonFinite env c.graft_covariance,
    topics_ := (clearMessages topics).map some }

/-- The correction that the call of `predictAndUpdate` at time `t` commits: nothing
when the call returns before the commit. -/
def committedCorrection (env : Platform K) (est : GraftUKFAbsolute K) (t : K) :
    Option (Correction K 13) :=
  if noFirstTopic est.topics_ then none
  else if est.diverged_ then none
  else
    let dt := t - est.last_update_time_
    if est.last_update_time_ < 0.0001 then none
    else
      let dt := if dt > expected_interval_ * 2 then expected_interval_ * 2.0 else dt
      match derefTopics est.topics_ with
      | none => none
      | some topics => correction env { est with last_update_time_ := t } topics dt

end GraftUKFAbsolute

namespace GraftUKFAttitude

variable {K : Type} [LinearOrderedField K]

/-- Lines 345 to 366 of `GraftUKFAttitude::predictAndUpdate` without the
renormalisation of line 365: what the cycle computes on the sensors `topics` for
the given `dt`, or nothing when the measurement vector is empty. -/
def correction (env : Platform K) (est : GraftUKFAttitude K) (topics : List (GraftSensor K))
    (dt : K) : Option (Correction K 7) :=
  let lambda := est.alpha_ * est.alpha_ * ((SIZE : K) + est.kappa_) - (SIZE : K)
  let previous_sigma_points :=
    generateSigmaPoints env est.graft_state_ est.graft_covariance_ lambda
  let predicted_sigma_points := predict_sigma_points env previous_sigma_points dt
  let predicted_mean := meanFromSigmaPoints predicted_sigma_points SIZE lambda
  let predicted_covariance := covarianceFromSigmaPoints predicted_sigma_points
    predicted_mean est.Q_ SIZE est.alpha_ est.beta_ lambda
  let observation_sigma_points :=
    generateSigmaPoints env predicted_mean predicted_covariance lambda
  let meas := getMeasurements env topics observation_sigma_points
  let z := meas.actual_measurement
  if z.length = 0 then none
  else
    let predicted_observation_sigma_points :=
      meas.output_measurement_sigmas.map (toVec z.length)
    let measurement_noise : Matrix (Fin z.length) (Fin z.length) K :=
      Matrix.diagonal (toVec z.length meas.innovation_covariance_diagonal)
    let predicted_measurement :=
      meanFromSigmaPoints predicted_observation_sigma_points SIZE lambda
    let predicted_measurement_uncertainty :=
      covarianceFromSigmaPoints predicted_observation_sigma_points predicted_measurement
        measurement_noise SIZE est.alpha_ est.beta_ lambda
    let cross_covariance := crossCovariance observation_sigma_points predicted_mean
      predicted_observation_sigma_points predicted_measurement est.alpha_ est.beta_ lambda
    let K_ := cross_covariance * env.luInverse predicted_measurement_uncertainty
    some
      { m := z.length,
        predicted_mean := predicted_mean,
        predicted_covariance := predicted_covariance,
        observation_sigma_points := observation_sigma_points,
        z := toVec z.length z,
        predicted_observation_sigma_points := predicted_observation_sigma_points,
        measurement_noise := measurement_noise,
        predicted_measurement := predicted_measurement,
        predicted_measurement_uncertainty := predicted_measurement_uncertainty,
        cross_covariance := cross_covariance,
        K_ := K_,
        graft_state := predicted_mean + K_.mulVec (toVec z.length z - predicted_measurement),
        graft_covariance :=
          predicted_covariance - K_ * predicted_measurement_uncertainty * K_.transpose }

/-- Line 365 of `GraftUKFAttitude::predictAndUpdate`: the quaternion block, entries 0
to 3, is replaced by its `unitQuaternion`. -/
def renormalized {F : Type} [Add F] [Mul F] [Div F] (env : Platform F)
    (graft_state : Fin 7 → F) : Fin 7 → F :=
  let unit_q := unitQuaternion env
    ![graft_state 0, graft_state 1, graft_state 2, graft_state 3]
  fun i =>
    if i = 0 then unit_q 0 else if i = 1 then unit_q 1 else if i = 2 then unit_q 2
    else if i = 3 then unit_q 3 else graft_state i

/-- Lines 364 to 394 of `GraftUKFAttitude::predictAndUpdate`: the filter after the
correction `c` has been committed and the samples of `topics` cleared. -/
def commit {F : Type} [Add F] [Mul F] [Div F] (env : Platform F) (est : GraftUKFAttitude F)
    (c : Correction F 7) (topics : List (GraftSensor F)) : GraftUKFAttitude F :=
  { est with
    graft_state_ := renormalized env c.graft_state,
    graft_covariance_ := c.graft_covariance,
    diverged_ := est.diverged_ || hasNonFinite env c.graft_covariance,
    topics_ := (clearMessages topics).map some }

/-- The correction that the call of `predictAndUpdate` at time `t` commits: nothing
when the call returns before the commit. -/
def committedCorrection (env : Platform K) (est : GraftUKFAttitude K) (t : K) :
    Option (Correction K 7) :=
  if noFirstTopic est.topics_ then none
  else if est.diverged_ then none
  else
    let dt := t - est.last_update_time_
    if est.last_update_time_ < 0.0001 then none
    else
      match derefTopics est.topics_ with
      | none => none
      | some topics => correction env { est with last_update_time_ := t } topics dt

end GraftUKFAttitude

section Invariants

variable {K : Type} [LinearOrderedField K]

/-- A platform with the given square root, every number finite, and the simplest
other routines: trigonometric functions and inverse the identity map, a Cholesky
routine that returns the zero matrix, zeros in the storage that is never written. -/
def platformWithSqrt (sqrt : K → K) : Platform K :=
  { sqrt := sqrt,
    atan := fun x => x,
    asin := fun x => x,
    sin := fun x => x,
    cos := fun x => x,
    isfinite := fun _ => true,
    llt := fun _ => 0,
    luInverse := fun m => m,
    uninitialized := fun _ _ => 0 }

end Invariants

/-! ### Rotations, for the statement about the position update -/

section Rotations

variable {K : Type} [LinearOrderedField K]

/-- The rotation matrix of a unit quaternion `q = (w, x, y, z)`, in the usual closed
form. -/
def rotationMatrix (q : Fin 4 → K) : Matrix (Fin 3) (Fin 3) K :=
  Matrix.of
    ![![1 - 2 * (q 2 * q 2 + q 3 * q 3), 2 * (q 1 * q 2 - q 0 * q 3),
        2 * (q 1 * q 3 + q 0 * q 2)],
      ![2 * (q 1 * q 2 + q 0 * q 3), 1 - 2 * (q 1 * q 1 + q 3 * q 3),
        2 * (q 2 * q 3 - q 0 * q 1)],
      ![2 * (q 1 * q 3 - q 0 * q 2), 2 * (q 2 * q 3 + q 0 * q 1),
        1 - 2 * (q 1 * q 1 + q 2 * q 2)]]

/-- The rotation that a quaternion `q = (w, x, y, z)` of unit length represents: the
vector `v`, read as a pure quaternion, is sent to `q v q*` (Hamilton product, `q*`
the conjugate). -/
def rotateByQuaternion (q : Fin 4 → K) (v : Fin 3 → K) : Fin 3 → K :=
  let a : QuaternionAlgebra K (-1) (-1) := ⟨q 0, q 1, q 2, q 3⟩
  let p : QuaternionAlgebra K (-1) (-1) := ⟨0, v 0, v 1, v 2⟩
  let r := a * p * star a
  ![r.imI, r.imJ, r.imK]

end Rotations

/-! ### Channels, for the statements about `getMeasurements` -/

section Channels

variable {K : Type} [LinearOrderedField K]

/-- The matrix `innovation_covariance_diagonal.asDiagonal()` that `getMeasurements`
stores in `output_innovation_covariance` (last statement before the return, both
files). -/
def Measurements.output_innovation_covariance (meas : Measurements K) :
    Matrix (Fin meas.innovation_covariance_diagonal.length)
      (Fin meas.innovation_covariance_diagonal.length) K :=
  Matrix.diagonal (fun i => meas.innovation_covariance_diagonal.get i)

/-- One scalar channel of a sensor: the sensor, its pending sample, the number read
from a sample of that sensor (the pending one, or the one predicted for a sigma
point), and the variance collected for the channel. -/
structure Channel (K : Type) where
  sensor : GraftSensor K
  sample : GraftSensorResidual K
  read : GraftSensorResidual K → K
  variance : K

/-- What `getMeasurements` appends for a channel: the measured value, the variance,
and for each sigma-point message the predicted value. -/
def Channel.entry (msgs : List (GraftState K)) (c : Channel K) : K × K × List K :=
  (c.read c.sample, c.variance, (msgs.map c.sensor.h).map c.read)

/-- The outputs after the given entries have been appended, one after the other, by
the block that `getMeasurements` repeats for every channel. -/
def Measurements.extend (acc : Measurements K) (entries : List (K × K × List K)) :
    Measurements K :=
  entries.foldl (fun a e => a.addChannel e.1 e.2.1 e.2.2) acc

/-- A channel whose inclusion depends on its own variance only: present when the
variance is greater than 1e-20. -/
def scalarChannel (topic : GraftSensor K) (meas : GraftSensorResidual K) (variance : K)
    (read : GraftSensorResidual K → K) : List (Channel K) :=
  if variance > 1e-20 then
    [{ sensor := topic, sample := meas, read := read, variance := variance }]
  else []

/-- The position channels X, Y, Z of a sample (full-state filter). -/
def GraftUKFAbsolute.positionChannels (topic : GraftSensor K) (meas : GraftSensorResidual K) :
    List (Channel K) :=
  scalarChannel topic meas (meas.pose_covariance 0) (fun r => r.pose.position.x) ++
  scalarChannel topic meas (meas.pose_covariance 7) (fun r => r.pose.position.y) ++
  scalarChannel topic meas (meas.pose_covariance 14) (fun r => r.pose.position.z)

/-- The four orientation channels X, Y, Z, W with the given variances. -/
def GraftUKFAbsolute.orientationBlock (topic : GraftSensor K) (meas : GraftSensorResidual K)
    (quaternion_cov : Fin 4 → K) : List (Channel K) :=
  [{ sensor := topic, sample := meas, read := fun r => r.pose.orientation.x,
     variance := quaternion_cov 0 },
   { sensor := topic, sample := meas, read := fun r => r.pose.orientation.y,
     variance := quaternion_cov 1 },
   { sensor := topic, sample := meas, read := fun r => r.pose.orientation.z,
     variance := quaternion_cov 2 },
   { sensor := topic, sample := meas, read := fun r => r.pose.orientation.w,
     variance := quaternion_cov 3 }]

/-- The orientation channels of a sample (full-state filter): the block of four when
one of the roll, pitch, yaw variances is greater than 1e-20 and the four converted
variances are finite, nothing otherwise. -/
def GraftUKFAbsolute.orientationChannels (env : Platform K) (topic : GraftSensor K)
    (meas : GraftSensorResidual K) : List (Channel K) :=
  let quaternion_cov := quaternionCovFromEuler env (meas.pose_covariance 21)
    (meas.pose_covariance 28) (meas.pose_covariance 35) meas.pose.orientation.x
    meas.pose.orientation.y meas.pose.orientation.z meas.pose.orientation.w
  if (meas.pose_covariance 21 > 1e-20 ∨ meas.pose_covariance 28 > 1e-20
        ∨ meas.pose_covariance 35 > 1e-20) ∧
      env.isfinite (quaternion_cov 0) = true ∧ env.isfinite (quaternion_cov 1) = true ∧
      env.isfinite (quaternion_cov 2) = true ∧ env.isfinite (quaternion_cov 3) = true then
    GraftUKFAbsolute.orientationBlock topic meas quaternion_cov
  else []

/-- The linear and angular velocity channels X, Y, Z of a sample (full-state filter). -/
def GraftUKFAbsolute.velocityChannels (topic : GraftSensor K) (meas : GraftSensorResidual K) :
    List (Channel K) :=
  scalarChannel topic meas (meas.twist_covariance 0) (fun r => r.twist.linear.x) ++
  scalarChannel topic meas (meas.twist_covariance 7) (fun r => r.twist.linear.y) ++
  scalarChannel topic meas (meas.twist_covariance 14) (fun r => r.twist.linear.z) ++
  scalarChannel topic meas (meas.twist_covariance 21) (fun r => r.twist.angular.x) ++
  scalarChannel topic meas (meas.twist_covariance 28) (fun r => r.twist.angular.y) ++
  scalarChannel topic meas (meas.twist_covariance 35) (fun r => r.twist.angular.z)

/-- The channels of a sensor in the full-state filter, in order: none without a
pending sample, else position, orientation, velocity. -/
def GraftUKFAbsolute.channels (env : Platform K) (topic : GraftSensor K) : List (Channel K) :=
  match topic.z with
  | none => []
  | some meas =>
    GraftUKFAbsolute.positionChannels topic meas ++
    GraftUKFAbsolute.orientationChannels env topic meas ++
    GraftUKFAbsolute.velocityChannels topic meas

/-- The angular velocity channels X, Y, Z of a sample (attitude-only filter). -/
def GraftUKFAttitude.angularChannels (topic : GraftSensor K) (meas : GraftSensorResidual K) :
    List (Channel K) :=
  scalarChannel topic meas (meas.twist_covariance 21) (fun r => r.twist.angular.x) ++
  scalarChannel topic meas (meas.twist_covariance 28) (fun r => r.twist.angular.y) ++
  scalarChannel topic meas (meas.twist_covariance 35) (fun r => r.twist.angular.z)

/-- The three acceleration channels X, Y, Z (attitude-only filter): each reads a
component of the normalised acceleration of a sample. -/
def GraftUKFAttitude.accelerationBlock (env : Platform K) (topic : GraftSensor K)
    (meas : GraftSensorResidual K) : List (Channel K) :=
  [{ sensor := topic, sample := meas,
     read := fun r => (GraftUKFAttitude.normalized_acceleration env r.accel).x,
     variance := meas.accel_covariance 0 },
   { sensor := topic, sample := meas,
     read := fun r => (GraftUKFAttitude.normalized_acceleration env r.accel).y,
     variance := meas.accel_covariance 4 },
   { sensor := topic, sample := meas,
     read := fun r => (GraftUKFAttitude.normalized_acceleration env r.accel).z,
     variance := meas.accel_covariance 8 }]

/-- The channels of a sensor in the attitude-only filter, in order: none without a
pending sample, else angular velocity, then the acceleration block when the three
diagonal accelerometer variances are all greater than 1e-20. -/
def GraftUKFAttitude.channels (env : Platform K) (topic : GraftSensor K) : List (Channel K) :=
  match topic.z with
  | none => []
  | some meas =>
    GraftUKFAttitude.angularChannels topic meas ++
    (if meas.accel_covariance 0 > 1e-20 ∧ meas.accel_covariance 4 > 1e-20
        ∧ meas.accel_covariance 8 > 1e-20 then
      GraftUKFAttitude.accelerationBlock env topic meas
    else [])

end Channels

section Statements

variable {K : Type} [LinearOrderedField K]

/-- A sensor with a pending sample whose twist variances are 1 and whose other
variances are 0, predicting the zero sample for every state. -/
def twistSensor : GraftSensor K :=
  { getName := "twist",
    z := some { sampleWith 0 with twist_covariance := fun _ => 1 },
    h := fun _ => sampleWith 0 }

end Statements

/-! ### The snapshot of the stored state -/

section Snapshot

variable {K : Type} [LinearOrderedField K]

/-- Source `GraftUKFAbsolute::getMessageFromState()`, the overload without arguments:
the snapshot of the stored state and covariance. -/
def GraftUKFAbsolute.getMessageFromState' (est : GraftUKFAbsolute K) : GraftState K :=
  GraftUKFAbsolute.getMessageFromState est.graft_state_ est.graft_covariance_

/-- Source `GraftUKFAttitude::getMessageFromState()`, the overload without arguments:
the snapshot of the stored state and covariance. -/
def GraftUKFAttitude.getMessageFromState' (est : GraftUKFAttitude K) : GraftState K :=
  GraftUKFAttitude.getMessageFromState est.graft_state_ est.graft_covariance_

end Snapshot

/-! ### Checked element access

The C++ expression `sigma_points[i]` on a `std::vector` is not checked against the size
of the vector.  The definitions of this section repeat the functions that index a list
of sigma points with every such access checked: the result is `none` as soon as an
index is past the end of its list. -/

section CheckedAccess

variable {K : Type} [LinearOrderedField K]

/-- Source `meanFromSigmaPoints`, every access `sigma_points[i]` checked. -/
def checkedMeanFromSigmaPoints {m : Nat} (sigma_points : List (Fin m → K)) (n : Nat)
    (lambda : K) : Option (Fin m → K) := do
  let weight_zero := lambda / ((n : K) + lambda)
  let p0 ← sigma_points[0]?
  let out := weight_zero • p0
  let weight_i := 1 / (2 * ((n : K) + lambda))
  (List.range' 1 (2 * n)).foldlM
    (fun out i => do
      let p ← sigma_points[i]?
      pure (out + weight_i • p)) out

/-- Source `covarianceFromSigmaPoints`, every access `sigma_points[i]` checked. -/
def checkedCovarianceFromSigmaPoints {m : Nat} (sigma_points : List (Fin m → K))
    (mean : Fin m → K) (process_noise : Matrix (Fin m) (Fin m) K) (n : Nat)
    (alpha beta lambda : K) : Option (Matrix (Fin m) (Fin m) K) := do
  let cov_weight_zero := lambda / ((n : K) + lambda) + (1 - alpha * alpha + beta)
  let p0 ← sigma_points[0]?
  let out := Matrix.vecMulVec (cov_weight_zero • (p0 - mean)) (p0 - mean)
  let weight_i := 1 / (2 * ((n : K) + lambda))
  let out ← (List.range' 1 (2 * n)).foldlM
    (fun out i => do
      let p ← sigma_points[i]?
      pure (out + Matrix.vecMulVec (weight_i • (p - mean)) (p - mean))) out
  pure (out + process_noise)

/-- Source `crossCovariance`, every access `sigma_points[i]` and
`meas_sigma_points[i]` checked; `n` is the number of rows of `sigma_points[0]`. -/
def checkedCrossCovariance {n m : Nat} (sigma_points : List (Fin n → K)) (mean : Fin n → K)
    (meas_sigma_points : List (Fin m → K)) (meas_mean : Fin m → K) (alpha beta lambda : K) :
    Option (Matrix (Fin n) (Fin m) K) := do
  let cov_weight_zero := lambda / ((n : K) + lambda) + (1 - alpha * alpha + beta)
  let p0 ← sigma_points[0]?
  let y0 ← meas_sigma_points[0]?
  let out := Matrix.vecMulVec (cov_weight_zero • (p0 - mean)) (y0 - meas_mean)
  let weight_i := 1 / (2 * ((n : K) + lambda))
  (List.range' 1 (2 * n)).foldlM
    (fun out i => do
      let p ← sigma_points[i]?
      let y ← meas_sigma_points[i]?
      pure (out + Matrix.vecMulVec (weight_i • (p - mean)) (y - meas_mean))) out

/-- Lines 495 to 546 of `GraftUKFAbsolute::predictAndUpdate` with the accesses to the
lists of sigma points checked: `none` when an index is past the end of a list, else
what `predictAndUpdateBody` describes. -/
def GraftUKFAbsolute.predictAndUpdateBodyChecked (env : Platform K)
    (est : GraftUKFAbsolute K) (dt : K) : Option (Option (K × GraftUKFAbsolute K)) :=
  match derefTopics est.topics_ with
  | none => some none
  | some topics => do
    -- Prediction
    let lambda := est.alpha_ * est.alpha_ * ((GraftUKFAbsolute.SIZE : K) + est.kappa_)
      - (GraftUKFAbsolute.SIZE : K)
    let previous_sigma_points :=
      generateSigmaPoints env est.graft_state_ est.graft_covariance_ lambda
    let predicted_sigma_points :=
      GraftUKFAbsolute.predict_sigma_points env previous_sigma_points dt
    let predicted_mean ←
      checkedMeanFromSigmaPoints predicted_sigma_points GraftUKFAbsolute.SIZE lambda
    let predicted_covariance ← checkedCovarianceFromSigmaPoints predicted_sigma_points
      predicted_mean est.Q_ GraftUKFAbsolute.SIZE est.alpha_ est.beta_ lambda
    -- Update
    let observation_sigma_points :=
      generateSigmaPoints env predicted_mean predicted_covariance lambda
    let meas := GraftUKFAbsolute.getMeasurements env topics observation_sigma_points
    let z := meas.actual_measurement
    if z.length = 0 then pure (some (0, est))
    else do
      let predicted_observation_sigma_points :=
        meas.output_measurement_sigmas.map (toVec z.length)
      let measurement_noise : Matrix (Fin z.length) (Fin z.length) K :=
        Matrix.diagonal (toVec z.length meas.innovation_covariance_diagonal)
      let predicted_measurement ← checkedMeanFromSigmaPoints
        predicted_observation_sigma_points GraftUKFAbsolute.SIZE lambda
      let predicted_measurement_uncertainty ← checkedCovarianceFromSigmaPoints
        predicted_observation_sigma_points predicted_measurement measurement_noise
        GraftUKFAbsolute.SIZE est.alpha_ est.beta_ lambda
      let cross_covariance ← checkedCrossCovariance observation_sigma_points predicted_mean
        predicted_observation_sigma_points predicted_measurement est.alpha_ est.beta_ lambda
      let K_ := cross_covariance * env.luInverse predicted_measurement_uncertainty
      let graft_state := predicted_mean + K_.mulVec (toVec z.length z - predicted_measurement)
      let unit_q := unitQuaternion env
        ![graft_state 3, graft_state 4, graft_state 5, graft_state 6]
      let graft_state : Fin 13 → K := fun i =>
        if i = 3 then unit_q 0 else if i = 4 then unit_q 1 else if i = 5 then unit_q 2
        else if i = 6 then unit_q 3 else graft_state i
      let graft_covariance :=
        predicted_covariance - K_ * predicted_measurement_uncertainty * K_.transpose
      let diverged := est.diverged_ || hasNonFinite env graft_covariance
      pure (some (dt, { est with
        graft_state_ := graft_state,
        graft_covariance_ := graft_covariance,
        diverged_ := diverged,
        topics_ := (clearMessages topics).map some }))

/-- Source `GraftUKFAbsolute::predictAndUpdate` with the accesses to the lists of sigma
points checked. -/
def GraftUKFAbsolute.predictAndUpdateChecked (env : Platform K) (est : GraftUKFAbsolute K)
    (t : K) : Option (Option (K × GraftUKFAbsolute K)) :=
  if noFirstTopic est.topics_ then some (some (0, est))
  else if est.diverged_ then some (some (0, est))
  else
    let dt := t - est.last_update_time_
    if est.last_update_time_ < 0.0001 then
      some (some (0, { est with last_update_time_ := t }))
    else
      let dt := if dt > GraftUKFAbsolute.expected_interval_ * 2 then
        GraftUKFAbsolute.expected_interval_ * 2.0 else dt
      GraftUKFAbsolute.predictAndUpdateBodyChecked env { est with last_update_time_ := t } dt

/-- Lines 345 to 395 of `GraftUKFAttitude::predictAndUpdate` with the accesses to the
lists of sigma points checked: `none` when an index is past the end of a list, else
what `predictAndUpdateBody` describes. -/
def GraftUKFAttitude.predictAndUpdateBodyChecked (env : Platform K)
    (est : GraftUKFAttitude K) (dt : K) : Option (Option (K × GraftUKFAttitude K)) :=
  match derefTopics est.topics_ with
  | none => some none
  | some topics => do
    -- Prediction
    let lambda := est.alpha_ * est.alpha_ * ((GraftUKFAttitude.SIZE : K) + est.kappa_)
      - (GraftUKFAttitude.SIZE : K)
    let previous_sigma_points :=
      generateSigmaPoints env est.graft_state_ est.graft_covariance_ lambda
    let predicted_sigma_points :=
      GraftUKFAttitude.predict_sigma_points env previous_sigma_points dt
    let predicted_mean ←
      checkedMeanFromSigmaPoints predicted_sigma_points GraftUKFAttitude.SIZE lambda
    let predicted_covariance ← checkedCovarianceFromSigmaPoints predicted_sigma_points
      predicted_mean est.Q_ GraftUKFAttitude.SIZE est.alpha_ est.beta_ lambda
    -- Update
    let observation_sigma_points :=
      generateSigmaPoints env predicted_mean predicted_covariance lambda
    let meas := GraftUKFAttitude.getMeasurements env topics observation_sigma_points
    let z := meas.actual_measurement
    if z.length = 0 then pure (some (0, est))
    else do
      let predicted_observation_sigma_points :=
        meas.output_measurement_sigmas.map (toVec z.length)
      let measurement_noise : Matrix (Fin z.length) (Fin z.length) K :=
        Matrix.diagonal (toVec z.length meas.innovation_covariance_diagonal)
      let predicted_measurement ← checkedMeanFromSigmaPoints
        predicted_observation_sigma_points GraftUKFAttitude.SIZE lambda
      let predicted_measurement_uncertainty ← checkedCovarianceFromSigmaPoints
        predicted_observation_sigma_points predicted_measurement measurement_noise
        GraftUKFAttitude.SIZE est.alpha_ est.beta_ lambda
      let cross_covariance ← checkedCrossCovariance observation_sigma_points predicted_mean
        predicted_observation_sigma_points predicted_measurement est.alpha_ est.beta_ lambda
      let K_ := cross_covariance * env.luInverse predicted_measurement_uncertainty
      let graft_state := predicted_mean + K_.mulVec (toVec z.length z - predicted_measurement)
      let unit_q := unitQuaternion env
        ![graft_state 0, graft_state 1, graft_state 2, graft_state 3]
      let graft_state : Fin 7 → K := fun i =>
        if i = 0 then unit_q 0 else if i = 1 then unit_q 1 else if i = 2 then unit_q 2
        else if i = 3 then unit_q 3 else graft_state i
      let graft_covariance :=
        predicted_covariance - K_ * predicted_measurement_uncertainty * K_.transpose
      let diverged := est.diverged_ || hasNonFinite env graft_covariance
      pure (some (dt, { est with
        graft_state_ := graft_state,
        graft_covariance_ := graft_covariance,
        diverged_ := diverged,
        topics_ := (clearMessages topics).map some }))

/-- Source `GraftUKFAttitude::predictAndUpdate` with the accesses to the lists of sigma
points checked. -/
def GraftUKFAttitude.predictAndUpdateChecked (env : Platform K) (est : GraftUKFAttitude K)
    (t : K) : Option (Option (K × GraftUKFAttitude K)) :=
  if noFirstTopic est.topics_ then some (some (0, est))
  else if est.diverged_ then some (some (0, est))
  else
    let dt := t - est.last_update_time_
    if est.last_update_time_ < 0.0001 then
      some (some (0, { est with last_update_time_ := t }))
    else
      GraftUKFAttitude.predictAndUpdateBodyChecked env { est with last_update_time_ := t } dt

end CheckedAccess

/-! ### Binary64 arithmetic

The leaf functions (`unitQuaternion`, `normalized_acceleration`, `generateSigmaPoints`,
`meanFromSigmaPoints`, `covarianceFromSigmaPoints`, the renormalisation and the commit) are
written over any number type with the operations they use.  `Double` is the number
type of the C++ program: IEEE 754 binary64 with round-to-nearest-even, overflow to an
infinity and gradual underflow; the sign of a zero is not recorded.  Every operation
rounds its exact result on its own (no fused multiply-add, no extended precision), and an
Eigen expression is evaluated entry by entry in the order in which the source writes
its operands, so that `w * d * dᵗ` is `(w · d[i]) · d[j]` in the entry `(i, j)`. -/

/-- The rational 2^e. -/
def pow2 (e : ℤ) : ℚ :=
  if 0 ≤ e then ((2 ^ e.toNat : ℕ) : ℚ) else 1 / ((2 ^ (-e).toNat : ℕ) : ℚ)

/-- With enough fuel, the number of halvings that bring `n` below 2. -/
def log2Aux : Nat → Nat → Nat
  | 0, _ => 0
  | fuel + 1, n => if n < 2 then 0 else log2Aux fuel (n / 2) + 1

/-- The integer part of the binary logarithm of `n`, 0 for `n = 0`. -/
def natLog2 (n : Nat) : Nat :=
  log2Aux n n

/-- The binary exponent of a rational `x ≠ 0`: the integer `e` with
`2^e ≤ |x| < 2^(e+1)`. -/
def ilog2 (x : ℚ) : ℤ :=
  let d : ℤ := (natLog2 x.num.natAbs : ℤ) - (natLog2 x.den : ℤ)
  if pow2 d ≤ |x| then d else d - 1

/-- Rounding of a rational to the nearest integer, a tie going to the even one. -/
def roundHalfEven (r : ℚ) : ℤ :=
  let f := ⌊r⌋
  let d := r - f
  if d < 1 / 2 then f else if 1 / 2 < d then f + 1 else if f % 2 = 0 then f else f + 1

/-- An IEEE 754 binary64 value: a finite number, an infinity with its sign, or NaN. -/
inductive Double where
  | finite (value : ℚ)
  | inf (negative : Bool)
  | nan
  deriving DecidableEq

namespace Double

/-- Rounding to binary64, round-to-nearest-even: the result is a multiple of
`2^(e-52)`, where `e` is the binary exponent of `x` and at least -1022 (below that
the spacing stays `2^-1074`, gradual underflow); a result of magnitude `2^1024` or
more is an infinity. -/
def round (x : ℚ) : Double :=
  let e : ℤ := max (ilog2 x) (-1022)
  let q : ℚ := pow2 (e - 52)
  let y : ℚ := (roundHalfEven (x / q) : ℚ) * q
  if pow2 1024 ≤ |y| then inf (decide (x < 0)) else finite y

/-- Addition of binary64 values. -/
def add : Double → Double → Double
  | finite a, finite b => round (a + b)
  | finite _, inf s => inf s
  | inf s, finite _ => inf s
  | inf s, inf t => if s = t then inf s else nan
  | _, _ => nan

/-- Subtraction of binary64 values. -/
def sub : Double → Double → Double
  | finite a, finite b => round (a - b)
  | finite _, inf s => inf (!s)
  | inf s, finite _ => inf s
  | inf s, inf t => if s = t then nan else inf s
  | _, _ => nan

/-- Multiplication of binary64 values. -/
def mul : Double → Double → Double
  | finite a, finite b => round (a * b)
  | finite a, inf s => if a = 0 then nan else inf (xor s (decide (a < 0)))
  | inf s, finite b => if b = 0 then nan else inf (xor s (decide (b < 0)))
  | inf s, inf t => inf (xor s t)
  | _, _ => nan

/-- Division of binary64 values; a nonzero number divided by zero is an infinity. -/
def div : Double → Double → Double
  | finite a, finite b =>
    if b = 0 then (if a = 0 then nan else inf (decide (a < 0))) else round (a / b)
  | finite _, inf _ => finite 0
  | inf s, finite b => inf (xor s (decide (b < 0)))
  | _, _ => nan

/-- Negation of binary64 values. -/
def neg : Double → Double
  | finite a => finite (-a)
  | inf s => inf (!s)
  | nan => nan

/-- The predicate std::isfinite. -/
def isfinite : Double → Bool
  | finite _ => true
  | _ => false

instance : Add Double := ⟨add⟩

instance : Sub Double := ⟨sub⟩

instance : Mul Double := ⟨mul⟩

instance : Div Double := ⟨div⟩

instance : Neg Double := ⟨neg⟩

instance : Zero Double := ⟨finite 0⟩

instance : One Double := ⟨finite 1⟩

instance : OfNat Double 2 := ⟨finite 2⟩

instance : NatCast Double := ⟨fun n => round n⟩

end Double

/-- Newton iteration for the integer square root, downwards from `x`. -/
def sqrtIter : Nat → Nat → Nat → Nat
  | 0, _, x => x
  | fuel + 1, n, x =>
    let y := (x + n / x) / 2
    if y < x then sqrtIter fuel n y else x

/-- The integer part of the square root of `n`. -/
def natSqrt (n : Nat) : Nat :=
  sqrtIter n n n

/-- The function std::sqrt on binary64 values, correctly rounded: the argument is
scaled by a power of 4 to an integer part `n` of more than 105 bits, and the integer
part `s` of its square root, moved up by a half when the root is not exact, is
scaled back and rounded. -/
def Double.sqrt : Double → Double
  | Double.finite x =>
    if x < 0 then Double.nan
    else if x = 0 then Double.finite 0
    else
      let k : ℤ := (108 - ilog2 x) / 2
      let n : Nat := ⌊x * pow2 (2 * k)⌋.toNat
      let s := natSqrt n
      let v : ℚ := if (s : ℚ) * s = x * pow2 (2 * k) then s else s + 1 / 2
      Double.round (v * pow2 (-k))
  | Double.inf false => Double.inf false
  | _ => Double.nan

/-- A platform of binary64 values with a correctly rounded std::sqrt and std::isfinite,
whose Cholesky routine returns the matrix of the entries `S`; the other routines,
which the functions run on it do not call, are the simplest ones. -/
def doublePlatform (S : Nat → Nat → Double) : Platform Double :=
  { sqrt := Double.sqrt,
    atan := fun x => x,
    asin := fun x => x,
    sin := fun x => x,
    cos := fun x => x,
    isfinite := Double.isfinite,
    llt := fun _ => Matrix.of (fun i j => S i j),
    luInverse := fun m => m,
    uninitialized := fun _ _ => 0 }

/-- The accuracy asked of std::sqrt at the positive argument `s`: a finite result that
is not negative and whose square is within the relative distance `2^-49` of `s` (a
square root within one unit in the last place is within `2^-52` of the root). -/
def Double.SqrtAccurateAt (env : Platform Double) (s : ℚ) : Prop :=
  ∃ m : ℚ, env.sqrt (Double.finite s) = Double.finite m ∧ 0 ≤ m ∧ |m * m - s| ≤ s / 2 ^ 49

section InvariantProviso

variable {K : Type} [LinearOrderedField K]

/-- The proviso of the unit-quaternion invariant for a sequence of calls started from
the full-state filter `est`, for a property `R` of state vectors: in every call of
`predictAndUpdate` that commits a correction, the corrected state (before the
renormalisation) has the property `R`. -/
def GraftUKFAbsolute.CorrectionsIn (env : Platform K) (R : (Fin 13 → K) → Prop) :
    GraftUKFAbsolute K → List (Call K) → Prop
  | _, [] => True
  | est, call :: calls =>
    (∀ t c, call = Call.predictAndUpdate t → est.committedCorrection env t = some c →
      R c.graft_state) ∧
    (∀ est', est.call env call = some est' →
      GraftUKFAbsolute.CorrectionsIn env R est' calls)

/-- The proviso of the unit-quaternion invariant for a sequence of calls started from
the attitude-only filter `est`, for a property `R` of state vectors. -/
def GraftUKFAttitude.CorrectionsIn (env : Platform K) (R : (Fin 7 → K) → Prop) :
    GraftUKFAttitude K → List (Call K) → Prop
  | _, [] => True
  | est, call :: calls =>
    (∀ t c, call = Call.predictAndUpdate t → est.committedCorrection env t = some c →
      R c.graft_state) ∧
    (∀ est', est.call env call = some est' →
      GraftUKFAttitude.CorrectionsIn env R est' calls)

end InvariantProviso

end Graft

/-! ## Theorems -/

namespace Graft

section UnscentedTransformFacts

variable {K : Type} [LinearOrderedField K]

theorem generateSigmaPoints_eq (env : Platform K) {n : Nat} (state : Fin n → K)
    (covariance : Matrix (Fin n) (Fin n) K) (lambda : K) :
    generateSigmaPoints env state covariance lambda =
      state :: ((List.finRange n).map
          (fun c => state + fun r => (env.sqrt ((n : K) + lambda) • env.llt covariance) r c) ++
        (List.finRange n).map
          (fun c => state - fun r => (env.sqrt ((n : K) + lambda) • env.llt covariance) r c)) := by
  simp [generateSigmaPoints, matrixSqrt]

theorem generateSigmaPoints_length (env : Platform K) {n : Nat} (state : Fin n → K)
    (covariance : Matrix (Fin n) (Fin n) K) (lambda : K) :
    (generateSigmaPoints env state covariance lambda).length = 2 * n + 1 := by
  rw [generateSigmaPoints_eq]
  simp
  omega

theorem generateSigmaPoints_plus (env : Platform K) {n : Nat} (state : Fin n → K)
    (covariance : Matrix (Fin n) (Fin n) K) (lambda : K) (j : Fin n) :
    (generateSigmaPoints env state covariance lambda)[(j : Nat) + 1]? =
      some (state + fun r => (env.sqrt ((n : K) + lambda) • env.llt covariance) r j) := by
  rw [generateSigmaPoints_eq, List.getElem?_cons_succ, List.getElem?_append_left (by simp)]
  simp [List.getElem?_map]

theorem generateSigmaPoints_minus (env : Platform K) {n : Nat} (state : Fin n → K)
    (covariance : Matrix (Fin n) (Fin n) K) (lambda : K) (j : Fin n) :
    (generateSigmaPoints env state covariance lambda)[(j : Nat) + 1 + n]? =
      some (state - fun r => (env.sqrt ((n : K) + lambda) • env.llt covariance) r j) := by
  rw [generateSigmaPoints_eq, show (j : Nat) + 1 + n = ((j : Nat) + n) + 1 by omega,
    List.getElem?_cons_succ, List.getElem?_append_right (by simp)]
  simp [List.getElem?_map]

theorem foldl_add_range' {A : Type} [AddCommMonoid A] (g : Nat → A) (k : Nat) :
    ∀ (s : Nat) (init : A),
      (List.range' s k).foldl (fun out i => out + g i) init =
        init + ((List.range' s k).map g).sum := by
  induction k with
  | zero => intro s init; simp
  | succ k ih =>
    intro s init
    rw [List.range'_succ, List.foldl_cons, ih, List.map_cons, List.sum_cons, add_assoc]

theorem meanFromSigmaPoints_eq {m : Nat} (sigma_points : List (Fin m → K)) (n : Nat)
    (lambda : K) :
    meanFromSigmaPoints sigma_points n lambda =
      (lambda / ((n : K) + lambda)) • sigma_points.getD 0 0 +
        ((List.range' 1 (2 * n)).map
          (fun i => (1 / (2 * ((n : K) + lambda))) • sigma_points.getD i 0)).sum := by
  unfold meanFromSigmaPoints
  exact foldl_add_range' _ _ _ _

theorem generateSigmaPoints_zero_covariance (env : Platform K) {n : Nat} (mean : Fin n → K)
    (lambda : K) (hsqrt : env.llt (0 : Matrix (Fin n) (Fin n) K) = 0) :
    generateSigmaPoints env mean 0 lambda = List.replicate (2 * n + 1) mean := by
  rw [generateSigmaPoints_eq, hsqrt]
  have h : ∀ l : List (Fin n), l.map (fun _ => mean) = List.replicate l.length mean := by
    intro l
    induction l with
    | nil => rfl
    | cons a l ih => simp [List.replicate_succ, ih]
  have hz : (fun r : Fin n => (0 : K)) = 0 := rfl
  simp only [smul_zero, Matrix.zero_apply, hz, add_zero, sub_zero, h, List.length_finRange]
  rw [← List.replicate_add, ← List.replicate_succ]
  congr 1
  omega

end UnscentedTransformFacts

section QuaternionFacts

end QuaternionFacts

section CycleFacts

variable {K : Type} [LinearOrderedField K]

theorem derefTopics_of_forall_ne_none {F : Type} :
    ∀ (l : List (Option (GraftSensor F))), (∀ o ∈ l, o ≠ none) →
      ∃ topics, derefTopics l = some topics ∧ l = topics.map some := by
  intro l
  induction l with
  | nil => intro _; exact ⟨[], rfl, rfl⟩
  | cons o rest ih =>
    intro h
    obtain ⟨topics, h1, h2⟩ := ih (fun o ho => h o (List.mem_cons_of_mem _ ho))
    cases o with
    | none => exact absurd rfl (h none (List.mem_cons_self _ _))
    | some topic =>
      refine ⟨topic :: topics, ?_, ?_⟩
      · simp [derefTopics, h1]
      · simp [h2]

theorem absolute_getMeasurementsTopic_inactive (env : Platform K)
    (msgs : List (GraftState K)) (acc : Measurements K) (topic : GraftSensor K)
    (h : ∀ meas, topic.z = some meas → GraftUKFAbsolute.Inactive meas) :
    GraftUKFAbsolute.getMeasurementsTopic env msgs acc topic = acc := by
  unfold GraftUKFAbsolute.getMeasurementsTopic
  cases hz : topic.z with
  | none => rfl
  | some meas =>
    obtain ⟨h0, h1, h2, h3, h4, h5, h6, h7, h8, h9, h10, h11⟩ := h meas hz
    simp [not_lt.2 h0, not_lt.2 h1, not_lt.2 h2, not_lt.2 h3, not_lt.2 h4, not_lt.2 h5,
      not_lt.2 h6, not_lt.2 h7, not_lt.2 h8, not_lt.2 h9, not_lt.2 h10, not_lt.2 h11]

theorem attitude_getMeasurementsTopic_inactive (env : Platform K)
    (msgs : List (GraftState K)) (acc : Measurements K) (topic : GraftSensor K)
    (h : ∀ meas, topic.z = some meas → GraftUKFAttitude.Inactive meas) :
    GraftUKFAttitude.getMeasurementsTopic env msgs acc topic = acc := by
  unfold GraftUKFAttitude.getMeasurementsTopic
  cases hz : topic.z with
  | none => rfl
  | some meas =>
    obtain ⟨h0, h1, h2, h3, h4, h5⟩ := h meas hz
    simp [not_lt.2 h0, not_lt.2 h1, not_lt.2 h2, not_lt.2 h3]

theorem foldl_eq_of_forall_eq {A B : Type} (g : A → B → A) :
    ∀ (l : List B) (a : A), (∀ b ∈ l, ∀ a, g a b = a) → l.foldl g a = a := by
  intro l
  induction l with
  | nil => intro a _; rfl
  | cons b rest ih =>
    intro a h
    rw [List.foldl_cons, h b (List.mem_cons_self _ _) a]
    exact ih a (fun b hb => h b (List.mem_cons_of_mem _ hb))

theorem absolute_getMeasurements_inactive (env : Platform K)
    (topics : List (GraftSensor K)) (pts : List (Fin 13 → K))
    (h : ∀ topic ∈ topics, ∀ meas, topic.z = some meas → GraftUKFAbsolute.Inactive meas) :
    (GraftUKFAbsolute.getMeasurements env topics pts).actual_measurement = [] := by
  unfold GraftUKFAbsolute.getMeasurements
  simp only []
  rw [foldl_eq_of_forall_eq _ topics _ (fun b hb a =>
    absolute_getMeasurementsTopic_inactive env _ a b (h b hb))]

theorem attitude_getMeasurements_inactive (env : Platform K)
    (topics : List (GraftSensor K)) (pts : List (Fin 7 → K))
    (h : ∀ topic ∈ topics, ∀ meas, topic.z = some meas → GraftUKFAttitude.Inactive meas) :
    (GraftUKFAttitude.getMeasurements env topics pts).actual_measurement = [] := by
  unfold GraftUKFAttitude.getMeasurements
  simp only []
  rw [foldl_eq_of_forall_eq _ topics _ (fun b hb a =>
    attitude_getMeasurementsTopic_inactive env _ a b (h b hb))]

/-- C4: a filter of either variant with a first sensor configured, not diverged and
with no valid prior timestamp (below 0.0001 s) returns 0 from predictAndUpdate and is
afterwards the same filter with only the timestamp replaced by the current time:
state vector, covariance and divergence flag are as they were. -/
theorem predictAndUpdate_priming_cycle (env : Platform K) (t : K)
    (a : GraftUKFAbsolute K) (sa : GraftSensor K) (ra : List (Option (GraftSensor K)))
    (b : GraftUKFAttitude K) (sb : GraftSensor K) (rb : List (Option (GraftSensor K)))
    (ha_topics : a.topics_ = some sa :: ra) (ha_div : a.diverged_ = false)
    (ha_time : a.last_update_time_ < 0.0001)
    (hb_topics : b.topics_ = some sb :: rb) (hb_div : b.diverged_ = false)
    (hb_time : b.last_update_time_ < 0.0001) :
    (a.predictAndUpdate env t = some (0, { a with last_update_time_ := t }) ∧
      ({ a with last_update_time_ := t } : GraftUKFAbsolute K).graft_state_ = a.graft_state_ ∧
      ({ a with last_update_time_ := t } : GraftUKFAbsolute K).graft_covariance_
        = a.graft_covariance_ ∧
      ({ a with last_update_time_ := t } : GraftUKFAbsolute K).diverged_ = a.diverged_) ∧
    (b.predictAndUpdate env t = some (0, { b with last_update_time_ := t }) ∧
      ({ b with last_update_time_ := t } : GraftUKFAttitude K).graft_state_ = b.graft_state_ ∧
      ({ b with last_update_time_ := t } : GraftUKFAttitude K).graft_covariance_
        = b.graft_covariance_ ∧
      ({ b with last_update_time_ := t } : GraftUKFAttitude K).diverged_ = b.diverged_) := by
  refine ⟨⟨?_, rfl, rfl, rfl⟩, ⟨?_, rfl, rfl, rfl⟩⟩
  · simp [GraftUKFAbsolute.predictAndUpdate, ha_topics, noFirstTopic, ha_div, ha_time]
  · simp [GraftUKFAttitude.predictAndUpdate, hb_topics, noFirstTopic, hb_div, hb_time]

/-- Witness of C4: freshly constructed filters (timestamp 0) with one sensor, called at
time 1000. -/
theorem predictAndUpdate_priming_cycle_witness :
    (((GraftUKFAbsolute.new 1 2 0 : GraftUKFAbsolute ℚ).setTopics
          [some (sensorWith 1)]).predictAndUpdate testPlatform 1000).map Prod.fst = some 0 ∧
    (((GraftUKFAttitude.new 1 2 0 : GraftUKFAttitude ℚ).setTopics
          [some (sensorWith 1)]).predictAndUpdate testPlatform 1000).map Prod.fst = some 0 := by
  have h := predictAndUpdate_priming_cycle testPlatform (1000 : ℚ)
    ((GraftUKFAbsolute.new 1 2 0 : GraftUKFAbsolute ℚ).setTopics [some (sensorWith 1)])
    (sensorWith 1) []
    ((GraftUKFAttitude.new 1 2 0 : GraftUKFAttitude ℚ).setTopics [some (sensorWith 1)])
    (sensorWith 1) [] rfl rfl
    (by norm_num [GraftUKFAbsolute.new, GraftUKFAbsolute.setTopics]) rfl rfl
    (by norm_num [GraftUKFAttitude.new, GraftUKFAttitude.setTopics])
  exact ⟨by rw [h.1.1]; rfl, by rw [h.2.1]; rfl⟩

/-- C5: when the prior timestamp is valid, every pointer of the topic list refers to a
sensor and every pending sample has each variance that getMeasurements tests at most
1e-20, predictAndUpdate of either variant returns 0 and the state vector and the
covariance matrix afterwards equal those before: the prediction is not committed. -/
theorem predictAndUpdate_no_active_channel (env : Platform K) (t : K)
    (a : GraftUKFAbsolute K) (b : GraftUKFAttitude K)
    (ha_time : ¬ a.last_update_time_ < 0.0001)
    (ha_ptr : ∀ o ∈ a.topics_, o ≠ none)
    (ha_var : ∀ topic meas, some topic ∈ a.topics_ → topic.z = some meas →
      GraftUKFAbsolute.Inactive meas)
    (hb_time : ¬ b.last_update_time_ < 0.0001)
    (hb_ptr : ∀ o ∈ b.topics_, o ≠ none)
    (hb_var : ∀ topic meas, some topic ∈ b.topics_ → topic.z = some meas →
      GraftUKFAttitude.Inactive meas) :
    (∃ a', a.predictAndUpdate env t = some (0, a') ∧ a'.graft_state_ = a.graft_state_ ∧
      a'.graft_covariance_ = a.graft_covariance_) ∧
    (∃ b', b.predictAndUpdate env t = some (0, b') ∧ b'.graft_state_ = b.graft_state_ ∧
      b'.graft_covariance_ = b.graft_covariance_) := by
  constructor
  · unfold GraftUKFAbsolute.predictAndUpdate
    by_cases h1 : noFirstTopic a.topics_ = true
    · exact ⟨a, by simp [h1], rfl, rfl⟩
    by_cases h2 : a.diverged_ = true
    · exact ⟨a, by simp [h1, h2], rfl, rfl⟩
    obtain ⟨topics, hd, hl⟩ := derefTopics_of_forall_ne_none a.topics_ ha_ptr
    have hq : ∀ topic ∈ topics, ∀ meas, topic.z = some meas →
        GraftUKFAbsolute.Inactive meas := by
      intro topic htopic meas hz
      refine ha_var topic meas ?_ hz
      rw [hl]
      exact List.mem_map_of_mem _ htopic
    refine ⟨{ a with last_update_time_ := t }, ?_, rfl, rfl⟩
    simp only [h1, h2, ha_time, if_false, Bool.false_eq_true]
    unfold GraftUKFAbsolute.predictAndUpdateBody
    simp only [hd]
    rw [if_pos]
    rw [absolute_getMeasurements_inactive env topics _ hq]
    rfl
  · unfold GraftUKFAttitude.predictAndUpdate
    by_cases h1 : noFirstTopic b.topics_ = true
    · exact ⟨b, by simp [h1], rfl, rfl⟩
    by_cases h2 : b.diverged_ = true
    · exact ⟨b, by simp [h1, h2], rfl, rfl⟩
    obtain ⟨topics, hd, hl⟩ := derefTopics_of_forall_ne_none b.topics_ hb_ptr
    have hq : ∀ topic ∈ topics, ∀ meas, topic.z = some meas →
        GraftUKFAttitude.Inactive meas := by
      intro topic htopic meas hz
      refine hb_var topic meas ?_ hz
      rw [hl]
      exact List.mem_map_of_mem _ htopic
    refine ⟨{ b with last_update_time_ := t }, ?_, rfl, rfl⟩
    simp only [h1, h2, hb_time, if_false, Bool.false_eq_true]
    unfold GraftUKFAttitude.predictAndUpdateBody
    simp only [hd]
    rw [if_pos]
    rw [attitude_getMeasurements_inactive env topics _ hq]
    rfl

/-- Witness of C5: filters last updated at time 1000 whose only sensor reports variance 0
on every channel, called at time 1001. -/
theorem predictAndUpdate_no_active_channel_witness :
    (∃ a', (absoluteFilter 0 1000).predictAndUpdate testPlatform 1001 = some (0, a') ∧
      a'.graft_state_ = (absoluteFilter 0 1000).graft_state_ ∧
      a'.graft_covariance_ = (absoluteFilter 0 1000).graft_covariance_) ∧
    (∃ b', (attitudeFilter 0 1000).predictAndUpdate testPlatform 1001 = some (0, b') ∧
      b'.graft_state_ = (attitudeFilter 0 1000).graft_state_ ∧
      b'.graft_covariance_ = (attitudeFilter 0 1000).graft_covariance_) :=
  predictAndUpdate_no_active_channel testPlatform 1001 (absoluteFilter 0 1000)
    (attitudeFilter 0 1000)
    (by norm_num [absoluteFilter])
    (by simp [absoluteFilter])
    (by
      intro topic meas htopic hz
      simp only [absoluteFilter, List.mem_singleton, Option.some.injEq] at htopic
      subst htopic
      simp only [sensorWith, Option.some.injEq] at hz
      subst hz
      norm_num [GraftUKFAbsolute.Inactive, sampleWith])
    (by norm_num [attitudeFilter])
    (by simp [attitudeFilter])
    (by
      intro topic meas htopic hz
      simp only [attitudeFilter, List.mem_singleton, Option.some.injEq] at htopic
      subst htopic
      simp only [sensorWith, Option.some.injEq] at hz
      subst hz
      norm_num [GraftUKFAttitude.Inactive, sampleWith])

theorem attitude_body_commit (env : Platform K) (e : GraftUKFAttitude K) (dt : K)
    (topics : List (GraftSensor K)) (hd : derefTopics e.topics_ = some topics)
    (hz : ∀ pts, (GraftUKFAttitude.getMeasurements env topics pts).actual_measurement ≠ []) :
    (GraftUKFAttitude.predictAndUpdateBody env e dt).map Prod.fst = some dt := by
  unfold GraftUKFAttitude.predictAndUpdateBody
  simp only [hd]
  rw [if_neg]
  · rfl
  · intro h
    exact hz _ (List.length_eq_zero.1 h)

/-- C7 (the code departs from the claim): the attitude-only predictAndUpdate has no dt
clamp.  The filter last updated at time 1000, with one sensor whose sample is active, and
called at time 1001 runs its prediction-and-update pass with the raw elapsed time 1, not
with 0.2, and returns 1. -/
theorem attitude_predictAndUpdate_dt_not_clamped :
    (attitudeFilter 1 1000).predictAndUpdate testPlatform 1001 =
      GraftUKFAttitude.predictAndUpdateBody testPlatform
        { attitudeFilter 1 1000 with last_update_time_ := 1001 } 1 ∧
    ((attitudeFilter 1 1000).predictAndUpdate testPlatform 1001).map Prod.fst = some 1 := by
  have h : (attitudeFilter 1 1000).predictAndUpdate testPlatform 1001 =
      GraftUKFAttitude.predictAndUpdateBody testPlatform
        { attitudeFilter 1 1000 with last_update_time_ := 1001 } 1 := by
    norm_num [GraftUKFAttitude.predictAndUpdate, attitudeFilter, noFirstTopic,
      GraftUKFAttitude.new]
  refine ⟨h, ?_⟩
  rw [h]
  refine attitude_body_commit testPlatform _ 1 [sensorWith 1] rfl ?_
  intro pts
  norm_num [GraftUKFAttitude.getMeasurements, GraftUKFAttitude.getMeasurementsTopic,
    sensorWith, sampleWith, Measurements.addChannel, addElementToVector]
  exact List.cons_ne_nil _ _

theorem absolute_predictAndUpdate_diverged (env : Platform K) (est : GraftUKFAbsolute K)
    (t : K) (h : est.diverged_ = true) : est.predictAndUpdate env t = some (0, est) := by
  unfold GraftUKFAbsolute.predictAndUpdate
  by_cases h1 : noFirstTopic est.topics_ = true
  · simp [h1]
  · simp [h1, h]

theorem attitude_predictAndUpdate_diverged (env : Platform K) (est : GraftUKFAttitude K)
    (t : K) (h : est.diverged_ = true) : est.predictAndUpdate env t = some (0, est) := by
  unfold GraftUKFAttitude.predictAndUpdate
  by_cases h1 : noFirstTopic est.topics_ = true
  · simp [h1]
  · simp [h1, h]

theorem absolute_call_diverged (env : Platform K) (est : GraftUKFAbsolute K) (c : Call K)
    (h : est.diverged_ = true) :
    ∃ est', est.call env c = some est' ∧ est'.diverged_ = true := by
  cases c with
  | predictAndUpdate t =>
    exact ⟨est, by simp [GraftUKFAbsolute.call, absolute_predictAndUpdate_diverged env est t h], h⟩
  | setTopics topics => exact ⟨_, rfl, h⟩
  | setInitialCovariance P =>
    refine ⟨_, rfl, ?_⟩
    unfold GraftUKFAbsolute.setInitialCovariance
    simp only []
    split_ifs <;> exact h
  | setProcessNoise Q =>
    refine ⟨_, rfl, ?_⟩
    unfold GraftUKFAbsolute.setProcessNoise
    simp only []
    split_ifs <;> exact h
  | setAlpha alpha => exact ⟨_, rfl, h⟩
  | setKappa kappa => exact ⟨_, rfl, h⟩
  | setBeta beta => exact ⟨_, rfl, h⟩

theorem attitude_call_diverged (env : Platform K) (est : GraftUKFAttitude K) (c : Call K)
    (h : est.diverged_ = true) :
    ∃ est', est.call env c = some est' ∧ est'.diverged_ = true := by
  cases c with
  | predictAndUpdate t =>
    exact ⟨est, by simp [GraftUKFAttitude.call, attitude_predictAndUpdate_diverged env est t h], h⟩
  | setTopics topics => exact ⟨_, rfl, h⟩
  | setInitialCovariance P =>
    refine ⟨_, rfl, ?_⟩
    unfold GraftUKFAttitude.setInitialCovariance
    simp only []
    split_ifs <;> exact h
  | setProcessNoise Q =>
    refine ⟨_, rfl, ?_⟩
    unfold GraftUKFAttitude.setProcessNoise
    simp only []
    split_ifs <;> exact h
  | setAlpha alpha => exact ⟨_, rfl, h⟩
  | setKappa kappa => exact ⟨_, rfl, h⟩
  | setBeta beta => exact ⟨_, rfl, h⟩

theorem absolute_run_diverged (env : Platform K) :
    ∀ (calls : List (Call K)) (est : GraftUKFAbsolute K), est.diverged_ = true →
      ∃ est', est.run env calls = some est' ∧ est'.diverged_ = true := by
  intro calls
  induction calls with
  | nil => intro est h; exact ⟨est, rfl, h⟩
  | cons c cs ih =>
    intro est h
    obtain ⟨est1, h1, hd1⟩ := absolute_call_diverged env est c h
    obtain ⟨est2, h2, hd2⟩ := ih est1 hd1
    exact ⟨est2, by simp [GraftUKFAbsolute.run, h1, h2], hd2⟩

theorem attitude_run_diverged (env : Platform K) :
    ∀ (calls : List (Call K)) (est : GraftUKFAttitude K), est.diverged_ = true →
      ∃ est', est.run env calls = some est' ∧ est'.diverged_ = true := by
  intro calls
  induction calls with
  | nil => intro est h; exact ⟨est, rfl, h⟩
  | cons c cs ih =>
    intro est h
    obtain ⟨est1, h1, hd1⟩ := attitude_call_diverged env est c h
    obtain ⟨est2, h2, hd2⟩ := ih est1 hd1
    exact ⟨est2, by simp [GraftUKFAttitude.run, h1, h2], hd2⟩

theorem absolute_run_cycles_diverged (env : Platform K) (est : GraftUKFAbsolute K)
    (h : est.diverged_ = true) :
    ∀ ts : List K, est.run env (ts.map Call.predictAndUpdate) = some est := by
  intro ts
  induction ts with
  | nil => rfl
  | cons t ts ih =>
    simp [GraftUKFAbsolute.run, GraftUKFAbsolute.call,
      absolute_predictAndUpdate_diverged env est t h, ih]

theorem attitude_run_cycles_diverged (env : Platform K) (est : GraftUKFAttitude K)
    (h : est.diverged_ = true) :
    ∀ ts : List K, est.run env (ts.map Call.predictAndUpdate) = some est := by
  intro ts
  induction ts with
  | nil => rfl
  | cons t ts ih =>
    simp [GraftUKFAttitude.run, GraftUKFAttitude.call,
      attitude_predictAndUpdate_diverged env est t h, ih]

/-- C8: divergence is terminal in both variants.  When the divergence flag is true,
predictAndUpdate returns 0 and the filter afterwards is the filter before: state vector,
covariance, timestamp, flag and the sensors with their pending samples; any sequence of
cycle calls leaves the filter as it was; and after any sequence of calls of the public
methods the flag is still true. -/
theorem predictAndUpdate_diverged_terminal (env : Platform K) (t : K)
    (a : GraftUKFAbsolute K) (b : GraftUKFAttitude K)
    (ha : a.diverged_ = true) (hb : b.diverged_ = true) :
    (a.predictAndUpdate env t = some (0, a) ∧
      (∀ ts : List K, a.run env (ts.map Call.predictAndUpdate) = some a) ∧
      (∀ calls : List (Call K), ∃ a', a.run env calls = some a' ∧ a'.diverged_ = true)) ∧
    (b.predictAndUpdate env t = some (0, b) ∧
      (∀ ts : List K, b.run env (ts.map Call.predictAndUpdate) = some b) ∧
      (∀ calls : List (Call K), ∃ b', b.run env calls = some b' ∧ b'.diverged_ = true)) :=
  ⟨⟨absolute_predictAndUpdate_diverged env a t ha, absolute_run_cycles_diverged env a ha,
      fun calls => absolute_run_diverged env calls a ha⟩,
    ⟨attitude_predictAndUpdate_diverged env b t hb, attitude_run_cycles_diverged env b hb,
      fun calls => attitude_run_diverged env calls b hb⟩⟩

/-- Witness of C8: diverged filters with an active sensor and a valid timestamp 1000,
called at time 1001, return 0 and are unchanged. -/
theorem predictAndUpdate_diverged_terminal_witness :
    ({ absoluteFilter 1 1000 with diverged_ := true } : GraftUKFAbsolute ℚ).predictAndUpdate
        testPlatform 1001 = some (0, { absoluteFilter 1 1000 with diverged_ := true }) ∧
    ({ attitudeFilter 1 1000 with diverged_ := true } : GraftUKFAttitude ℚ).predictAndUpdate
        testPlatform 1001 = some (0, { attitudeFilter 1 1000 with diverged_ := true }) :=
  ⟨(predictAndUpdate_diverged_terminal testPlatform 1001
      { absoluteFilter 1 1000 with diverged_ := true }
      { attitudeFilter 1 1000 with diverged_ := true } rfl rfl).1.1,
    (predictAndUpdate_diverged_terminal testPlatform 1001
      { absoluteFilter 1 1000 with diverged_ := true }
      { attitudeFilter 1 1000 with diverged_ := true } rfl rfl).2.1⟩

end CycleFacts

section SnapshotFacts

variable {K : Type} [LinearOrderedField K]

theorem coeff_linear {n : Nat} (m : Matrix (Fin n) (Fin n) K) (r c : Fin n) :
    coeff m ((c : Nat) * n + (r : Nat)) = m r c := by
  have hn : 0 < n := Nat.pos_of_ne_zero (fun h0 => by subst h0; exact r.elim0)
  have hlt : (c : Nat) * n + (r : Nat) < n * n := by
    calc (c : Nat) * n + (r : Nat) < (c : Nat) * n + n := Nat.add_lt_add_left r.isLt _
      _ = ((c : Nat) + 1) * n := by ring
      _ ≤ n * n := Nat.mul_le_mul_right n c.isLt
  unfold coeff
  rw [dif_pos hlt]
  congr 1
  · apply Fin.ext
    show ((c : Nat) * n + (r : Nat)) % n = r
    rw [Nat.add_comm, Nat.add_mul_mod_self_right, Nat.mod_eq_of_lt r.isLt]
  · apply Fin.ext
    show ((c : Nat) * n + (r : Nat)) / n = c
    rw [Nat.add_comm, Nat.add_mul_div_right _ _ hn, Nat.div_eq_of_lt r.isLt, Nat.zero_add]

theorem matrixFromArray_map_coeff {n k : Nat} (hk : k = n * n)
    (m : Matrix (Fin n) (Fin n) K) :
    matrixFromArray n ((List.range k).map (fun i => coeff m i)) = m := by
  funext r c
  have hlt : (c : Nat) * n + (r : Nat) < k := by
    rw [hk]
    calc (c : Nat) * n + (r : Nat) < (c : Nat) * n + n := Nat.add_lt_add_left r.isLt _
      _ = ((c : Nat) + 1) * n := by ring
      _ ≤ n * n := Nat.mul_le_mul_right n c.isLt
  unfold matrixFromArray
  rw [List.getD_eq_getElem?_getD, List.getElem?_map, List.getElem?_range hlt]
  exact coeff_linear m r c

/-- C9: the snapshot built by getMessageFromState carries the state components
unchanged (position, orientation w, x, y, z without renormalisation, linear and angular
velocity in the full variant; orientation and angular velocity in the attitude variant,
whose position and linear velocity stay 0), its covariance array has N² entries, entry i
being coefficient i of the covariance, and read back in the same element order it is
the covariance matrix. -/
theorem getMessageFromState_round_trip (state : Fin 13 → K)
    (covariance : Matrix (Fin 13) (Fin 13) K) (state7 : Fin 7 → K)
    (covariance7 : Matrix (Fin 7) (Fin 7) K) :
    ((GraftUKFAbsolute.getMessageFromState state covariance).pose.position
        = ⟨state 0, state 1, state 2⟩ ∧
      (GraftUKFAbsolute.getMessageFromState state covariance).pose.orientation
        = { w := state 3, x := state 4, y := state 5, z := state 6 } ∧
      (GraftUKFAbsolute.getMessageFromState state covariance).twist.linear
        = ⟨state 7, state 8, state 9⟩ ∧
      (GraftUKFAbsolute.getMessageFromState state covariance).twist.angular
        = ⟨state 10, state 11, state 12⟩ ∧
      (GraftUKFAbsolute.getMessageFromState state covariance).covariance.length = 13 * 13 ∧
      (∀ i, i < 13 * 13 →
        (GraftUKFAbsolute.getMessageFromState state covariance).covariance[i]?
          = some (coeff covariance i)) ∧
      matrixFromArray 13 (GraftUKFAbsolute.getMessageFromState state covariance).covariance
        = covariance) ∧
    ((GraftUKFAttitude.getMessageFromState state7 covariance7).pose.position = ⟨0, 0, 0⟩ ∧
      (GraftUKFAttitude.getMessageFromState state7 covariance7).pose.orientation
        = { w := state7 0, x := state7 1, y := state7 2, z := state7 3 } ∧
      (GraftUKFAttitude.getMessageFromState state7 covariance7).twist.linear = ⟨0, 0, 0⟩ ∧
      (GraftUKFAttitude.getMessageFromState state7 covariance7).twist.angular
        = ⟨state7 4, state7 5, state7 6⟩ ∧
      (GraftUKFAttitude.getMessageFromState state7 covariance7).covariance.length = 7 * 7 ∧
      (∀ i, i < 7 * 7 →
        (GraftUKFAttitude.getMessageFromState state7 covariance7).covariance[i]?
          = some (coeff covariance7 i)) ∧
      matrixFromArray 7 (GraftUKFAttitude.getMessageFromState state7 covariance7).covariance
        = covariance7) := by
  refine ⟨⟨rfl, rfl, rfl, rfl, ?_, ?_, ?_⟩, ⟨rfl, rfl, rfl, rfl, ?_, ?_, ?_⟩⟩
  · simp [GraftUKFAbsolute.getMessageFromState, GraftUKFAbsolute.SIZE]
  · intro i hi
    simp only [GraftUKFAbsolute.getMessageFromState]
    rw [List.getElem?_map, List.getElem?_range hi]
    rfl
  · exact matrixFromArray_map_coeff rfl covariance
  · simp [GraftUKFAttitude.getMessageFromState, GraftUKFAttitude.SIZE]
  · intro i hi
    simp only [GraftUKFAttitude.getMessageFromState]
    rw [List.getElem?_map, List.getElem?_range hi]
    rfl
  · exact matrixFromArray_map_coeff rfl covariance7

/-- Witness of C9 on a full-state vector with a non-unit quaternion (2, 0, 0, 0): the
snapshot reports the quaternion as stored. -/
theorem getMessageFromState_round_trip_witness :
    (GraftUKFAbsolute.getMessageFromState (fun i => if i = 3 then (2 : ℚ) else 0)
        1).pose.orientation = { w := 2, x := 0, y := 0, z := 0 } :=
  (getMessageFromState_round_trip (fun i => if i = 3 then (2 : ℚ) else 0) 1
    (fun _ => 0) 1).1.2.1

end SnapshotFacts

section EulerCovarianceFacts

theorem Ieee.add_nan {K : Type} [LinearOrderedField K] (x : Ieee K) :
    x + Ieee.nan = Ieee.nan := by
  cases x <;> rfl

theorem Ieee.nan_add {K : Type} [LinearOrderedField K] (x : Ieee K) :
    Ieee.nan + x = Ieee.nan := by
  cases x <;> rfl

theorem Ieee.mul_nan {K : Type} [LinearOrderedField K] (x : Ieee K) :
    x * Ieee.nan = Ieee.nan := by
  cases x <;> rfl

theorem Ieee.nan_mul {K : Type} [LinearOrderedField K] (x : Ieee K) :
    Ieee.nan * x = Ieee.nan := by
  cases x <;> rfl

theorem Ieee.finite_add {K : Type} [LinearOrderedField K] (a b : K) :
    (Ieee.finite a + Ieee.finite b : Ieee K) = Ieee.finite (a + b) := rfl

theorem Ieee.finite_sub {K : Type} [LinearOrderedField K] (a b : K) :
    (Ieee.finite a - Ieee.finite b : Ieee K) = Ieee.finite (a - b) := rfl

theorem Ieee.finite_mul {K : Type} [LinearOrderedField K] (a b : K) :
    (Ieee.finite a * Ieee.finite b : Ieee K) = Ieee.finite (a * b) := rfl

theorem Ieee.finite_neg {K : Type} [LinearOrderedField K] (a : K) :
    (-Ieee.finite a : Ieee K) = Ieee.finite (-a) := rfl

theorem Ieee.two_eq {K : Type} [LinearOrderedField K] :
    (2 : Ieee K) = Ieee.finite 2 := rfl

theorem Ieee.finite_div {K : Type} [LinearOrderedField K] (a b : K) (hb : b ≠ 0) :
    (Ieee.finite a / Ieee.finite b : Ieee K) = Ieee.finite (a / b) := by
  show Ieee.div (Ieee.finite a) (Ieee.finite b) = Ieee.finite (a / b)
  simp [Ieee.div, hb]

/-- With the storage written (every entry of the Euler covariance a finite number),
trigonometric functions that return finite numbers on finite arguments (asin on
[-1, 1]), and the divisors q4 + q1 and q4 - q1 nonzero, quaternionCovFromEuler returns
four finite numbers; the storage that is never written is all that can make the results
of such a call not finite. -/
theorem quaternionCovFromEuler_finite_of_written {K : Type} [LinearOrderedField K]
    (env : Platform (Ieee K))
    (hatan : ∀ x, ∃ y, env.atan (Ieee.finite x) = Ieee.finite y)
    (hasin : ∀ x, |x| ≤ 1 → ∃ y, env.asin (Ieee.finite x) = Ieee.finite y)
    (hsin : ∀ x, ∃ y, env.sin (Ieee.finite x) = Ieee.finite y)
    (hcos : ∀ x, ∃ y, env.cos (Ieee.finite x) = Ieee.finite y)
    (hmem : ∀ i j, ∃ u, env.uninitialized i j = Ieee.finite u)
    (r p y q1 q2 q3 q4 : K) (h1 : q4 + q1 ≠ 0) (h2 : q4 - q1 ≠ 0)
    (h3 : |2 * (q2 * q3 + q1 * q4)| ≤ 1) (i : Fin 4) :
    ∃ v, quaternionCovFromEuler env (Ieee.finite r) (Ieee.finite p) (Ieee.finite y)
      (Ieee.finite q1) (Ieee.finite q2) (Ieee.finite q3) (Ieee.finite q4) i
        = Ieee.finite v := by
  have h20 : (2 : K) ≠ 0 := two_ne_zero
  obtain ⟨a1, ha1⟩ := hatan ((q3 + q2) / (q4 + q1))
  obtain ⟨a2, ha2⟩ := hatan ((q3 - q1) / (q4 - q1))
  obtain ⟨a3, ha3⟩ := hatan ((q3 - q2) / (q4 - q1))
  obtain ⟨b1, hb1⟩ := hasin (2 * (q2 * q3 + q1 * q4)) h3
  obtain ⟨sy, hsy⟩ := hsin ((a1 + a2) / 2)
  obtain ⟨sr, hsr⟩ := hsin ((a1 - a3) / 2)
  obtain ⟨sp, hsp⟩ := hsin (b1 / 2)
  obtain ⟨cy, hcy⟩ := hcos ((a1 + a2) / 2)
  obtain ⟨cr, hcr⟩ := hcos ((a1 - a3) / 2)
  obtain ⟨cp, hcp⟩ := hcos (b1 / 2)
  obtain ⟨u01, hu01⟩ := hmem 0 1
  obtain ⟨u02, hu02⟩ := hmem 0 2
  obtain ⟨u10, hu10⟩ := hmem 1 0
  obtain ⟨u12, hu12⟩ := hmem 1 2
  obtain ⟨u20, hu20⟩ := hmem 2 0
  obtain ⟨u21, hu21⟩ := hmem 2 1
  fin_cases i <;>
    simp [quaternionCovFromEuler, Ieee.two_eq, Ieee.finite_add, Ieee.finite_sub,
      Ieee.finite_mul, Ieee.finite_neg, Ieee.finite_div _ _ h1, Ieee.finite_div _ _ h2,
      Ieee.finite_div _ _ h20, ha1, ha2, ha3, hb1, hsy, hsr, hsp, hcy, hcr, hcp, hu01,
      hu02, hu10, hu12, hu20, hu21]

/-- C10 (the code departs from the claim): quaternionCovFromEuler reads six entries of
its local Euler covariance matrix that it never wrote.  On the first quaternion of the
regression test, (0, 0, -0.976108, 0.217286), with the three variances 3.04617e-06 and
whatever the trigonometric functions return, when that storage holds not-a-number all
four results are not-a-number, so none of them is finite. -/
theorem quaternionCovFromEuler_uninitialized_not_finite
    (atan asin sin cos : Ieee ℚ → Ieee ℚ) (i : Fin 4) :
    quaternionCovFromEuler (nanPlatform atan asin sin cos)
        (Ieee.finite 3.04617e-06) (Ieee.finite 3.04617e-06) (Ieee.finite 3.04617e-06)
        (Ieee.finite 0) (Ieee.finite 0) (Ieee.finite (-0.976108)) (Ieee.finite 0.217286) i
      = Ieee.nan ∧
    Ieee.isfinite (quaternionCovFromEuler (nanPlatform atan asin sin cos)
        (Ieee.finite 3.04617e-06) (Ieee.finite 3.04617e-06) (Ieee.finite 3.04617e-06)
        (Ieee.finite 0) (Ieee.finite 0) (Ieee.finite (-0.976108)) (Ieee.finite 0.217286) i)
      = false := by
  have h : quaternionCovFromEuler (nanPlatform atan asin sin cos)
        (Ieee.finite 3.04617e-06) (Ieee.finite 3.04617e-06) (Ieee.finite 3.04617e-06)
        (Ieee.finite 0) (Ieee.finite 0) (Ieee.finite (-0.976108)) (Ieee.finite 0.217286) i
      = Ieee.nan := by
    simp [quaternionCovFromEuler, nanPlatform, Ieee.add_nan, Ieee.nan_add, Ieee.mul_nan,
      Ieee.nan_mul]
  rw [h]
  exact ⟨rfl, rfl⟩

end EulerCovarianceFacts

section WeightedSumFacts

variable {K : Type} [LinearOrderedField K]

theorem sum_map_range'_one {A : Type} [AddCommMonoid A] (g : Nat → A) (k : Nat) :
    ((List.range' 1 k).map g).sum = ∑ i in Finset.range k, g (i + 1) := by
  induction k with
  | zero => simp
  | succ k ih =>
    rw [List.range'_1_concat, List.map_append, List.sum_append, ih, Finset.sum_range_succ]
    simp [Nat.add_comm]

theorem smul_vecMulVec_left {n m : Nat} (w : K) (u : Fin n → K) (v : Fin m → K) :
    Matrix.vecMulVec (w • u) v = w • Matrix.vecMulVec u v := by
  ext i j
  simp [Matrix.vecMulVec_apply, mul_assoc]

theorem crossCovariance_eq {n m : Nat} (sigma_points : List (Fin n → K)) (mean : Fin n → K)
    (meas_sigma_points : List (Fin m → K)) (meas_mean : Fin m → K) (alpha beta lambda : K) :
    crossCovariance sigma_points mean meas_sigma_points meas_mean alpha beta lambda =
      (lambda / ((n : K) + lambda) + 1 - alpha ^ 2 + beta) •
          Matrix.vecMulVec (sigma_points.getD 0 0 - mean)
            (meas_sigma_points.getD 0 0 - meas_mean) +
        ∑ i in Finset.range (2 * n), (1 / (2 * ((n : K) + lambda))) •
          Matrix.vecMulVec (sigma_points.getD (i + 1) 0 - mean)
            (meas_sigma_points.getD (i + 1) 0 - meas_mean) := by
  unfold crossCovariance
  simp only []
  rw [foldl_add_range', sum_map_range'_one]
  simp only [smul_vecMulVec_left]
  congr 2
  ring

theorem covarianceFromSigmaPoints_eq {m : Nat} (sigma_points : List (Fin m → K))
    (mean : Fin m → K) (process_noise : Matrix (Fin m) (Fin m) K) (n : Nat)
    (alpha beta lambda : K) :
    covarianceFromSigmaPoints sigma_points mean process_noise n alpha beta lambda =
      (lambda / ((n : K) + lambda) + 1 - alpha ^ 2 + beta) •
          Matrix.vecMulVec (sigma_points.getD 0 0 - mean) (sigma_points.getD 0 0 - mean) +
        ∑ i in Finset.range (2 * n), (1 / (2 * ((n : K) + lambda))) •
          Matrix.vecMulVec (sigma_points.getD (i + 1) 0 - mean)
            (sigma_points.getD (i + 1) 0 - mean) +
        process_noise := by
  unfold covarianceFromSigmaPoints
  simp only []
  rw [foldl_add_range', sum_map_range'_one]
  simp only [smul_vecMulVec_left]
  congr 3
  ring

/-- C18: for every list of points (entry i read as in the code), mean, noise matrix and
scalars, covarianceFromSigmaPoints called with n = N returns
(lambda/(N+lambda) + 1 - alpha² + beta)·(p0-mean)(p0-mean)ᵗ
+ Σ_{i=1..2N} (1/(2(N+lambda)))·(pi-mean)(pi-mean)ᵗ + noise, the noise matrix being added
once. -/
theorem covarianceFromSigmaPoints_weighted_sum {m : Nat} (points : List (Fin m → K))
    (mean : Fin m → K) (noise : Matrix (Fin m) (Fin m) K) (N : Nat)
    (alpha beta lambda : K) :
    covarianceFromSigmaPoints points mean noise N alpha beta lambda =
      (lambda / ((N : K) + lambda) + 1 - alpha ^ 2 + beta) •
          Matrix.vecMulVec (points.getD 0 0 - mean) (points.getD 0 0 - mean) +
        ∑ i in Finset.range (2 * N), (1 / (2 * ((N : K) + lambda))) •
          Matrix.vecMulVec (points.getD (i + 1) 0 - mean) (points.getD (i + 1) 0 - mean) +
        noise :=
  covarianceFromSigmaPoints_eq points mean noise N alpha beta lambda

/-- C19: crossCovariance weighs like covarianceFromSigmaPoints with N the dimension of the
state points: on the same N-dimensional points and mean in both places it equals
covarianceFromSigmaPoints with zero noise and n = N, and in general it returns
Σ_i w_i·(pi-m)(yi-μ)ᵗ with w_0 = lambda/(N+lambda) + 1 - alpha² + beta and
w_i = 1/(2(N+lambda)) for i = 1..2N, whatever the measurement dimension M. -/
theorem crossCovariance_weighting {N M : Nat} (points : List (Fin N → K)) (m : Fin N → K)
    (measPoints : List (Fin M → K)) (measMean : Fin M → K) (alpha beta lambda : K) :
    crossCovariance points m points m alpha beta lambda =
      covarianceFromSigmaPoints points m 0 N alpha beta lambda ∧
    crossCovariance points m measPoints measMean alpha beta lambda =
      (lambda / ((N : K) + lambda) + 1 - alpha ^ 2 + beta) •
          Matrix.vecMulVec (points.getD 0 0 - m) (measPoints.getD 0 0 - measMean) +
        ∑ i in Finset.range (2 * N), (1 / (2 * ((N : K) + lambda))) •
          Matrix.vecMulVec (points.getD (i + 1) 0 - m)
            (measPoints.getD (i + 1) 0 - measMean) := by
  refine ⟨?_, crossCovariance_eq points m measPoints measMean alpha beta lambda⟩
  rw [crossCovariance_eq, covarianceFromSigmaPoints_eq, add_zero]

end WeightedSumFacts

section ConfigurationFacts

variable {K : Type} [LinearOrderedField K]

theorem foldl_setCoeff_range {n : Nat} (P : List K) (m0 : Matrix (Fin n) (Fin n) K)
    (k : Nat) (r c : Fin n) :
    ((List.range k).foldl (fun m i => setCoeff m i (P.getD i 0)) m0) r c =
      if (c : Nat) * n + (r : Nat) < k then P.getD ((c : Nat) * n + (r : Nat)) 0
      else m0 r c := by
  induction k with
  | zero => simp
  | succ k ih =>
    have key : ∀ (m : Matrix (Fin n) (Fin n) K) (v : K),
        setCoeff m k v r c = if (c : Nat) * n + (r : Nat) = k then v else m r c :=
      fun _ _ => rfl
    rw [List.range_succ, List.foldl_append, List.foldl_cons, List.foldl_nil, key, ih]
    by_cases h1 : (c : Nat) * n + (r : Nat) = k
    · rw [if_pos h1, if_pos (by omega), h1]
    · rw [if_neg h1]
      by_cases h2 : (c : Nat) * n + (r : Nat) < k
      · rw [if_pos h2, if_pos (by omega)]
      · rw [if_neg h2, if_neg (by omega)]

theorem linear_index_lt {n : Nat} (r c : Fin n) : (c : Nat) * n + (r : Nat) < n * n :=
  calc (c : Nat) * n + (r : Nat) < (c : Nat) * n + n := Nat.add_lt_add_left r.isLt _
    _ = ((c : Nat) + 1) * n := by ring
    _ ≤ n * n := Nat.mul_le_mul_right n c.isLt

theorem absolute_setInitialCovariance_full (est : GraftUKFAbsolute K) (P : List K)
    (hP : P.length = 13 * 13) (r c : Fin 13) :
    (est.setInitialCovariance P).graft_covariance_ r c = P.getD ((c : Nat) * 13 + (r : Nat)) 0 := by
  unfold GraftUKFAbsolute.setInitialCovariance
  simp only []
  rw [if_pos hP]
  simp only []
  rw [foldl_setCoeff_range, if_pos (by rw [hP]; exact linear_index_lt r c)]

theorem absolute_setProcessNoise_full (est : GraftUKFAbsolute K) (Q : List K)
    (hQ : Q.length = 13 * 13) (r c : Fin 13) :
    (est.setProcessNoise Q).Q_ r c = Q.getD ((c : Nat) * 13 + (r : Nat)) 0 := by
  unfold GraftUKFAbsolute.setProcessNoise
  simp only []
  rw [if_pos hQ]
  simp only []
  rw [foldl_setCoeff_range, if_pos (by rw [hQ]; exact linear_index_lt r c)]

theorem attitude_setInitialCovariance_full (est : GraftUKFAttitude K) (P : List K)
    (hP : P.length = 7 * 7) (r c : Fin 7) :
    (est.setInitialCovariance P).graft_covariance_ r c = P.getD ((c : Nat) * 7 + (r : Nat)) 0 := by
  unfold GraftUKFAttitude.setInitialCovariance
  simp only []
  rw [if_pos hP]
  simp only []
  rw [foldl_setCoeff_range, if_pos (by rw [hP]; exact linear_index_lt r c)]

theorem attitude_setProcessNoise_full (est : GraftUKFAttitude K) (Q : List K)
    (hQ : Q.length = 7 * 7) (r c : Fin 7) :
    (est.setProcessNoise Q).Q_ r c = Q.getD ((c : Nat) * 7 + (r : Nat)) 0 := by
  unfold GraftUKFAttitude.setProcessNoise
  simp only []
  rw [if_pos hQ]
  simp only []
  rw [foldl_setCoeff_range, if_pos (by rw [hQ]; exact linear_index_lt r c)]

/-- C11 as amended: for every vector P of exactly N² values, setInitialCovariance(P) copies
P into the covariance in Eigen's storage order, which is column-major: afterwards the
entry at row r, column c equals P[c·N + r] for all 0 ≤ r, c < N; setProcessNoise(Q) does the
same for the process-noise matrix, in the full-state and in the attitude-only filter. -/
theorem setInitialCovariance_setProcessNoise_column_major (a : GraftUKFAbsolute K)
    (b : GraftUKFAttitude K) (P Q P7 Q7 : List K)
    (hP : P.length = 13 * 13) (hQ : Q.length = 13 * 13)
    (hP7 : P7.length = 7 * 7) (hQ7 : Q7.length = 7 * 7) :
    (∀ r c : Fin 13,
      (a.setInitialCovariance P).graft_covariance_ r c = P.getD ((c : Nat) * 13 + (r : Nat)) 0) ∧
    (∀ r c : Fin 13,
      (a.setProcessNoise Q).Q_ r c = Q.getD ((c : Nat) * 13 + (r : Nat)) 0) ∧
    (∀ r c : Fin 7,
      (b.setInitialCovariance P7).graft_covariance_ r c = P7.getD ((c : Nat) * 7 + (r : Nat)) 0) ∧
    (∀ r c : Fin 7,
      (b.setProcessNoise Q7).Q_ r c = Q7.getD ((c : Nat) * 7 + (r : Nat)) 0) :=
  ⟨absolute_setInitialCovariance_full a P hP, absolute_setProcessNoise_full a Q hQ,
    attitude_setInitialCovariance_full b P7 hP7, attitude_setProcessNoise_full b Q7 hQ7⟩

/-- Witness of C11 as amended: the vectors 0, 1, ..., N² - 1. -/
theorem setInitialCovariance_setProcessNoise_column_major_witness :
    ((absoluteFilter 1 1000).setInitialCovariance
        ((List.range (13 * 13)).map (fun i : Nat => (i : ℚ)))).graft_covariance_ 0 1 = 13 := by
  have h := (setInitialCovariance_setProcessNoise_column_major (absoluteFilter 1 1000)
    (attitudeFilter 1 1000) ((List.range (13 * 13)).map (fun i : Nat => (i : ℚ)))
    ((List.range (13 * 13)).map (fun i : Nat => (i : ℚ)))
    ((List.range (7 * 7)).map (fun i : Nat => (i : ℚ)))
    ((List.range (7 * 7)).map (fun i : Nat => (i : ℚ)))
    (by simp) (by simp) (by simp) (by simp)).1 0 1
  rw [h]
  simp [List.getD_eq_getElem?_getD, List.getElem?_map, List.getElem?_range]

/-- Counterexample to C11 as stated: on the vector P = 0, 1, ..., 168 the entry at row 0,
column 1 of the covariance after setInitialCovariance(P) is P[13] = 13, not
P[0·13 + 1] = 1, so P is not read as a row-major block. -/
theorem setInitialCovariance_not_row_major :
    ¬ ∀ r c : Fin 13,
      ((absoluteFilter 1 1000).setInitialCovariance
          ((List.range (13 * 13)).map (fun i : Nat => (i : ℚ)))).graft_covariance_ r c =
        ((List.range (13 * 13)).map (fun i : Nat => (i : ℚ))).getD ((r : Nat) * 13 + (c : Nat)) 0 := by
  intro h
  have h1 := h 0 1
  rw [absolute_setInitialCovariance_full _ _ (by simp)] at h1
  simp [List.getD_eq_getElem?_getD, List.getElem?_map, List.getElem?_range] at h1

theorem nat_sqrt_size_absolute :
    Nat.sqrt (GraftUKFAbsolute.SIZE * GraftUKFAbsolute.SIZE) = 13 := Nat.sqrt_eq 13

theorem nat_sqrt_size_attitude :
    Nat.sqrt (GraftUKFAttitude.SIZE * GraftUKFAttitude.SIZE) = 7 := Nat.sqrt_eq 7

/-- C12 as amended: for every input vector whose length is neither N² nor N, the full-state
filter's setInitialCovariance and setProcessNoise both leave 0.1 times the identity; the
attitude-only filter's setProcessNoise leaves 0.1 times the identity and its
setInitialCovariance leaves the identity itself (scale 1).  Each result is a scaled
identity, but the two scales of the attitude-only filter differ. -/
theorem setInitialCovariance_setProcessNoise_fallback (a : GraftUKFAbsolute K)
    (b : GraftUKFAttitude K) (v v7 : List K)
    (hv1 : v.length ≠ 13 * 13) (hv2 : v.length ≠ 13)
    (hv71 : v7.length ≠ 7 * 7) (hv72 : v7.length ≠ 7) :
    (a.setInitialCovariance v).graft_covariance_ = (0.1 : K) • (1 : Matrix (Fin 13) (Fin 13) K) ∧
    (a.setProcessNoise v).Q_ = (0.1 : K) • (1 : Matrix (Fin 13) (Fin 13) K) ∧
    (b.setInitialCovariance v7).graft_covariance_ = (1 : Matrix (Fin 7) (Fin 7) K) ∧
    (b.setProcessNoise v7).Q_ = (0.1 : K) • (1 : Matrix (Fin 7) (Fin 7) K) := by
  refine ⟨?_, ?_, ?_, ?_⟩
  · unfold GraftUKFAbsolute.setInitialCovariance
    simp only [nat_sqrt_size_absolute]
    rw [if_neg hv1, if_neg hv2]
  · unfold GraftUKFAbsolute.setProcessNoise
    simp only [nat_sqrt_size_absolute]
    rw [if_neg hv1, if_neg hv2]
  · unfold GraftUKFAttitude.setInitialCovariance
    simp only [nat_sqrt_size_attitude]
    rw [if_neg hv71, if_neg hv72]
  · unfold GraftUKFAttitude.setProcessNoise
    simp only [nat_sqrt_size_attitude]
    rw [if_neg hv71, if_neg hv72]

/-- Witness of C12 as amended: the empty vector. -/
theorem setInitialCovariance_setProcessNoise_fallback_witness :
    ((absoluteFilter 1 1000).setInitialCovariance []).graft_covariance_
        = (0.1 : ℚ) • (1 : Matrix (Fin 13) (Fin 13) ℚ) ∧
    ((attitudeFilter 1 1000).setInitialCovariance []).graft_covariance_
        = (1 : Matrix (Fin 7) (Fin 7) ℚ) :=
  ⟨(setInitialCovariance_setProcessNoise_fallback (absoluteFilter 1 1000)
      (attitudeFilter 1 1000) [] [] (by simp) (by simp) (by simp) (by simp)).1,
    (setInitialCovariance_setProcessNoise_fallback (absoluteFilter 1 1000)
      (attitudeFilter 1 1000) [] [] (by simp) (by simp) (by simp) (by simp)).2.2.1⟩

/-- Counterexample to C12 as stated: on the empty vector the attitude-only filter's
setInitialCovariance leaves the identity, whose entry (0, 0) is 1, while its
setProcessNoise leaves 0.1 times the identity, whose entry (0, 0) is 0.1: the two setters
do not leave the same matrix. -/
theorem attitude_fallback_matrices_differ :
    ((attitudeFilter 1 1000).setInitialCovariance []).graft_covariance_ ≠
      ((attitudeFilter 1 1000).setProcessNoise []).Q_ := by
  intro h
  have h0 := congrFun (congrFun h 0) 0
  unfold GraftUKFAttitude.setInitialCovariance GraftUKFAttitude.setProcessNoise at h0
  simp only [nat_sqrt_size_attitude] at h0
  norm_num at h0

end ConfigurationFacts

section CorrectionFacts

variable {K : Type} [LinearOrderedField K]

theorem absolute_body_eq_commit (env : Platform K) (est : GraftUKFAbsolute K) (dt : K)
    (topics : List (GraftSensor K)) (hd : derefTopics est.topics_ = some topics) :
    GraftUKFAbsolute.predictAndUpdateBody env est dt =
      match est.correction env topics dt with
      | none => some (0, est)
      | some c => some (dt, est.commit env c topics) := by
  unfold GraftUKFAbsolute.predictAndUpdateBody GraftUKFAbsolute.correction
  simp only [hd]
  split_ifs with h
  · rfl
  · rfl

theorem attitude_body_eq_commit (env : Platform K) (est : GraftUKFAttitude K) (dt : K)
    (topics : List (GraftSensor K)) (hd : derefTopics est.topics_ = some topics) :
    GraftUKFAttitude.predictAndUpdateBody env est dt =
      match est.correction env topics dt with
      | none => some (0, est)
      | some c => some (dt, est.commit env c topics) := by
  unfold GraftUKFAttitude.predictAndUpdateBody GraftUKFAttitude.correction
  simp only [hd]
  split_ifs with h
  · rfl
  · rfl

theorem absolute_cycle_cases (env : Platform K) (est : GraftUKFAbsolute K) (t : K) :
    (est.committedCorrection env t = none ∧
      (est.predictAndUpdate env t = none ∨ est.predictAndUpdate env t = some (0, est) ∨
        est.predictAndUpdate env t = some (0, { est with last_update_time_ := t }))) ∨
    (∃ c topics dt, est.committedCorrection env t = some c ∧
      derefTopics est.topics_ = some topics ∧
      est.predictAndUpdate env t =
        some (dt, GraftUKFAbsolute.commit env { est with last_update_time_ := t } c topics)) := by
  unfold GraftUKFAbsolute.predictAndUpdate GraftUKFAbsolute.committedCorrection
  by_cases h1 : noFirstTopic est.topics_ = true
  · left
    simp [h1]
  by_cases h2 : est.diverged_ = true
  · left
    simp [h1, h2]
  by_cases h3 : est.last_update_time_ < 0.0001
  · left
    simp [h1, h2, h3]
  simp only [if_neg h1, if_neg h2, if_neg h3]
  cases hd : derefTopics est.topics_ with
  | none =>
    left
    refine ⟨rfl, Or.inl ?_⟩
    unfold GraftUKFAbsolute.predictAndUpdateBody
    simp only [hd]
  | some topics =>
    rw [absolute_body_eq_commit env { est with last_update_time_ := t } _ topics hd]
    simp only []
    cases hc : GraftUKFAbsolute.correction env { est with last_update_time_ := t } topics
        (if t - est.last_update_time_ > GraftUKFAbsolute.expected_interval_ * 2
          then GraftUKFAbsolute.expected_interval_ * 2.0 else t - est.last_update_time_) with
    | none => exact Or.inl ⟨rfl, Or.inr (Or.inr rfl)⟩
    | some c => exact Or.inr ⟨c, topics, _, rfl, rfl, rfl⟩

theorem attitude_cycle_cases (env : Platform K) (est : GraftUKFAttitude K) (t : K) :
    (est.committedCorrection env t = none ∧
      (est.predictAndUpdate env t = none ∨ est.predictAndUpdate env t = some (0, est) ∨
        est.predictAndUpdate env t = some (0, { est with last_update_time_ := t }))) ∨
    (∃ c topics dt, est.committedCorrection env t = some c ∧
      derefTopics est.topics_ = some topics ∧
      est.predictAndUpdate env t =
        some (dt, GraftUKFAttitude.commit env { est with last_update_time_ := t } c topics)) := by
  unfold GraftUKFAttitude.predictAndUpdate GraftUKFAttitude.committedCorrection
  by_cases h1 : noFirstTopic est.topics_ = true
  · left
    simp [h1]
  by_cases h2 : est.diverged_ = true
  · left
    simp [h1, h2]
  by_cases h3 : est.last_update_time_ < 0.0001
  · left
    simp [h1, h2, h3]
  simp only [if_neg h1, if_neg h2, if_neg h3]
  cases hd : derefTopics est.topics_ with
  | none =>
    left
    refine ⟨rfl, Or.inl ?_⟩
    unfold GraftUKFAttitude.predictAndUpdateBody
    simp only [hd]
  | some topics =>
    rw [attitude_body_eq_commit env { est with last_update_time_ := t } _ topics hd]
    simp only []
    cases hc : GraftUKFAttitude.correction env { est with last_update_time_ := t } topics
        (t - est.last_update_time_) with
    | none => exact Or.inl ⟨rfl, Or.inr (Or.inr rfl)⟩
    | some c => exact Or.inr ⟨c, topics, _, rfl, rfl, rfl⟩

theorem absolute_correction_of_active (env : Platform K) (est : GraftUKFAbsolute K)
    (topics : List (GraftSensor K)) (dt : K)
    (hz : ∀ pts, (GraftUKFAbsolute.getMeasurements env topics pts).actual_measurement ≠ []) :
    ∃ c, est.correction env topics dt = some c := by
  unfold GraftUKFAbsolute.correction
  simp only []
  rw [if_neg (fun h => hz _ (List.length_eq_zero.1 h))]
  exact ⟨_, rfl⟩

theorem attitude_correction_of_active (env : Platform K) (est : GraftUKFAttitude K)
    (topics : List (GraftSensor K)) (dt : K)
    (hz : ∀ pts, (GraftUKFAttitude.getMeasurements env topics pts).actual_measurement ≠ []) :
    ∃ c, est.correction env topics dt = some c := by
  unfold GraftUKFAttitude.correction
  simp only []
  rw [if_neg (fun h => hz _ (List.length_eq_zero.1 h))]
  exact ⟨_, rfl⟩

theorem absolute_committedCorrection_of_active (env : Platform K) (est : GraftUKFAbsolute K)
    (t : K) (s : GraftSensor K) (rest : List (Option (GraftSensor K)))
    (topics : List (GraftSensor K))
    (htopics : est.topics_ = some s :: rest) (hdiv : est.diverged_ = false)
    (htime : ¬ est.last_update_time_ < 0.0001)
    (hd : derefTopics est.topics_ = some topics)
    (hz : ∀ pts, (GraftUKFAbsolute.getMeasurements env topics pts).actual_measurement ≠ []) :
    ∃ c, est.committedCorrection env t = some c := by
  unfold GraftUKFAbsolute.committedCorrection
  simp only [htopics, noFirstTopic, hdiv, htime, if_false, Bool.false_eq_true]
  rw [← htopics, hd]
  exact absolute_correction_of_active env _ topics _ hz

theorem attitude_committedCorrection_of_active (env : Platform K) (est : GraftUKFAttitude K)
    (t : K) (s : GraftSensor K) (rest : List (Option (GraftSensor K)))
    (topics : List (GraftSensor K))
    (htopics : est.topics_ = some s :: rest) (hdiv : est.diverged_ = false)
    (htime : ¬ est.last_update_time_ < 0.0001)
    (hd : derefTopics est.topics_ = some topics)
    (hz : ∀ pts, (GraftUKFAttitude.getMeasurements env topics pts).actual_measurement ≠ []) :
    ∃ c, est.committedCorrection env t = some c := by
  unfold GraftUKFAttitude.committedCorrection
  simp only [htopics, noFirstTopic, hdiv, htime, if_false, Bool.false_eq_true]
  rw [← htopics, hd]
  exact attitude_correction_of_active env _ topics _ hz

theorem clearMessages_cleared {F : Type} (topics : List (GraftSensor F)) :
    ∀ o ∈ (topics.map GraftSensor.clearMessage).map some,
      ∃ s : GraftSensor F, o = some s ∧ s.z = none := by
  intro o ho
  simp only [List.map_map, List.mem_map, Function.comp] at ho
  obtain ⟨s, _, rfl⟩ := ho
  exact ⟨s.clearMessage, rfl, rfl⟩

theorem absolute_sensorWith_one_active (pts : List (Fin 13 → ℚ)) :
    (GraftUKFAbsolute.getMeasurements testPlatform [sensorWith 1] pts).actual_measurement
      ≠ [] := by
  norm_num [GraftUKFAbsolute.getMeasurements, GraftUKFAbsolute.getMeasurementsTopic,
    sensorWith, sampleWith, Measurements.addChannel, addElementToVector, testPlatform]
  exact List.cons_ne_nil _ _

theorem attitude_sensorWith_one_active (pts : List (Fin 7 → ℚ)) :
    (GraftUKFAttitude.getMeasurements testPlatform [sensorWith 1] pts).actual_measurement
      ≠ [] := by
  norm_num [GraftUKFAttitude.getMeasurements, GraftUKFAttitude.getMeasurementsTopic,
    sensorWith, sampleWith, Measurements.addChannel, addElementToVector]
  exact List.cons_ne_nil _ _

/-- Counterexample to C13 as stated: the full-state filter last updated at time 1000, with
one sensor whose pending sample has variance 0 on every channel, is called at time 1001.
The call reaches measurement aggregation, finds no active channel, returns 0, and the
sensor still holds its pending sample afterwards: it was not cleared. -/
theorem predictAndUpdate_keeps_sample_without_measurement :
    ∃ est', (absoluteFilter 0 1000).predictAndUpdate testPlatform 1001 = some (0, est') ∧
      est'.topics_ = [some (sensorWith 0)] ∧
      (sensorWith (0 : ℚ)).z = some (sampleWith 0) := by
  refine ⟨{ absoluteFilter 0 1000 with last_update_time_ := 1001 }, ?_, rfl, rfl⟩
  have hq : ∀ topic ∈ [sensorWith (0 : ℚ)], ∀ meas, topic.z = some meas →
      GraftUKFAbsolute.Inactive meas := by
    intro topic htopic meas hz
    simp only [List.mem_singleton] at htopic
    subst htopic
    simp only [sensorWith, Option.some.injEq] at hz
    subst hz
    norm_num [GraftUKFAbsolute.Inactive, sampleWith]
  have hbody : GraftUKFAbsolute.predictAndUpdateBody testPlatform
      { absoluteFilter 0 1000 with last_update_time_ := 1001 } 0.2
      = some (0, { absoluteFilter 0 1000 with last_update_time_ := 1001 }) := by
    unfold GraftUKFAbsolute.predictAndUpdateBody
    have hd : derefTopics ({ absoluteFilter 0 1000 with last_update_time_ := 1001 } :
        GraftUKFAbsolute ℚ).topics_ = some [sensorWith 0] := rfl
    simp only [hd]
    rw [if_pos]
    rw [absolute_getMeasurements_inactive testPlatform [sensorWith 0] _ hq]
    rfl
  rw [← hbody]
  norm_num [GraftUKFAbsolute.predictAndUpdate, absoluteFilter, noFirstTopic,
    GraftUKFAbsolute.new, GraftUKFAbsolute.expected_interval_]

theorem covarianceFromSigmaPoints_isSymm {m : Nat} (sigma_points : List (Fin m → K))
    (mean : Fin m → K) (noise : Matrix (Fin m) (Fin m) K) (n : Nat) (alpha beta lambda : K)
    (hnoise : noise.IsSymm) :
    (covarianceFromSigmaPoints sigma_points mean noise n alpha beta lambda).IsSymm := by
  rw [covarianceFromSigmaPoints_eq]
  apply Matrix.IsSymm.ext
  intro i j
  simp only [Matrix.add_apply, Matrix.smul_apply, Matrix.sum_apply, Matrix.vecMulVec_apply,
    smul_eq_mul, hnoise.apply i j]
  congr 2
  · ring
  · apply Finset.sum_congr rfl
    intro k _
    ring

theorem sub_mul_mul_transpose_isSymm {n m : Nat} (P : Matrix (Fin n) (Fin n) K)
    (S : Matrix (Fin m) (Fin m) K) (G : Matrix (Fin n) (Fin m) K) (hP : P.IsSymm)
    (hS : S.IsSymm) : (P - G * S * G.transpose).IsSymm := by
  apply Matrix.IsSymm.sub hP
  unfold Matrix.IsSymm
  rw [Matrix.transpose_mul, Matrix.transpose_mul, Matrix.transpose_transpose, hS.eq,
    Matrix.mul_assoc]

theorem hasNonFinite_iff {F : Type} (env : Platform F) {n : Nat}
    (m : Matrix (Fin n) (Fin n) F) :
    hasNonFinite env m = true ↔ ∃ i j, env.isfinite (m i j) = false := by
  unfold hasNonFinite
  simp [List.any_eq_true, List.mem_finRange]

theorem absolute_correction_fields (env : Platform K) (est : GraftUKFAbsolute K)
    (topics : List (GraftSensor K)) (dt : K) (c : Correction K 13)
    (h : est.correction env topics dt = some c) :
    (est.Q_.IsSymm → c.predicted_covariance.IsSymm) ∧
    c.predicted_measurement_uncertainty.IsSymm ∧
    c.K_ = c.cross_covariance * env.luInverse c.predicted_measurement_uncertainty ∧
    c.graft_state = c.predicted_mean + c.K_.mulVec (c.z - c.predicted_measurement) ∧
    c.graft_covariance =
      c.predicted_covariance - c.K_ * c.predicted_measurement_uncertainty * c.K_.transpose := by
  unfold GraftUKFAbsolute.correction at h
  simp only [] at h
  split_ifs at h with hz
  injection h with h
  subst h
  exact ⟨fun hQ => covarianceFromSigmaPoints_isSymm _ _ _ _ _ _ _ hQ,
    covarianceFromSigmaPoints_isSymm _ _ _ _ _ _ _ (Matrix.isSymm_diagonal _), rfl, rfl, rfl⟩

theorem attitude_correction_fields (env : Platform K) (est : GraftUKFAttitude K)
    (topics : List (GraftSensor K)) (dt : K) (c : Correction K 7)
    (h : est.correction env topics dt = some c) :
    (est.Q_.IsSymm → c.predicted_covariance.IsSymm) ∧
    c.predicted_measurement_uncertainty.IsSymm ∧
    c.K_ = c.cross_covariance * env.luInverse c.predicted_measurement_uncertainty ∧
    c.graft_state = c.predicted_mean + c.K_.mulVec (c.z - c.predicted_measurement) ∧
    c.graft_covariance =
      c.predicted_covariance - c.K_ * c.predicted_measurement_uncertainty * c.K_.transpose := by
  unfold GraftUKFAttitude.correction at h
  simp only [] at h
  split_ifs at h with hz
  injection h with h
  subst h
  exact ⟨fun hQ => covarianceFromSigmaPoints_isSymm _ _ _ _ _ _ _ hQ,
    covarianceFromSigmaPoints_isSymm _ _ _ _ _ _ _ (Matrix.isSymm_diagonal _), rfl, rfl, rfl⟩

theorem absolute_committedCorrection_some (env : Platform K) (est : GraftUKFAbsolute K)
    (t : K) (c : Correction K 13) (h : est.committedCorrection env t = some c) :
    ∃ topics dt, GraftUKFAbsolute.correction env { est with last_update_time_ := t } topics dt
      = some c := by
  unfold GraftUKFAbsolute.committedCorrection at h
  by_cases h1 : noFirstTopic est.topics_ = true
  · simp [h1] at h
  by_cases h2 : est.diverged_ = true
  · simp [h1, h2] at h
  by_cases h3 : est.last_update_time_ < 0.0001
  · simp [h1, h2, h3] at h
  simp only [if_neg h1, if_neg h2, if_neg h3] at h
  cases hd : derefTopics est.topics_ with
  | none => simp [hd] at h
  | some topics =>
    simp only [hd] at h
    exact ⟨topics, _, h⟩

theorem attitude_committedCorrection_some (env : Platform K) (est : GraftUKFAttitude K)
    (t : K) (c : Correction K 7) (h : est.committedCorrection env t = some c) :
    ∃ topics dt, GraftUKFAttitude.correction env { est with last_update_time_ := t } topics dt
      = some c := by
  unfold GraftUKFAttitude.committedCorrection at h
  by_cases h1 : noFirstTopic est.topics_ = true
  · simp [h1] at h
  by_cases h2 : est.diverged_ = true
  · simp [h1, h2] at h
  by_cases h3 : est.last_update_time_ < 0.0001
  · simp [h1, h2, h3] at h
  simp only [if_neg h1, if_neg h2, if_neg h3] at h
  cases hd : derefTopics est.topics_ with
  | none => simp [hd] at h
  | some topics =>
    simp only [hd] at h
    exact ⟨topics, _, h⟩

theorem absolute_committed_result (env : Platform K) (est : GraftUKFAbsolute K) (t : K)
    (c : Correction K 13) (h : est.committedCorrection env t = some c) :
    ∃ topics dt, derefTopics est.topics_ = some topics ∧
      est.predictAndUpdate env t =
        some (dt, GraftUKFAbsolute.commit env { est with last_update_time_ := t } c topics) := by
  rcases absolute_cycle_cases env est t with ⟨hnone, _⟩ | ⟨c', topics, dt, hc', hd, hp⟩
  · rw [h] at hnone
    exact absurd hnone (by simp)
  · rw [h] at hc'
    obtain rfl : c = c' := Option.some.inj hc'
    exact ⟨topics, dt, hd, hp⟩

theorem attitude_committed_result (env : Platform K) (est : GraftUKFAttitude K) (t : K)
    (c : Correction K 7) (h : est.committedCorrection env t = some c) :
    ∃ topics dt, derefTopics est.topics_ = some topics ∧
      est.predictAndUpdate env t =
        some (dt, GraftUKFAttitude.commit env { est with last_update_time_ := t } c topics) := by
  rcases attitude_cycle_cases env est t with ⟨hnone, _⟩ | ⟨c', topics, dt, hc', hd, hp⟩
  · rw [h] at hnone
    exact absurd hnone (by simp)
  · rw [h] at hc'
    obtain rfl : c = c' := Option.some.inj hc'
    exact ⟨topics, dt, hd, hp⟩

/-- C16: in both variants, after every predictAndUpdate call that commits a correction the
divergence flag is true if and only if it was true before or some entry of the covariance
just committed is not finite; hence a false flag after a committing cycle implies that
every entry of the covariance is finite. -/
theorem committed_divergence_flag (env : Platform K) (t : K)
    (a : GraftUKFAbsolute K) (ca : Correction K 13)
    (b : GraftUKFAttitude K) (cb : Correction K 7)
    (ha : a.committedCorrection env t = some ca)
    (hb : b.committedCorrection env t = some cb) :
    (∃ r a', a.predictAndUpdate env t = some (r, a') ∧
      a'.graft_covariance_ = ca.graft_covariance ∧
      (a'.diverged_ = true ↔
        a.diverged_ = true ∨ ∃ i j, env.isfinite (a'.graft_covariance_ i j) = false) ∧
      (a'.diverged_ = false → ∀ i j, env.isfinite (a'.graft_covariance_ i j) = true)) ∧
    (∃ r b', b.predictAndUpdate env t = some (r, b') ∧
      b'.graft_covariance_ = cb.graft_covariance ∧
      (b'.diverged_ = true ↔
        b.diverged_ = true ∨ ∃ i j, env.isfinite (b'.graft_covariance_ i j) = false) ∧
      (b'.diverged_ = false → ∀ i j, env.isfinite (b'.graft_covariance_ i j) = true)) := by
  constructor
  · obtain ⟨topics, dt, _, hp⟩ := absolute_committed_result env a t ca ha
    have hflag : (GraftUKFAbsolute.commit env { a with last_update_time_ := t } ca
        topics).diverged_ = true ↔
        a.diverged_ = true ∨ ∃ i j, env.isfinite (ca.graft_covariance i j) = false := by
      show (a.diverged_ || hasNonFinite env ca.graft_covariance) = true ↔ _
      rw [Bool.or_eq_true, hasNonFinite_iff]
    refine ⟨dt, _, hp, rfl, hflag, ?_⟩
    intro hfalse i j
    by_contra hne
    have : (GraftUKFAbsolute.commit env { a with last_update_time_ := t } ca
        topics).diverged_ = true :=
      hflag.2 (Or.inr ⟨i, j, by simpa using hne⟩)
    rw [hfalse] at this
    exact Bool.false_ne_true this
  · obtain ⟨topics, dt, _, hp⟩ := attitude_committed_result env b t cb hb
    have hflag : (GraftUKFAttitude.commit env { b with last_update_time_ := t } cb
        topics).diverged_ = true ↔
        b.diverged_ = true ∨ ∃ i j, env.isfinite (cb.graft_covariance i j) = false := by
      show (b.diverged_ || hasNonFinite env cb.graft_covariance) = true ↔ _
      rw [Bool.or_eq_true, hasNonFinite_iff]
    refine ⟨dt, _, hp, rfl, hflag, ?_⟩
    intro hfalse i j
    by_contra hne
    have : (GraftUKFAttitude.commit env { b with last_update_time_ := t } cb
        topics).diverged_ = true :=
      hflag.2 (Or.inr ⟨i, j, by simpa using hne⟩)
    rw [hfalse] at this
    exact Bool.false_ne_true this

/-- Witness of C16: filters last updated at time 1000 with one sensor whose sample is
active, called at time 1001 on a platform where every number is finite: the flag stays
false. -/
theorem committed_divergence_flag_witness :
    (∃ r a', (absoluteFilter 1 1000).predictAndUpdate testPlatform 1001 = some (r, a') ∧
      a'.diverged_ = false) ∧
    (∃ r b', (attitudeFilter 1 1000).predictAndUpdate testPlatform 1001 = some (r, b') ∧
      b'.diverged_ = false) := by
  obtain ⟨ca, hca⟩ := absolute_committedCorrection_of_active testPlatform
    (absoluteFilter 1 1000) 1001 (sensorWith 1) [] [sensorWith 1] rfl rfl
    (by norm_num [absoluteFilter]) rfl absolute_sensorWith_one_active
  obtain ⟨cb, hcb⟩ := attitude_committedCorrection_of_active testPlatform
    (attitudeFilter 1 1000) 1001 (sensorWith 1) [] [sensorWith 1] rfl rfl
    (by norm_num [attitudeFilter]) rfl attitude_sensorWith_one_active
  have h := committed_divergence_flag testPlatform 1001 (absoluteFilter 1 1000) ca
    (attitudeFilter 1 1000) cb hca hcb
  obtain ⟨⟨r, a', h1, _, h2, _⟩, ⟨r', b', h3, _, h4, _⟩⟩ := h
  refine ⟨⟨r, a', h1, ?_⟩, ⟨r', b', h3, ?_⟩⟩
  · cases hd : a'.diverged_ with
    | false => rfl
    | true =>
      rcases h2.1 hd with h0 | ⟨i, j, hij⟩
      · exact absurd h0 (by simp [absoluteFilter, GraftUKFAbsolute.new])
      · exact absurd hij (by simp [testPlatform])
  · cases hd : b'.diverged_ with
    | false => rfl
    | true =>
      rcases h4.1 hd with h0 | ⟨i, j, hij⟩
      · exact absurd h0 (by simp [attitudeFilter, GraftUKFAttitude.new])
      · exact absurd hij (by simp [testPlatform])

end CorrectionFacts

section InvariantFacts

theorem absolute_setter_state {K : Type} [LinearOrderedField K] (est : GraftUKFAbsolute K)
    (v : List K) :
    (est.setInitialCovariance v).graft_state_ = est.graft_state_ ∧
    (est.setProcessNoise v).graft_state_ = est.graft_state_ := by
  unfold GraftUKFAbsolute.setInitialCovariance GraftUKFAbsolute.setProcessNoise
  simp only []
  constructor <;> split_ifs <;> rfl

theorem attitude_setter_state {K : Type} [LinearOrderedField K] (est : GraftUKFAttitude K)
    (v : List K) :
    (est.setInitialCovariance v).graft_state_ = est.graft_state_ ∧
    (est.setProcessNoise v).graft_state_ = est.graft_state_ := by
  unfold GraftUKFAttitude.setInitialCovariance GraftUKFAttitude.setProcessNoise
  simp only []
  constructor <;> split_ifs <;> rfl

theorem absolute_uncommitted_state {K : Type} [LinearOrderedField K] (env : Platform K)
    (est : GraftUKFAbsolute K) (t r : K) (est' : GraftUKFAbsolute K)
    (hc : est.committedCorrection env t = none)
    (hp : est.predictAndUpdate env t = some (r, est')) :
    est'.graft_state_ = est.graft_state_ := by
  rcases absolute_cycle_cases env est t with ⟨_, h | h | h⟩ | ⟨c, _, _, hc', _, _⟩
  · rw [h] at hp
    exact absurd hp (by simp)
  · rw [h] at hp
    obtain ⟨_, rfl⟩ := Prod.mk.inj (Option.some.inj hp)
    rfl
  · rw [h] at hp
    obtain ⟨_, rfl⟩ := Prod.mk.inj (Option.some.inj hp)
    rfl
  · rw [hc] at hc'
    exact absurd hc' (by simp)

theorem attitude_uncommitted_state {K : Type} [LinearOrderedField K] (env : Platform K)
    (est : GraftUKFAttitude K) (t r : K) (est' : GraftUKFAttitude K)
    (hc : est.committedCorrection env t = none)
    (hp : est.predictAndUpdate env t = some (r, est')) :
    est'.graft_state_ = est.graft_state_ := by
  rcases attitude_cycle_cases env est t with ⟨_, h | h | h⟩ | ⟨c, _, _, hc', _, _⟩
  · rw [h] at hp
    exact absurd hp (by simp)
  · rw [h] at hp
    obtain ⟨_, rfl⟩ := Prod.mk.inj (Option.some.inj hp)
    rfl
  · rw [h] at hp
    obtain ⟨_, rfl⟩ := Prod.mk.inj (Option.some.inj hp)
    rfl
  · rw [hc] at hc'
    exact absurd hc' (by simp)

end InvariantFacts

section CommittingExample

variable {K : Type} [LinearOrderedField K]

theorem generateSigmaPoints_of_llt_zero (env : Platform K) {n : Nat} (mean : Fin n → K)
    (covariance : Matrix (Fin n) (Fin n) K) (lambda : K) (hllt : env.llt covariance = 0) :
    generateSigmaPoints env mean covariance lambda = List.replicate (2 * n + 1) mean := by
  rw [generateSigmaPoints_eq, hllt]
  have h : ∀ l : List (Fin n), l.map (fun _ => mean) = List.replicate l.length mean := by
    intro l
    induction l with
    | nil => rfl
    | cons a l ih => simp [List.replicate_succ, ih]
  have hz : (fun r : Fin n => (0 : K)) = 0 := rfl
  simp only [smul_zero, Matrix.zero_apply, hz, add_zero, sub_zero, h, List.length_finRange]
  rw [← List.replicate_add, ← List.replicate_succ]
  congr 1
  omega

theorem getD_replicate_of_lt {A : Type} (k i : Nat) (p d : A) (hi : i < k) :
    (List.replicate k p).getD i d = p := by
  simp [List.getD_eq_getElem?_getD, List.getElem?_replicate, hi]

theorem meanFromSigmaPoints_replicate {m : Nat} (p : Fin m → K) (n : Nat) (lambda : K)
    (hne : (n : K) + lambda ≠ 0) :
    meanFromSigmaPoints (List.replicate (2 * n + 1) p) n lambda = p := by
  rw [meanFromSigmaPoints_eq]
  have hpt : ∀ i ∈ List.range' 1 (2 * n),
      (fun i => (1 / (2 * ((n : K) + lambda))) • (List.replicate (2 * n + 1) p).getD i 0) i =
        (fun _ => (1 / (2 * ((n : K) + lambda))) • p) i := by
    intro i hi
    have hlt : i < 2 * n + 1 := by
      rcases List.mem_range'.1 hi with ⟨j, hj, rfl⟩
      omega
    simp only [getD_replicate_of_lt _ _ _ _ hlt]
  rw [List.map_congr_left hpt, getD_replicate_of_lt _ _ _ _ (by omega), List.map_const',
    List.sum_replicate, List.length_range']
  funext r
  simp only [Pi.add_apply, Pi.smul_apply, smul_eq_mul, nsmul_eq_mul, Nat.cast_mul,
    Nat.cast_ofNat]
  field_simp
  ring

theorem crossCovariance_replicate_mean {n m : Nat} (mean : Fin n → K)
    (ys : List (Fin m → K)) (mu : Fin m → K) (alpha beta lambda : K) :
    crossCovariance (List.replicate (2 * n + 1) mean) mean ys mu alpha beta lambda = 0 := by
  rw [crossCovariance_eq, getD_replicate_of_lt _ _ _ _ (by omega)]
  have hterm : ∀ i ∈ Finset.range (2 * n), (1 / (2 * ((n : K) + lambda))) •
      Matrix.vecMulVec ((List.replicate (2 * n + 1) mean).getD (i + 1) 0 - mean)
        (ys.getD (i + 1) 0 - mu) = 0 := by
    intro i hi
    rw [getD_replicate_of_lt _ _ _ _ (by have := Finset.mem_range.1 hi; omega), sub_self]
    ext r c
    simp [Matrix.vecMulVec_apply]
  rw [Finset.sum_eq_zero hterm, sub_self]
  ext r c
  simp [Matrix.vecMulVec_apply]

theorem quaternionUpdateMatrix_zero : quaternionUpdateMatrix (0 : K) 0 0 = 0 := by
  unfold quaternionUpdateMatrix
  simp only [neg_zero]
  ext i j
  fin_cases i <;> fin_cases j <;> rfl

theorem updatedQuaternion_zero_rates (env : Platform K) (hs0 : env.sqrt 0 = 0)
    (q : Fin 4 → K) (dt : K) : updatedQuaternion env q 0 0 0 dt = q := by
  unfold updatedQuaternion
  simp [hs0, quaternionUpdateMatrix_zero]

theorem absolute_f_rest (env : Platform K) (hs0 : env.sqrt 0 = 0) (dt : K) :
    GraftUKFAbsolute.f env (fun i => if i = 3 then 1 else 0) dt
      = fun i => if i = 3 then 1 else 0 := by
  funext i
  unfold GraftUKFAbsolute.f
  fin_cases i <;>
    simp [transformVelocitites, tfRotate, updatedQuaternion_zero_rates env hs0] <;> rfl

theorem attitude_f_rest (env : Platform K) (hs0 : env.sqrt 0 = 0) (dt : K) :
    GraftUKFAttitude.f env (fun i => if i = 0 then 1 else 0) dt
      = fun i => if i = 0 then 1 else 0 := by
  funext i
  unfold GraftUKFAttitude.f
  fin_cases i <;> simp [updatedQuaternion_zero_rates env hs0] <;> rfl

set_option maxRecDepth 8192 in
theorem absolute_correction_prediction (env : Platform K) (est : GraftUKFAbsolute K)
    (topics : List (GraftSensor K)) (dt : K) (c : Correction K 13)
    (h : est.correction env topics dt = some c) :
    c.predicted_mean = meanFromSigmaPoints (GraftUKFAbsolute.predict_sigma_points env
        (generateSigmaPoints env est.graft_state_ est.graft_covariance_
          (est.alpha_ * est.alpha_ * (((13 : Nat) : K) + est.kappa_) - ((13 : Nat) : K))) dt) 13
        (est.alpha_ * est.alpha_ * (((13 : Nat) : K) + est.kappa_) - ((13 : Nat) : K)) ∧
    c.predicted_covariance = covarianceFromSigmaPoints
        (GraftUKFAbsolute.predict_sigma_points env
          (generateSigmaPoints env est.graft_state_ est.graft_covariance_
            (est.alpha_ * est.alpha_ * (((13 : Nat) : K) + est.kappa_) - ((13 : Nat) : K))) dt)
        c.predicted_mean est.Q_ 13 est.alpha_ est.beta_
        (est.alpha_ * est.alpha_ * (((13 : Nat) : K) + est.kappa_) - ((13 : Nat) : K)) ∧
    c.observation_sigma_points = generateSigmaPoints env c.predicted_mean
        c.predicted_covariance
        (est.alpha_ * est.alpha_ * (((13 : Nat) : K) + est.kappa_) - ((13 : Nat) : K)) ∧
    c.predicted_measurement = meanFromSigmaPoints c.predicted_observation_sigma_points 13
        (est.alpha_ * est.alpha_ * (((13 : Nat) : K) + est.kappa_) - ((13 : Nat) : K)) ∧
    c.predicted_measurement_uncertainty = covarianceFromSigmaPoints
        c.predicted_observation_sigma_points c.predicted_measurement c.measurement_noise 13
        est.alpha_ est.beta_
        (est.alpha_ * est.alpha_ * (((13 : Nat) : K) + est.kappa_) - ((13 : Nat) : K)) ∧
    c.cross_covariance = crossCovariance c.observation_sigma_points c.predicted_mean
        c.predicted_observation_sigma_points c.predicted_measurement est.alpha_ est.beta_
        (est.alpha_ * est.alpha_ * (((13 : Nat) : K) + est.kappa_) - ((13 : Nat) : K)) := by
  unfold GraftUKFAbsolute.correction at h
  simp only [] at h
  split_ifs at h with hz
  injection h with h
  subst h
  exact ⟨rfl, rfl, rfl, rfl, rfl, rfl⟩

set_option maxRecDepth 8192 in
theorem attitude_correction_prediction (env : Platform K) (est : GraftUKFAttitude K)
    (topics : List (GraftSensor K)) (dt : K) (c : Correction K 7)
    (h : est.correction env topics dt = some c) :
    c.predicted_mean = meanFromSigmaPoints (GraftUKFAttitude.predict_sigma_points env
        (generateSigmaPoints env est.graft_state_ est.graft_covariance_
          (est.alpha_ * est.alpha_ * (((7 : Nat) : K) + est.kappa_) - ((7 : Nat) : K))) dt) 7
        (est.alpha_ * est.alpha_ * (((7 : Nat) : K) + est.kappa_) - ((7 : Nat) : K)) ∧
    c.predicted_covariance = covarianceFromSigmaPoints
        (GraftUKFAttitude.predict_sigma_points env
          (generateSigmaPoints env est.graft_state_ est.graft_covariance_
            (est.alpha_ * est.alpha_ * (((7 : Nat) : K) + est.kappa_) - ((7 : Nat) : K))) dt)
        c.predicted_mean est.Q_ 7 est.alpha_ est.beta_
        (est.alpha_ * est.alpha_ * (((7 : Nat) : K) + est.kappa_) - ((7 : Nat) : K)) ∧
    c.observation_sigma_points = generateSigmaPoints env c.predicted_mean
        c.predicted_covariance
        (est.alpha_ * est.alpha_ * (((7 : Nat) : K) + est.kappa_) - ((7 : Nat) : K)) ∧
    c.predicted_measurement = meanFromSigmaPoints c.predicted_observation_sigma_points 7
        (est.alpha_ * est.alpha_ * (((7 : Nat) : K) + est.kappa_) - ((7 : Nat) : K)) ∧
    c.predicted_measurement_uncertainty = covarianceFromSigmaPoints
        c.predicted_observation_sigma_points c.predicted_measurement c.measurement_noise 7
        est.alpha_ est.beta_
        (est.alpha_ * est.alpha_ * (((7 : Nat) : K) + est.kappa_) - ((7 : Nat) : K)) ∧
    c.cross_covariance = crossCovariance c.observation_sigma_points c.predicted_mean
        c.predicted_observation_sigma_points c.predicted_measurement est.alpha_ est.beta_
        (est.alpha_ * est.alpha_ * (((7 : Nat) : K) + est.kappa_) - ((7 : Nat) : K)) := by
  unfold GraftUKFAttitude.correction at h
  simp only [] at h
  split_ifs at h with hz
  injection h with h
  subst h
  exact ⟨rfl, rfl, rfl, rfl, rfl, rfl⟩

theorem absolute_correction_at_rest (env : Platform K) (hs0 : env.sqrt 0 = 0)
    (hllt : ∀ (n : Nat) (m : Matrix (Fin n) (Fin n) K), env.llt m = 0)
    (est : GraftUKFAbsolute K) (hstate : est.graft_state_ = fun i => if i = 3 then 1 else 0)
    (halpha : est.alpha_ = 1) (hkappa : est.kappa_ = 0)
    (topics : List (GraftSensor K)) (dt : K) (c : Correction K 13)
    (h : est.correction env topics dt = some c) :
    c.graft_state = fun i => if i = 3 then 1 else 0 := by
  obtain ⟨hmean, _, hobs, _, _, hcross⟩ := absolute_correction_prediction env est topics dt c h
  obtain ⟨_, _, hK, hgs, _⟩ := absolute_correction_fields env est topics dt c h
  rw [generateSigmaPoints_of_llt_zero env _ _ _ (hllt _ _)] at hmean hobs
  rw [hobs, crossCovariance_replicate_mean] at hcross
  unfold GraftUKFAbsolute.predict_sigma_points at hmean
  rw [List.map_replicate, hstate, absolute_f_rest env hs0,
    meanFromSigmaPoints_replicate _ _ _ (by rw [halpha, hkappa]; norm_num)] at hmean
  rw [hgs, hK, hcross, hmean, Matrix.zero_mul, Matrix.zero_mulVec, add_zero]

theorem attitude_correction_at_rest (env : Platform K) (hs0 : env.sqrt 0 = 0)
    (hllt : ∀ (n : Nat) (m : Matrix (Fin n) (Fin n) K), env.llt m = 0)
    (est : GraftUKFAttitude K) (hstate : est.graft_state_ = fun i => if i = 0 then 1 else 0)
    (halpha : est.alpha_ = 1) (hkappa : est.kappa_ = 0)
    (topics : List (GraftSensor K)) (dt : K) (c : Correction K 7)
    (h : est.correction env topics dt = some c) :
    c.graft_state = fun i => if i = 0 then 1 else 0 := by
  obtain ⟨hmean, _, hobs, _, _, hcross⟩ := attitude_correction_prediction env est topics dt c h
  obtain ⟨_, _, hK, hgs, _⟩ := attitude_correction_fields env est topics dt c h
  rw [generateSigmaPoints_of_llt_zero env _ _ _ (hllt _ _)] at hmean hobs
  rw [hobs, crossCovariance_replicate_mean] at hcross
  unfold GraftUKFAttitude.predict_sigma_points at hmean
  rw [List.map_replicate, hstate, attitude_f_rest env hs0,
    meanFromSigmaPoints_replicate _ _ _ (by rw [halpha, hkappa]; norm_num)] at hmean
  rw [hgs, hK, hcross, hmean, Matrix.zero_mul, Matrix.zero_mulVec, add_zero]

theorem absolute_real_sensor_active (pts : List (Fin 13 → ℝ)) :
    (GraftUKFAbsolute.getMeasurements (platformWithSqrt Real.sqrt) [sensorWith 1]
      pts).actual_measurement ≠ [] := by
  norm_num [GraftUKFAbsolute.getMeasurements, GraftUKFAbsolute.getMeasurementsTopic,
    sensorWith, sampleWith, Measurements.addChannel, addElementToVector, platformWithSqrt]
  exact List.cons_ne_nil _ _

theorem attitude_real_sensor_active (pts : List (Fin 7 → ℝ)) :
    (GraftUKFAttitude.getMeasurements (platformWithSqrt Real.sqrt) [sensorWith 1]
      pts).actual_measurement ≠ [] := by
  norm_num [GraftUKFAttitude.getMeasurements, GraftUKFAttitude.getMeasurementsTopic,
    sensorWith, sampleWith, Measurements.addChannel, addElementToVector]
  exact List.cons_ne_nil _ _

end CommittingExample

section KinematicsFacts

variable {K : Type} [LinearOrderedField K]

/-- C21: the process model leaves the velocities unchanged.  For every state `x` and
every time step `dt`, the entries 7 to 12 (linear and angular velocity) of the result
of the full-state `f` are the entries 7 to 12 of `x`, and the entries 4 to 6 (angular
velocity) of the result of the attitude-only `f` are the entries 4 to 6 of `x`. -/
theorem f_velocities_unchanged (env : Platform K) (x : Fin 13 → K) (y : Fin 7 → K) (dt : K) :
    (GraftUKFAbsolute.f env x dt 7 = x 7 ∧ GraftUKFAbsolute.f env x dt 8 = x 8 ∧
      GraftUKFAbsolute.f env x dt 9 = x 9 ∧ GraftUKFAbsolute.f env x dt 10 = x 10 ∧
      GraftUKFAbsolute.f env x dt 11 = x 11 ∧ GraftUKFAbsolute.f env x dt 12 = x 12) ∧
    (GraftUKFAttitude.f env y dt 4 = y 4 ∧ GraftUKFAttitude.f env y dt 5 = y 5 ∧
      GraftUKFAttitude.f env y dt 6 = y 6) :=
  ⟨⟨rfl, rfl, rfl, rfl, rfl, rfl⟩, ⟨rfl, rfl, rfl⟩⟩

end KinematicsFacts

section QuaternionUpdateFacts

variable {K : Type} [LinearOrderedField K]

theorem quaternionUpdateMatrix_transpose (wx wy wz : K) :
    (quaternionUpdateMatrix wx wy wz).transpose = -quaternionUpdateMatrix wx wy wz := by
  ext i j
  fin_cases i <;> fin_cases j <;> simp [quaternionUpdateMatrix]

theorem quaternionUpdateMatrix_sq (wx wy wz : K) :
    quaternionUpdateMatrix wx wy wz * quaternionUpdateMatrix wx wy wz =
      (-(wx * wx + wy * wy + wz * wz)) • (1 : Matrix (Fin 4) (Fin 4) K) := by
  ext i j
  fin_cases i <;> fin_cases j <;>
    simp [quaternionUpdateMatrix, Matrix.mul_apply, Fin.sum_univ_four] <;> ring

theorem updatedQuaternion_entries (env : Platform K) (q : Fin 4 → K) (wx wy wz dt c u : K)
    (hc : c = 1 - 1 / 2 * (1 / 2 * env.sqrt (wx * wx * dt * dt + wy * wy * dt * dt
        + wz * wz * dt * dt)) * (1 / 2 * env.sqrt (wx * wx * dt * dt + wy * wy * dt * dt
        + wz * wz * dt * dt))
      + 1 / 24 * (1 / 2 * env.sqrt (wx * wx * dt * dt + wy * wy * dt * dt
        + wz * wz * dt * dt)) * (1 / 2 * env.sqrt (wx * wx * dt * dt + wy * wy * dt * dt
        + wz * wz * dt * dt)) * (1 / 2 * env.sqrt (wx * wx * dt * dt + wy * wy * dt * dt
        + wz * wz * dt * dt)) * (1 / 2 * env.sqrt (wx * wx * dt * dt + wy * wy * dt * dt
        + wz * wz * dt * dt)) + 0 * dt * (1 - env.sqrt (q 0 * q 0 + q 1 * q 1 + q 2 * q 2
        + q 3 * q 3) * env.sqrt (q 0 * q 0 + q 1 * q 1 + q 2 * q 2 + q 3 * q 3)))
    (hu : u = 1 / 2 * dt * (1 - 1 / 6 * (1 / 2 * env.sqrt (wx * wx * dt * dt
        + wy * wy * dt * dt + wz * wz * dt * dt)) * (1 / 2 * env.sqrt (wx * wx * dt * dt
        + wy * wy * dt * dt + wz * wz * dt * dt))
      + 1 / 120 * (1 / 2 * env.sqrt (wx * wx * dt * dt + wy * wy * dt * dt
        + wz * wz * dt * dt)) * (1 / 2 * env.sqrt (wx * wx * dt * dt + wy * wy * dt * dt
        + wz * wz * dt * dt)) * (1 / 2 * env.sqrt (wx * wx * dt * dt + wy * wy * dt * dt
        + wz * wz * dt * dt)) * (1 / 2 * env.sqrt (wx * wx * dt * dt + wy * wy * dt * dt
        + wz * wz * dt * dt)))) :
    updatedQuaternion env q wx wy wz dt =
      ![c * q 0 - u * (wx * q 1 + wy * q 2 + wz * q 3),
        c * q 1 - u * (-wx * q 0 - wz * q 2 + wy * q 3),
        c * q 2 - u * (-wy * q 0 + wz * q 1 - wx * q 3),
        c * q 3 - u * (-wz * q 0 - wy * q 1 + wx * q 2)] := by
  subst hc hu
  ext i
  fin_cases i <;>
    simp [updatedQuaternion, quaternionUpdateMatrix, Matrix.mulVec, Matrix.dotProduct,
      Fin.sum_univ_four, Matrix.one_apply] <;> ring


end QuaternionUpdateFacts

section PositionFacts

variable {K : Type} [LinearOrderedField K]

theorem unitQuaternion_sq_sum (env : Platform K) (q : Fin 4 → K)
    (hmul : env.sqrt (q 0 * q 0 + q 1 * q 1 + q 2 * q 2 + q 3 * q 3) *
      env.sqrt (q 0 * q 0 + q 1 * q 1 + q 2 * q 2 + q 3 * q 3) =
      q 0 * q 0 + q 1 * q 1 + q 2 * q 2 + q 3 * q 3)
    (hne : env.sqrt (q 0 * q 0 + q 1 * q 1 + q 2 * q 2 + q 3 * q 3) ≠ 0) :
    unitQuaternion env q 0 * unitQuaternion env q 0 +
      unitQuaternion env q 1 * unitQuaternion env q 1 +
      unitQuaternion env q 2 * unitQuaternion env q 2 +
      unitQuaternion env q 3 * unitQuaternion env q 3 = 1 := by
  simp only [unitQuaternion]
  set r := env.sqrt (q 0 * q 0 + q 1 * q 1 + q 2 * q 2 + q 3 * q 3) with hr
  field_simp
  linarith

theorem tfRotate_of_unit (q : Fin 4 → K) (v : Fin 3 → K)
    (h : q 0 * q 0 + q 1 * q 1 + q 2 * q 2 + q 3 * q 3 = 1) :
    tfRotate (q 1) (q 2) (q 3) (q 0) v = (rotationMatrix q).mulVec v := by
  have hd : q 1 * q 1 + q 2 * q 2 + q 3 * q 3 + q 0 * q 0 = 1 := by linarith
  unfold tfRotate
  simp only [hd, div_one]
  ext i
  fin_cases i <;>
    simp [rotationMatrix, Matrix.mulVec, Matrix.dotProduct, Fin.sum_univ_three] <;> ring

theorem rotationMatrix_mulVec (q : Fin 4 → K) (v : Fin 3 → K)
    (h : q 0 * q 0 + q 1 * q 1 + q 2 * q 2 + q 3 * q 3 = 1) :
    (rotationMatrix q).mulVec v = rotateByQuaternion q v := by
  ext i
  fin_cases i
  · simp [rotationMatrix, rotateByQuaternion, Matrix.mulVec, Matrix.dotProduct,
      Fin.sum_univ_three]
    linear_combination (-(v 0)) * h
  · simp [rotationMatrix, rotateByQuaternion, Matrix.mulVec, Matrix.dotProduct,
      Fin.sum_univ_three]
    linear_combination (-(v 1)) * h
  · simp [rotationMatrix, rotateByQuaternion, Matrix.mulVec, Matrix.dotProduct,
      Fin.sum_univ_three]
    linear_combination (-(v 2)) * h


theorem absolute_f_position_of_unit (env : Platform K) (x : Fin 13 → K) (dt : K)
    (h : unitQuaternion env ![x 3, x 4, x 5, x 6] 0 * unitQuaternion env ![x 3, x 4, x 5, x 6] 0
      + unitQuaternion env ![x 3, x 4, x 5, x 6] 1 * unitQuaternion env ![x 3, x 4, x 5, x 6] 1
      + unitQuaternion env ![x 3, x 4, x 5, x 6] 2 * unitQuaternion env ![x 3, x 4, x 5, x 6] 2
      + unitQuaternion env ![x 3, x 4, x 5, x 6] 3 * unitQuaternion env ![x 3, x 4, x 5, x 6] 3
      = 1) :
    GraftUKFAbsolute.f env x dt 0 = x 0 +
        (rotationMatrix (unitQuaternion env ![x 3, x 4, x 5, x 6])).mulVec
          ![x 7, x 8, x 9] 0 * dt ∧
    GraftUKFAbsolute.f env x dt 1 = x 1 +
        (rotationMatrix (unitQuaternion env ![x 3, x 4, x 5, x 6])).mulVec
          ![x 7, x 8, x 9] 1 * dt ∧
    GraftUKFAbsolute.f env x dt 2 = x 2 +
        (rotationMatrix (unitQuaternion env ![x 3, x 4, x 5, x 6])).mulVec
          ![x 7, x 8, x 9] 2 * dt := by
  have ht := tfRotate_of_unit (unitQuaternion env ![x 3, x 4, x 5, x 6]) ![x 7, x 8, x 9] h
  refine ⟨?_, ?_, ?_⟩ <;> (rw [← ht]; rfl)

theorem real_unitQuaternion_sq_sum (env : Platform ℝ) (hsqrt : env.sqrt = Real.sqrt)
    (q : Fin 4 → ℝ) (hq : q 0 * q 0 + q 1 * q 1 + q 2 * q 2 + q 3 * q 3 ≠ 0) :
    unitQuaternion env q 0 * unitQuaternion env q 0 +
      unitQuaternion env q 1 * unitQuaternion env q 1 +
      unitQuaternion env q 2 * unitQuaternion env q 2 +
      unitQuaternion env q 3 * unitQuaternion env q 3 = 1 := by
  have h0 : 0 ≤ q 0 * q 0 + q 1 * q 1 + q 2 * q 2 + q 3 * q 3 := by
    nlinarith [mul_self_nonneg (q 0), mul_self_nonneg (q 1), mul_self_nonneg (q 2),
      mul_self_nonneg (q 3)]
  apply unitQuaternion_sq_sum
  · rw [hsqrt]
    exact Real.mul_self_sqrt h0
  · rw [hsqrt]
    intro h
    exact hq ((Real.sqrt_eq_zero h0).mp h)

end PositionFacts

section SkippedSensorFacts

variable {K : Type} [LinearOrderedField K]

theorem foldl_filter_of_skip {A B : Type} (g : A → B → A) (p : B → Bool)
    (h : ∀ a b, p b = false → g a b = a) :
    ∀ (l : List B) (a : A), l.foldl g a = (l.filter p).foldl g a := by
  intro l
  induction l with
  | nil => intro a; rfl
  | cons b l ih =>
    intro a
    cases hb : p b with
    | false =>
      rw [List.filter_cons_of_neg (by simp [hb]), List.foldl_cons, h a b hb]
      exact ih a
    | true =>
      rw [List.filter_cons_of_pos (by simp [hb]), List.foldl_cons, List.foldl_cons]
      exact ih _

theorem absolute_getMeasurementsTopic_none (env : Platform K) (msgs : List (GraftState K))
    (acc : Measurements K) (topic : GraftSensor K) (h : topic.z = none) :
    GraftUKFAbsolute.getMeasurementsTopic env msgs acc topic = acc := by
  unfold GraftUKFAbsolute.getMeasurementsTopic
  simp only [h]

theorem attitude_getMeasurementsTopic_none (env : Platform K) (msgs : List (GraftState K))
    (acc : Measurements K) (topic : GraftSensor K) (h : topic.z = none) :
    GraftUKFAttitude.getMeasurementsTopic env msgs acc topic = acc := by
  unfold GraftUKFAttitude.getMeasurementsTopic
  simp only [h]

/-- C28: a sensor with no pending sample is skipped entirely.  For every list of
sensors and every list of sigma points, the three outputs of `getMeasurements`
(measurement vector, collected variances, per-sigma-point columns) are those it
produces for the list from which every sensor without a pending sample has been
removed; in both filters. -/
theorem getMeasurements_skips_sensors_without_sample (env : Platform K)
    (topics : List (GraftSensor K)) (points : List (Fin 13 → K))
    (attitude_points : List (Fin 7 → K)) :
    GraftUKFAbsolute.getMeasurements env topics points =
      GraftUKFAbsolute.getMeasurements env (topics.filter (fun s => s.z.isSome)) points ∧
    GraftUKFAttitude.getMeasurements env topics attitude_points =
      GraftUKFAttitude.getMeasurements env (topics.filter (fun s => s.z.isSome))
        attitude_points := by
  constructor
  · unfold GraftUKFAbsolute.getMeasurements
    exact foldl_filter_of_skip _ _
      (fun a b hb => absolute_getMeasurementsTopic_none env _ a b (by simpa using hb)) _ _
  · unfold GraftUKFAttitude.getMeasurements
    exact foldl_filter_of_skip _ _
      (fun a b hb => attitude_getMeasurementsTopic_none env _ a b (by simpa using hb)) _ _

end SkippedSensorFacts

section RoundTripFacts

variable {K : Type} [LinearOrderedField K]

theorem generateSigmaPoints_getD_zero (env : Platform K) {n : Nat} (state : Fin n → K)
    (covariance : Matrix (Fin n) (Fin n) K) (lambda : K) :
    (generateSigmaPoints env state covariance lambda).getD 0 0 = state := by
  rw [generateSigmaPoints_eq]
  rfl

theorem generateSigmaPoints_getD_plus (env : Platform K) {n : Nat} (state : Fin n → K)
    (covariance : Matrix (Fin n) (Fin n) K) (lambda : K) (j : Fin n) :
    (generateSigmaPoints env state covariance lambda).getD ((j : Nat) + 1) 0 =
      state + fun r => (env.sqrt ((n : K) + lambda) • env.llt covariance) r j := by
  rw [List.getD_eq_getElem?_getD, generateSigmaPoints_plus]
  rfl

theorem generateSigmaPoints_getD_minus (env : Platform K) {n : Nat} (state : Fin n → K)
    (covariance : Matrix (Fin n) (Fin n) K) (lambda : K) (j : Fin n) :
    (generateSigmaPoints env state covariance lambda).getD (n + (j : Nat) + 1) 0 =
      state - fun r => (env.sqrt ((n : K) + lambda) • env.llt covariance) r j := by
  rw [List.getD_eq_getElem?_getD, show n + (j : Nat) + 1 = (j : Nat) + 1 + n by omega,
    generateSigmaPoints_minus]
  rfl

theorem sum_generateSigmaPoints {A : Type} [AddCommMonoid A] (env : Platform K) {n : Nat}
    (state : Fin n → K) (covariance : Matrix (Fin n) (Fin n) K) (lambda : K)
    (g : (Fin n → K) → A) :
    ∑ i in Finset.range (2 * n),
        g ((generateSigmaPoints env state covariance lambda).getD (i + 1) 0) =
      ∑ j : Fin n,
        (g (state + fun r => (env.sqrt ((n : K) + lambda) • env.llt covariance) r j) +
          g (state - fun r => (env.sqrt ((n : K) + lambda) • env.llt covariance) r j)) := by
  rw [two_mul, Finset.sum_range_add, Finset.sum_range, Finset.sum_range,
    Finset.sum_add_distrib]
  congr 1
  · exact Finset.sum_congr rfl
      (fun j _ => by rw [generateSigmaPoints_getD_plus])
  · exact Finset.sum_congr rfl
      (fun j _ => by rw [generateSigmaPoints_getD_minus])

theorem ratSqrt_four : ratSqrt 4 = 2 := by
  have h : Nat.sqrt 4 = 2 := Nat.sqrt_eq 2
  have h1 : Nat.sqrt 1 = 1 := Nat.sqrt_eq 1
  simp [ratSqrt, h, h1]

end RoundTripFacts

section ChannelFacts

variable {K : Type} [LinearOrderedField K]

theorem extend_nil {F : Type} (acc : Measurements F) : acc.extend [] = acc := rfl

theorem extend_append {F : Type} (acc : Measurements F) (l1 l2 : List (F × F × List F)) :
    (acc.extend l1).extend l2 = acc.extend (l1 ++ l2) := by
  unfold Measurements.extend
  rw [List.foldl_append]

theorem ite_addChannel {F : Type} (acc : Measurements F) (c : Prop) [Decidable c]
    (v var : F) (res : List F) :
    (if c then acc.addChannel v var res else acc) =
      acc.extend (if c then [(v, var, res)] else []) := by
  by_cases h : c <;> simp [h, Measurements.extend]

theorem ite_addChannel_four {F : Type} (acc : Measurements F) (c : Prop) [Decidable c]
    (b : Bool) (v0 v1 v2 v3 q0 q1 q2 q3 : F) (r0 r1 r2 r3 : List F) :
    (if c then
        (if b = true then acc
         else (((acc.addChannel v0 q0 r0).addChannel v1 q1 r1).addChannel v2 q2
            r2).addChannel v3 q3 r3)
      else acc) =
      acc.extend (if c ∧ b = false then [(v0, q0, r0), (v1, q1, r1), (v2, q2, r2),
        (v3, q3, r3)] else []) := by
  by_cases h : c <;> cases b <;> simp [h, Measurements.extend]

theorem ite_addChannel_three {F : Type} (acc : Measurements F) (c : Prop) [Decidable c]
    (v0 v1 v2 q0 q1 q2 : F) (r0 r1 r2 : List F) :
    (if c then ((acc.addChannel v0 q0 r0).addChannel v1 q1 r1).addChannel v2 q2 r2
      else acc) =
      acc.extend (if c then [(v0, q0, r0), (v1, q1, r1), (v2, q2, r2)] else []) := by
  by_cases h : c <;> simp [h, Measurements.extend]

theorem map_entry_scalarChannel (msgs : List (GraftState K)) (topic : GraftSensor K)
    (meas : GraftSensorResidual K) (variance : K) (read : GraftSensorResidual K → K) :
    (scalarChannel topic meas variance read).map (Channel.entry msgs) =
      if variance > 1e-20 then
        [(read meas, variance, (msgs.map topic.h).map read)] else [] := by
  unfold scalarChannel
  split_ifs <;> rfl

theorem ite_finite_cond {A : Type} (c : Prop) [Decidable c] (b0 b1 b2 b3 : Bool)
    (l : List A) :
    (if c ∧ b0 = true ∧ b1 = true ∧ b2 = true ∧ b3 = true then l else []) =
      if c ∧ (!b0 || !b1 || !b2 || !b3) = false then l else [] := by
  by_cases h : c <;> cases b0 <;> cases b1 <;> cases b2 <;> cases b3 <;> simp [h]

theorem map_entry_orientationChannels (env : Platform K) (msgs : List (GraftState K))
    (topic : GraftSensor K) (meas : GraftSensorResidual K) :
    (GraftUKFAbsolute.orientationChannels env topic meas).map (Channel.entry msgs) =
      if (meas.pose_covariance 21 > 1e-20 ∨ meas.pose_covariance 28 > 1e-20
            ∨ meas.pose_covariance 35 > 1e-20) ∧
          (!env.isfinite (quaternionCovFromEuler env (meas.pose_covariance 21)
              (meas.pose_covariance 28) (meas.pose_covariance 35) meas.pose.orientation.x
              meas.pose.orientation.y meas.pose.orientation.z meas.pose.orientation.w 0) ||
            !env.isfinite (quaternionCovFromEuler env (meas.pose_covariance 21)
              (meas.pose_covariance 28) (meas.pose_covariance 35) meas.pose.orientation.x
              meas.pose.orientation.y meas.pose.orientation.z meas.pose.orientation.w 1) ||
            !env.isfinite (quaternionCovFromEuler env (meas.pose_covariance 21)
              (meas.pose_covariance 28) (meas.pose_covariance 35) meas.pose.orientation.x
              meas.pose.orientation.y meas.pose.orientation.z meas.pose.orientation.w 2) ||
            !env.isfinite (quaternionCovFromEuler env (meas.pose_covariance 21)
              (meas.pose_covariance 28) (meas.pose_covariance 35) meas.pose.orientation.x
              meas.pose.orientation.y meas.pose.orientation.z meas.pose.orientation.w 3))
            = false then
        (GraftUKFAbsolute.orientationBlock topic meas
          (quaternionCovFromEuler env (meas.pose_covariance 21)
              (meas.pose_covariance 28) (meas.pose_covariance 35) meas.pose.orientation.x
              meas.pose.orientation.y meas.pose.orientation.z
              meas.pose.orientation.w)).map (Channel.entry msgs)
      else [] := by
  unfold GraftUKFAbsolute.orientationChannels
  simp only []
  rw [apply_ite (List.map (Channel.entry msgs)), List.map_nil, ite_finite_cond]

theorem absolute_getMeasurementsTopic_channels (env : Platform K)
    (msgs : List (GraftState K)) (acc : Measurements K) (topic : GraftSensor K) :
    GraftUKFAbsolute.getMeasurementsTopic env msgs acc topic =
      acc.extend ((GraftUKFAbsolute.channels env topic).map (Channel.entry msgs)) := by
  unfold GraftUKFAbsolute.getMeasurementsTopic GraftUKFAbsolute.channels
  cases hz : topic.z with
  | none => rfl
  | some meas =>
    simp only [ite_addChannel, ite_addChannel_four, extend_append]
    simp only [GraftUKFAbsolute.positionChannels, GraftUKFAbsolute.velocityChannels,
      List.map_append, map_entry_scalarChannel, map_entry_orientationChannels,
      List.append_assoc]
    rfl

theorem attitude_getMeasurementsTopic_channels (env : Platform K)
    (msgs : List (GraftState K)) (acc : Measurements K) (topic : GraftSensor K) :
    GraftUKFAttitude.getMeasurementsTopic env msgs acc topic =
      acc.extend ((GraftUKFAttitude.channels env topic).map (Channel.entry msgs)) := by
  unfold GraftUKFAttitude.getMeasurementsTopic GraftUKFAttitude.channels
  cases hz : topic.z with
  | none => rfl
  | some meas =>
    simp only [ite_addChannel, ite_addChannel_three, extend_append]
    simp only [GraftUKFAttitude.angularChannels, List.map_append, map_entry_scalarChannel,
      apply_ite (List.map (Channel.entry msgs)), List.map_nil, List.append_assoc]
    rfl


theorem extend_actual_measurement {F : Type} (es : List (F × F × List F)) :
    ∀ acc : Measurements F, (acc.extend es).actual_measurement =
      acc.actual_measurement ++ es.map (fun e => e.1) := by
  induction es with
  | nil => intro acc; simp [Measurements.extend]
  | cons e es ih =>
    intro acc
    have key : acc.extend (e :: es) = (acc.addChannel e.1 e.2.1 e.2.2).extend es := rfl
    rw [key, ih]
    simp [Measurements.addChannel, addElementToVector]

theorem extend_innovation_covariance_diagonal {F : Type} (es : List (F × F × List F)) :
    ∀ acc : Measurements F, (acc.extend es).innovation_covariance_diagonal =
      acc.innovation_covariance_diagonal ++ es.map (fun e => e.2.1) := by
  induction es with
  | nil => intro acc; simp [Measurements.extend]
  | cons e es ih =>
    intro acc
    have key : acc.extend (e :: es) = (acc.addChannel e.1 e.2.1 e.2.2).extend es := rfl
    rw [key, ih]
    simp [Measurements.addChannel, addElementToVector]

theorem zipWith_zipWith_map {A B C : Type} (G : A → C → A) (H : A → B → A) (g : B → C) :
    ∀ (cols : List A) (msgs : List B),
      List.zipWith H (List.zipWith G cols (msgs.map g)) msgs =
        List.zipWith (fun col msg => H (G col (g msg)) msg) cols msgs := by
  intro cols
  induction cols with
  | nil => intro msgs; simp
  | cons c cols ih =>
    intro msgs
    cases msgs with
    | nil => simp
    | cons m msgs => simp [ih]

theorem zipWith_append_nil {A B : Type} :
    ∀ (cols : List (List A)) (msgs : List B), cols.length = msgs.length →
      List.zipWith (fun col _ => col) cols msgs = cols := by
  intro cols
  induction cols with
  | nil => intro msgs _; simp
  | cons c cols ih =>
    intro msgs h
    cases msgs with
    | nil => simp at h
    | cons m msgs =>
      simp only [List.length_cons, add_left_inj] at h
      simp [ih msgs h]

theorem extend_output_measurement_sigmas {F : Type} (msgs : List (GraftState F))
    (chans : List (Channel F)) :
    ∀ acc : Measurements F, acc.output_measurement_sigmas.length = msgs.length →
      (acc.extend (chans.map (Channel.entry msgs))).output_measurement_sigmas =
        List.zipWith (fun col msg => col ++ chans.map (fun c => c.read (c.sensor.h msg)))
          acc.output_measurement_sigmas msgs := by
  induction chans with
  | nil =>
    intro acc h
    simp only [List.map_nil, List.append_nil]
    rw [extend_nil]
    exact (zipWith_append_nil _ _ h).symm
  | cons c chans ih =>
    intro acc h
    have key : acc.extend ((c :: chans).map (Channel.entry msgs)) =
        (acc.addChannel (c.read c.sample) c.variance
          ((msgs.map c.sensor.h).map c.read)).extend (chans.map (Channel.entry msgs)) := rfl
    rw [key, ih]
    · simp only [Measurements.addChannel, addElementToColumnMatrix, List.map_map]
      rw [zipWith_zipWith_map]
      simp [addElementToColumnMatrix]
    · simp [Measurements.addChannel, h]


theorem foldl_extend {F B : Type} (g : Measurements F → B → Measurements F)
    (ch : B → List (F × F × List F)) (h : ∀ acc b, g acc b = acc.extend (ch b)) :
    ∀ (l : List B) (acc : Measurements F), l.foldl g acc = acc.extend (l.flatMap ch) := by
  intro l
  induction l with
  | nil => intro acc; rfl
  | cons b l ih =>
    intro acc
    rw [List.foldl_cons, h, ih, extend_append, List.flatMap_cons]

theorem zipWith_map_nil_map {A P M : Type} (toMsg : P → M) (f : M → List A) :
    ∀ points : List P,
      List.zipWith (fun col msg => col ++ f msg) (points.map (fun _ => []))
        (points.map toMsg) = points.map (fun p => f (toMsg p)) := by
  intro points
  induction points with
  | nil => rfl
  | cons p points ih =>
    simp only [List.map_cons, List.zipWith_cons_cons, List.nil_append, ih]

theorem extend_start {F P : Type} (toMsg : P → GraftState F) (points : List P)
    (chans : List (Channel F)) :
    Measurements.extend
        { actual_measurement := [],
          innovation_covariance_diagonal := [],
          output_measurement_sigmas := points.map (fun _ => []) }
        (chans.map (Channel.entry (points.map toMsg))) =
      { actual_measurement := chans.map (fun c => c.read c.sample),
        innovation_covariance_diagonal := chans.map (fun c => c.variance),
        output_measurement_sigmas :=
          points.map (fun p => chans.map (fun c => c.read (c.sensor.h (toMsg p)))) } := by
  have h1 := extend_actual_measurement (chans.map (Channel.entry (points.map toMsg)))
    { actual_measurement := [],
      innovation_covariance_diagonal := [],
      output_measurement_sigmas := points.map (fun _ => []) }
  have h2 := extend_innovation_covariance_diagonal
    (chans.map (Channel.entry (points.map toMsg)))
    { actual_measurement := [],
      innovation_covariance_diagonal := [],
      output_measurement_sigmas := points.map (fun _ => []) }
  have h3 := extend_output_measurement_sigmas (points.map toMsg) chans
    { actual_measurement := [],
      innovation_covariance_diagonal := [],
      output_measurement_sigmas := points.map (fun _ => []) } (by simp)
  rw [zipWith_map_nil_map toMsg (fun msg => chans.map (fun c => c.read (c.sensor.h msg)))]
    at h3
  generalize Measurements.extend _ _ = r at h1 h2 h3
  cases r
  simp only at h1 h2 h3
  subst h1 h2 h3
  simp [Channel.entry]

theorem absolute_getMeasurements_channels (env : Platform K) (topics : List (GraftSensor K))
    (points : List (Fin 13 → K)) :
    GraftUKFAbsolute.getMeasurements env topics points =
      { actual_measurement :=
          (topics.flatMap (GraftUKFAbsolute.channels env)).map (fun c => c.read c.sample),
        innovation_covariance_diagonal :=
          (topics.flatMap (GraftUKFAbsolute.channels env)).map (fun c => c.variance),
        output_measurement_sigmas :=
          points.map (fun p => (topics.flatMap (GraftUKFAbsolute.channels env)).map
            (fun c => c.read (c.sensor.h (GraftUKFAbsolute.stateMsgFromMatrix env p)))) } := by
  unfold GraftUKFAbsolute.getMeasurements
  simp only []
  rw [foldl_extend _ _ (absolute_getMeasurementsTopic_channels env _), ← List.map_flatMap,
    extend_start]

theorem attitude_getMeasurements_channels (env : Platform K) (topics : List (GraftSensor K))
    (points : List (Fin 7 → K)) :
    GraftUKFAttitude.getMeasurements env topics points =
      { actual_measurement :=
          (topics.flatMap (GraftUKFAttitude.channels env)).map (fun c => c.read c.sample),
        innovation_covariance_diagonal :=
          (topics.flatMap (GraftUKFAttitude.channels env)).map (fun c => c.variance),
        output_measurement_sigmas :=
          points.map (fun p => (topics.flatMap (GraftUKFAttitude.channels env)).map
            (fun c => c.read (c.sensor.h (GraftUKFAttitude.stateMsgFromMatrix p)))) } := by
  unfold GraftUKFAttitude.getMeasurements
  simp only []
  rw [foldl_extend _ _ (attitude_getMeasurementsTopic_channels env _), ← List.map_flatMap,
    extend_start]


theorem map_entry_fst {F : Type} (msgs : List (GraftState F)) (chans : List (Channel F)) :
    (chans.map (Channel.entry msgs)).map (fun e => e.1) =
      chans.map (fun c => c.read c.sample) := by
  simp [Channel.entry]

theorem map_entry_variance {F : Type} (msgs : List (GraftState F))
    (chans : List (Channel F)) :
    (chans.map (Channel.entry msgs)).map (fun e => e.2.1) =
      chans.map (fun c => c.variance) := by
  simp [Channel.entry]

theorem scalarChannel_map {A : Type} (f : Channel K → A) (topic : GraftSensor K)
    (meas : GraftSensorResidual K) (variance : K) (read : GraftSensorResidual K → K) :
    (scalarChannel topic meas variance read).map f =
      if variance > 1e-20 then
        [f { sensor := topic, sample := meas, read := read, variance := variance }]
      else [] := by
  unfold scalarChannel
  split_ifs <;> rfl

/-- C23: in the full-state `getMeasurements`, for a sensor with a pending sample,
each of the nine scalar channels (position X, Y, Z with `pose_covariance` 0, 7, 14;
linear and angular velocity X, Y, Z with `twist_covariance` 0, 7, 14, 21, 28, 35)
appends its one value to the measurement vector, and its variance to the collected
variances, exactly when its own variance is greater than 1e-20, whatever the other
channels do; the orientation entries stand between position and velocity.  A sample
whose variances are all exactly 1e-20 contributes nothing. -/
theorem absolute_scalar_channels_independent (env : Platform K)
    (msgs : List (GraftState K)) (acc : Measurements K) (topic : GraftSensor K)
    (meas : GraftSensorResidual K) (hz : topic.z = some meas) :
    (GraftUKFAbsolute.getMeasurementsTopic env msgs acc topic).actual_measurement =
      acc.actual_measurement ++
        (if meas.pose_covariance 0 > 1e-20 then [meas.pose.position.x] else []) ++
        (if meas.pose_covariance 7 > 1e-20 then [meas.pose.position.y] else []) ++
        (if meas.pose_covariance 14 > 1e-20 then [meas.pose.position.z] else []) ++
        (GraftUKFAbsolute.orientationChannels env topic meas).map (fun c => c.read c.sample) ++
        (if meas.twist_covariance 0 > 1e-20 then [meas.twist.linear.x] else []) ++
        (if meas.twist_covariance 7 > 1e-20 then [meas.twist.linear.y] else []) ++
        (if meas.twist_covariance 14 > 1e-20 then [meas.twist.linear.z] else []) ++
        (if meas.twist_covariance 21 > 1e-20 then [meas.twist.angular.x] else []) ++
        (if meas.twist_covariance 28 > 1e-20 then [meas.twist.angular.y] else []) ++
        (if meas.twist_covariance 35 > 1e-20 then [meas.twist.angular.z] else []) ∧
    (GraftUKFAbsolute.getMeasurementsTopic env msgs acc topic).innovation_covariance_diagonal =
      acc.innovation_covariance_diagonal ++
        (if meas.pose_covariance 0 > 1e-20 then [meas.pose_covariance 0] else []) ++
        (if meas.pose_covariance 7 > 1e-20 then [meas.pose_covariance 7] else []) ++
        (if meas.pose_covariance 14 > 1e-20 then [meas.pose_covariance 14] else []) ++
        (GraftUKFAbsolute.orientationChannels env topic meas).map (fun c => c.variance) ++
        (if meas.twist_covariance 0 > 1e-20 then [meas.twist_covariance 0] else []) ++
        (if meas.twist_covariance 7 > 1e-20 then [meas.twist_covariance 7] else []) ++
        (if meas.twist_covariance 14 > 1e-20 then [meas.twist_covariance 14] else []) ++
        (if meas.twist_covariance 21 > 1e-20 then [meas.twist_covariance 21] else []) ++
        (if meas.twist_covariance 28 > 1e-20 then [meas.twist_covariance 28] else []) ++
        (if meas.twist_covariance 35 > 1e-20 then [meas.twist_covariance 35] else []) ∧
    GraftUKFAbsolute.getMeasurementsTopic env msgs acc
      { topic with z := some { meas with pose_covariance := fun _ => 1e-20,
                                         twist_covariance := fun _ => 1e-20 } } = acc := by
  refine ⟨?_, ?_, ?_⟩
  · rw [absolute_getMeasurementsTopic_channels, extend_actual_measurement, map_entry_fst]
    unfold GraftUKFAbsolute.channels
    simp only [hz, GraftUKFAbsolute.positionChannels, GraftUKFAbsolute.velocityChannels,
      List.map_append, scalarChannel_map, List.append_assoc]
  · rw [absolute_getMeasurementsTopic_channels, extend_innovation_covariance_diagonal,
      map_entry_variance]
    unfold GraftUKFAbsolute.channels
    simp only [hz, GraftUKFAbsolute.positionChannels, GraftUKFAbsolute.velocityChannels,
      List.map_append, scalarChannel_map, List.append_assoc]
  · apply absolute_getMeasurementsTopic_inactive
    intro meas' h
    simp only [Option.some.injEq] at h
    subst h
    simp [GraftUKFAbsolute.Inactive]

theorem absolute_scalar_channels_independent_witness :
    (sensorWith (1 : ℚ)).z = some (sampleWith 1) ∧
    (GraftUKFAbsolute.getMeasurementsTopic testPlatform []
      { actual_measurement := [], innovation_covariance_diagonal := [],
        output_measurement_sigmas := [] } (sensorWith 1)).actual_measurement =
      [0, 0, 0, 0, 0, 0, 1, 0, 0, 0, 0, 0, 0] := by
  refine ⟨rfl, ?_⟩
  rw [(absolute_scalar_channels_independent testPlatform []
      { actual_measurement := [], innovation_covariance_diagonal := [],
        output_measurement_sigmas := [] } (sensorWith 1) (sampleWith 1) rfl).1]
  norm_num [GraftUKFAbsolute.orientationChannels, GraftUKFAbsolute.orientationBlock,
    sampleWith, testPlatform, sensorWith]


theorem absolute_channels_sample (env : Platform K) (topic : GraftSensor K) :
    (GraftUKFAbsolute.channels env topic).map (fun c => c.sensor.z) =
      (GraftUKFAbsolute.channels env topic).map (fun c => some c.sample) := by
  unfold GraftUKFAbsolute.channels
  cases hz : topic.z with
  | none => rfl
  | some meas =>
    simp only [List.map_append, GraftUKFAbsolute.positionChannels,
      GraftUKFAbsolute.velocityChannels, scalarChannel_map,
      GraftUKFAbsolute.orientationChannels, GraftUKFAbsolute.orientationBlock,
      apply_ite (List.map _), List.map_cons, List.map_nil, hz]

theorem attitude_channels_sample (env : Platform K) (topic : GraftSensor K) :
    (GraftUKFAttitude.channels env topic).map (fun c => c.sensor.z) =
      (GraftUKFAttitude.channels env topic).map (fun c => some c.sample) := by
  unfold GraftUKFAttitude.channels
  cases hz : topic.z with
  | none => rfl
  | some meas =>
    simp only [List.map_append, GraftUKFAttitude.angularChannels, scalarChannel_map,
      GraftUKFAttitude.accelerationBlock, apply_ite (List.map _), List.map_cons,
      List.map_nil, hz]

theorem flatMap_channels_sample {F : Type} (ch : GraftSensor F → List (Channel F))
    (h : ∀ topic, (ch topic).map (fun c => c.sensor.z) =
      (ch topic).map (fun c => some c.sample)) (topics : List (GraftSensor F)) :
    (topics.flatMap ch).map (fun c => c.sensor.z) =
      (topics.flatMap ch).map (fun c => some c.sample) := by
  rw [List.map_flatMap, List.map_flatMap]
  congr 1
  funext topic
  exact h topic

theorem measurements_shape {P : Type} (toMsg : P → GraftState K)
    (points : List P) (chans : List (Channel K)) (out : Measurements K)
    (h : out =
      { actual_measurement := chans.map (fun c => c.read c.sample),
        innovation_covariance_diagonal := chans.map (fun c => c.variance),
        output_measurement_sigmas :=
          points.map (fun p => chans.map (fun c => c.read (c.sensor.h (toMsg p)))) }) :
    out.actual_measurement = chans.map (fun c => c.read c.sample) ∧
    out.innovation_covariance_diagonal = chans.map (fun c => c.variance) ∧
    out.output_measurement_sigmas =
      points.map (fun p => chans.map (fun c => c.read (c.sensor.h (toMsg p)))) ∧
    out.innovation_covariance_diagonal.length = out.actual_measurement.length ∧
    out.output_measurement_sigmas.map List.length =
      List.replicate points.length out.actual_measurement.length ∧
    ∀ i j, out.output_innovation_covariance i j =
      if i = j then out.innovation_covariance_diagonal.get i else 0 := by
  subst h
  refine ⟨rfl, rfl, rfl, by simp, ?_, ?_⟩
  · simp only [List.map_map, List.length_map]
    rw [List.eq_replicate_iff]
    simp
  · intro i j
    simp [Measurements.output_innovation_covariance, Matrix.diagonal_apply]

/-- C26: the outputs of `getMeasurements` have matching shape and order, in both
filters.  For every list of sensors and every list of sigma points, with the channels
of the sensors listed sensor by sensor in the order of `channels`: entry `k` of the
measurement vector is channel `k` read from the pending sample of its sensor (the
sample of a channel is the pending sample of its sensor); the collected variances are
those of the channels in the same order, so there are as many as measurements, and
the noise matrix, of that size, has the collected variance `k` in diagonal entry `k`
and 0 elsewhere; there is one column per sigma point, every column has as many rows
as the measurement vector, and row `k` is channel `k` read from what the sensor of
that channel predicts for the sigma point. -/
theorem getMeasurements_shape_and_order (env : Platform K) (topics : List (GraftSensor K))
    (points : List (Fin 13 → K)) (attitude_points : List (Fin 7 → K)) :
    (let out := GraftUKFAbsolute.getMeasurements env topics points
     let chans := topics.flatMap (GraftUKFAbsolute.channels env)
     (out.actual_measurement = chans.map (fun c => c.read c.sample) ∧
      out.innovation_covariance_diagonal = chans.map (fun c => c.variance) ∧
      out.output_measurement_sigmas =
        points.map (fun p => chans.map
          (fun c => c.read (c.sensor.h (GraftUKFAbsolute.stateMsgFromMatrix env p)))) ∧
      out.innovation_covariance_diagonal.length = out.actual_measurement.length ∧
      out.output_measurement_sigmas.map List.length =
        List.replicate points.length out.actual_measurement.length ∧
      ∀ i j, out.output_innovation_covariance i j =
        if i = j then out.innovation_covariance_diagonal.get i else 0) ∧
     chans.map (fun c => c.sensor.z) = chans.map (fun c => some c.sample)) ∧
    (let out := GraftUKFAttitude.getMeasurements env topics attitude_points
     let chans := topics.flatMap (GraftUKFAttitude.channels env)
     (out.actual_measurement = chans.map (fun c => c.read c.sample) ∧
      out.innovation_covariance_diagonal = chans.map (fun c => c.variance) ∧
      out.output_measurement_sigmas =
        attitude_points.map (fun p => chans.map
          (fun c => c.read (c.sensor.h (GraftUKFAttitude.stateMsgFromMatrix p)))) ∧
      out.innovation_covariance_diagonal.length = out.actual_measurement.length ∧
      out.output_measurement_sigmas.map List.length =
        List.replicate attitude_points.length out.actual_measurement.length ∧
      ∀ i j, out.output_innovation_covariance i j =
        if i = j then out.innovation_covariance_diagonal.get i else 0) ∧
     chans.map (fun c => c.sensor.z) = chans.map (fun c => some c.sample)) := by
  constructor
  · intro out chans
    exact ⟨measurements_shape (GraftUKFAbsolute.stateMsgFromMatrix env) points chans out
        (absolute_getMeasurements_channels env topics points),
      flatMap_channels_sample _ (absolute_channels_sample env) topics⟩
  · intro out chans
    exact ⟨measurements_shape GraftUKFAttitude.stateMsgFromMatrix attitude_points chans out
        (attitude_getMeasurements_channels env topics attitude_points),
      flatMap_channels_sample _ (attitude_channels_sample env) topics⟩

end ChannelFacts

section GainFacts

variable {K : Type} [LinearOrderedField K]

theorem covarianceFromSigmaPoints_noise {m : Nat} (sigma_points : List (Fin m → K))
    (mean : Fin m → K) (noise : Matrix (Fin m) (Fin m) K) (n : Nat) (alpha beta lambda : K) :
    covarianceFromSigmaPoints sigma_points mean noise n alpha beta lambda =
      covarianceFromSigmaPoints sigma_points mean 0 n alpha beta lambda + noise := by
  rw [covarianceFromSigmaPoints_eq, covarianceFromSigmaPoints_eq, add_zero]

set_option maxRecDepth 8192 in
theorem absolute_correction_measurements (env : Platform K) (est : GraftUKFAbsolute K)
    (topics : List (GraftSensor K)) (dt : K) (c : Correction K 13)
    (h : est.correction env topics dt = some c) :
    c.m = (GraftUKFAbsolute.getMeasurements env topics
        c.observation_sigma_points).actual_measurement.length ∧
    c.z = toVec c.m (GraftUKFAbsolute.getMeasurements env topics
        c.observation_sigma_points).actual_measurement ∧
    c.predicted_observation_sigma_points =
      (GraftUKFAbsolute.getMeasurements env topics
        c.observation_sigma_points).output_measurement_sigmas.map (toVec c.m) ∧
    c.measurement_noise = Matrix.diagonal (toVec c.m (GraftUKFAbsolute.getMeasurements env
        topics c.observation_sigma_points).innovation_covariance_diagonal) := by
  unfold GraftUKFAbsolute.correction at h
  simp only [] at h
  split_ifs at h with hz
  injection h with h
  subst h
  exact ⟨rfl, rfl, rfl, rfl⟩

set_option maxRecDepth 8192 in
theorem attitude_correction_measurements (env : Platform K) (est : GraftUKFAttitude K)
    (topics : List (GraftSensor K)) (dt : K) (c : Correction K 7)
    (h : est.correction env topics dt = some c) :
    c.m = (GraftUKFAttitude.getMeasurements env topics
        c.observation_sigma_points).actual_measurement.length ∧
    c.z = toVec c.m (GraftUKFAttitude.getMeasurements env topics
        c.observation_sigma_points).actual_measurement ∧
    c.predicted_observation_sigma_points =
      (GraftUKFAttitude.getMeasurements env topics
        c.observation_sigma_points).output_measurement_sigmas.map (toVec c.m) ∧
    c.measurement_noise = Matrix.diagonal (toVec c.m (GraftUKFAttitude.getMeasurements env
        topics c.observation_sigma_points).innovation_covariance_diagonal) := by
  unfold GraftUKFAttitude.correction at h
  simp only [] at h
  split_ifs at h with hz
  injection h with h
  subst h
  exact ⟨rfl, rfl, rfl, rfl⟩

theorem absolute_committedCorrection_topics (env : Platform K) (est : GraftUKFAbsolute K)
    (t : K) (c : Correction K 13) (h : est.committedCorrection env t = some c) :
    ∃ topics dt, derefTopics est.topics_ = some topics ∧
      GraftUKFAbsolute.correction env { est with last_update_time_ := t } topics dt
        = some c := by
  unfold GraftUKFAbsolute.committedCorrection at h
  by_cases h1 : noFirstTopic est.topics_ = true
  · simp [h1] at h
  by_cases h2 : est.diverged_ = true
  · simp [h1, h2] at h
  by_cases h3 : est.last_update_time_ < 0.0001
  · simp [h1, h2, h3] at h
  simp only [if_neg h1, if_neg h2, if_neg h3] at h
  cases hd : derefTopics est.topics_ with
  | none => simp [hd] at h
  | some topics =>
    simp only [hd] at h
    exact ⟨topics, _, rfl, h⟩

theorem attitude_committedCorrection_topics (env : Platform K) (est : GraftUKFAttitude K)
    (t : K) (c : Correction K 7) (h : est.committedCorrection env t = some c) :
    ∃ topics dt, derefTopics est.topics_ = some topics ∧
      GraftUKFAttitude.correction env { est with last_update_time_ := t } topics dt
        = some c := by
  unfold GraftUKFAttitude.committedCorrection at h
  by_cases h1 : noFirstTopic est.topics_ = true
  · simp [h1] at h
  by_cases h2 : est.diverged_ = true
  · simp [h1, h2] at h
  by_cases h3 : est.last_update_time_ < 0.0001
  · simp [h1, h2, h3] at h
  simp only [if_neg h1, if_neg h2, if_neg h3] at h
  cases hd : derefTopics est.topics_ with
  | none => simp [hd] at h
  | some topics =>
    simp only [hd] at h
    exact ⟨topics, _, rfl, h⟩

theorem absolute_renormalized_eq (env : Platform K) (x : Fin 13 → K) :
    GraftUKFAbsolute.renormalized env x = fun i =>
      if 3 ≤ i ∧ i ≤ 6 then x i / env.sqrt (x 3 * x 3 + x 4 * x 4 + x 5 * x 5 + x 6 * x 6)
      else x i := by
  funext i
  fin_cases i <;> simp [GraftUKFAbsolute.renormalized, unitQuaternion]

theorem attitude_renormalized_eq (env : Platform K) (x : Fin 7 → K) :
    GraftUKFAttitude.renormalized env x = fun i =>
      if i ≤ 3 then x i / env.sqrt (x 0 * x 0 + x 1 * x 1 + x 2 * x 2 + x 3 * x 3)
      else x i := by
  funext i
  fin_cases i <;> simp [GraftUKFAttitude.renormalized, unitQuaternion]


/-- C27: the gain and the commit.  In both filters, for every call of `predictAndUpdate`
that commits a correction and in which the predicted-measurement covariance `S` is
invertible and the inverse routine returns its inverse: the gain is
`K = cross_covariance · S⁻¹` (so `K · S = cross_covariance`); the state before the
renormalisation is `predicted_mean + K · (z - predicted_measurement)`; the committed
state is that vector with only the entries of its quaternion block divided by the
magnitude of the block, every other entry unchanged; the committed covariance is
`predicted_covariance - K · S · Kᵗ`; `predicted_covariance` is the weighted covariance
of the predicted sigma points plus the process noise `Q_`, and `S` is the weighted
covariance of the predicted measurements plus the measurement noise, the diagonal
matrix of the collected variances. -/
theorem committed_gain_state_covariance (env : Platform K) (t : K)
    (a : GraftUKFAbsolute K) (ca : Correction K 13)
    (b : GraftUKFAttitude K) (cb : Correction K 7)
    (ha : a.committedCorrection env t = some ca)
    (ha_S : IsUnit ca.predicted_measurement_uncertainty.det)
    (ha_inv : env.luInverse ca.predicted_measurement_uncertainty =
      ca.predicted_measurement_uncertainty⁻¹)
    (hb : b.committedCorrection env t = some cb)
    (hb_S : IsUnit cb.predicted_measurement_uncertainty.det)
    (hb_inv : env.luInverse cb.predicted_measurement_uncertainty =
      cb.predicted_measurement_uncertainty⁻¹) :
    (∃ r a' topics, a.predictAndUpdate env t = some (r, a') ∧
      derefTopics a.topics_ = some topics ∧
      ca.K_ = ca.cross_covariance * ca.predicted_measurement_uncertainty⁻¹ ∧
      ca.K_ * ca.predicted_measurement_uncertainty = ca.cross_covariance ∧
      ca.graft_state = ca.predicted_mean + ca.K_.mulVec (ca.z - ca.predicted_measurement) ∧
      (a'.graft_state_ = fun i =>
        if 3 ≤ i ∧ i ≤ 6 then
          ca.graft_state i / env.sqrt (ca.graft_state 3 * ca.graft_state 3
            + ca.graft_state 4 * ca.graft_state 4 + ca.graft_state 5 * ca.graft_state 5
            + ca.graft_state 6 * ca.graft_state 6)
        else ca.graft_state i) ∧
      a'.graft_covariance_ = ca.predicted_covariance
        - ca.K_ * ca.predicted_measurement_uncertainty * ca.K_.transpose ∧
      (∃ dt, ca.predicted_covariance = covarianceFromSigmaPoints
          (GraftUKFAbsolute.predict_sigma_points env
            (generateSigmaPoints env a.graft_state_ a.graft_covariance_
              (a.alpha_ * a.alpha_ * (((13 : Nat) : K) + a.kappa_) - ((13 : Nat) : K))) dt)
          ca.predicted_mean 0 13 a.alpha_ a.beta_
          (a.alpha_ * a.alpha_ * (((13 : Nat) : K) + a.kappa_) - ((13 : Nat) : K)) + a.Q_) ∧
      ca.predicted_measurement_uncertainty = covarianceFromSigmaPoints
          ca.predicted_observation_sigma_points ca.predicted_measurement 0 13 a.alpha_ a.beta_
          (a.alpha_ * a.alpha_ * (((13 : Nat) : K) + a.kappa_) - ((13 : Nat) : K))
        + ca.measurement_noise ∧
      ca.measurement_noise = Matrix.diagonal (toVec ca.m (GraftUKFAbsolute.getMeasurements env
        topics ca.observation_sigma_points).innovation_covariance_diagonal)) ∧
    (∃ r b' topics, b.predictAndUpdate env t = some (r, b') ∧
      derefTopics b.topics_ = some topics ∧
      cb.K_ = cb.cross_covariance * cb.predicted_measurement_uncertainty⁻¹ ∧
      cb.K_ * cb.predicted_measurement_uncertainty = cb.cross_covariance ∧
      cb.graft_state = cb.predicted_mean + cb.K_.mulVec (cb.z - cb.predicted_measurement) ∧
      (b'.graft_state_ = fun i =>
        if i ≤ 3 then
          cb.graft_state i / env.sqrt (cb.graft_state 0 * cb.graft_state 0
            + cb.graft_state 1 * cb.graft_state 1 + cb.graft_state 2 * cb.graft_state 2
            + cb.graft_state 3 * cb.graft_state 3)
        else cb.graft_state i) ∧
      b'.graft_covariance_ = cb.predicted_covariance
        - cb.K_ * cb.predicted_measurement_uncertainty * cb.K_.transpose ∧
      (∃ dt, cb.predicted_covariance = covarianceFromSigmaPoints
          (GraftUKFAttitude.predict_sigma_points env
            (generateSigmaPoints env b.graft_state_ b.graft_covariance_
              (b.alpha_ * b.alpha_ * (((7 : Nat) : K) + b.kappa_) - ((7 : Nat) : K))) dt)
          cb.predicted_mean 0 7 b.alpha_ b.beta_
          (b.alpha_ * b.alpha_ * (((7 : Nat) : K) + b.kappa_) - ((7 : Nat) : K)) + b.Q_) ∧
      cb.predicted_measurement_uncertainty = covarianceFromSigmaPoints
          cb.predicted_observation_sigma_points cb.predicted_measurement 0 7 b.alpha_ b.beta_
          (b.alpha_ * b.alpha_ * (((7 : Nat) : K) + b.kappa_) - ((7 : Nat) : K))
        + cb.measurement_noise ∧
      cb.measurement_noise = Matrix.diagonal (toVec cb.m (GraftUKFAttitude.getMeasurements env
        topics cb.observation_sigma_points).innovation_covariance_diagonal)) := by
  constructor
  · obtain ⟨topics, dt, hd, hc⟩ := absolute_committedCorrection_topics env a t ca ha
    obtain ⟨_, _, hK, hgs, hcov⟩ := absolute_correction_fields env _ topics dt ca hc
    obtain ⟨_, hP, _, _, hS, _⟩ := absolute_correction_prediction env _ topics dt ca hc
    obtain ⟨_, _, _, hnoise⟩ := absolute_correction_measurements env _ topics dt ca hc
    obtain ⟨topics', dt', hd', hp⟩ := absolute_committed_result env a t ca ha
    have hK' : ca.K_ = ca.cross_covariance * ca.predicted_measurement_uncertainty⁻¹ := by
      rw [hK, ha_inv]
    refine ⟨dt', _, topics, hp, hd, hK', ?_, hgs, absolute_renormalized_eq env _, hcov,
      ⟨dt, ?_⟩, ?_, hnoise⟩
    · rw [hK', Matrix.mul_assoc, Matrix.nonsing_inv_mul _ ha_S, Matrix.mul_one]
    · rw [hP]
      exact covarianceFromSigmaPoints_noise _ _ _ _ _ _ _
    · rw [hS]
      exact covarianceFromSigmaPoints_noise _ _ _ _ _ _ _
  · obtain ⟨topics, dt, hd, hc⟩ := attitude_committedCorrection_topics env b t cb hb
    obtain ⟨_, _, hK, hgs, hcov⟩ := attitude_correction_fields env _ topics dt cb hc
    obtain ⟨_, hP, _, _, hS, _⟩ := attitude_correction_prediction env _ topics dt cb hc
    obtain ⟨_, _, _, hnoise⟩ := attitude_correction_measurements env _ topics dt cb hc
    obtain ⟨topics', dt', hd', hp⟩ := attitude_committed_result env b t cb hb
    have hK' : cb.K_ = cb.cross_covariance * cb.predicted_measurement_uncertainty⁻¹ := by
      rw [hK, hb_inv]
    refine ⟨dt', _, topics, hp, hd, hK', ?_, hgs, attitude_renormalized_eq env _, hcov,
      ⟨dt, ?_⟩, ?_, hnoise⟩
    · rw [hK', Matrix.mul_assoc, Matrix.nonsing_inv_mul _ hb_S, Matrix.mul_one]
    · rw [hP]
      exact covarianceFromSigmaPoints_noise _ _ _ _ _ _ _
    · rw [hS]
      exact covarianceFromSigmaPoints_noise _ _ _ _ _ _ _

end GainFacts

section GainExample

variable {K : Type} [LinearOrderedField K]

theorem covarianceFromSigmaPoints_replicate_mean {m : Nat} (y : Fin m → K)
    (noise : Matrix (Fin m) (Fin m) K) (n : Nat) (alpha beta lambda : K) :
    covarianceFromSigmaPoints (List.replicate (2 * n + 1) y) y noise n alpha beta lambda
      = noise := by
  rw [covarianceFromSigmaPoints_eq, getD_replicate_of_lt _ _ _ _ (by omega)]
  have hterm : ∀ i ∈ Finset.range (2 * n), (1 / (2 * ((n : K) + lambda))) •
      Matrix.vecMulVec ((List.replicate (2 * n + 1) y).getD (i + 1) 0 - y)
        ((List.replicate (2 * n + 1) y).getD (i + 1) 0 - y) = 0 := by
    intro i hi
    rw [getD_replicate_of_lt _ _ _ _ (by have := Finset.mem_range.1 hi; omega), sub_self]
    ext r c
    simp [Matrix.vecMulVec_apply]
  rw [Finset.sum_eq_zero hterm, sub_self]
  ext r c
  simp [Matrix.vecMulVec_apply]

theorem diagonal_toVec_replicate_one (m k : Nat) (h : m = k) :
    Matrix.diagonal (toVec m (List.replicate k (1 : K))) = 1 := by
  subst h
  ext i j
  by_cases hij : i = j
  · subst hij
    simp [toVec, getD_replicate_of_lt]
  · simp [Matrix.diagonal_apply, Matrix.one_apply, hij]

theorem absolute_twistSensor_measurements (env : Platform K) (points : List (Fin 13 → K)) :
    GraftUKFAbsolute.getMeasurements env [twistSensor] points =
      { actual_measurement := List.replicate 6 0,
        innovation_covariance_diagonal := List.replicate 6 1,
        output_measurement_sigmas := List.replicate points.length (List.replicate 6 0) } := by
  rw [absolute_getMeasurements_channels]
  norm_num [GraftUKFAbsolute.channels, GraftUKFAbsolute.positionChannels,
    GraftUKFAbsolute.orientationChannels, GraftUKFAbsolute.velocityChannels, scalarChannel,
    twistSensor, sampleWith, List.replicate]

theorem attitude_twistSensor_measurements (env : Platform K) (points : List (Fin 7 → K)) :
    GraftUKFAttitude.getMeasurements env [twistSensor] points =
      { actual_measurement := List.replicate 3 0,
        innovation_covariance_diagonal := List.replicate 3 1,
        output_measurement_sigmas := List.replicate points.length (List.replicate 3 0) } := by
  rw [attitude_getMeasurements_channels]
  norm_num [GraftUKFAttitude.channels, GraftUKFAttitude.angularChannels, scalarChannel,
    twistSensor, sampleWith, List.replicate]

theorem absolute_twist_uncertainty (env : Platform K) (est : GraftUKFAbsolute K)
    (halpha : est.alpha_ = 1) (hkappa : est.kappa_ = 0) (dt : K) (c : Correction K 13)
    (h : est.correction env [twistSensor] dt = some c) :
    c.predicted_measurement_uncertainty = 1 := by
  obtain ⟨hm, _, hpts, hnoise⟩ := absolute_correction_measurements env est _ dt c h
  obtain ⟨_, _, hobs, hpm, hS, _⟩ := absolute_correction_prediction env est _ dt c h
  rw [absolute_twistSensor_measurements] at hm hpts hnoise
  simp only [List.length_replicate] at hm
  have hlen : c.observation_sigma_points.length = 2 * 13 + 1 := by
    rw [hobs]
    exact generateSigmaPoints_length _ _ _ _
  simp only [hlen, List.map_replicate] at hpts
  have hne : ((13 : Nat) : K) + (est.alpha_ * est.alpha_ * (((13 : Nat) : K) + est.kappa_)
      - ((13 : Nat) : K)) ≠ 0 := by
    rw [halpha, hkappa]
    norm_num
  rw [hpts, meanFromSigmaPoints_replicate _ _ _ hne] at hpm
  rw [hS, hpts, hpm, covarianceFromSigmaPoints_replicate_mean, hnoise]
  exact diagonal_toVec_replicate_one _ _ hm

theorem attitude_twist_uncertainty (env : Platform K) (est : GraftUKFAttitude K)
    (halpha : est.alpha_ = 1) (hkappa : est.kappa_ = 0) (dt : K) (c : Correction K 7)
    (h : est.correction env [twistSensor] dt = some c) :
    c.predicted_measurement_uncertainty = 1 := by
  obtain ⟨hm, _, hpts, hnoise⟩ := attitude_correction_measurements env est _ dt c h
  obtain ⟨_, _, hobs, hpm, hS, _⟩ := attitude_correction_prediction env est _ dt c h
  rw [attitude_twistSensor_measurements] at hm hpts hnoise
  simp only [List.length_replicate] at hm
  have hlen : c.observation_sigma_points.length = 2 * 7 + 1 := by
    rw [hobs]
    exact generateSigmaPoints_length _ _ _ _
  simp only [hlen, List.map_replicate] at hpts
  have hne : ((7 : Nat) : K) + (est.alpha_ * est.alpha_ * (((7 : Nat) : K) + est.kappa_)
      - ((7 : Nat) : K)) ≠ 0 := by
    rw [halpha, hkappa]
    norm_num
  rw [hpts, meanFromSigmaPoints_replicate _ _ _ hne] at hpm
  rw [hS, hpts, hpm, covarianceFromSigmaPoints_replicate_mean, hnoise]
  exact diagonal_toVec_replicate_one _ _ hm

end GainExample

section GainWitness

theorem absolute_twistSensor_active (pts : List (Fin 13 → ℚ)) :
    (GraftUKFAbsolute.getMeasurements testPlatform [twistSensor] pts).actual_measurement
      ≠ [] := by
  rw [absolute_twistSensor_measurements]
  exact List.cons_ne_nil _ _

theorem attitude_twistSensor_active (pts : List (Fin 7 → ℚ)) :
    (GraftUKFAttitude.getMeasurements testPlatform [twistSensor] pts).actual_measurement
      ≠ [] := by
  rw [attitude_twistSensor_measurements]
  exact List.cons_ne_nil _ _

theorem testPlatform_luInverse_one (n : Nat) :
    testPlatform.luInverse (1 : Matrix (Fin n) (Fin n) ℚ) = 1⁻¹ := by
  rw [inv_one]
  ext i j
  by_cases hij : i = j
  · subst hij
    simp [testPlatform]
  · simp [testPlatform, Matrix.diagonal_apply, Matrix.one_apply, hij]

/-- Witness of C27: filters over the rationals with alpha = 1, beta = 2, kappa = 0, last
updated at time 1000, with one sensor whose sample has twist variances 1 and which
predicts the same sample for every state, called at time 1001: the
predicted-measurement covariance is the identity matrix, which the inverse routine
inverts, and the committed covariance is `predicted_covariance - K · S · Kᵗ` with
`K = cross_covariance · S⁻¹`. -/
theorem committed_gain_state_covariance_witness :
    (∃ r a' ca,
      ((absoluteFilter 1 1000).setTopics [some twistSensor]).predictAndUpdate
        testPlatform 1001 = some (r, a') ∧
      ((absoluteFilter 1 1000).setTopics [some twistSensor]).committedCorrection
        testPlatform 1001 = some ca ∧
      ca.predicted_measurement_uncertainty = 1 ∧
      ca.K_ = ca.cross_covariance * ca.predicted_measurement_uncertainty⁻¹ ∧
      a'.graft_covariance_ = ca.predicted_covariance
        - ca.K_ * ca.predicted_measurement_uncertainty * ca.K_.transpose) ∧
    (∃ r b' cb,
      ((attitudeFilter 1 1000).setTopics [some twistSensor]).predictAndUpdate
        testPlatform 1001 = some (r, b') ∧
      ((attitudeFilter 1 1000).setTopics [some twistSensor]).committedCorrection
        testPlatform 1001 = some cb ∧
      cb.predicted_measurement_uncertainty = 1 ∧
      cb.K_ = cb.cross_covariance * cb.predicted_measurement_uncertainty⁻¹ ∧
      b'.graft_covariance_ = cb.predicted_covariance
        - cb.K_ * cb.predicted_measurement_uncertainty * cb.K_.transpose) := by
  obtain ⟨ca, hca⟩ := absolute_committedCorrection_of_active testPlatform
    ((absoluteFilter 1 1000).setTopics [some twistSensor]) 1001 twistSensor []
    [twistSensor] rfl rfl
    (by norm_num [absoluteFilter, GraftUKFAbsolute.setTopics]) rfl absolute_twistSensor_active
  obtain ⟨cb, hcb⟩ := attitude_committedCorrection_of_active testPlatform
    ((attitudeFilter 1 1000).setTopics [some twistSensor]) 1001 twistSensor []
    [twistSensor] rfl rfl
    (by norm_num [attitudeFilter, GraftUKFAttitude.setTopics]) rfl attitude_twistSensor_active
  obtain ⟨topics, dt, hd, hc⟩ := absolute_committedCorrection_topics testPlatform _ _ ca hca
  obtain rfl : [twistSensor] = topics := Option.some.inj hd
  have hSa := absolute_twist_uncertainty testPlatform _ rfl rfl dt ca hc
  obtain ⟨topics', dt', hd', hc'⟩ :=
    attitude_committedCorrection_topics testPlatform _ _ cb hcb
  obtain rfl : [twistSensor] = topics' := Option.some.inj hd'
  have hSb := attitude_twist_uncertainty testPlatform _ rfl rfl dt' cb hc'
  have h := committed_gain_state_covariance testPlatform 1001
    ((absoluteFilter 1 1000).setTopics [some twistSensor]) ca
    ((attitudeFilter 1 1000).setTopics [some twistSensor]) cb
    hca (by rw [hSa]; simp) (by rw [hSa]; exact testPlatform_luInverse_one _)
    hcb (by rw [hSb]; simp) (by rw [hSb]; exact testPlatform_luInverse_one _)
  obtain ⟨⟨r, a', _, h1, _, h2, _, _, _, h3, _⟩, ⟨r', b', _, h4, _, h5, _, _, _, h6, _⟩⟩ := h
  exact ⟨⟨r, a', ca, h1, hca, hSa, h2, h3⟩, ⟨r', b', cb, h4, hcb, hSb, h5, h6⟩⟩

end GainWitness

section SnapshotRoundTripFacts

variable {K : Type} [LinearOrderedField K]

theorem map_range_getD {A : Type} (P : List A) (d : A) (k : Nat) (h : P.length = k) :
    (List.range k).map (fun i => P.getD i d) = P := by
  subst h
  apply List.ext_getElem
  · simp
  · intro i h1 h2
    simp [List.getD_eq_getElem?_getD, List.getElem?_eq_getElem h2]

theorem coeff_of_lt {n : Nat} (m : Matrix (Fin n) (Fin n) K) (i : Nat) (h : i < n * n) :
    ∃ r c : Fin n, (r : Nat) = i % n ∧ (c : Nat) = i / n ∧ coeff m i = m r c := by
  unfold coeff
  rw [dif_pos h]
  exact ⟨_, _, rfl, rfl, rfl⟩

theorem map_coeff_congr {n : Nat} (m : Matrix (Fin n) (Fin n) K) (g : Nat → K)
    (h : ∀ r c : Fin n, m r c = g ((c : Nat) * n + (r : Nat))) :
    (List.range (n * n)).map (fun i => coeff m i) = (List.range (n * n)).map g := by
  apply List.map_congr_left
  intro i hi
  obtain ⟨r, c, hr, hc, hm⟩ := coeff_of_lt m i (List.mem_range.1 hi)
  rw [hm, h r c, hr, hc]
  congr 1
  exact Nat.div_add_mod' i n

theorem diagonal_index_iff {n : Nat} (r c : Fin n) (k : Nat) (hk : k < n) :
    (c : Nat) * n + (r : Nat) = k * (n + 1) ↔ (r : Nat) = k ∧ (c : Nat) = k := by
  have hn : 0 < n := Nat.lt_of_le_of_lt (Nat.zero_le _) hk
  constructor
  · intro h
    have h' : (r : Nat) + (c : Nat) * n = k + k * n := by rw [Nat.mul_succ] at h; omega
    have hmod := congrArg (fun x => x % n) h'
    have hdiv := congrArg (fun x => x / n) h'
    simp only [Nat.add_mul_mod_self_right, Nat.mod_eq_of_lt r.isLt, Nat.mod_eq_of_lt hk,
      Nat.add_mul_div_right _ _ hn, Nat.div_eq_of_lt r.isLt, Nat.div_eq_of_lt hk,
      Nat.zero_add] at hmod hdiv
    exact ⟨hmod, hdiv⟩
  · rintro ⟨h1, h2⟩
    rw [h1, h2, Nat.mul_succ]

theorem foldl_setCoeff_diagonal {n : Nat} (P : List K) (m0 : Matrix (Fin n) (Fin n) K)
    (k : Nat) (hk : k ≤ n) (r c : Fin n) :
    ((List.range k).foldl (fun m i => setCoeff m (i * (n + 1)) (P.getD i 0)) m0) r c =
      if r = c ∧ (r : Nat) < k then P.getD (r : Nat) 0 else m0 r c := by
  induction k with
  | zero => simp
  | succ k ih =>
    have key : ∀ (m : Matrix (Fin n) (Fin n) K) (v : K),
        setCoeff m (k * (n + 1)) v r c =
          if (c : Nat) * n + (r : Nat) = k * (n + 1) then v else m r c :=
      fun _ _ => rfl
    rw [List.range_succ, List.foldl_append, List.foldl_cons, List.foldl_nil, key,
      ih (by omega)]
    by_cases h1 : (c : Nat) * n + (r : Nat) = k * (n + 1)
    · obtain ⟨hr, hc⟩ := (diagonal_index_iff r c k (by omega)).1 h1
      have hrc : r = c := Fin.ext (by omega)
      rw [if_pos h1, if_pos ⟨hrc, by omega⟩, hr]
    · rw [if_neg h1]
      by_cases h2 : r = c ∧ (r : Nat) < k
      · rw [if_pos h2, if_pos ⟨h2.1, by omega⟩]
      · rw [if_neg h2, if_neg]
        rintro ⟨hrc, hlt⟩
        have hrk : (r : Nat) = k := by
          by_contra hne
          exact h2 ⟨hrc, by omega⟩
        exact h1 ((diagonal_index_iff r c k (by omega)).2 ⟨hrk, by rw [← hrc]; exact hrk⟩)


theorem absolute_setInitialCovariance_diagonal (est : GraftUKFAbsolute K) (P : List K)
    (hP : P.length = 13) (r c : Fin 13) :
    (est.setInitialCovariance P).graft_covariance_ r c =
      if r = c then P.getD (r : Nat) 0 else 0 := by
  unfold GraftUKFAbsolute.setInitialCovariance
  simp only [nat_sqrt_size_absolute]
  rw [if_neg (by rw [hP]; decide), if_pos hP]
  simp only []
  rw [hP, foldl_setCoeff_diagonal _ _ 13 (le_refl 13)]
  simp [r.isLt]

theorem attitude_setInitialCovariance_diagonal (est : GraftUKFAttitude K) (P : List K)
    (hP : P.length = 7) (r c : Fin 7) :
    (est.setInitialCovariance P).graft_covariance_ r c =
      if r = c then P.getD (r : Nat) 0 else 0 := by
  unfold GraftUKFAttitude.setInitialCovariance
  simp only [nat_sqrt_size_attitude]
  rw [if_neg (by rw [hP]; decide), if_pos hP]
  simp only []
  rw [hP, foldl_setCoeff_diagonal _ _ 7 (le_refl 7)]
  simp [r.isLt]

theorem mod_div_linear {n : Nat} (r c : Fin n) :
    ((c : Nat) * n + (r : Nat)) % n = r ∧ ((c : Nat) * n + (r : Nat)) / n = c := by
  have hn : 0 < n := Nat.pos_of_ne_zero (fun h0 => by subst h0; exact r.elim0)
  constructor
  · rw [Nat.add_comm, Nat.add_mul_mod_self_right, Nat.mod_eq_of_lt r.isLt]
  · rw [Nat.add_comm, Nat.add_mul_div_right _ _ hn, Nat.div_eq_of_lt r.isLt, Nat.zero_add]

/-- C32: configuration-to-snapshot round trip, in both filters.  For every vector `P`
of exactly N² values, the covariance array of the snapshot that `getMessageFromState()`
returns after `setInitialCovariance(P)` is `P` itself, entry by entry.  For every vector
`D` of exactly N values, the stored covariance is the diagonal matrix with `D` on the
diagonal and zeros elsewhere, and the covariance array of the snapshot is that matrix
flattened: entry `i` is `D[i % N]` when `i % N = i / N` and 0 otherwise. -/
theorem setInitialCovariance_snapshot_round_trip (a : GraftUKFAbsolute K)
    (b : GraftUKFAttitude K) (P P7 D D7 : List K)
    (hP : P.length = 13 * 13) (hP7 : P7.length = 7 * 7)
    (hD : D.length = 13) (hD7 : D7.length = 7) :
    (a.setInitialCovariance P).getMessageFromState'.covariance = P ∧
    (b.setInitialCovariance P7).getMessageFromState'.covariance = P7 ∧
    ((a.setInitialCovariance D).graft_covariance_ = Matrix.diagonal (fun i : Fin 13 => D.getD i 0) ∧
      (a.setInitialCovariance D).getMessageFromState'.covariance =
        (List.range (13 * 13)).map
          (fun i => if i % 13 = i / 13 then D.getD (i % 13) 0 else 0)) ∧
    ((b.setInitialCovariance D7).graft_covariance_ = Matrix.diagonal (fun i : Fin 7 => D7.getD i 0) ∧
      (b.setInitialCovariance D7).getMessageFromState'.covariance =
        (List.range (7 * 7)).map
          (fun i => if i % 7 = i / 7 then D7.getD (i % 7) 0 else 0)) := by
  refine ⟨?_, ?_, ⟨?_, ?_⟩, ⟨?_, ?_⟩⟩
  · show (List.range (13 * 13)).map (fun i => coeff _ i) = P
    rw [map_coeff_congr _ (fun i => P.getD i 0)
      (fun r c => absolute_setInitialCovariance_full a P hP r c)]
    exact map_range_getD P 0 _ hP
  · show (List.range (7 * 7)).map (fun i => coeff _ i) = P7
    rw [map_coeff_congr _ (fun i => P7.getD i 0)
      (fun r c => attitude_setInitialCovariance_full b P7 hP7 r c)]
    exact map_range_getD P7 0 _ hP7
  · ext r c
    rw [absolute_setInitialCovariance_diagonal a D hD, Matrix.diagonal_apply]
  · show (List.range (13 * 13)).map (fun i => coeff _ i) = _
    apply map_coeff_congr
    intro r c
    rw [absolute_setInitialCovariance_diagonal a D hD, (mod_div_linear r c).1,
      (mod_div_linear r c).2]
    simp only [Fin.ext_iff]
  · ext r c
    rw [attitude_setInitialCovariance_diagonal b D7 hD7, Matrix.diagonal_apply]
  · show (List.range (7 * 7)).map (fun i => coeff _ i) = _
    apply map_coeff_congr
    intro r c
    rw [attitude_setInitialCovariance_diagonal b D7 hD7, (mod_div_linear r c).1,
      (mod_div_linear r c).2]
    simp only [Fin.ext_iff]

/-- Witness of C32: the vector 0, 1, ..., N² - 1 and the vector 1, ..., N loaded into
filters over the rationals. -/
theorem setInitialCovariance_snapshot_round_trip_witness :
    ((absoluteFilter 1 1000).setInitialCovariance
        ((List.range (13 * 13)).map (fun i : Nat => (i : ℚ)))).getMessageFromState'.covariance
      = (List.range (13 * 13)).map (fun i : Nat => (i : ℚ)) ∧
    ((attitudeFilter 1 1000).setInitialCovariance
        [1, 2, 3, 4, 5, 6, 7]).graft_covariance_
      = Matrix.diagonal (fun i : Fin 7 => ([1, 2, 3, 4, 5, 6, 7] : List ℚ).getD i 0) :=
  ⟨(setInitialCovariance_snapshot_round_trip (absoluteFilter 1 1000) (attitudeFilter 1 1000)
      ((List.range (13 * 13)).map (fun i : Nat => (i : ℚ)))
      ((List.range (7 * 7)).map (fun i : Nat => (i : ℚ)))
      [1, 2, 3, 4, 5, 6, 7, 8, 9, 10, 11, 12, 13] [1, 2, 3, 4, 5, 6, 7]
      (by simp) (by simp) rfl rfl).1,
    (setInitialCovariance_snapshot_round_trip (absoluteFilter 1 1000) (attitudeFilter 1 1000)
      ((List.range (13 * 13)).map (fun i : Nat => (i : ℚ)))
      ((List.range (7 * 7)).map (fun i : Nat => (i : ℚ)))
      [1, 2, 3, 4, 5, 6, 7, 8, 9, 10, 11, 12, 13] [1, 2, 3, 4, 5, 6, 7]
      (by simp) (by simp) rfl rfl).2.2.2.1⟩

end SnapshotRoundTripFacts

section CheckedAccessFacts

variable {K : Type} [LinearOrderedField K]

theorem foldlM_eq_some_foldl {A : Type} (s : A → Nat → Option A) (s' : A → Nat → A) :
    ∀ (idx : List Nat) (init : A), (∀ i ∈ idx, ∀ out, s out i = some (s' out i)) →
      idx.foldlM s init = some (idx.foldl s' init) := by
  intro idx
  induction idx with
  | nil => intro init _; rfl
  | cons j rest ih =>
    intro init h
    rw [List.foldlM_cons, h j (List.mem_cons_self _ _) init]
    exact ih _ (fun i hi out => h i (List.mem_cons_of_mem _ hi) out)

theorem foldlM_eq_none {A : Type} (s : A → Nat → Option A) :
    ∀ (idx : List Nat) (init : A), (∃ i ∈ idx, ∀ out, s out i = none) →
      idx.foldlM s init = none := by
  intro idx
  induction idx with
  | nil => intro init h; obtain ⟨i, hi, _⟩ := h; cases hi
  | cons j rest ih =>
    intro init h
    rw [List.foldlM_cons]
    cases hs : s init j with
    | none => rfl
    | some a =>
      obtain ⟨i, hi, hnone⟩ := h
      rcases List.mem_cons.1 hi with rfl | hi'
      · rw [hnone init] at hs
        cases hs
      · exact ih a ⟨i, hi', hnone⟩

theorem getElem?_eq_some_getD {A : Type} (l : List A) (d : A) (i : Nat) (h : i < l.length) :
    l[i]? = some (l.getD i d) := by
  simp [List.getD_eq_getElem?_getD, List.getElem?_eq_getElem h]

theorem checkedMeanFromSigmaPoints_eq {m : Nat} (sigma_points : List (Fin m → K)) (n : Nat)
    (lambda : K) (h : 2 * n + 1 ≤ sigma_points.length) :
    checkedMeanFromSigmaPoints sigma_points n lambda =
      some (meanFromSigmaPoints sigma_points n lambda) := by
  unfold checkedMeanFromSigmaPoints meanFromSigmaPoints
  simp only [Option.bind_eq_bind, Option.pure_def]
  rw [getElem?_eq_some_getD sigma_points 0 0 (by omega), Option.some_bind]
  apply foldlM_eq_some_foldl
  intro i hi out
  obtain ⟨j, hj, rfl⟩ := List.mem_range'.1 hi
  rw [getElem?_eq_some_getD sigma_points 0 _ (by omega), Option.some_bind]


theorem checkedCovarianceFromSigmaPoints_eq {m : Nat} (sigma_points : List (Fin m → K))
    (mean : Fin m → K) (process_noise : Matrix (Fin m) (Fin m) K) (n : Nat)
    (alpha beta lambda : K) (h : 2 * n + 1 ≤ sigma_points.length) :
    checkedCovarianceFromSigmaPoints sigma_points mean process_noise n alpha beta lambda =
      some (covarianceFromSigmaPoints sigma_points mean process_noise n alpha beta lambda) := by
  unfold checkedCovarianceFromSigmaPoints covarianceFromSigmaPoints
  simp only [Option.bind_eq_bind, Option.pure_def]
  rw [getElem?_eq_some_getD sigma_points 0 0 (by omega), Option.some_bind,
    foldlM_eq_some_foldl _ (fun out i => out + Matrix.vecMulVec
      ((1 / (2 * ((n : K) + lambda))) • (sigma_points.getD i 0 - mean))
      (sigma_points.getD i 0 - mean)), Option.some_bind]
  intro i hi out
  obtain ⟨j, hj, rfl⟩ := List.mem_range'.1 hi
  rw [getElem?_eq_some_getD sigma_points 0 _ (by omega), Option.some_bind]

theorem checkedCrossCovariance_eq {n m : Nat} (sigma_points : List (Fin n → K))
    (mean : Fin n → K) (meas_sigma_points : List (Fin m → K)) (meas_mean : Fin m → K)
    (alpha beta lambda : K) (h : 2 * n + 1 ≤ sigma_points.length)
    (hmeas : 2 * n + 1 ≤ meas_sigma_points.length) :
    checkedCrossCovariance sigma_points mean meas_sigma_points meas_mean alpha beta lambda =
      some (crossCovariance sigma_points mean meas_sigma_points meas_mean alpha beta
        lambda) := by
  unfold checkedCrossCovariance crossCovariance
  simp only [Option.bind_eq_bind, Option.pure_def]
  rw [getElem?_eq_some_getD sigma_points 0 0 (by omega), Option.some_bind,
    getElem?_eq_some_getD meas_sigma_points 0 0 (by omega), Option.some_bind]
  apply foldlM_eq_some_foldl
  intro i hi out
  obtain ⟨j, hj, rfl⟩ := List.mem_range'.1 hi
  rw [getElem?_eq_some_getD sigma_points 0 _ (by omega), Option.some_bind,
    getElem?_eq_some_getD meas_sigma_points 0 _ (by omega), Option.some_bind]

theorem checkedMeanFromSigmaPoints_eq_none {m : Nat} (sigma_points : List (Fin m → K))
    (n : Nat) (lambda : K) (h : sigma_points.length < 2 * n + 1) :
    checkedMeanFromSigmaPoints sigma_points n lambda = none := by
  unfold checkedMeanFromSigmaPoints
  simp only [Option.bind_eq_bind, Option.pure_def]
  by_cases h0 : sigma_points.length = 0
  · rw [List.getElem?_eq_none (by omega), Option.none_bind]
  · rw [getElem?_eq_some_getD sigma_points 0 0 (by omega), Option.some_bind]
    apply foldlM_eq_none
    refine ⟨sigma_points.length,
      List.mem_range'.2 ⟨sigma_points.length - 1, by omega, by omega⟩, fun out => ?_⟩
    rw [List.getElem?_eq_none (le_refl _), Option.none_bind]

theorem checkedCovarianceFromSigmaPoints_eq_none {m : Nat}
    (sigma_points : List (Fin m → K)) (mean : Fin m → K)
    (process_noise : Matrix (Fin m) (Fin m) K) (n : Nat) (alpha beta lambda : K)
    (h : sigma_points.length < 2 * n + 1) :
    checkedCovarianceFromSigmaPoints sigma_points mean process_noise n alpha beta lambda =
      none := by
  unfold checkedCovarianceFromSigmaPoints
  simp only [Option.bind_eq_bind, Option.pure_def]
  by_cases h0 : sigma_points.length = 0
  · rw [List.getElem?_eq_none (by omega), Option.none_bind]
  · rw [getElem?_eq_some_getD sigma_points 0 0 (by omega), Option.some_bind,
      foldlM_eq_none, Option.none_bind]
    refine ⟨sigma_points.length,
      List.mem_range'.2 ⟨sigma_points.length - 1, by omega, by omega⟩, fun out => ?_⟩
    rw [List.getElem?_eq_none (le_refl _), Option.none_bind]

theorem checkedCrossCovariance_eq_none {n m : Nat} (sigma_points : List (Fin n → K))
    (mean : Fin n → K) (meas_sigma_points : List (Fin m → K)) (meas_mean : Fin m → K)
    (alpha beta lambda : K)
    (h : sigma_points.length < 2 * n + 1 ∨ meas_sigma_points.length < 2 * n + 1) :
    checkedCrossCovariance sigma_points mean meas_sigma_points meas_mean alpha beta lambda =
      none := by
  unfold checkedCrossCovariance
  simp only [Option.bind_eq_bind, Option.pure_def]
  by_cases h0 : sigma_points.length = 0
  · rw [List.getElem?_eq_none (by omega), Option.none_bind]
  rw [getElem?_eq_some_getD sigma_points 0 0 (by omega), Option.some_bind]
  by_cases h1 : meas_sigma_points.length = 0
  · rw [List.getElem?_eq_none (by omega), Option.none_bind]
  rw [getElem?_eq_some_getD meas_sigma_points 0 0 (by omega), Option.some_bind]
  apply foldlM_eq_none
  by_cases hs : sigma_points.length < 2 * n + 1
  · refine ⟨sigma_points.length,
      List.mem_range'.2 ⟨sigma_points.length - 1, by omega, by omega⟩, fun out => ?_⟩
    rw [List.getElem?_eq_none (le_refl _), Option.none_bind]
  · have hm : meas_sigma_points.length < 2 * n + 1 := by
      rcases h with h | h
      · exact absurd h hs
      · exact h
    refine ⟨meas_sigma_points.length,
      List.mem_range'.2 ⟨meas_sigma_points.length - 1, by omega, by omega⟩, fun out => ?_⟩
    rw [getElem?_eq_some_getD sigma_points 0 _ (by omega), Option.some_bind,
      List.getElem?_eq_none (le_refl _), Option.none_bind]

end CheckedAccessFacts

section CheckedCycleFacts

variable {K : Type} [LinearOrderedField K]

theorem absolute_getMeasurements_sigmas_length (env : Platform K)
    (topics : List (GraftSensor K)) (points : List (Fin 13 → K)) :
    (GraftUKFAbsolute.getMeasurements env topics points).output_measurement_sigmas.length =
      points.length := by
  rw [absolute_getMeasurements_channels]
  simp

theorem attitude_getMeasurements_sigmas_length (env : Platform K)
    (topics : List (GraftSensor K)) (points : List (Fin 7 → K)) :
    (GraftUKFAttitude.getMeasurements env topics points).output_measurement_sigmas.length =
      points.length := by
  rw [attitude_getMeasurements_channels]
  simp

set_option maxRecDepth 8192 in
theorem absolute_predictAndUpdateBodyChecked_eq (env : Platform K)
    (est : GraftUKFAbsolute K) (dt : K) :
    est.predictAndUpdateBodyChecked env dt = some (est.predictAndUpdateBody env dt) := by
  unfold GraftUKFAbsolute.predictAndUpdateBodyChecked GraftUKFAbsolute.predictAndUpdateBody
  cases hd : derefTopics est.topics_ with
  | none => rfl
  | some topics =>
    have hlen : ∀ (state : Fin 13 → K) (covariance : Matrix (Fin 13) (Fin 13) K)
        (lambda : K), 2 * 13 + 1 ≤ (GraftUKFAbsolute.predict_sigma_points env
          (generateSigmaPoints env state covariance lambda) dt).length := by
      intro state covariance lambda
      unfold GraftUKFAbsolute.predict_sigma_points
      rw [List.length_map, generateSigmaPoints_length]
    have hobs : ∀ (state : Fin 13 → K) (covariance : Matrix (Fin 13) (Fin 13) K)
        (lambda : K), 2 * 13 + 1 ≤ (generateSigmaPoints env state covariance lambda).length :=
      fun state covariance lambda => le_of_eq (generateSigmaPoints_length _ _ _ _).symm
    have hcol : ∀ (k : Nat) (state : Fin 13 → K) (covariance : Matrix (Fin 13) (Fin 13) K)
        (lambda : K), 2 * 13 + 1 ≤ (List.map (toVec k)
          (GraftUKFAbsolute.getMeasurements env topics
            (generateSigmaPoints env state covariance lambda)).output_measurement_sigmas).length := by
      intro k state covariance lambda
      rw [List.length_map, absolute_getMeasurements_sigmas_length, generateSigmaPoints_length]
    simp only [Option.bind_eq_bind, Option.pure_def]
    rw [checkedMeanFromSigmaPoints_eq _ _ _ (hlen _ _ _), Option.some_bind,
      checkedCovarianceFromSigmaPoints_eq _ _ _ _ _ _ _ (hlen _ _ _), Option.some_bind,
      checkedMeanFromSigmaPoints_eq _ _ _ (hcol _ _ _ _), Option.some_bind,
      checkedCovarianceFromSigmaPoints_eq _ _ _ _ _ _ _ (hcol _ _ _ _), Option.some_bind,
      checkedCrossCovariance_eq _ _ _ _ _ _ _ (hobs _ _ _) (hcol _ _ _ _),
      Option.some_bind]
    exact (apply_ite some _ _ _).symm

set_option maxRecDepth 8192 in
theorem attitude_predictAndUpdateBodyChecked_eq (env : Platform K)
    (est : GraftUKFAttitude K) (dt : K) :
    est.predictAndUpdateBodyChecked env dt = some (est.predictAndUpdateBody env dt) := by
  unfold GraftUKFAttitude.predictAndUpdateBodyChecked GraftUKFAttitude.predictAndUpdateBody
  cases hd : derefTopics est.topics_ with
  | none => rfl
  | some topics =>
    have hlen : ∀ (state : Fin 7 → K) (covariance : Matrix (Fin 7) (Fin 7) K)
        (lambda : K), 2 * 7 + 1 ≤ (GraftUKFAttitude.predict_sigma_points env
          (generateSigmaPoints env state covariance lambda) dt).length := by
      intro state covariance lambda
      unfold GraftUKFAttitude.predict_sigma_points
      rw [List.length_map, generateSigmaPoints_length]
    have hobs : ∀ (state : Fin 7 → K) (covariance : Matrix (Fin 7) (Fin 7) K)
        (lambda : K), 2 * 7 + 1 ≤ (generateSigmaPoints env state covariance lambda).length :=
      fun state covariance lambda => le_of_eq (generateSigmaPoints_length _ _ _ _).symm
    have hcol : ∀ (k : Nat) (state : Fin 7 → K) (covariance : Matrix (Fin 7) (Fin 7) K)
        (lambda : K), 2 * 7 + 1 ≤ (List.map (toVec k)
          (GraftUKFAttitude.getMeasurements env topics
            (generateSigmaPoints env state covariance lambda)).output_measurement_sigmas).length := by
      intro k state covariance lambda
      rw [List.length_map, attitude_getMeasurements_sigmas_length, generateSigmaPoints_length]
    simp only [Option.bind_eq_bind, Option.pure_def]
    rw [checkedMeanFromSigmaPoints_eq _ _ _ (hlen _ _ _), Option.some_bind,
      checkedCovarianceFromSigmaPoints_eq _ _ _ _ _ _ _ (hlen _ _ _), Option.some_bind,
      checkedMeanFromSigmaPoints_eq _ _ _ (hcol _ _ _ _), Option.some_bind,
      checkedCovarianceFromSigmaPoints_eq _ _ _ _ _ _ _ (hcol _ _ _ _), Option.some_bind,
      checkedCrossCovariance_eq _ _ _ _ _ _ _ (hobs _ _ _) (hcol _ _ _ _),
      Option.some_bind]
    exact (apply_ite some _ _ _).symm


theorem absolute_predictAndUpdateChecked_eq (env : Platform K) (est : GraftUKFAbsolute K)
    (t : K) : est.predictAndUpdateChecked env t = some (est.predictAndUpdate env t) := by
  unfold GraftUKFAbsolute.predictAndUpdateChecked GraftUKFAbsolute.predictAndUpdate
  simp only []
  split_ifs <;> first | rfl | exact absolute_predictAndUpdateBodyChecked_eq env _ _

theorem attitude_predictAndUpdateChecked_eq (env : Platform K) (est : GraftUKFAttitude K)
    (t : K) : est.predictAndUpdateChecked env t = some (est.predictAndUpdate env t) := by
  unfold GraftUKFAttitude.predictAndUpdateChecked GraftUKFAttitude.predictAndUpdate
  simp only []
  split_ifs <;> first | rfl | exact attitude_predictAndUpdateBodyChecked_eq env _ _

/-- C31: every read of a list of sigma points during a cycle is in range, in both
filters.  `generateSigmaPoints` returns 2N+1 points, `predict_sigma_points` as many
points as it is given, and `getMeasurements` one column per sigma point whatever the
sensors are (none, or none with a sample, included).  With every access
`sigma_points[i]` checked, `meanFromSigmaPoints` and `covarianceFromSigmaPoints` called
with `n` succeed exactly on the lists with at least `2n + 1` entries, and
`crossCovariance` exactly when both of its lists have at least `2N + 1` entries, `N` the
dimension of the state points; and `predictAndUpdate` with these checks never meets an
index past the end of a list: it returns what `predictAndUpdate` returns. -/
theorem sigma_point_reads_in_range (env : Platform K) (a : GraftUKFAbsolute K)
    (b : GraftUKFAttitude K) (t dt : K) (topics : List (GraftSensor K))
    (points : List (Fin 13 → K)) (attitude_points : List (Fin 7 → K)) :
    (∀ (n : Nat) (state : Fin n → K) (covariance : Matrix (Fin n) (Fin n) K) (lambda : K),
      (generateSigmaPoints env state covariance lambda).length = 2 * n + 1) ∧
    (GraftUKFAbsolute.predict_sigma_points env points dt).length = points.length ∧
    (GraftUKFAttitude.predict_sigma_points env attitude_points dt).length =
      attitude_points.length ∧
    (GraftUKFAbsolute.getMeasurements env topics points).output_measurement_sigmas.length =
      points.length ∧
    (GraftUKFAttitude.getMeasurements env topics
        attitude_points).output_measurement_sigmas.length = attitude_points.length ∧
    (∀ (m n : Nat) (sigma_points : List (Fin m → K)) (lambda : K),
      (checkedMeanFromSigmaPoints sigma_points n lambda).isSome = true ↔
        2 * n + 1 ≤ sigma_points.length) ∧
    (∀ (m n : Nat) (sigma_points : List (Fin m → K)) (mean : Fin m → K)
        (noise : Matrix (Fin m) (Fin m) K) (alpha beta lambda : K),
      (checkedCovarianceFromSigmaPoints sigma_points mean noise n alpha beta
          lambda).isSome = true ↔ 2 * n + 1 ≤ sigma_points.length) ∧
    (∀ (N m : Nat) (sigma_points : List (Fin N → K)) (mean : Fin N → K)
        (meas_sigma_points : List (Fin m → K)) (meas_mean : Fin m → K)
        (alpha beta lambda : K),
      (checkedCrossCovariance sigma_points mean meas_sigma_points meas_mean alpha beta
          lambda).isSome = true ↔
        2 * N + 1 ≤ sigma_points.length ∧ 2 * N + 1 ≤ meas_sigma_points.length) ∧
    a.predictAndUpdateChecked env t = some (a.predictAndUpdate env t) ∧
    b.predictAndUpdateChecked env t = some (b.predictAndUpdate env t) := by
  refine ⟨fun n state covariance lambda => generateSigmaPoints_length env state covariance
      lambda, ?_, ?_, absolute_getMeasurements_sigmas_length env topics points,
    attitude_getMeasurements_sigmas_length env topics attitude_points, ?_, ?_, ?_,
    absolute_predictAndUpdateChecked_eq env a t, attitude_predictAndUpdateChecked_eq env b t⟩
  · unfold GraftUKFAbsolute.predict_sigma_points
    exact List.length_map _ _
  · unfold GraftUKFAttitude.predict_sigma_points
    exact List.length_map _ _
  · intro m n sigma_points lambda
    by_cases h : 2 * n + 1 ≤ sigma_points.length
    · simp [checkedMeanFromSigmaPoints_eq sigma_points n lambda h, h]
    · simp [checkedMeanFromSigmaPoints_eq_none sigma_points n lambda (by omega), h]
  · intro m n sigma_points mean noise alpha beta lambda
    by_cases h : 2 * n + 1 ≤ sigma_points.length
    · simp [checkedCovarianceFromSigmaPoints_eq sigma_points mean noise n alpha beta lambda h,
        h]
    · simp [checkedCovarianceFromSigmaPoints_eq_none sigma_points mean noise n alpha beta
        lambda (by omega), h]
  · intro N m sigma_points mean meas_sigma_points meas_mean alpha beta lambda
    by_cases h : 2 * N + 1 ≤ sigma_points.length ∧ 2 * N + 1 ≤ meas_sigma_points.length
    · simp [checkedCrossCovariance_eq sigma_points mean meas_sigma_points meas_mean alpha
        beta lambda h.1 h.2, h]
    · rw [checkedCrossCovariance_eq_none sigma_points mean meas_sigma_points meas_mean alpha
        beta lambda (by omega)]
      simp [h]

end CheckedCycleFacts

section DoubleFacts

theorem pow2_eq (e : ℤ) : pow2 e = (2 : ℚ) ^ e := by
  unfold pow2
  split_ifs with h
  · obtain ⟨n, rfl⟩ := Int.eq_ofNat_of_zero_le h
    simp
  · have h' : 0 ≤ -e := by omega
    obtain ⟨n, hn⟩ := Int.eq_ofNat_of_zero_le h'
    have he : e = -(n : ℤ) := by omega
    rw [hn, he]
    simp [zpow_neg]

theorem pow2_pos (e : ℤ) : 0 < pow2 e := by
  rw [pow2_eq]
  positivity

theorem log2Aux_spec : ∀ (fuel n : Nat), n ≤ fuel → n ≠ 0 →
    2 ^ log2Aux fuel n ≤ n ∧ n < 2 ^ (log2Aux fuel n + 1)
  | 0, n, h, hn => absurd (Nat.le_zero.1 h) hn
  | fuel + 1, n, h, hn => by
    unfold log2Aux
    split_ifs with h2
    · constructor
      · simp only [pow_zero]
        omega
      · simp only [zero_add, pow_one]
        exact h2
    · obtain ⟨h3, h4⟩ := log2Aux_spec fuel (n / 2) (by omega) (by omega)
      rw [pow_succ] at h4
      rw [pow_succ, pow_succ, pow_succ]
      generalize 2 ^ log2Aux fuel (n / 2) = p at h3 h4 ⊢
      constructor <;> omega

theorem natLog2_spec (n : Nat) (hn : n ≠ 0) :
    2 ^ natLog2 n ≤ n ∧ n < 2 ^ (natLog2 n + 1) :=
  log2Aux_spec n n le_rfl hn

theorem ilog2_spec (x : ℚ) (hx : x ≠ 0) :
    (2 : ℚ) ^ ilog2 x ≤ |x| ∧ |x| < (2 : ℚ) ^ (ilog2 x + 1) := by
  have ha : x.num.natAbs ≠ 0 := by
    simpa using hx
  obtain ⟨ha1, ha2⟩ := natLog2_spec _ ha
  obtain ⟨hb1, hb2⟩ := natLog2_spec _ x.den_nz
  have hb0 : (0 : ℚ) < x.den := by exact_mod_cast x.den_pos
  have habs : |x| = (x.num.natAbs : ℚ) / x.den := by
    conv_lhs => rw [← Rat.num_div_den x]
    rw [abs_div, Nat.cast_natAbs, Int.cast_abs, abs_of_pos hb0]
  have ha1' : (2 : ℚ) ^ natLog2 x.num.natAbs ≤ (x.num.natAbs : ℚ) := by exact_mod_cast ha1
  have ha2' : (x.num.natAbs : ℚ) < (2 : ℚ) ^ (natLog2 x.num.natAbs + 1) := by
    exact_mod_cast ha2
  have hb1' : (2 : ℚ) ^ natLog2 x.den ≤ (x.den : ℚ) := by exact_mod_cast hb1
  have hb2' : (x.den : ℚ) < (2 : ℚ) ^ (natLog2 x.den + 1) := by exact_mod_cast hb2
  have hpa : (0 : ℚ) < 2 ^ natLog2 x.num.natAbs := by positivity
  have hpb : (0 : ℚ) < 2 ^ natLog2 x.den := by positivity
  have hd : (2 : ℚ) ^ ((natLog2 x.num.natAbs : ℤ) - (natLog2 x.den : ℤ))
      = 2 ^ natLog2 x.num.natAbs / 2 ^ natLog2 x.den := by
    rw [zpow_sub₀ (by norm_num : (2 : ℚ) ≠ 0), zpow_natCast, zpow_natCast]
  unfold ilog2
  simp only []
  split_ifs with h
  · refine ⟨by rw [← pow2_eq]; exact h, ?_⟩
    rw [zpow_add_one₀ (by norm_num : (2 : ℚ) ≠ 0), hd, habs, div_lt_iff₀ hb0]
    rw [pow_succ] at ha2'
    have : 2 ^ natLog2 x.num.natAbs / 2 ^ natLog2 x.den * 2 * (x.den : ℚ)
        ≥ 2 ^ natLog2 x.num.natAbs / 2 ^ natLog2 x.den * 2 * 2 ^ natLog2 x.den := by
      apply mul_le_mul_of_nonneg_left hb1'
      positivity
    have h2 : 2 ^ natLog2 x.num.natAbs / 2 ^ natLog2 x.den * 2 * 2 ^ natLog2 x.den
        = (2 : ℚ) ^ natLog2 x.num.natAbs * 2 := by
      field_simp
    linarith
  · rw [pow2_eq] at h
    push_neg at h
    refine ⟨?_, by rw [sub_add_cancel]; exact h⟩
    rw [zpow_sub_one₀ (by norm_num : (2 : ℚ) ≠ 0), hd, habs, le_div_iff₀ hb0]
    rw [pow_succ] at hb2'
    have : 2 ^ natLog2 x.num.natAbs / 2 ^ natLog2 x.den * 2⁻¹ * (x.den : ℚ)
        ≤ 2 ^ natLog2 x.num.natAbs / 2 ^ natLog2 x.den * 2⁻¹ * (2 ^ natLog2 x.den * 2) := by
      apply mul_le_mul_of_nonneg_left hb2'.le
      positivity
    have h2 : 2 ^ natLog2 x.num.natAbs / 2 ^ natLog2 x.den * 2⁻¹ * (2 ^ natLog2 x.den * 2)
        = (2 : ℚ) ^ natLog2 x.num.natAbs := by
      field_simp
    linarith

theorem abs_roundHalfEven_sub_le (r : ℚ) : |(roundHalfEven r : ℚ) - r| ≤ 1 / 2 := by
  have h1 : ((⌊r⌋ : ℤ) : ℚ) ≤ r := Int.floor_le r
  have h2 : r < ((⌊r⌋ : ℤ) : ℚ) + 1 := Int.lt_floor_add_one r
  unfold roundHalfEven
  simp only []
  rw [abs_le]
  split_ifs with h3 h4 h5
  · constructor <;> linarith
  · push_cast
    constructor <;> linarith
  · constructor <;> linarith
  · push_cast
    constructor <;> linarith

theorem roundHalfEven_intCast (n : ℤ) : roundHalfEven (n : ℚ) = n := by
  unfold roundHalfEven
  simp

end DoubleFacts

section RoundingFacts

theorem pow2_1024 : pow2 1024 = 2 ^ 1024 := by
  decide!

theorem round_zero : Double.round 0 = Double.finite 0 := by
  decide!

theorem two_zpow_sub_half (e : ℤ) : (2 : ℚ) ^ (e - 52) / 2 = 2 ^ e / 2 ^ 53 := by
  rw [zpow_sub₀ (by norm_num : (2 : ℚ) ≠ 0), zpow_ofNat, div_div]
  norm_num

theorem two_zpow_min_half : (2 : ℚ) ^ ((-1022 : ℤ) - 52) / 2 = 1 / 2 ^ 1075 := by
  decide!

theorem two_pow_1023_bound : (2 : ℚ) ^ 1023 / 2 ^ 53 + 1 / 2 ^ 1075 < 2 ^ 1023 := by
  decide!

theorem two_pow_1024_split : (2 : ℚ) ^ 1024 = 2 ^ 1023 + 2 ^ 1023 := by
  decide!

theorem round_eq_of_lt (x y : ℚ) (e : ℤ) (he : e = max (ilog2 x) (-1022))
    (hy : y = (roundHalfEven (x / 2 ^ (e - 52)) : ℚ) * 2 ^ (e - 52))
    (hlt : |y| < 2 ^ 1024) : Double.round x = Double.finite y := by
  unfold Double.round
  simp only []
  rw [← he, pow2_1024]
  simp only [pow2_eq]
  rw [← hy, if_neg (not_le.2 hlt)]

theorem round_spec (x : ℚ) (hx : |x| ≤ 2 ^ 1023) :
    ∃ y : ℚ, Double.round x = Double.finite y ∧ |y - x| ≤ |x| / 2 ^ 53 + 1 / 2 ^ 1075 := by
  by_cases h0 : x = 0
  · subst h0
    refine ⟨0, round_zero, ?_⟩
    rw [sub_zero, abs_zero, zero_div, zero_add]
    positivity
  obtain ⟨hl, _⟩ := ilog2_spec x h0
  have hq : (0 : ℚ) < 2 ^ (max (ilog2 x) (-1022) - 52) := by positivity
  have hr := abs_roundHalfEven_sub_le (x / 2 ^ (max (ilog2 x) (-1022) - 52))
  have hy : |(roundHalfEven (x / 2 ^ (max (ilog2 x) (-1022) - 52)) : ℚ)
      * 2 ^ (max (ilog2 x) (-1022) - 52) - x| ≤ 2 ^ (max (ilog2 x) (-1022) - 52) / 2 := by
    have h1 : (roundHalfEven (x / 2 ^ (max (ilog2 x) (-1022) - 52)) : ℚ)
        * 2 ^ (max (ilog2 x) (-1022) - 52) - x
        = ((roundHalfEven (x / 2 ^ (max (ilog2 x) (-1022) - 52)) : ℚ)
          - x / 2 ^ (max (ilog2 x) (-1022) - 52)) * 2 ^ (max (ilog2 x) (-1022) - 52) := by
      field_simp
    rw [h1, abs_mul, abs_of_pos hq]
    have h2 := mul_le_mul_of_nonneg_right hr hq.le
    linarith only [h2]
  have hb : (2 : ℚ) ^ (max (ilog2 x) (-1022) - 52) / 2 ≤ |x| / 2 ^ 53 + 1 / 2 ^ 1075 := by
    rcases max_cases (ilog2 x) (-1022) with ⟨h1, _⟩ | ⟨h1, _⟩
    · rw [h1, two_zpow_sub_half]
      have h4 : (2 : ℚ) ^ ilog2 x / 2 ^ 53 ≤ |x| / 2 ^ 53 :=
        div_le_div_of_nonneg_right hl (by positivity)
      have h5 : (0 : ℚ) ≤ 1 / 2 ^ 1075 := by positivity
      linarith only [h4, h5]
    · rw [h1, two_zpow_min_half]
      have h5 : (0 : ℚ) ≤ |x| / 2 ^ 53 := div_nonneg (abs_nonneg x) (by norm_num)
      linarith only [h5]
  refine ⟨_, round_eq_of_lt x _ _ rfl rfl ?_, hy.trans hb⟩
  have h6 := abs_sub_abs_le_abs_sub ((roundHalfEven (x / 2 ^ (max (ilog2 x) (-1022) - 52)) : ℚ)
      * 2 ^ (max (ilog2 x) (-1022) - 52)) x
  have h8 : |x| / 2 ^ 53 ≤ 2 ^ 1023 / 2 ^ 53 := div_le_div_of_nonneg_right hx (by positivity)
  have h9 : |x| / 2 ^ 53 + 1 / 2 ^ 1075 < 2 ^ 1023 :=
    lt_of_le_of_lt (add_le_add_right h8 _) two_pow_1023_bound
  rw [two_pow_1024_split]
  have h10 := lt_of_le_of_lt (hy.trans hb) h9
  generalize (2 : ℚ) ^ 1023 = B at hx h10 ⊢
  generalize (roundHalfEven (x / 2 ^ (max (ilog2 x) (-1022) - 52)) : ℚ)
      * 2 ^ (max (ilog2 x) (-1022) - 52) = y at h6 h10 ⊢
  linarith only [h6, h10, hx]

theorem round_int_mul_pow2 (m k : ℤ) (hm : |m| < 2 ^ 53) (hk : -1074 ≤ k)
    (hx : |(m : ℚ) * 2 ^ k| < 2 ^ 1024) :
    Double.round ((m : ℚ) * 2 ^ k) = Double.finite ((m : ℚ) * 2 ^ k) := by
  by_cases h0 : m = 0
  · subst h0
    simp only [Int.cast_zero, zero_mul]
    exact round_zero
  have hk0 : (0 : ℚ) < 2 ^ k := by positivity
  have hx0 : (m : ℚ) * 2 ^ k ≠ 0 := by
    have : (m : ℚ) ≠ 0 := by exact_mod_cast h0
    exact mul_ne_zero this hk0.ne' 
  obtain ⟨hl, _⟩ := ilog2_spec _ hx0
  have hm' : |(m : ℚ)| < 2 ^ (53 : ℤ) := by
    have : ((|m| : ℤ) : ℚ) < ((2 ^ 53 : ℤ) : ℚ) := by exact_mod_cast hm
    rw [Int.cast_abs] at this
    norm_cast at this ⊢
  have hlt : (2 : ℚ) ^ ilog2 ((m : ℚ) * 2 ^ k) < 2 ^ (53 + k) := by
    rw [zpow_add₀ (by norm_num : (2 : ℚ) ≠ 0)]
    rw [abs_mul, abs_of_pos hk0] at hl
    have := mul_lt_mul_of_pos_right hm' hk0
    linarith
  have hlog : ilog2 ((m : ℚ) * 2 ^ k) < 53 + k :=
    (zpow_lt_zpow_iff_right₀ (by norm_num : (1 : ℚ) < 2)).1 hlt
  have hj : 0 ≤ k - (max (ilog2 ((m : ℚ) * 2 ^ k)) (-1022) - 52) := by
    rcases max_cases (ilog2 ((m : ℚ) * 2 ^ k)) (-1022) with ⟨h1, _⟩ | ⟨h1, _⟩ <;> rw [h1] <;> omega
  obtain ⟨j, hj⟩ := Int.eq_ofNat_of_zero_le hj
  have hdiv : (m : ℚ) * 2 ^ k / 2 ^ (max (ilog2 ((m : ℚ) * 2 ^ k)) (-1022) - 52)
      = ((m * 2 ^ j : ℤ) : ℚ) := by
    rw [mul_div_assoc, ← zpow_sub₀ (by norm_num : (2 : ℚ) ≠ 0), hj]
    push_cast
    rw [zpow_natCast]
  refine round_eq_of_lt _ _ _ rfl ?_ hx
  rw [hdiv, roundHalfEven_intCast]
  push_cast
  rw [mul_assoc, ← zpow_natCast, ← hj, ← zpow_add₀ (by norm_num : (2 : ℚ) ≠ 0)]
  congr 2
  ring

theorem two_pow_53_lt : (2 : ℚ) ^ 53 < 2 ^ 1024 := by
  decide!

theorem round_natCast (n : ℕ) (hn : n < 2 ^ 53) :
    Double.round (n : ℚ) = Double.finite (n : ℚ) := by
  have h := round_int_mul_pow2 (n : ℤ) 0 (by rw [abs_of_nonneg (by positivity)]; exact_mod_cast hn)
    (by norm_num) (by
      rw [zpow_zero, mul_one, Int.cast_natCast, abs_of_nonneg (by positivity)]
      have : (n : ℚ) < 2 ^ 53 := by exact_mod_cast hn
      exact lt_trans this two_pow_53_lt)
  simpa using h

end RoundingFacts

section OperationFacts

theorem finite_add_finite (a b : ℚ) :
    Double.finite a + Double.finite b = Double.round (a + b) := rfl

theorem finite_sub_finite (a b : ℚ) :
    Double.finite a - Double.finite b = Double.round (a - b) := rfl

theorem finite_mul_finite (a b : ℚ) :
    Double.finite a * Double.finite b = Double.round (a * b) := rfl

theorem finite_div_finite (a b : ℚ) (hb : b ≠ 0) :
    Double.finite a / Double.finite b = Double.round (a / b) := by
  show Double.div (Double.finite a) (Double.finite b) = _
  unfold Double.div
  simp only [if_neg hb]

theorem two_pow_1000_bound : (16 : ℚ) * 2 ^ 1000 ≤ 2 ^ 1023 := by
  decide!

theorem eta_eq : (1 : ℚ) / 2 ^ 1075 = 1 / 2 ^ 1000 * (1 / 2 ^ 75) := by
  decide!

theorem two_pow_500_sq : (2 : ℚ) ^ 500 * 2 ^ 500 = 2 ^ 1000 := by
  decide!

theorem two_pow_500_inv_sq : (1 : ℚ) / 2 ^ 500 * (1 / 2 ^ 500) = 1 / 2 ^ 1000 := by
  decide!

theorem sq_le_of_abs_le (x : ℚ) (h : |x| ≤ 2 ^ 500) : x * x ≤ 2 ^ 1000 := by
  have h1 : |x| * |x| ≤ 2 ^ 500 * 2 ^ 500 :=
    mul_le_mul h h (abs_nonneg x) (by positivity)
  rw [abs_mul_abs_self, two_pow_500_sq] at h1
  exact h1

theorem sq_ge_of_abs_ge (x : ℚ) (h : 1 / 2 ^ 500 ≤ |x|) : 1 / 2 ^ 1000 ≤ x * x := by
  have h0 : (0 : ℚ) ≤ 1 / 2 ^ 500 := by positivity
  have h1 : (1 : ℚ) / 2 ^ 500 * (1 / 2 ^ 500) ≤ |x| * |x| :=
    mul_le_mul h h h0 (abs_nonneg x)
  rw [abs_mul_abs_self, two_pow_500_inv_sq] at h1
  exact h1

theorem add_round (M η acc p a c b e : ℚ) (ha : 0 ≤ a) (hc : 0 ≤ c)
    (hacc : |acc - a| ≤ b) (hp : |p - c| ≤ e) (hM : a + c + b + e ≤ M)
    (hround : ∀ z : ℚ, |z| ≤ M → ∃ y : ℚ, Double.round z = Double.finite y ∧
      |y - z| ≤ |z| / 2 ^ 53 + η) :
    ∃ s : ℚ, Double.finite acc + Double.finite p = Double.finite s ∧
      |s - (a + c)| ≤ b + e + (a + c + b + e) / 2 ^ 53 + η := by
  have hacc' := abs_le.1 hacc
  have hp' := abs_le.1 hp
  have hsum : |acc + p| ≤ a + c + b + e := by
    rw [abs_le]
    constructor
    · linarith only [hacc'.1, hp'.1, ha, hc]
    · linarith only [hacc'.2, hp'.2]
  obtain ⟨s, hs, hse⟩ := hround (acc + p) (le_trans hsum hM)
  refine ⟨s, by rw [finite_add_finite, hs], ?_⟩
  have hse' := abs_le.1 hse
  have hdiv : |acc + p| / 2 ^ 53 ≤ (a + c + b + e) / 2 ^ 53 :=
    div_le_div_of_nonneg_right hsum (by norm_num)
  rw [abs_le]
  constructor
  · linarith only [hse'.1, hdiv, hacc'.1, hp'.1]
  · linarith only [hse'.2, hdiv, hacc'.2, hp'.2]

theorem sq_round (M η x : ℚ) (hM : x * x ≤ M)
    (hround : ∀ z : ℚ, |z| ≤ M → ∃ y : ℚ, Double.round z = Double.finite y ∧
      |y - z| ≤ |z| / 2 ^ 53 + η) :
    ∃ p : ℚ, Double.finite x * Double.finite x = Double.finite p ∧
      |p - x * x| ≤ x * x / 2 ^ 53 + η := by
  have hxx : 0 ≤ x * x := mul_self_nonneg x
  obtain ⟨p, hp, hpe⟩ := hround (x * x) (by rw [abs_of_nonneg hxx]; exact hM)
  rw [abs_of_nonneg hxx] at hpe
  exact ⟨p, by rw [finite_mul_finite, hp], hpe⟩

theorem sumSq3_abs (x0 x1 x2 : ℚ) (B M η : ℚ) (hη0 : 0 ≤ η) (hηB : 16 * η ≤ B)
    (hB : 16 * B ≤ M) (h0 : x0 * x0 ≤ B) (h1 : x1 * x1 ≤ B) (h2 : x2 * x2 ≤ B)
    (hround : ∀ z : ℚ, |z| ≤ M → ∃ y : ℚ, Double.round z = Double.finite y ∧
      |y - z| ≤ |z| / 2 ^ 53 + η) :
    ∃ s : ℚ, Double.finite x0 * Double.finite x0 + Double.finite x1 * Double.finite x1
        + Double.finite x2 * Double.finite x2 = Double.finite s ∧
      |s - (x0 * x0 + x1 * x1 + x2 * x2)|
        ≤ (x0 * x0 + x1 * x1 + x2 * x2) * (8 / 2 ^ 53) + 8 * η := by
  have n0 : 0 ≤ x0 * x0 := mul_self_nonneg x0
  have n1 : 0 ≤ x1 * x1 := mul_self_nonneg x1
  have n2 : 0 ≤ x2 * x2 := mul_self_nonneg x2
  obtain ⟨p0, e0, b0⟩ := sq_round M η x0 (by linarith only [h0, hB, n0]) hround
  obtain ⟨p1, e1, b1⟩ := sq_round M η x1 (by linarith only [h1, hB, n1]) hround
  obtain ⟨p2, e2, b2⟩ := sq_round M η x2 (by linarith only [h2, hB, n2]) hround
  rw [e0, e1, e2]
  generalize x0 * x0 = a0 at *
  generalize x1 * x1 = a1 at *
  generalize x2 * x2 = a2 at *
  have k0 : a0 / 2 ^ 53 ≤ a0 := div_le_self n0 (by norm_num)
  have k1 : a1 / 2 ^ 53 ≤ a1 := div_le_self n1 (by norm_num)
  have k2 : a2 / 2 ^ 53 ≤ a2 := div_le_self n2 (by norm_num)
  obtain ⟨s1, f1, c1⟩ := add_round M η p0 p1 a0 a1 _ _ n0 n1 b0 b1
    (by linarith only [h0, h1, k0, k1, hηB, hB, n0, n1]) hround
  have c1' : |s1 - (a0 + a1)| ≤ (a0 + a1) * (3 / 2 ^ 53) + 4 * η := by
    refine le_trans c1 ?_
    have h5 : (a0 + a1 + (a0 / 2 ^ 53 + η) + (a1 / 2 ^ 53 + η)) / 2 ^ 53
        = (a0 + a1) * (1 / 2 ^ 53) + (a0 + a1) * (1 / 2 ^ 53 / 2 ^ 53) + η * (2 / 2 ^ 53) := by
      ring
    have h6 : (a0 + a1) * (1 / 2 ^ 53 / 2 ^ 53) ≤ (a0 + a1) * (1 / 2 ^ 53) :=
      mul_le_mul_of_nonneg_left (by norm_num) (add_nonneg n0 n1)
    have h7 : η * (2 / 2 ^ 53) ≤ η * 1 := mul_le_mul_of_nonneg_left (by norm_num) hη0
    linarith only [h5, h6, h7]
  have q1 : (a0 + a1) * (3 / 2 ^ 53) ≤ (a0 + a1) * 1 :=
    mul_le_mul_of_nonneg_left (by norm_num) (add_nonneg n0 n1)
  obtain ⟨s2, f2, c2⟩ := add_round M η s1 p2 (a0 + a1) a2 _ _ (add_nonneg n0 n1) n2 c1' b2
    (by linarith only [h0, h1, h2, q1, k2, hηB, hB, n0, n1, n2]) hround
  refine ⟨s2, by rw [f1, f2], le_trans c2 ?_⟩
  have h8 : (a0 + a1 + a2 + ((a0 + a1) * (3 / 2 ^ 53) + 4 * η) + (a2 / 2 ^ 53 + η)) / 2 ^ 53
      = (a0 + a1 + a2) * (1 / 2 ^ 53) + (a0 + a1) * (3 / 2 ^ 53 / 2 ^ 53)
        + a2 * (1 / 2 ^ 53 / 2 ^ 53) + η * (5 / 2 ^ 53) := by
    ring
  have h9 : (a0 + a1) * (3 / 2 ^ 53 / 2 ^ 53) ≤ (a0 + a1) * (1 / 2 ^ 53) :=
    mul_le_mul_of_nonneg_left (by norm_num) (add_nonneg n0 n1)
  have h10 : a2 * (1 / 2 ^ 53 / 2 ^ 53) ≤ a2 * (1 / 2 ^ 53) :=
    mul_le_mul_of_nonneg_left (by norm_num) n2
  have h11 : η * (5 / 2 ^ 53) ≤ η * 1 := mul_le_mul_of_nonneg_left (by norm_num) hη0
  linarith only [h8, h9, h10, h11, hη0, n0, n1, n2]

theorem sumSq4_abs (x0 x1 x2 x3 : ℚ) (B M η : ℚ) (hη0 : 0 ≤ η) (hηB : 16 * η ≤ B)
    (hB : 16 * B ≤ M) (h0 : x0 * x0 ≤ B) (h1 : x1 * x1 ≤ B) (h2 : x2 * x2 ≤ B)
    (h3 : x3 * x3 ≤ B)
    (hround : ∀ z : ℚ, |z| ≤ M → ∃ y : ℚ, Double.round z = Double.finite y ∧
      |y - z| ≤ |z| / 2 ^ 53 + η) :
    ∃ s : ℚ, Double.finite x0 * Double.finite x0 + Double.finite x1 * Double.finite x1
        + Double.finite x2 * Double.finite x2 + Double.finite x3 * Double.finite x3
        = Double.finite s ∧
      |s - (x0 * x0 + x1 * x1 + x2 * x2 + x3 * x3)|
        ≤ (x0 * x0 + x1 * x1 + x2 * x2 + x3 * x3) * (20 / 2 ^ 53) + 12 * η := by
  have n3 : 0 ≤ x3 * x3 := mul_self_nonneg x3
  have n012 : 0 ≤ x0 * x0 + x1 * x1 + x2 * x2 :=
    add_nonneg (add_nonneg (mul_self_nonneg x0) (mul_self_nonneg x1)) (mul_self_nonneg x2)
  obtain ⟨s2, e2, c2⟩ := sumSq3_abs x0 x1 x2 B M η hη0 hηB hB h0 h1 h2 hround
  obtain ⟨p3, e3, b3⟩ := sq_round M η x3 (by linarith only [h3, hB, n3]) hround
  rw [e2, e3]
  have hle : x0 * x0 + x1 * x1 + x2 * x2 ≤ 3 * B := by linarith only [h0, h1, h2]
  generalize x0 * x0 + x1 * x1 + x2 * x2 = a at *
  generalize x3 * x3 = a3 at *
  have k3 : a3 / 2 ^ 53 ≤ a3 := div_le_self n3 (by norm_num)
  have q1 : a * (8 / 2 ^ 53) ≤ a * 1 := mul_le_mul_of_nonneg_left (by norm_num) n012
  obtain ⟨s3, f3, c3⟩ := add_round M η s2 p3 a a3 _ _ n012 n3 c2 b3
    (by linarith only [hle, h3, q1, k3, hηB, hB, n012, n3]) hround
  refine ⟨s3, f3, le_trans c3 ?_⟩
  have h8 : (a + a3 + (a * (8 / 2 ^ 53) + 8 * η) + (a3 / 2 ^ 53 + η)) / 2 ^ 53
      = (a + a3) * (1 / 2 ^ 53) + a * (8 / 2 ^ 53 / 2 ^ 53)
        + a3 * (1 / 2 ^ 53 / 2 ^ 53) + η * (9 / 2 ^ 53) := by
    ring
  have h9 : a * (8 / 2 ^ 53 / 2 ^ 53) ≤ a * (1 / 2 ^ 53) :=
    mul_le_mul_of_nonneg_left (by norm_num) n012
  have h10 : a3 * (1 / 2 ^ 53 / 2 ^ 53) ≤ a3 * (1 / 2 ^ 53) :=
    mul_le_mul_of_nonneg_left (by norm_num) n3
  have h11 : η * (9 / 2 ^ 53) ≤ η * 1 := mul_le_mul_of_nonneg_left (by norm_num) hη0
  linarith only [h8, h9, h10, h11, hη0, n012, n3]

end OperationFacts

section NormalisationFacts

theorem two_le_two_pow_1023 : (2 : ℚ) ≤ 2 ^ 1023 := by
  decide!

theorem eta_le_u : (1 : ℚ) / 2 ^ 1075 ≤ 1 / 2 ^ 53 := by
  decide!

/-- Division of every component by the computed magnitude: when the computed sum of
squares `s` is within `2^-48` of the exact sum and std::sqrt is accurate at `s`, the
quotients are finite and their squares sum to 1 within `2^-46 + 13 n 2^-53`. -/
theorem normalize_spec (env : Platform Double) {n : ℕ} (x : Fin n → ℚ) (s : ℚ)
    (hS : 0 < ∑ i, x i * x i)
    (hs : |s - ∑ i, x i * x i| ≤ (∑ i, x i * x i) / 2 ^ 48)
    (hsqrt : Double.SqrtAccurateAt env s) :
    ∃ (m : ℚ) (r : Fin n → ℚ), env.sqrt (Double.finite s) = Double.finite m ∧
      (∀ i, Double.finite (x i) / Double.finite m = Double.finite (r i)) ∧
      |∑ i, r i * r i - 1| ≤ 1 / 2 ^ 46 + n * (13 / 2 ^ 53) := by
  have hs' := abs_le.1 hs
  have hspos : 0 < s := by linarith only [hs'.1, hS]
  obtain ⟨m, hm, hm0, hme⟩ := hsqrt
  have hme' := abs_le.1 hme
  have hmm : |m * m - ∑ i, x i * x i| ≤ (∑ i, x i * x i) / 2 ^ 47 := by
    rw [abs_le]
    constructor
    · linarith only [hme'.1, hs'.1, hs'.2, hS]
    · linarith only [hme'.2, hs'.1, hs'.2, hS]
  have hmm' := abs_le.1 hmm
  have hmmpos : 0 < m * m := by linarith only [hmm'.1, hS]
  have hmne : m ≠ 0 := by
    intro h
    rw [h, mul_zero] at hmmpos
    exact lt_irrefl _ hmmpos
  have hA : (∑ i, x i / m * (x i / m)) * (m * m) = ∑ i, x i * x i := by
    rw [Finset.sum_mul]
    refine Finset.sum_congr rfl (fun i _ => ?_)
    field_simp
  have hA0 : 0 ≤ ∑ i, x i / m * (x i / m) :=
    Finset.sum_nonneg (fun i _ => mul_self_nonneg _)
  rw [← hA] at hmm'
  have hA1 : |(∑ i, x i / m * (x i / m)) - 1| ≤ 1 / 2 ^ 46 := by
    generalize (∑ i, x i / m * (x i / m)) = A at *
    generalize m * m = M2 at *
    have h1 : (1 - A) * M2 ≤ A / 2 ^ 47 * M2 := by linarith only [hmm'.2]
    have h2 : (A - 1) * M2 ≤ A / 2 ^ 47 * M2 := by linarith only [hmm'.1]
    have h3 := le_of_mul_le_mul_right h1 hmmpos
    have h4 := le_of_mul_le_mul_right h2 hmmpos
    rw [abs_le]
    constructor
    · linarith only [h3, hA0]
    · linarith only [h4, hA0]
  have hA1' := abs_le.1 hA1
  have ht : ∀ i, |x i / m| ≤ 2 := by
    intro i
    have h1 : x i / m * (x i / m) ≤ ∑ j, x j / m * (x j / m) :=
      Finset.single_le_sum (f := fun j => x j / m * (x j / m))
        (fun j _ => mul_self_nonneg _) (Finset.mem_univ i)
    have h2 : |x i / m| * |x i / m| ≤ 2 * 2 := by
      rw [abs_mul_abs_self]
      linarith only [h1, hA1'.2]
    exact (mul_self_le_mul_self_iff (abs_nonneg _) (by norm_num)).2 h2
  have hr : ∀ i, ∃ r : ℚ, Double.finite (x i) / Double.finite m = Double.finite r ∧
      |r * r - x i / m * (x i / m)| ≤ 13 / 2 ^ 53 := by
    intro i
    obtain ⟨r, hr1, hr2⟩ := round_spec (x i / m) (le_trans (ht i) two_le_two_pow_1023)
    refine ⟨r, by rw [finite_div_finite _ _ hmne, hr1], ?_⟩
    have h1 : |x i / m| / 2 ^ 53 ≤ 2 / 2 ^ 53 := div_le_div_of_nonneg_right (ht i) (by norm_num)
    have h2 : |r - x i / m| ≤ 3 / 2 ^ 53 := by
      have h8 := eta_le_u
      generalize (1 : ℚ) / 2 ^ 1075 = η at h8 hr2
      linarith only [hr2, h1, h8]
    have h3 : |r + x i / m| ≤ 13 / 3 := by
      have h4 : r + x i / m = (r - x i / m) + 2 * (x i / m) := by ring
      rw [h4]
      refine le_trans (abs_add _ _) ?_
      rw [abs_mul, abs_of_pos (by norm_num : (0 : ℚ) < 2)]
      have h5 := ht i
      have h6 : (3 : ℚ) / 2 ^ 53 ≤ 1 / 3 := by norm_num
      linarith only [h2, h5, h6]
    have h7 : r * r - x i / m * (x i / m) = (r - x i / m) * (r + x i / m) := by ring
    rw [h7, abs_mul]
    refine le_trans (mul_le_mul h2 h3 (abs_nonneg _) (by norm_num)) ?_
    norm_num
  choose r hr1 hr2 using hr
  refine ⟨m, r, hm, hr1, ?_⟩
  have hsum : |∑ i, (r i * r i - x i / m * (x i / m))| ≤ n * (13 / 2 ^ 53) := by
    refine le_trans (Finset.abs_sum_le_sum_abs _ _) ?_
    refine le_trans (Finset.sum_le_sum (fun i _ => hr2 i)) ?_
    rw [Finset.sum_const, Finset.card_univ, Fintype.card_fin, nsmul_eq_mul]
  have hsplit : ∑ i, r i * r i - 1
      = ∑ i, (r i * r i - x i / m * (x i / m)) + ((∑ i, x i / m * (x i / m)) - 1) := by
    rw [Finset.sum_sub_distrib]
    ring
  rw [hsplit]
  refine le_trans (abs_add _ _) ?_
  linarith only [hsum, hA1]

end NormalisationFacts

section UnitNormFacts

theorem abs_sqrt_sub_one_le (a : ℝ) (ha : 0 ≤ a) : |Real.sqrt a - 1| ≤ |a - 1| := by
  have h0 : 0 ≤ Real.sqrt a := Real.sqrt_nonneg a
  have h1 : a - 1 = (Real.sqrt a - 1) * (Real.sqrt a + 1) := by
    have := Real.mul_self_sqrt ha
    linarith [this]
  rw [h1, abs_mul, abs_of_pos (by linarith : 0 < Real.sqrt a + 1)]
  have h2 : 0 ≤ |Real.sqrt a - 1| := abs_nonneg _
  nlinarith

theorem sixteen_eta_le : (16 : ℚ) * (1 / 2 ^ 1075) ≤ 2 ^ 1000 := by
  decide!

theorem norm_of_sq_sum (q : ℚ) (k : ℕ) (hk : k ≤ 4)
    (h : |q - 1| ≤ 1 / 2 ^ 46 + k * (13 / 2 ^ 53)) :
    |Real.sqrt ((q : ℚ) : ℝ) - 1| ≤ 1e-9 := by
  have hk' : (k : ℚ) ≤ 4 := by exact_mod_cast hk
  have h1 : |q - 1| ≤ 1 / 2 ^ 40 := by
    refine le_trans h ?_
    have : (k : ℚ) * (13 / 2 ^ 53) ≤ 4 * (13 / 2 ^ 53) :=
      mul_le_mul_of_nonneg_right hk' (by norm_num)
    have h2 : (1 : ℚ) / 2 ^ 46 + 4 * (13 / 2 ^ 53) ≤ 1 / 2 ^ 40 := by norm_num
    linarith
  have h3 : |((q : ℚ) : ℝ) - 1| ≤ 1 / 2 ^ 40 := by
    have : ((|q - 1| : ℚ) : ℝ) ≤ ((1 / 2 ^ 40 : ℚ) : ℝ) := by exact_mod_cast h1
    push_cast at this
    exact this
  have hq0 : (0 : ℝ) ≤ ((q : ℚ) : ℝ) := by
    have := (abs_le.1 h3).1
    have h4 : (1 : ℝ) / 2 ^ 40 ≤ 1 := by norm_num
    linarith
  refine le_trans (abs_sqrt_sub_one_le _ hq0) (le_trans h3 ?_)
  norm_num

theorem two_pow_1003_eq : (8 : ℚ) * 2 ^ 1000 = 2 ^ 1003 := by
  decide!

theorem two_pow_1001_eq : (1 : ℚ) / 2 ^ 1000 * (1 / 2) = 1 / 2 ^ 1001 := by
  decide!

/-- From the bound on the computed sum of squares to the range in which std::sqrt is
asked to be accurate. -/
theorem sumSq_range (S s : ℚ) (hSlo : 1 / 2 ^ 1000 ≤ S) (hShi : S ≤ 4 * 2 ^ 1000)
    (hs : |s - S| ≤ S * (20 / 2 ^ 53) + 12 * (1 / 2 ^ 1075)) :
    |s - S| ≤ S / 2 ^ 48 ∧ 1 / 2 ^ 1001 ≤ s ∧ s ≤ 2 ^ 1003 := by
  have h1 : (1 : ℚ) / 2 ^ 1075 ≤ S * (1 / 2 ^ 75) := by
    rw [eta_eq]
    exact mul_le_mul_of_nonneg_right hSlo (by norm_num)
  have h2 := two_pow_1003_eq
  have h3 := two_pow_1001_eq
  have h0 : (0 : ℚ) < 1 / 2 ^ 1000 := one_div_pos.2 (pow_pos (by norm_num) _)
  generalize (1 : ℚ) / 2 ^ 1075 = η at *
  generalize (1 : ℚ) / 2 ^ 1000 = lo at *
  generalize (1 : ℚ) / 2 ^ 1001 = lo1 at *
  generalize (2 : ℚ) ^ 1000 = hi at *
  generalize (2 : ℚ) ^ 1003 = hi3 at *
  have h4 : |s - S| ≤ S / 2 ^ 48 := by
    refine le_trans hs ?_
    linarith
  have h5 := abs_le.1 h4
  refine ⟨h4, ?_, ?_⟩ <;> linarith

/-- The computation of `unitQuaternion` in binary64: for a quaternion of finite numbers
whose largest component has a magnitude between `2^-500` and `2^500`, every component of
the result is finite and the squares of the components sum to 1 within `2^-45`. -/
theorem unitQuaternion_double (env : Platform Double) (x : Fin 4 → ℚ)
    (hhi : ∀ i, |x i| ≤ 2 ^ 500) (hlo : ∃ i, 1 / 2 ^ 500 ≤ |x i|)
    (hsqrt : ∀ s : ℚ, 1 / 2 ^ 1001 ≤ s → s ≤ 2 ^ 1003 → Double.SqrtAccurateAt env s) :
    ∃ r : Fin 4 → ℚ,
      (∀ i, unitQuaternion env (fun j => Double.finite (x j)) i = Double.finite (r i)) ∧
      |(r 0 * r 0 + r 1 * r 1 + r 2 * r 2 + r 3 * r 3) - 1|
        ≤ 1 / 2 ^ 46 + ((4 : ℕ) : ℚ) * (13 / 2 ^ 53) := by
  obtain ⟨s, hs, hse⟩ := sumSq4_abs (x 0) (x 1) (x 2) (x 3) (2 ^ 1000) (2 ^ 1023)
    (1 / 2 ^ 1075) (by positivity) sixteen_eta_le two_pow_1000_bound
    (sq_le_of_abs_le _ (hhi 0)) (sq_le_of_abs_le _ (hhi 1)) (sq_le_of_abs_le _ (hhi 2))
    (sq_le_of_abs_le _ (hhi 3)) round_spec
  have hsum : ∑ i, x i * x i = x 0 * x 0 + x 1 * x 1 + x 2 * x 2 + x 3 * x 3 :=
    Fin.sum_univ_four _
  have hSlo : 1 / 2 ^ 1000 ≤ ∑ i, x i * x i := by
    obtain ⟨i, hi⟩ := hlo
    exact le_trans (sq_ge_of_abs_ge _ hi)
      (Finset.single_le_sum (f := fun j => x j * x j) (fun j _ => mul_self_nonneg _)
        (Finset.mem_univ i))
  have hShi : ∑ i, x i * x i ≤ 4 * 2 ^ 1000 := by
    rw [hsum]
    have h0 := sq_le_of_abs_le _ (hhi 0)
    have h1 := sq_le_of_abs_le _ (hhi 1)
    have h2 := sq_le_of_abs_le _ (hhi 2)
    have h3 := sq_le_of_abs_le _ (hhi 3)
    generalize (2 : ℚ) ^ 1000 = B at h0 h1 h2 h3 ⊢
    linarith
  rw [← hsum] at hse
  have hS0 : 0 < ∑ i, x i * x i := lt_of_lt_of_le (by positivity) hSlo
  have hse' : |s - ∑ i, x i * x i| ≤ (∑ i, x i * x i) * (20 / 2 ^ 53) + 12 * (1 / 2 ^ 1075) := by
    refine le_trans hse (add_le_add_right (mul_le_mul_of_nonneg_left (by norm_num) hS0.le) _)
  obtain ⟨hs48, hslo, hshi⟩ := sumSq_range _ s hSlo hShi hse'
  obtain ⟨m, r, hm, hr, hb⟩ := normalize_spec env x s hS0 hs48 (hsqrt s hslo hshi)
  rw [Fin.sum_univ_four] at hb
  refine ⟨r, fun i => ?_, hb⟩
  simp only [unitQuaternion]
  rw [hs, hm]
  exact hr i

/-- The computation of `normalized_acceleration` in binary64, as `unitQuaternion_double`. -/
theorem normalized_acceleration_double (env : Platform Double) (x : Fin 3 → ℚ)
    (hhi : ∀ i, |x i| ≤ 2 ^ 500) (hlo : ∃ i, 1 / 2 ^ 500 ≤ |x i|)
    (hsqrt : ∀ s : ℚ, 1 / 2 ^ 1001 ≤ s → s ≤ 2 ^ 1003 → Double.SqrtAccurateAt env s) :
    ∃ r : Fin 3 → ℚ,
      GraftUKFAttitude.normalized_acceleration env
          { x := Double.finite (x 0), y := Double.finite (x 1), z := Double.finite (x 2) }
        = { x := Double.finite (r 0), y := Double.finite (r 1), z := Double.finite (r 2) } ∧
      |(r 0 * r 0 + r 1 * r 1 + r 2 * r 2) - 1| ≤ 1 / 2 ^ 46 + ((3 : ℕ) : ℚ) * (13 / 2 ^ 53) := by
  obtain ⟨s, hs, hse⟩ := sumSq3_abs (x 0) (x 1) (x 2) (2 ^ 1000) (2 ^ 1023)
    (1 / 2 ^ 1075) (by positivity) sixteen_eta_le two_pow_1000_bound
    (sq_le_of_abs_le _ (hhi 0)) (sq_le_of_abs_le _ (hhi 1)) (sq_le_of_abs_le _ (hhi 2))
    round_spec
  have hsum : ∑ i, x i * x i = x 0 * x 0 + x 1 * x 1 + x 2 * x 2 :=
    Fin.sum_univ_three _
  have hSlo : 1 / 2 ^ 1000 ≤ ∑ i, x i * x i := by
    obtain ⟨i, hi⟩ := hlo
    exact le_trans (sq_ge_of_abs_ge _ hi)
      (Finset.single_le_sum (f := fun j => x j * x j) (fun j _ => mul_self_nonneg _)
        (Finset.mem_univ i))
  have hShi : ∑ i, x i * x i ≤ 4 * 2 ^ 1000 := by
    rw [hsum]
    have h0 := sq_le_of_abs_le _ (hhi 0)
    have h1 := sq_le_of_abs_le _ (hhi 1)
    have h2 := sq_le_of_abs_le _ (hhi 2)
    generalize (2 : ℚ) ^ 1000 = B at h0 h1 h2 ⊢
    have hB : 0 ≤ B := le_trans (mul_self_nonneg _) h0
    linarith
  rw [← hsum] at hse
  have hS0 : 0 < ∑ i, x i * x i := lt_of_lt_of_le (by positivity) hSlo
  have hse' : |s - ∑ i, x i * x i| ≤ (∑ i, x i * x i) * (20 / 2 ^ 53) + 12 * (1 / 2 ^ 1075) := by
    refine le_trans hse (add_le_add (mul_le_mul_of_nonneg_left (by norm_num) hS0.le)
      (mul_le_mul_of_nonneg_right (by norm_num) (by positivity)))
  obtain ⟨hs48, hslo, hshi⟩ := sumSq_range _ s hSlo hShi hse'
  obtain ⟨m, r, hm, hr, hb⟩ := normalize_spec env x s hS0 hs48 (hsqrt s hslo hshi)
  rw [Fin.sum_univ_three] at hb
  refine ⟨r, ?_, hb⟩
  simp only [GraftUKFAttitude.normalized_acceleration]
  rw [hs, hm, hr 0, hr 1, hr 2]

end UnitNormFacts

section SquareRootFacts

theorem sqrtIter_eq : ∀ (fuel n x : Nat), x ≤ fuel → sqrtIter fuel n x = Nat.sqrt.iter n x
  | 0, n, x, h => by
    obtain rfl : x = 0 := Nat.le_zero.1 h
    unfold Nat.sqrt.iter
    simp [sqrtIter]
  | fuel + 1, n, x, h => by
    unfold Nat.sqrt.iter
    simp only [sqrtIter]
    split_ifs with h1
    · exact sqrtIter_eq fuel n _ (by omega)
    · rfl

theorem natSqrt_spec (n : Nat) :
    natSqrt n * natSqrt n ≤ n ∧ n < (natSqrt n + 1) * (natSqrt n + 1) := by
  unfold natSqrt
  rw [sqrtIter_eq n n n le_rfl]
  refine ⟨Nat.sqrt.iter_sq_le n n, Nat.sqrt.lt_iter_succ_sq n n ?_⟩
  nlinarith

theorem two_pow_502_sq : (2 : ℚ) ^ 502 * 2 ^ 502 = 2 * 2 ^ 1003 := by
  decide!

theorem two_pow_501_inv_sq : (1 : ℚ) / 2 ^ 501 * (1 / 2 ^ 501) = 1 / 2 ^ 1001 / 2 := by
  decide!

theorem two_pow_502_le : (2 : ℚ) ^ 502 ≤ 2 ^ 1023 := by
  decide!

theorem eta_le_501 : (1 : ℚ) / 2 ^ 1075 ≤ 1 / 2 ^ 501 * (1 / 2 ^ 60) := by
  decide!

theorem sqrt_core (s P Q : ℚ) (σ : ℕ) (v : ℚ) (hQ : 0 < Q) (hPQ : Q * Q * P = 1)
    (hX1 : 2 ^ 106 ≤ s * P) (hσ1 : (σ : ℚ) * σ ≤ s * P)
    (hσ2 : s * P < ((σ : ℚ) + 1) * (σ + 1))
    (hv1 : (σ : ℚ) ≤ v) (hv2 : v ≤ σ + 1 / 2) (hlo : 1 / 2 ^ 1001 ≤ s) (hhi : s ≤ 2 ^ 1003) :
    ∃ m : ℚ, Double.round (v * Q) = Double.finite m ∧ 0 ≤ m ∧ |m * m - s| ≤ s / 2 ^ 49 := by
  have hσ0 : (0 : ℚ) ≤ σ := Nat.cast_nonneg σ
  have hσ53 : (2 : ℚ) ^ 53 ≤ σ := by
    by_contra h
    push_neg at h
    have h1 : σ < 2 ^ 53 := by exact_mod_cast h
    have h2 : ((σ : ℚ) + 1) ≤ 2 ^ 53 := by exact_mod_cast (show σ + 1 ≤ 2 ^ 53 from h1)
    have h3 : ((σ : ℚ) + 1) * (σ + 1) ≤ 2 ^ 53 * 2 ^ 53 :=
      mul_le_mul h2 h2 (add_nonneg hσ0 zero_le_one) (by norm_num)
    have h4 : (2 : ℚ) ^ 53 * 2 ^ 53 = 2 ^ 106 := by norm_num
    linarith only [hσ2, h3, h4, hX1]
  have hs0 : 0 < s := lt_of_lt_of_le (by positivity) hlo
  have hv0 : 0 ≤ v := le_trans hσ0 hv1
  have hs_eq : s * P * (Q * Q) = s := by
    rw [mul_assoc, mul_comm P, hPQ, mul_one]
  have hQQ : 0 < Q * Q := mul_pos hQ hQ
  have hvv1 : (σ : ℚ) * σ ≤ v * v := mul_le_mul hv1 hv1 hσ0 hv0
  have hvv2 : v * v ≤ ((σ : ℚ) + 1 / 2) * (σ + 1 / 2) :=
    mul_le_mul hv2 hv2 hv0 (add_nonneg hσ0 (by norm_num))
  have hσX : (σ : ℚ) * 2 ^ 53 ≤ s * P :=
    le_trans (mul_le_mul_of_nonneg_left hσ53 hσ0) hσ1
  have hvX : |v * v - s * P| ≤ s * P * (3 / 2 ^ 53) := by
    have h53 : (1 : ℚ) ≤ 2 ^ 53 := by norm_num
    have e1 : ((σ : ℚ) + 1) * (σ + 1) = σ * σ + 2 * σ + 1 := by ring
    have e2 : ((σ : ℚ) + 1 / 2) * (σ + 1 / 2) = σ * σ + σ + 1 / 4 := by ring
    have e3 : s * P * (3 / 2 ^ 53) = 3 * (s * P / 2 ^ 53) := by ring
    have e4 : (σ : ℚ) ≤ s * P / 2 ^ 53 := by
      rw [le_div_iff₀ (by norm_num)]
      exact hσX
    rw [e1] at hσ2
    rw [e2] at hvv2
    rw [abs_le, e3]
    generalize s * P = X at *
    generalize v * v = V at *
    generalize (σ : ℚ) * σ = σσ at *
    constructor
    · linarith only [hσ1, hσ2, hvv1, hvv2, e4, hX1, hσ0]
    · linarith only [hσ1, hσ2, hvv1, hvv2, e4, hX1, hσ0]
  have hm2 : |v * Q * (v * Q) - s| ≤ s * (3 / 2 ^ 53) := by
    have e1 : v * Q * (v * Q) - s = (v * v - s * P) * (Q * Q) := by
      rw [sub_mul, hs_eq]
      ring
    have e2 : s * (3 / 2 ^ 53) = s * P * (3 / 2 ^ 53) * (Q * Q) := by
      rw [mul_right_comm, hs_eq]
    rw [e1, e2, abs_mul, abs_of_pos hQQ]
    exact mul_le_mul_of_nonneg_right hvX hQQ.le
  have hm0 : 0 ≤ v * Q := mul_nonneg hv0 hQ.le
  have hm2' := abs_le.1 hm2
  have hs3 : s * (3 / 2 ^ 53) ≤ s * (1 / 2) := mul_le_mul_of_nonneg_left (by norm_num) hs0.le
  have hmhi : v * Q ≤ 2 ^ 502 := by
    rw [mul_self_le_mul_self_iff hm0 (by positivity), two_pow_502_sq]
    linarith only [hm2'.2, hs3, hhi]
  have hmlo : 1 / 2 ^ 501 ≤ v * Q := by
    rw [mul_self_le_mul_self_iff (by positivity) hm0, two_pow_501_inv_sq]
    linarith only [hm2'.1, hs3, hlo]
  obtain ⟨y, hy, hye⟩ := round_spec (v * Q)
    (by rw [abs_of_nonneg hm0]; exact le_trans hmhi two_pow_502_le)
  rw [abs_of_nonneg hm0] at hye
  have hη : (1 : ℚ) / 2 ^ 1075 ≤ v * Q * (1 / 2 ^ 60) :=
    le_trans eta_le_501 (mul_le_mul_of_nonneg_right hmlo (by norm_num))
  have hye2 : |y - v * Q| ≤ v * Q * (1 / 2 ^ 52) := by
    refine le_trans hye ?_
    generalize (1 : ℚ) / 2 ^ 1075 = η at hη ⊢
    generalize v * Q = m at hm0 hη ⊢
    have e1 : m * (1 / 2 ^ 60) ≤ m * (1 / 2 ^ 53) :=
      mul_le_mul_of_nonneg_left (by norm_num) hm0
    have e2 : m * (1 / 2 ^ 52) = m / 2 ^ 53 + m * (1 / 2 ^ 53) := by ring
    linarith only [hη, e1, e2]
  have hye3 := abs_le.1 hye2
  have hmy : v * Q * (1 / 2 ^ 52) ≤ v * Q * 1 := mul_le_mul_of_nonneg_left (by norm_num) hm0
  have hy0 : 0 ≤ y := by linarith only [hye3.1, hmy, hm0]
  refine ⟨y, hy, hy0, ?_⟩
  have hyy : |y * y - v * Q * (v * Q)| ≤ v * Q * (v * Q) * (3 / 2 ^ 52) := by
    have e1 : y * y - v * Q * (v * Q) = (y - v * Q) * (y + v * Q) := by ring
    have e2 : |y + v * Q| ≤ v * Q * 3 := by
      rw [abs_of_nonneg (by linarith only [hy0, hm0])]
      linarith only [hye3.2, hmy]
    rw [e1, abs_mul]
    refine le_trans (mul_le_mul hye2 e2 (abs_nonneg _) (mul_nonneg hm0 (by norm_num)))
      (le_of_eq ?_)
    ring
  have hyy' := abs_le.1 hyy
  have hmm_le : v * Q * (v * Q) ≤ s * 2 := by linarith only [hm2'.2, hs3]
  have h4 : v * Q * (v * Q) * (3 / 2 ^ 52) ≤ s * 2 * (3 / 2 ^ 52) :=
    mul_le_mul_of_nonneg_right hmm_le (by norm_num)
  have e5 : s * 2 * (3 / 2 ^ 52) + s * (3 / 2 ^ 53) ≤ s / 2 ^ 49 := by
    have e6 : s / 2 ^ 49 - (s * 2 * (3 / 2 ^ 52) + s * (3 / 2 ^ 53))
        = s * (1 / 2 ^ 49 - 15 / 2 ^ 53) := by ring
    have e7 : 0 ≤ s * (1 / 2 ^ 49 - 15 / 2 ^ 53) := mul_nonneg hs0.le (by norm_num)
    linarith only [e6, e7]
  rw [abs_le]
  constructor
  · linarith only [hyy'.1, hm2'.1, h4, e5]
  · linarith only [hyy'.2, hm2'.2, h4, e5]

theorem two_zpow_scale (k : ℤ) : (2 : ℚ) ^ (-k) * 2 ^ (-k) * 2 ^ (2 * k) = 1 := by
  rw [← zpow_add₀ (by norm_num : (2 : ℚ) ≠ 0), ← zpow_add₀ (by norm_num : (2 : ℚ) ≠ 0)]
  have : -k + -k + 2 * k = 0 := by ring
  rw [this, zpow_zero]

theorem two_pow_106_le (e : ℤ) (he : 106 ≤ e) : (2 : ℚ) ^ 106 ≤ 2 ^ e := by
  have h := zpow_le_zpow_right₀ (by norm_num : (1 : ℚ) ≤ 2) he
  rwa [zpow_ofNat] at h

/-- The square root routine of `doublePlatform` is accurate on the finite positive
numbers between `2^-1001` and `2^1003`. -/
theorem doublePlatform_sqrt_accurate (S : Nat → Nat → Double) (s : ℚ)
    (hlo : 1 / 2 ^ 1001 ≤ s) (hhi : s ≤ 2 ^ 1003) :
    Double.SqrtAccurateAt (doublePlatform S) s := by
  have hs0 : 0 < s := lt_of_lt_of_le (by positivity) hlo
  obtain ⟨hl1, hl2⟩ := ilog2_spec s hs0.ne'
  rw [abs_of_pos hs0] at hl1 hl2
  have hk : 106 ≤ ilog2 s + 2 * ((108 - ilog2 s) / 2) := by omega
  have hP : (0 : ℚ) < 2 ^ (2 * ((108 - ilog2 s) / 2)) := by positivity
  have hX1 : (2 : ℚ) ^ 106 ≤ s * 2 ^ (2 * ((108 - ilog2 s) / 2)) := by
    refine le_trans (two_pow_106_le _ hk) ?_
    rw [zpow_add₀ (by norm_num : (2 : ℚ) ≠ 0)]
    exact mul_le_mul_of_nonneg_right hl1 hP.le
  have hX0 : 0 ≤ s * 2 ^ (2 * ((108 - ilog2 s) / 2)) := le_trans (by positivity) hX1
  have hn0 : 0 ≤ ⌊s * 2 ^ (2 * ((108 - ilog2 s) / 2))⌋ := Int.floor_nonneg.2 hX0
  have hn1 : ((⌊s * 2 ^ (2 * ((108 - ilog2 s) / 2))⌋.toNat : ℕ) : ℚ)
      ≤ s * 2 ^ (2 * ((108 - ilog2 s) / 2)) := by
    have h := Int.floor_le (s * 2 ^ (2 * ((108 - ilog2 s) / 2)))
    have h2 : ((⌊s * 2 ^ (2 * ((108 - ilog2 s) / 2))⌋.toNat : ℕ) : ℤ)
        = ⌊s * 2 ^ (2 * ((108 - ilog2 s) / 2))⌋ := Int.toNat_of_nonneg hn0
    rw [← h2] at h
    exact_mod_cast h
  have hn2 : s * 2 ^ (2 * ((108 - ilog2 s) / 2))
      < ((⌊s * 2 ^ (2 * ((108 - ilog2 s) / 2))⌋.toNat : ℕ) : ℚ) + 1 := by
    have h := Int.lt_floor_add_one (s * 2 ^ (2 * ((108 - ilog2 s) / 2)))
    have h2 : ((⌊s * 2 ^ (2 * ((108 - ilog2 s) / 2))⌋.toNat : ℕ) : ℤ)
        = ⌊s * 2 ^ (2 * ((108 - ilog2 s) / 2))⌋ := Int.toNat_of_nonneg hn0
    rw [← h2] at h
    exact_mod_cast h
  obtain ⟨hq1, hq2⟩ := natSqrt_spec ⌊s * 2 ^ (2 * ((108 - ilog2 s) / 2))⌋.toNat
  have hq1' : ((natSqrt ⌊s * 2 ^ (2 * ((108 - ilog2 s) / 2))⌋.toNat : ℕ) : ℚ)
      * (natSqrt ⌊s * 2 ^ (2 * ((108 - ilog2 s) / 2))⌋.toNat : ℕ)
      ≤ s * 2 ^ (2 * ((108 - ilog2 s) / 2)) := by
    refine le_trans ?_ hn1
    exact_mod_cast hq1
  have hq2' : s * 2 ^ (2 * ((108 - ilog2 s) / 2))
      < (((natSqrt ⌊s * 2 ^ (2 * ((108 - ilog2 s) / 2))⌋.toNat : ℕ) : ℚ) + 1)
        * ((natSqrt ⌊s * 2 ^ (2 * ((108 - ilog2 s) / 2))⌋.toNat : ℕ) + 1) := by
    refine lt_of_lt_of_le hn2 ?_
    exact_mod_cast (show ⌊s * 2 ^ (2 * ((108 - ilog2 s) / 2))⌋.toNat + 1
      ≤ (natSqrt ⌊s * 2 ^ (2 * ((108 - ilog2 s) / 2))⌋.toNat + 1)
        * (natSqrt ⌊s * 2 ^ (2 * ((108 - ilog2 s) / 2))⌋.toNat + 1) from hq2)
  have hsq : (doublePlatform S).sqrt (Double.finite s)
      = Double.round ((if ((natSqrt ⌊s * 2 ^ (2 * ((108 - ilog2 s) / 2))⌋.toNat : ℕ) : ℚ)
            * (natSqrt ⌊s * 2 ^ (2 * ((108 - ilog2 s) / 2))⌋.toNat : ℕ)
            = s * 2 ^ (2 * ((108 - ilog2 s) / 2))
          then ((natSqrt ⌊s * 2 ^ (2 * ((108 - ilog2 s) / 2))⌋.toNat : ℕ) : ℚ)
          else (natSqrt ⌊s * 2 ^ (2 * ((108 - ilog2 s) / 2))⌋.toNat : ℕ) + 1 / 2)
        * 2 ^ (-((108 - ilog2 s) / 2))) := by
    show Double.sqrt (Double.finite s) = _
    unfold Double.sqrt
    simp only [if_neg (not_lt.2 hs0.le), if_neg hs0.ne', pow2_eq]
  rw [Double.SqrtAccurateAt, hsq]
  refine sqrt_core s _ _ _ _ (by positivity) (two_zpow_scale _) hX1 hq1' hq2' ?_ ?_ hlo hhi
  · split_ifs
    · exact le_rfl
    · linarith
  · split_ifs
    · linarith
    · exact le_rfl

end SquareRootFacts

section DoubleClaims

theorem four_le_two_pow_500 : (4 : ℚ) ≤ 2 ^ 500 := by
  decide!

theorem two_pow_500_inv_le_one : (1 : ℚ) / 2 ^ 500 ≤ 1 := by
  decide!

/-- C3 as amended: in binary64 arithmetic, for every quaternion of finite numbers whose
largest component has a magnitude between 2^-500 and 2^500 (so that no square overflows
and the sum of the squares does not underflow), and a std::sqrt that is accurate on the
finite positive numbers (within one unit in the last place), every component of
unitQuaternion(q) is finite and the Euclidean norm of the result is within 1e-9 of 1.
The function is the same in the full-state and in the attitude-only file. -/
theorem unitQuaternion_norm_one (env : Platform Double) (x : Fin 4 → ℚ)
    (hhi : ∀ i, |x i| ≤ 2 ^ 500) (hlo : ∃ i, 1 / 2 ^ 500 ≤ |x i|)
    (hsqrt : ∀ s : ℚ, 1 / 2 ^ 1001 ≤ s → s ≤ 2 ^ 1003 → Double.SqrtAccurateAt env s) :
    ∃ r : Fin 4 → ℚ,
      (∀ i, unitQuaternion env (fun j => Double.finite (x j)) i = Double.finite (r i)) ∧
      |Real.sqrt (((r 0 * r 0 + r 1 * r 1 + r 2 * r 2 + r 3 * r 3 : ℚ) : ℝ)) - 1| ≤ 1e-9 := by
  obtain ⟨r, hr, hb⟩ := unitQuaternion_double env x hhi hlo hsqrt
  exact ⟨r, hr, norm_of_sq_sum _ 4 le_rfl hb⟩

/-- Witness of C3 as amended: the quaternion (3, 4, 0, 0) on the binary64 platform. -/
theorem unitQuaternion_norm_one_witness :
    ∃ r : Fin 4 → ℚ,
      (∀ i, unitQuaternion (doublePlatform (fun _ _ => 0))
        (fun j => Double.finite ((![3, 4, 0, 0] : Fin 4 → ℚ) j)) i = Double.finite (r i)) ∧
      |Real.sqrt (((r 0 * r 0 + r 1 * r 1 + r 2 * r 2 + r 3 * r 3 : ℚ) : ℝ)) - 1| ≤ 1e-9 :=
  unitQuaternion_norm_one (doublePlatform (fun _ _ => 0)) ![3, 4, 0, 0]
    (fun i => le_trans (by fin_cases i <;> norm_num) four_le_two_pow_500)
    ⟨0, le_trans two_pow_500_inv_le_one (by simp)⟩
    (doublePlatform_sqrt_accurate _)

/-- Counterexample to C3 as stated: in binary64 arithmetic the quaternion
(2^600, 0, 0, 0), of magnitude 2^600, is mapped to (0, 0, 0, 0), of norm 0: the square
2^1200 overflows to infinity.  The quaternion (15·2^-540, 0, 0, 0) is mapped to
(0.9375, 0, 0, 0): the square underflows and is rounded to 2^-1072. -/
theorem unitQuaternion_overflow_underflow :
    (∀ i, unitQuaternion (doublePlatform (fun _ _ => 0))
      ![Double.finite (2 ^ 600), 0, 0, 0] i = Double.finite 0) ∧
    (∀ i, unitQuaternion (doublePlatform (fun _ _ => 0))
      ![Double.finite (15 / 2 ^ 540), 0, 0, 0] i
        = (![Double.finite (15 / 16), 0, 0, 0] : Fin 4 → Double) i) := by
  decide!

end DoubleClaims

section ClampFacts

variable {K : Type} [LinearOrderedField K]

theorem absolute_call_eq_correction (env : Platform K) (est : GraftUKFAbsolute K)
    (t : K) (s : GraftSensor K) (rest : List (Option (GraftSensor K)))
    (topics : List (GraftSensor K))
    (htopics : est.topics_ = some s :: rest) (hdiv : est.diverged_ = false)
    (htime : ¬ est.last_update_time_ < 0.0001)
    (hptr : derefTopics est.topics_ = some topics) (dt : K)
    (hdt : dt = if 0.2 < t - est.last_update_time_ then 0.2 else t - est.last_update_time_) :
    est.committedCorrection env t =
      GraftUKFAbsolute.correction env { est with last_update_time_ := t } topics dt ∧
    est.predictAndUpdate env t =
      match GraftUKFAbsolute.correction env { est with last_update_time_ := t } topics dt with
      | none => some (0, { est with last_update_time_ := t })
      | some c =>
        some (dt, GraftUKFAbsolute.commit env { est with last_update_time_ := t } c topics) := by
  have h2 : (GraftUKFAbsolute.expected_interval_ : K) * 2 = 0.2 := by
    norm_num [GraftUKFAbsolute.expected_interval_]
  have h2' : (GraftUKFAbsolute.expected_interval_ : K) * 2.0 = 0.2 := by
    norm_num [GraftUKFAbsolute.expected_interval_]
  have hd : derefTopics ({ est with last_update_time_ := t } : GraftUKFAbsolute K).topics_
      = some topics := hptr
  have h1 : ¬ (noFirstTopic est.topics_ = true) := by
    rw [htopics]
    simp [noFirstTopic]
  have h3 : ¬ (est.diverged_ = true) := by
    rw [hdiv]
    simp
  constructor
  · unfold GraftUKFAbsolute.committedCorrection
    rw [if_neg h1, if_neg h3]
    simp only []
    rw [if_neg htime, hptr, h2, h2', hdt]
  · unfold GraftUKFAbsolute.predictAndUpdate
    rw [if_neg h1, if_neg h3]
    simp only []
    rw [if_neg htime, h2, h2']
    rw [absolute_body_eq_commit env { est with last_update_time_ := t } _ topics hd, hdt]

/-- C6: in the full-state filter, for a cycle with a first sensor configured, not
diverged, with a valid prior timestamp and sensors behind every topic pointer, let dt be
0.2 (twice the expected interval 0.1) when the raw elapsed time exceeds 0.2 and the raw
elapsed time otherwise.  The cycle applies the process model f with this dt to every
sigma point of the prior state: the predicted mean and covariance are those of the points
f(p, dt), and the measurements are taken at the sigma points of that prediction.  When the
measurement vector is empty the call returns 0 and only the timestamp changes; otherwise
the call commits the correction built on this prediction (its state is the predicted mean
plus the gain times the innovation) and returns this dt. -/
theorem absolute_predictAndUpdate_dt_clamp (env : Platform K) (est : GraftUKFAbsolute K)
    (t : K) (s : GraftSensor K) (rest : List (Option (GraftSensor K)))
    (topics : List (GraftSensor K))
    (htopics : est.topics_ = some s :: rest) (hdiv : est.diverged_ = false)
    (htime : ¬ est.last_update_time_ < 0.0001)
    (hptr : derefTopics est.topics_ = some topics) :
    let dt := if 0.2 < t - est.last_update_time_ then 0.2 else t - est.last_update_time_
    let lambda := est.alpha_ * est.alpha_ * (((13 : Nat) : K) + est.kappa_) - ((13 : Nat) : K)
    let predicted_sigma_points :=
      (generateSigmaPoints env est.graft_state_ est.graft_covariance_ lambda).map
        (fun p => GraftUKFAbsolute.f env p dt)
    let predicted_mean := meanFromSigmaPoints predicted_sigma_points 13 lambda
    let predicted_covariance := covarianceFromSigmaPoints predicted_sigma_points
      predicted_mean est.Q_ 13 est.alpha_ est.beta_ lambda
    let observation_sigma_points :=
      generateSigmaPoints env predicted_mean predicted_covariance lambda
    let meas := GraftUKFAbsolute.getMeasurements env topics observation_sigma_points
    (GraftUKFAbsolute.expected_interval_ : K) * 2 = 0.2 ∧
    (0.2 < t - est.last_update_time_ → dt = 0.2) ∧
    (t - est.last_update_time_ ≤ 0.2 → dt = t - est.last_update_time_) ∧
    (meas.actual_measurement = [] →
      est.predictAndUpdate env t = some (0, { est with last_update_time_ := t })) ∧
    (meas.actual_measurement ≠ [] →
      ∃ c : Correction K 13,
        est.committedCorrection env t = some c ∧
        c.predicted_mean = predicted_mean ∧
        c.predicted_covariance = predicted_covariance ∧
        c.observation_sigma_points = observation_sigma_points ∧
        c.graft_state = predicted_mean + c.K_.mulVec (c.z - c.predicted_measurement) ∧
        c.graft_covariance =
          predicted_covariance - c.K_ * c.predicted_measurement_uncertainty * c.K_.transpose ∧
        est.predictAndUpdate env t =
          some (dt, GraftUKFAbsolute.commit env { est with last_update_time_ := t } c topics)) := by
  simp only []
  have h2 : (GraftUKFAbsolute.expected_interval_ : K) * 2 = 0.2 := by
    norm_num [GraftUKFAbsolute.expected_interval_]
  obtain ⟨hcc, hpu⟩ := absolute_call_eq_correction env est t s rest topics htopics hdiv htime
    hptr _ rfl
  refine ⟨h2, fun h => if_pos h, fun h => if_neg (not_lt.2 h), ?_, ?_⟩
  · intro hz
    have hnone : GraftUKFAbsolute.correction env { est with last_update_time_ := t } topics
        (if 0.2 < t - est.last_update_time_ then 0.2 else t - est.last_update_time_)
        = none := by
      unfold GraftUKFAbsolute.correction GraftUKFAbsolute.predict_sigma_points
      simp only []
      exact if_pos (List.length_eq_zero.2 hz)
    rw [hpu, hnone]
  · intro hz
    rw [hcc, hpu]
    unfold GraftUKFAbsolute.correction GraftUKFAbsolute.predict_sigma_points
    simp only []
    rw [if_neg (fun h => hz (List.length_eq_zero.1 h))]
    exact ⟨_, rfl, rfl, rfl, rfl, rfl, rfl, rfl⟩

/-- Witness of C6: the full-state filter last updated at time 1000, with one sensor whose
sample is active, and called at time 1001 commits a correction whose predicted mean is
the mean of the sigma points moved by f with dt = 0.2, and returns 0.2. -/
theorem absolute_predictAndUpdate_dt_clamp_witness :
    ∃ c : Correction ℚ 13,
      (absoluteFilter 1 1000).committedCorrection testPlatform 1001 = some c ∧
      c.predicted_mean = meanFromSigmaPoints
        ((generateSigmaPoints testPlatform (absoluteFilter 1 1000).graft_state_
          (absoluteFilter 1 1000).graft_covariance_
          ((absoluteFilter 1 1000).alpha_ * (absoluteFilter 1 1000).alpha_
            * (((13 : Nat) : ℚ) + (absoluteFilter 1 1000).kappa_) - ((13 : Nat) : ℚ))).map
          (fun p => GraftUKFAbsolute.f testPlatform p 0.2)) 13
          ((absoluteFilter 1 1000).alpha_ * (absoluteFilter 1 1000).alpha_
            * (((13 : Nat) : ℚ) + (absoluteFilter 1 1000).kappa_) - ((13 : Nat) : ℚ)) ∧
      ((absoluteFilter 1 1000).predictAndUpdate testPlatform 1001).map Prod.fst = some 0.2 := by
  have h := absolute_predictAndUpdate_dt_clamp testPlatform (absoluteFilter 1 1000) 1001
    (sensorWith 1) [] [sensorWith 1] rfl rfl (by norm_num [absoluteFilter]) rfl
  simp only [] at h
  have hgap : (0.2 : ℚ) < 1001 - (absoluteFilter 1 1000).last_update_time_ := by
    norm_num [absoluteFilter]
  rw [if_pos hgap] at h
  obtain ⟨c, hc, hm, _, _, _, _, hp⟩ := h.2.2.2.2 (absolute_sensorWith_one_active _)
  exact ⟨c, hc, hm, by rw [hp]; rfl⟩

end ClampFacts

section SampleClearing

variable {K : Type} [LinearOrderedField K]

theorem attitude_call_eq_correction (env : Platform K) (est : GraftUKFAttitude K)
    (t : K) (s : GraftSensor K) (rest : List (Option (GraftSensor K)))
    (topics : List (GraftSensor K))
    (htopics : est.topics_ = some s :: rest) (hdiv : est.diverged_ = false)
    (htime : ¬ est.last_update_time_ < 0.0001)
    (hptr : derefTopics est.topics_ = some topics) :
    est.committedCorrection env t =
      GraftUKFAttitude.correction env { est with last_update_time_ := t } topics
        (t - est.last_update_time_) ∧
    est.predictAndUpdate env t =
      match GraftUKFAttitude.correction env { est with last_update_time_ := t } topics
        (t - est.last_update_time_) with
      | none => some (0, { est with last_update_time_ := t })
      | some c =>
        some (t - est.last_update_time_,
          GraftUKFAttitude.commit env { est with last_update_time_ := t } c topics) := by
  have hd : derefTopics ({ est with last_update_time_ := t } : GraftUKFAttitude K).topics_
      = some topics := hptr
  have h1 : ¬ (noFirstTopic est.topics_ = true) := by
    rw [htopics]
    simp [noFirstTopic]
  have h3 : ¬ (est.diverged_ = true) := by
    rw [hdiv]
    simp
  constructor
  · unfold GraftUKFAttitude.committedCorrection
    rw [if_neg h1, if_neg h3]
    simp only []
    rw [if_neg htime, hptr]
  · unfold GraftUKFAttitude.predictAndUpdate
    rw [if_neg h1, if_neg h3]
    simp only []
    rw [if_neg htime]
    rw [attitude_body_eq_commit env { est with last_update_time_ := t } _ topics hd]

theorem absolute_actual_measurement_points (env : Platform K) (topics : List (GraftSensor K))
    (pts pts' : List (Fin 13 → K)) :
    (GraftUKFAbsolute.getMeasurements env topics pts).actual_measurement =
      (GraftUKFAbsolute.getMeasurements env topics pts').actual_measurement := by
  rw [absolute_getMeasurements_channels, absolute_getMeasurements_channels]

theorem attitude_actual_measurement_points (env : Platform K) (topics : List (GraftSensor K))
    (pts pts' : List (Fin 7 → K)) :
    (GraftUKFAttitude.getMeasurements env topics pts).actual_measurement =
      (GraftUKFAttitude.getMeasurements env topics pts').actual_measurement := by
  rw [attitude_getMeasurements_channels, attitude_getMeasurements_channels]

theorem absolute_correction_none_of_empty (env : Platform K) (est : GraftUKFAbsolute K)
    (topics : List (GraftSensor K)) (dt : K)
    (hz : ∀ pts, (GraftUKFAbsolute.getMeasurements env topics pts).actual_measurement = []) :
    est.correction env topics dt = none := by
  unfold GraftUKFAbsolute.correction
  simp only []
  exact if_pos (List.length_eq_zero.2 (hz _))

theorem attitude_correction_none_of_empty (env : Platform K) (est : GraftUKFAttitude K)
    (topics : List (GraftSensor K)) (dt : K)
    (hz : ∀ pts, (GraftUKFAttitude.getMeasurements env topics pts).actual_measurement = []) :
    est.correction env topics dt = none := by
  unfold GraftUKFAttitude.correction
  simp only []
  exact if_pos (List.length_eq_zero.2 (hz _))

/-- C13 as amended: in both variants, for every predictAndUpdate call that reaches
measurement aggregation (first sensor configured, not diverged, valid prior timestamp,
every topic pointer referring to a sensor), with the measurement vector that
getMeasurements builds from the sensors (it is the same for every list of sigma points):
when the vector is not empty, the call returns and the sensors afterwards are the sensors
before, in the same order, each with its pending sample cleared by one clearMessage,
whether or not its own channels were active; when the vector is empty, the call returns
0 and only the timestamp of the filter changes, so every sensor still holds its pending
sample. -/
theorem predictAndUpdate_clears_samples_on_commit (env : Platform K) (t : K)
    (a : GraftUKFAbsolute K) (sa : GraftSensor K) (ra : List (Option (GraftSensor K)))
    (topicsA : List (GraftSensor K)) (ptsA : List (Fin 13 → K))
    (b : GraftUKFAttitude K) (sb : GraftSensor K) (rb : List (Option (GraftSensor K)))
    (topicsB : List (GraftSensor K)) (ptsB : List (Fin 7 → K))
    (ha_topics : a.topics_ = some sa :: ra) (ha_div : a.diverged_ = false)
    (ha_time : ¬ a.last_update_time_ < 0.0001)
    (ha_ptr : derefTopics a.topics_ = some topicsA)
    (hb_topics : b.topics_ = some sb :: rb) (hb_div : b.diverged_ = false)
    (hb_time : ¬ b.last_update_time_ < 0.0001)
    (hb_ptr : derefTopics b.topics_ = some topicsB) :
    ((GraftUKFAbsolute.getMeasurements env topicsA ptsA).actual_measurement ≠ [] →
      ∃ r a', a.predictAndUpdate env t = some (r, a') ∧
        a'.topics_ = (topicsA.map GraftSensor.clearMessage).map some ∧
        ∀ o ∈ a'.topics_, ∃ s : GraftSensor K, o = some s ∧ s.z = none) ∧
    ((GraftUKFAbsolute.getMeasurements env topicsA ptsA).actual_measurement = [] →
      a.predictAndUpdate env t = some (0, { a with last_update_time_ := t }) ∧
      ({ a with last_update_time_ := t } : GraftUKFAbsolute K).topics_ = a.topics_) ∧
    ((GraftUKFAttitude.getMeasurements env topicsB ptsB).actual_measurement ≠ [] →
      ∃ r b', b.predictAndUpdate env t = some (r, b') ∧
        b'.topics_ = (topicsB.map GraftSensor.clearMessage).map some ∧
        ∀ o ∈ b'.topics_, ∃ s : GraftSensor K, o = some s ∧ s.z = none) ∧
    ((GraftUKFAttitude.getMeasurements env topicsB ptsB).actual_measurement = [] →
      b.predictAndUpdate env t = some (0, { b with last_update_time_ := t }) ∧
      ({ b with last_update_time_ := t } : GraftUKFAttitude K).topics_ = b.topics_) := by
  refine ⟨?_, ?_, ?_, ?_⟩
  · intro hne
    have ha_meas : ∀ pts,
        (GraftUKFAbsolute.getMeasurements env topicsA pts).actual_measurement ≠ [] :=
      fun pts => by rw [absolute_actual_measurement_points env topicsA pts ptsA]; exact hne
    obtain ⟨c, hc⟩ := absolute_committedCorrection_of_active env a t sa ra topicsA ha_topics
      ha_div ha_time ha_ptr ha_meas
    rcases absolute_cycle_cases env a t with ⟨hnone, _⟩ | ⟨c', topics, dt, _, hd, hp⟩
    · rw [hc] at hnone
      exact absurd hnone (by simp)
    · rw [ha_ptr] at hd
      obtain rfl : topicsA = topics := Option.some.inj hd
      exact ⟨dt, _, hp, rfl, clearMessages_cleared topicsA⟩
  · intro he
    have ha_meas : ∀ pts,
        (GraftUKFAbsolute.getMeasurements env topicsA pts).actual_measurement = [] :=
      fun pts => by rw [absolute_actual_measurement_points env topicsA pts ptsA]; exact he
    refine ⟨?_, rfl⟩
    rw [(absolute_call_eq_correction env a t sa ra topicsA ha_topics ha_div ha_time ha_ptr
      _ rfl).2, absolute_correction_none_of_empty env _ topicsA _ ha_meas]
  · intro hne
    have hb_meas : ∀ pts,
        (GraftUKFAttitude.getMeasurements env topicsB pts).actual_measurement ≠ [] :=
      fun pts => by rw [attitude_actual_measurement_points env topicsB pts ptsB]; exact hne
    obtain ⟨c, hc⟩ := attitude_committedCorrection_of_active env b t sb rb topicsB hb_topics
      hb_div hb_time hb_ptr hb_meas
    rcases attitude_cycle_cases env b t with ⟨hnone, _⟩ | ⟨c', topics, dt, _, hd, hp⟩
    · rw [hc] at hnone
      exact absurd hnone (by simp)
    · rw [hb_ptr] at hd
      obtain rfl : topicsB = topics := Option.some.inj hd
      exact ⟨dt, _, hp, rfl, clearMessages_cleared topicsB⟩
  · intro he
    have hb_meas : ∀ pts,
        (GraftUKFAttitude.getMeasurements env topicsB pts).actual_measurement = [] :=
      fun pts => by rw [attitude_actual_measurement_points env topicsB pts ptsB]; exact he
    refine ⟨?_, rfl⟩
    rw [(attitude_call_eq_correction env b t sb rb topicsB hb_topics hb_div hb_time hb_ptr).2,
      attitude_correction_none_of_empty env _ topicsB _ hb_meas]

theorem attitude_sensorWith_zero_empty :
    (GraftUKFAttitude.getMeasurements testPlatform [sensorWith 0] []).actual_measurement
      = [] := by
  norm_num [GraftUKFAttitude.getMeasurements, GraftUKFAttitude.getMeasurementsTopic,
    sensorWith, sampleWith, Measurements.addChannel, addElementToVector]

/-- Witness of C13 as amended: filters last updated at time 1000 and called at time 1001;
the full-state one has a sensor whose sample is active and clears it, the attitude-only
one has a sensor whose sample has no active channel, returns 0 and keeps the sample. -/
theorem predictAndUpdate_clears_samples_on_commit_witness :
    (∃ r a', (absoluteFilter 1 1000).predictAndUpdate testPlatform 1001 = some (r, a') ∧
      a'.topics_ = [some (sensorWith 1).clearMessage]) ∧
    (attitudeFilter 0 1000).predictAndUpdate testPlatform 1001 =
      some (0, { attitudeFilter 0 1000 with last_update_time_ := 1001 }) ∧
    ({ attitudeFilter 0 1000 with last_update_time_ := 1001 } : GraftUKFAttitude ℚ).topics_
      = [some (sensorWith 0)] ∧
    (sensorWith (0 : ℚ)).z = some (sampleWith 0) := by
  have h := predictAndUpdate_clears_samples_on_commit testPlatform 1001
    (absoluteFilter 1 1000) (sensorWith 1) [] [sensorWith 1] []
    (attitudeFilter 0 1000) (sensorWith 0) [] [sensorWith 0] []
    rfl rfl (by norm_num [absoluteFilter]) rfl
    rfl rfl (by norm_num [attitudeFilter]) rfl
  obtain ⟨r, a', h1, h2, _⟩ := h.1 (absolute_sensorWith_one_active [])
  exact ⟨⟨r, a', h1, h2⟩, (h.2.2.2 attitude_sensorWith_zero_empty).1, rfl, rfl⟩

end SampleClearing

section QuaternionInvariant

variable {K : Type} [LinearOrderedField K]

theorem absolute_call_origin (env : Platform K) (R : (Fin 13 → K) → Prop)
    (P : (Fin 13 → K) → Prop) (hP : ∀ g, R g → P (GraftUKFAbsolute.renormalized env g))
    (est est' : GraftUKFAbsolute K) (call : Call K) (h0 : P est.graft_state_)
    (hcall : est.call env call = some est')
    (hin : ∀ t c, call = Call.predictAndUpdate t → est.committedCorrection env t = some c →
      R c.graft_state) :
    P est'.graft_state_ := by
  cases call with
  | predictAndUpdate t =>
    simp only [GraftUKFAbsolute.call, Option.map_eq_some', Prod.exists, exists_eq_right] at hcall
    obtain ⟨r, hp⟩ := hcall
    cases hc : est.committedCorrection env t with
    | none => rw [absolute_uncommitted_state env est t r est' hc hp]; exact h0
    | some c =>
      obtain ⟨topics, dt, _, hp'⟩ := absolute_committed_result env est t c hc
      rw [hp'] at hp
      obtain ⟨_, rfl⟩ := Prod.mk.inj (Option.some.inj hp)
      exact hP _ (hin t c rfl hc)
  | setTopics topics =>
    obtain rfl := Option.some.inj hcall
    exact h0
  | setInitialCovariance P0 =>
    obtain rfl := Option.some.inj hcall
    rw [(absolute_setter_state est P0).1]
    exact h0
  | setProcessNoise Q =>
    obtain rfl := Option.some.inj hcall
    rw [(absolute_setter_state est Q).2]
    exact h0
  | setAlpha alpha =>
    obtain rfl := Option.some.inj hcall
    exact h0
  | setKappa kappa =>
    obtain rfl := Option.some.inj hcall
    exact h0
  | setBeta beta =>
    obtain rfl := Option.some.inj hcall
    exact h0

theorem attitude_call_origin (env : Platform K) (R : (Fin 7 → K) → Prop)
    (P : (Fin 7 → K) → Prop) (hP : ∀ g, R g → P (GraftUKFAttitude.renormalized env g))
    (est est' : GraftUKFAttitude K) (call : Call K) (h0 : P est.graft_state_)
    (hcall : est.call env call = some est')
    (hin : ∀ t c, call = Call.predictAndUpdate t → est.committedCorrection env t = some c →
      R c.graft_state) :
    P est'.graft_state_ := by
  cases call with
  | predictAndUpdate t =>
    simp only [GraftUKFAttitude.call, Option.map_eq_some', Prod.exists, exists_eq_right] at hcall
    obtain ⟨r, hp⟩ := hcall
    cases hc : est.committedCorrection env t with
    | none => rw [attitude_uncommitted_state env est t r est' hc hp]; exact h0
    | some c =>
      obtain ⟨topics, dt, _, hp'⟩ := attitude_committed_result env est t c hc
      rw [hp'] at hp
      obtain ⟨_, rfl⟩ := Prod.mk.inj (Option.some.inj hp)
      exact hP _ (hin t c rfl hc)
  | setTopics topics =>
    obtain rfl := Option.some.inj hcall
    exact h0
  | setInitialCovariance P0 =>
    obtain rfl := Option.some.inj hcall
    rw [(attitude_setter_state est P0).1]
    exact h0
  | setProcessNoise Q =>
    obtain rfl := Option.some.inj hcall
    rw [(attitude_setter_state est Q).2]
    exact h0
  | setAlpha alpha =>
    obtain rfl := Option.some.inj hcall
    exact h0
  | setKappa kappa =>
    obtain rfl := Option.some.inj hcall
    exact h0
  | setBeta beta =>
    obtain rfl := Option.some.inj hcall
    exact h0

theorem absolute_run_origin (env : Platform K) (R : (Fin 13 → K) → Prop)
    (P : (Fin 13 → K) → Prop) (hP : ∀ g, R g → P (GraftUKFAbsolute.renormalized env g)) :
    ∀ (calls : List (Call K)) (est est' : GraftUKFAbsolute K), P est.graft_state_ →
      est.run env calls = some est' → GraftUKFAbsolute.CorrectionsIn env R est calls →
      P est'.graft_state_ := by
  intro calls
  induction calls with
  | nil =>
    intro est est' h0 hrun _
    obtain rfl := Option.some.inj hrun
    exact h0
  | cons call calls ih =>
    intro est est' h0 hrun hin
    unfold GraftUKFAbsolute.run at hrun
    cases hcall : est.call env call with
    | none => simp [hcall] at hrun
    | some est1 =>
      simp only [hcall] at hrun
      exact ih est1 est' (absolute_call_origin env R P hP est est1 call h0 hcall hin.1) hrun
        (hin.2 est1 hcall)

theorem attitude_run_origin (env : Platform K) (R : (Fin 7 → K) → Prop)
    (P : (Fin 7 → K) → Prop) (hP : ∀ g, R g → P (GraftUKFAttitude.renormalized env g)) :
    ∀ (calls : List (Call K)) (est est' : GraftUKFAttitude K), P est.graft_state_ →
      est.run env calls = some est' → GraftUKFAttitude.CorrectionsIn env R est calls →
      P est'.graft_state_ := by
  intro calls
  induction calls with
  | nil =>
    intro est est' h0 hrun _
    obtain rfl := Option.some.inj hrun
    exact h0
  | cons call calls ih =>
    intro est est' h0 hrun hin
    unfold GraftUKFAttitude.run at hrun
    cases hcall : est.call env call with
    | none => simp [hcall] at hrun
    | some est1 =>
      simp only [hcall] at hrun
      exact ih est1 est' (attitude_call_origin env R P hP est est1 call h0 hcall hin.1) hrun
        (hin.2 est1 hcall)

theorem absolute_renormalized_double (env : Platform Double) (g : Fin 13 → ℚ)
    (hhi : ∀ i : Fin 4, |(![g 3, g 4, g 5, g 6] : Fin 4 → ℚ) i| ≤ 2 ^ 500)
    (hlo : ∃ i : Fin 4, 1 / 2 ^ 500 ≤ |(![g 3, g 4, g 5, g 6] : Fin 4 → ℚ) i|)
    (hsqrt : ∀ s : ℚ, 1 / 2 ^ 1001 ≤ s → s ≤ 2 ^ 1003 → Double.SqrtAccurateAt env s) :
    ∃ r : Fin 4 → ℚ,
      GraftUKFAbsolute.renormalized env (fun i => Double.finite (g i)) =
        (fun i => if i = 3 then Double.finite (r 0) else if i = 4 then Double.finite (r 1)
          else if i = 5 then Double.finite (r 2) else if i = 6 then Double.finite (r 3)
          else Double.finite (g i)) ∧
      |Real.sqrt (((r 0 * r 0 + r 1 * r 1 + r 2 * r 2 + r 3 * r 3 : ℚ) : ℝ)) - 1| ≤ 1e-9 := by
  obtain ⟨r, hr, hb⟩ := unitQuaternion_double env _ hhi hlo hsqrt
  have hq : (fun j => Double.finite ((![g 3, g 4, g 5, g 6] : Fin 4 → ℚ) j))
      = ![Double.finite (g 3), Double.finite (g 4), Double.finite (g 5), Double.finite (g 6)] := by
    funext j
    fin_cases j <;> rfl
  rw [hq] at hr
  refine ⟨r, ?_, norm_of_sq_sum _ 4 le_rfl hb⟩
  funext i
  simp only [GraftUKFAbsolute.renormalized, hr]

theorem attitude_renormalized_double (env : Platform Double) (g : Fin 7 → ℚ)
    (hhi : ∀ i : Fin 4, |(![g 0, g 1, g 2, g 3] : Fin 4 → ℚ) i| ≤ 2 ^ 500)
    (hlo : ∃ i : Fin 4, 1 / 2 ^ 500 ≤ |(![g 0, g 1, g 2, g 3] : Fin 4 → ℚ) i|)
    (hsqrt : ∀ s : ℚ, 1 / 2 ^ 1001 ≤ s → s ≤ 2 ^ 1003 → Double.SqrtAccurateAt env s) :
    ∃ r : Fin 4 → ℚ,
      GraftUKFAttitude.renormalized env (fun i => Double.finite (g i)) =
        (fun i => if i = 0 then Double.finite (r 0) else if i = 1 then Double.finite (r 1)
          else if i = 2 then Double.finite (r 2) else if i = 3 then Double.finite (r 3)
          else Double.finite (g i)) ∧
      |Real.sqrt (((r 0 * r 0 + r 1 * r 1 + r 2 * r 2 + r 3 * r 3 : ℚ) : ℝ)) - 1| ≤ 1e-9 := by
  obtain ⟨r, hr, hb⟩ := unitQuaternion_double env _ hhi hlo hsqrt
  have hq : (fun j => Double.finite ((![g 0, g 1, g 2, g 3] : Fin 4 → ℚ) j))
      = ![Double.finite (g 0), Double.finite (g 1), Double.finite (g 2), Double.finite (g 3)] := by
    funext j
    fin_cases j <;> rfl
  rw [hq] at hr
  refine ⟨r, ?_, norm_of_sq_sum _ 4 le_rfl hb⟩
  funext i
  simp only [GraftUKFAttitude.renormalized, hr]

end QuaternionInvariant

section QuaternionInvariantExample

end QuaternionInvariantExample

section AccelerationBlock

variable {K : Type} [LinearOrderedField K]

end AccelerationBlock

theorem foldl_round (M η : ℚ) (hη : 0 ≤ η)
    (hround : ∀ z : ℚ, |z| ≤ M → ∃ y : ℚ, Double.round z = Double.finite y ∧
      |y - z| ≤ |z| / 2 ^ 53 + η)
    (d : Nat → Double) (t : Nat → ℚ) (T : ℚ) (acc0 : ℚ) (l : List Nat)
    (hd : ∀ k ∈ l, d k = Double.finite (t k))
    (hT : |acc0| + (l.map (fun k => |t k|)).sum ≤ T)
    (hlen : (l.length : ℚ) * 2 ≤ 2 ^ 53)
    (hM : 2 * T + 2 * l.length * η ≤ M) :
    ∃ s : ℚ, l.foldl (fun o k => o + d k) (Double.finite acc0) = Double.finite s ∧
      |s - (acc0 + (l.map t).sum)| ≤ 2 * l.length * (T / 2 ^ 53 + η) := by
  induction l using List.reverseRecOn with
  | nil =>
    refine ⟨acc0, rfl, ?_⟩
    simp
  | append_singleton l a ih =>
    have hnn : ∀ l' : List Nat, 0 ≤ (l'.map (fun k => |t k|)).sum := by
      intro l'
      apply List.sum_nonneg
      intro z hz
      obtain ⟨k, _, rfl⟩ := List.mem_map.1 hz
      exact abs_nonneg _
    have habs : ∀ l' : List Nat, |(l'.map t).sum| ≤ (l'.map (fun k => |t k|)).sum := by
      intro l'
      induction l' with
      | nil => simp
      | cons b l' ih' =>
        simp only [List.map_cons, List.sum_cons]
        exact le_trans (abs_add _ _) (by linarith)
    have hta : 0 ≤ |t a| := abs_nonneg _
    have hL : (0 : ℚ) ≤ (l.length : ℚ) := Nat.cast_nonneg _
    simp only [List.map_append, List.sum_append, List.map_cons, List.map_nil, List.sum_cons,
      List.sum_nil, add_zero, List.length_append, List.length_singleton, Nat.cast_add,
      Nat.cast_one] at hT hlen hM ⊢
    have hT0 : 0 ≤ T := by
      have h1 := hnn l
      have h2 := abs_nonneg acc0
      linarith only [h1, h2, hT, hta]
    have hLη : 0 ≤ (l.length : ℚ) * η := mul_nonneg hL hη
    obtain ⟨s', hs', he'⟩ := ih (fun k hk => hd k (List.mem_append_left _ hk))
      (by linarith only [hT, hta]) (by linarith only [hlen]) (by linarith only [hM, hη])
    have ha : (l.length : ℚ) * (T / 2 ^ 53) ≤ T / 2 := by
      have h1 : (l.length : ℚ) * (T / 2 ^ 53) ≤ 2 ^ 53 / 2 * (T / 2 ^ 53) :=
        mul_le_mul_of_nonneg_right (by linarith only [hlen]) (by positivity)
      have h2 : (2 : ℚ) ^ 53 / 2 * (T / 2 ^ 53) = T / 2 := by ring
      linarith only [h1, h2]
    have hb : (l.length : ℚ) * η / 2 ^ 53 ≤ η / 2 := by
      have h1 : (l.length : ℚ) * η ≤ 2 ^ 53 / 2 * η :=
        mul_le_mul_of_nonneg_right (by linarith only [hlen]) hη
      have h2 : (l.length : ℚ) * η / 2 ^ 53 ≤ 2 ^ 53 / 2 * η / 2 ^ 53 :=
        div_le_div_of_nonneg_right h1 (by positivity)
      have h3 : (2 : ℚ) ^ 53 / 2 * η / 2 ^ 53 = η / 2 := by ring
      linarith only [h2, h3]
    have ha0 : 0 ≤ (l.length : ℚ) * (T / 2 ^ 53) := mul_nonneg hL (by positivity)
    have hE : 2 * (l.length : ℚ) * (T / 2 ^ 53 + η)
        = 2 * ((l.length : ℚ) * (T / 2 ^ 53)) + 2 * ((l.length : ℚ) * η) := by ring
    rw [hE] at he'
    have hA := habs l
    have hacc := abs_nonneg acc0
    have hsum : |acc0 + (l.map t).sum| ≤ |acc0| + (l.map (fun k => |t k|)).sum :=
      le_trans (abs_add _ _) (by linarith only [hA])
    have hs'abs : |s'| ≤ |acc0 + (l.map t).sum|
        + (2 * ((l.length : ℚ) * (T / 2 ^ 53)) + 2 * ((l.length : ℚ) * η)) := by
      have h1 := abs_sub_abs_le_abs_sub s' (acc0 + (l.map t).sum)
      linarith only [h1, he']
    have hz : |s' + t a| ≤ M := by
      have h1 := abs_add s' (t a)
      linarith only [h1, hs'abs, hsum, hT, ha, hM, hLη, hη]
    obtain ⟨s, hs, hse⟩ := hround (s' + t a) hz
    refine ⟨s, ?_, ?_⟩
    · rw [List.foldl_append, hs', List.foldl_cons, List.foldl_nil,
        hd a (List.mem_append_right _ (List.mem_singleton_self a)), finite_add_finite, hs]
    · have hzz : |s' + t a| ≤ T + (2 * ((l.length : ℚ) * (T / 2 ^ 53))
          + 2 * ((l.length : ℚ) * η)) := by
        have h1 := abs_add s' (t a)
        linarith only [h1, hs'abs, hsum, hT]
      have hdiv : |s' + t a| / 2 ^ 53 ≤ (T + (2 * ((l.length : ℚ) * (T / 2 ^ 53))
          + 2 * ((l.length : ℚ) * η))) / 2 ^ 53 :=
        div_le_div_of_nonneg_right hzz (by positivity)
      have hsplit : (T + (2 * ((l.length : ℚ) * (T / 2 ^ 53))
          + 2 * ((l.length : ℚ) * η))) / 2 ^ 53
          = T / 2 ^ 53 + 2 * ((l.length : ℚ) * (T / 2 ^ 53)) / 2 ^ 53
            + 2 * ((l.length : ℚ) * η / 2 ^ 53) := by ring
      have hTu : 2 * ((l.length : ℚ) * (T / 2 ^ 53)) / 2 ^ 53 ≤ T / 2 ^ 53 :=
        div_le_div_of_nonneg_right (by linarith only [ha]) (by positivity)
      have hfin : s - (acc0 + ((l.map t).sum + t a))
          = (s - (s' + t a)) + (s' - (acc0 + (l.map t).sum)) := by ring
      have hgoal : 2 * ((l.length : ℚ) + 1) * (T / 2 ^ 53 + η)
          = 2 * ((l.length : ℚ) * (T / 2 ^ 53)) + 2 * ((l.length : ℚ) * η)
            + 2 * (T / 2 ^ 53) + 2 * η := by ring
      rw [hfin, hgoal]
      have h1 := abs_add (s - (s' + t a)) (s' - (acc0 + (l.map t).sum))
      linarith only [h1, hse, he', hdiv, hsplit, hTu, hb, hη]

theorem natCast_double (N : ℕ) (hN : N < 2 ^ 53) :
    ((N : ℕ) : Double) = Double.finite (N : ℚ) :=
  round_natCast N hN

theorem two_double : (2 : Double) = Double.finite 2 := rfl

theorem one_double : (1 : Double) = Double.finite 1 := rfl

/-- The weights of the unscented transform in binary64: the computed `N + lambda`, the
computed weight `1 / (2 (N + lambda))`, within `7·2^-53` of the exact one, and the
computed centre weight `lambda / (N + lambda)`, within `5·2^-53` of the exact one apart
from an underflow. -/
theorem weights_round (M η : ℚ)
    (hround : ∀ z : ℚ, |z| ≤ M → ∃ y : ℚ, Double.round z = Double.finite y ∧
      |y - z| ≤ |z| / 2 ^ 53 + η)
    (N : ℕ) (lam : ℚ) (hN : N < 2 ^ 53) (hD : 0 < (N : ℚ) + lam)
    (hηD : η ≤ ((N : ℚ) + lam) / 2 ^ 53)
    (hηw : η ≤ 1 / (4 * ((N : ℚ) + lam)) / 2 ^ 53)
    (hM1 : 4 * ((N : ℚ) + lam) ≤ M) (hM2 : 2 / ((N : ℚ) + lam) ≤ M)
    (hM3 : 2 * |lam / ((N : ℚ) + lam)| ≤ M) :
    ∃ D' wi w0 : ℚ,
      ((N : ℕ) : Double) + Double.finite lam = Double.finite D' ∧
      (1 : Double) / ((2 : Double) * Double.finite D') = Double.finite wi ∧
      Double.finite lam / Double.finite D' = Double.finite w0 ∧
      |wi - 1 / (2 * ((N : ℚ) + lam))| ≤ 1 / (2 * ((N : ℚ) + lam)) * (7 / 2 ^ 53) ∧
      |w0 - lam / ((N : ℚ) + lam)| ≤ |lam / ((N : ℚ) + lam)| * (5 / 2 ^ 53) + η := by
  generalize hDdef : (N : ℚ) + lam = D at *
  have hDne : D ≠ 0 := ne_of_gt hD
  -- the sum
  obtain ⟨D', hD', hDe⟩ := hround D (by rw [abs_of_pos hD]; linarith only [hM1, hD])
  rw [abs_of_pos hD] at hDe
  have hDe' := abs_le.1 hDe
  have hD'pos : 0 < D' := by linarith only [hDe'.1, hηD, hD]
  have hD'ne : D' ≠ 0 := ne_of_gt hD'pos
  -- twice the sum
  have h2D' : (0 : ℚ) < 2 * D' := by linarith only [hD'pos]
  obtain ⟨T2, hT2, hT2e⟩ := hround (2 * D') (by
    rw [abs_of_pos h2D']
    linarith only [hDe'.2, hηD, hD, hM1])
  rw [abs_of_pos h2D'] at hT2e
  have hT2e' := abs_le.1 hT2e
  have hT2D : |T2 - 2 * D| ≤ 2 * D * (4 / 2 ^ 53) := by
    rw [abs_le]
    constructor
    · linarith only [hT2e'.1, hDe'.1, hDe'.2, hηD, hD]
    · linarith only [hT2e'.2, hDe'.1, hDe'.2, hηD, hD]
  have hT2D' := abs_le.1 hT2D
  have hT2pos : 0 < T2 := by linarith only [hT2D'.1, hD]
  have hT2ne : T2 ≠ 0 := ne_of_gt hT2pos
  -- the reciprocal
  have hq0 : 0 < 1 / T2 := one_div_pos.2 hT2pos
  have hw0 : 0 < 1 / (2 * D) := one_div_pos.2 (by linarith only [hD])
  have hwD : 1 / (2 * D) * (2 * D) = 1 := by field_simp
  have hqw : |1 / T2 - 1 / (2 * D)| ≤ 1 / T2 * (4 / 2 ^ 53) := by
    have hid : 1 / T2 - 1 / (2 * D) = 1 / T2 * (1 / (2 * D)) * (2 * D - T2) := by
      field_simp
    rw [hid, abs_mul, abs_of_pos (mul_pos hq0 hw0)]
    have h1 : |2 * D - T2| ≤ 2 * D * (4 / 2 ^ 53) := by
      rw [abs_sub_comm]
      exact hT2D
    have h2 : 1 / T2 * (1 / (2 * D)) * |2 * D - T2|
        ≤ 1 / T2 * (1 / (2 * D)) * (2 * D * (4 / 2 ^ 53)) :=
      mul_le_mul_of_nonneg_left h1 (le_of_lt (mul_pos hq0 hw0))
    have h3 : 1 / T2 * (1 / (2 * D)) * (2 * D * (4 / 2 ^ 53))
        = 1 / T2 * (1 / (2 * D) * (2 * D)) * (4 / 2 ^ 53) := by ring
    rw [h3, hwD, mul_one] at h2
    exact h2
  have hqw' := abs_le.1 hqw
  have h1 : 1 / (2 * D) = 2 / D / 4 := by
    field_simp
    ring
  have h1' : 1 / (4 * D) / 2 ^ 53 = 1 / (2 * D) / 2 * (1 / 2 ^ 53) := by
    field_simp
    ring
  -- the centre weight
  have hDD' : |(D - D') / D'| ≤ 3 / 2 ^ 53 := by
    rw [abs_div, abs_of_pos hD'pos, div_le_iff₀ hD'pos, abs_le]
    constructor
    · linarith only [hDe'.1, hDe'.2, hηD, hD, hD'pos]
    · linarith only [hDe'.1, hDe'.2, hηD, hD, hD'pos]
  have hr0 : |lam / D' - lam / D| ≤ |lam / D| * (3 / 2 ^ 53) := by
    have hid : lam / D' - lam / D = lam / D * ((D - D') / D') := by
      field_simp
      ring
    rw [hid, abs_mul]
    exact mul_le_mul_of_nonneg_left hDD' (abs_nonneg _)
  have hr0' := abs_sub_abs_le_abs_sub (lam / D') (lam / D)
  have hwabs : 0 ≤ |lam / D| := abs_nonneg _
  have hqle : 1 / T2 ≤ 1 / (2 * D) * (1 + 8 / 2 ^ 53) := by
    linarith only [hqw'.2, hw0, hq0]
  obtain ⟨wi, hwi, hwie⟩ := hround (1 / T2) (by
    rw [abs_of_pos hq0]
    linarith only [hqle, h1, hM2, hw0])
  rw [abs_of_pos hq0] at hwie
  have hwie' := abs_le.1 hwie
  have hηw' : η ≤ 1 / (2 * D) / 2 * (1 / 2 ^ 53) := by linarith only [hηw, h1']
  have hr0abs : |lam / D'| ≤ |lam / D| * (1 + 3 / 2 ^ 53) := by
    linarith only [hr0', hr0]
  obtain ⟨w0, hw0', hw0e⟩ := hround (lam / D') (by linarith only [hr0abs, hM3, hwabs])
  refine ⟨D', wi, w0, ?_, ?_, ?_, ?_, ?_⟩
  · rw [natCast_double N hN, finite_add_finite, hDdef, hD']
  · rw [two_double, one_double, finite_mul_finite, hT2, finite_div_finite _ _ hT2ne, hwi]
  · rw [finite_div_finite _ _ hD'ne, hw0']
  · rw [abs_le]
    constructor
    · linarith only [hwie'.1, hqw'.1, hqle, hηw', hw0]
    · linarith only [hwie'.2, hqw'.2, hqle, hηw', hw0]
  · have h2 : w0 - lam / D = (w0 - lam / D') + (lam / D' - lam / D) := by ring
    rw [h2]
    have h3 := abs_add (w0 - lam / D') (lam / D' - lam / D)
    linarith only [h3, hw0e, hr0, hr0abs, hwabs]

theorem foldl_add_apply_vec {F : Type} [Add F] {m : Nat} (f : Nat → Fin m → F)
    (l : List Nat) (out : Fin m → F) (r : Fin m) :
    (l.foldl (fun out k => out + f k) out) r = l.foldl (fun o k => o + f k r) (out r) := by
  induction l generalizing out with
  | nil => rfl
  | cons a l ih =>
    simp only [List.foldl_cons]
    rw [ih]
    rfl

theorem meanFromSigmaPoints_apply {F : Type} [Zero F] [One F] [Add F] [Mul F] [Div F]
    [NatCast F] [OfNat F 2] {m : Nat} (sigma_points : List (Fin m → F)) (n : Nat)
    (lambda : F) (r : Fin m) :
    meanFromSigmaPoints sigma_points n lambda r
      = (List.range' 1 (2 * n)).foldl
          (fun o k => o + 1 / (2 * ((n : F) + lambda)) * sigma_points.getD k 0 r)
          (lambda / ((n : F) + lambda) * sigma_points.getD 0 0 r) := by
  unfold meanFromSigmaPoints
  rw [foldl_add_apply_vec]
  rfl

theorem list_sum_abs_le (t : Nat → ℚ) (b : ℚ) (l : List Nat) (h : ∀ k ∈ l, |t k| ≤ b) :
    (l.map (fun k => |t k|)).sum ≤ l.length * b := by
  induction l with
  | nil => simp
  | cons a l ih =>
    simp only [List.map_cons, List.sum_cons, List.length_cons, Nat.cast_add, Nat.cast_one]
    have h1 := h a (List.mem_cons_self a l)
    have h2 := ih (fun k hk => h k (List.mem_cons_of_mem a hk))
    linarith only [h1, h2]

theorem list_sum_sub_le (t s : Nat → ℚ) (e : ℚ) (l : List Nat)
    (h : ∀ k ∈ l, |t k - s k| ≤ e) :
    |(l.map t).sum - (l.map s).sum| ≤ l.length * e := by
  induction l with
  | nil => simp
  | cons a l ih =>
    simp only [List.map_cons, List.sum_cons, List.length_cons, Nat.cast_add, Nat.cast_one]
    have h1 := h a (List.mem_cons_self a l)
    have h2 := ih (fun k hk => h k (List.mem_cons_of_mem a hk))
    have h3 : t a + (l.map t).sum - (s a + (l.map s).sum)
        = (t a - s a) + ((l.map t).sum - (l.map s).sum) := by ring
    rw [h3]
    have h4 := abs_add (t a - s a) ((l.map t).sum - (l.map s).sum)
    linarith only [h4, h1, h2]

/-- A product of a computed weight and a coordinate in binary64: when the weight `w'`
is within `w c / 2^53 + e` of the exact weight `w` and the coordinate is at most `X` in
magnitude, the rounded product is within `(w X) (c + 2) / 2^53 + 2 e X + η` of the exact
product. -/
theorem weighted_round (M η : ℚ)
    (hround : ∀ z : ℚ, |z| ≤ M → ∃ y : ℚ, Double.round z = Double.finite y ∧
      |y - z| ≤ |z| / 2 ^ 53 + η)
    (w' w W c e x X : ℚ) (hW : |w| ≤ W) (hc : 0 ≤ c) (hc' : c ≤ 2 ^ 52) (he : 0 ≤ e)
    (hw : |w' - w| ≤ W * (c / 2 ^ 53) + e) (hx : |x| ≤ X) (hM : 2 * (W * X) + e * X ≤ M) :
    ∃ p : ℚ, Double.finite w' * Double.finite x = Double.finite p ∧
      |p - w * x| ≤ W * X * ((c + 2) / 2 ^ 53) + 2 * (e * X) + η ∧
      |p| ≤ W * X * (1 + (c + 2) / 2 ^ 53) + 2 * (e * X) + η := by
  have hW0 : 0 ≤ W := le_trans (abs_nonneg _) hW
  have hX0 : 0 ≤ X := le_trans (abs_nonneg _) hx
  have hWX : 0 ≤ W * X := mul_nonneg hW0 hX0
  have heX : 0 ≤ e * X := mul_nonneg he hX0
  have h1 : |w' * x - w * x| ≤ W * X * (c / 2 ^ 53) + e * X := by
    have hid : w' * x - w * x = (w' - w) * x := by ring
    rw [hid, abs_mul]
    have h := mul_le_mul hw hx (abs_nonneg _) (by positivity)
    have hid2 : (W * (c / 2 ^ 53) + e) * X = W * X * (c / 2 ^ 53) + e * X := by ring
    rw [hid2] at h
    exact h
  have h2 : |w * x| ≤ W * X := by
    rw [abs_mul]
    exact mul_le_mul hW hx (abs_nonneg _) hW0
  have h3 : |w' * x| ≤ W * X * (1 + c / 2 ^ 53) + e * X := by
    have h0 := abs_sub_abs_le_abs_sub (w' * x) (w * x)
    linarith only [h0, h1, h2]
  have hcW : W * X * (c / 2 ^ 53) ≤ W * X * (1 / 2) := by
    apply mul_le_mul_of_nonneg_left _ hWX
    rw [div_le_iff₀ (by positivity)]
    linarith only [hc']
  obtain ⟨p, hp, hpe⟩ := hround (w' * x) (by linarith only [h3, hcW, hM, hWX, heX])
  have h4 : |w' * x| / 2 ^ 53 ≤ (W * X * (1 + c / 2 ^ 53) + e * X) / 2 ^ 53 :=
    div_le_div_of_nonneg_right h3 (by positivity)
  have h5 : (W * X * (1 + c / 2 ^ 53) + e * X) / 2 ^ 53
      = W * X * (1 / 2 ^ 53) + W * X * (c / 2 ^ 53) / 2 ^ 53 + e * X / 2 ^ 53 := by ring
  have h6 : W * X * (c / 2 ^ 53) / 2 ^ 53 ≤ W * X * (1 / 2) / 2 ^ 53 :=
    div_le_div_of_nonneg_right hcW (by positivity)
  have h7 : e * X / 2 ^ 53 ≤ e * X := div_le_self heX (by norm_num)
  have h8 : |p - w * x| ≤ W * X * ((c + 2) / 2 ^ 53) + 2 * (e * X) + η := by
    have hid : p - w * x = (p - w' * x) + (w' * x - w * x) := by ring
    rw [hid]
    have := abs_add (p - w' * x) (w' * x - w * x)
    have h9 : W * X * ((c + 2) / 2 ^ 53)
        = W * X * (c / 2 ^ 53) + 2 * (W * X * (1 / 2 ^ 53)) := by ring
    have h10 : W * X * (1 / 2) / 2 ^ 53 ≤ W * X * (1 / 2 ^ 53) := by
      have : W * X * (1 / 2) / 2 ^ 53 = W * X * (1 / 2 ^ 53) / 2 := by ring
      rw [this]
      exact div_le_self (by positivity) (by norm_num)
    linarith only [this, hpe, h1, h4, h5, h6, h7, h9, h10]
  refine ⟨p, ?_, h8, ?_⟩
  · rw [finite_mul_finite, hp]
  · have := abs_sub_abs_le_abs_sub p (w * x)
    have h9 : W * X * (1 + (c + 2) / 2 ^ 53)
        = W * X + W * X * ((c + 2) / 2 ^ 53) := by ring
    linarith only [this, h8, h2, h9]

/-- The error of meanFromSigmaPoints in binary64, coordinate by coordinate: when the
coordinates `x k` of the points are at most `X` in magnitude, the result is within
`(4 N + 11) κ X / 2^53 + (8 N + 2) η` of the exactly weighted mean, where
`κ = (|lambda| + N) / (N + lambda)` is the sum of the magnitudes of the weights. -/
theorem meanFromSigmaPoints_round (M η : ℚ) (hη : 0 ≤ η) (hηu : η ≤ 1 / 2 ^ 55)
    (hround : ∀ z : ℚ, |z| ≤ M → ∃ y : ℚ, Double.round z = Double.finite y ∧
      |y - z| ≤ |z| / 2 ^ 53 + η)
    {m : Nat} (pts : List (Fin m → Double)) (N : ℕ) (lam : ℚ) (r : Fin m) (x : ℕ → ℚ)
    (X : ℚ) (hN : N ≤ 2 ^ 40) (hD : 0 < (N : ℚ) + lam)
    (hηD : η ≤ ((N : ℚ) + lam) / 2 ^ 53)
    (hηw : η ≤ 1 / (4 * ((N : ℚ) + lam)) / 2 ^ 53)
    (hM1 : 4 * ((N : ℚ) + lam) ≤ M) (hM2 : 2 / ((N : ℚ) + lam) ≤ M)
    (hM3 : 2 * |lam / ((N : ℚ) + lam)| ≤ M)
    (hM4 : 4 * ((|lam| + N) / ((N : ℚ) + lam) * X) + 4 * X + 8 * N + 2 ≤ M)
    (hpt0 : pts.getD 0 0 r = Double.finite (x 0))
    (hpts : ∀ k ∈ List.range' 1 (2 * N), pts.getD k 0 r = Double.finite (x k))
    (hX0 : |x 0| ≤ X) (hX : ∀ k ∈ List.range' 1 (2 * N), |x k| ≤ X) :
    ∃ y : ℚ, meanFromSigmaPoints pts N (Double.finite lam) r = Double.finite y ∧
      |y - (lam / ((N : ℚ) + lam) * x 0
          + ((List.range' 1 (2 * N)).map (fun k => 1 / (2 * ((N : ℚ) + lam)) * x k)).sum)|
        ≤ (4 * N + 11) * ((|lam| + N) / ((N : ℚ) + lam) * X) / 2 ^ 53 + (8 * N + 2) * η := by
  have hN53 : N < 2 ^ 53 := lt_of_le_of_lt hN (by norm_num)
  have hNq : (N : ℚ) ≤ 2 ^ 40 := by exact_mod_cast hN
  have hN0 : (0 : ℚ) ≤ N := Nat.cast_nonneg N
  have hX00 : 0 ≤ X := le_trans (abs_nonneg _) hX0
  obtain ⟨D', wi, w0, hD', hwi, hw0, hwie, hw0e⟩ :=
    weights_round M η hround N lam hN53 hD hηD hηw hM1 hM2 hM3
  generalize hDdef : (N : ℚ) + lam = D at *
  have hWi0 : 0 < 1 / (2 * D) := one_div_pos.2 (mul_pos two_pos hD)
  have hW0 : 0 ≤ |lam / D| := abs_nonneg _
  -- the sum of the magnitudes of the weights
  have hκ : (|lam| + N) / D * X = |lam / D| * X + 2 * (N * (1 / (2 * D) * X)) := by
    rw [abs_div, abs_of_pos hD]
    field_simp
    ring
  have hκ1 : X ≤ (|lam| + N) / D * X := by
    have h1 : 1 ≤ (|lam| + N) / D := by
      rw [le_div_iff₀ hD, one_mul, ← hDdef]
      have h2 := le_abs_self lam
      linarith only [h2]
    have h3 := mul_le_mul_of_nonneg_right h1 hX00
    linarith only [h3]
  rw [hκ] at hM4 hκ1 ⊢
  have ha0 : 0 ≤ |lam / D| * X := mul_nonneg hW0 hX00
  have hb0 : 0 ≤ 1 / (2 * D) * X := mul_nonneg (le_of_lt hWi0) hX00
  have hNb0 : 0 ≤ (N : ℚ) * (1 / (2 * D) * X) := mul_nonneg hN0 hb0
  have hc0 : 0 ≤ η * X := mul_nonneg hη hX00
  have hc1 : η * X ≤ 1 / 2 ^ 55 * X := mul_le_mul_of_nonneg_right hηu hX00
  -- the products
  obtain ⟨p0, hp0, hp0e, hp0a⟩ := weighted_round M η hround w0 (lam / D) (|lam / D|) 5 η
    (x 0) X (le_refl _) (by norm_num) (by norm_num) hη hw0e hX0
    (by linarith only [hM4, ha0, hNb0, hc1, hX00, hN0])
  have hprod : ∀ k, k ∈ List.range' 1 (2 * N) → ∃ p : ℚ,
      Double.finite wi * Double.finite (x k) = Double.finite p ∧
      |p - 1 / (2 * D) * x k| ≤ 1 / (2 * D) * X * ((7 + 2) / 2 ^ 53) + 2 * (0 * X) + η ∧
      |p| ≤ 1 / (2 * D) * X * (1 + (7 + 2) / 2 ^ 53) + 2 * (0 * X) + η := by
    intro k hk
    have hN1 : (1 : ℚ) ≤ N := by
      have h1 := (List.mem_range'_1.1 hk)
      have h2 : 1 ≤ N := by omega
      exact_mod_cast h2
    have hb1 : 1 / (2 * D) * X ≤ (N : ℚ) * (1 / (2 * D) * X) :=
      le_mul_of_one_le_left hb0 hN1
    exact weighted_round M η hround wi (1 / (2 * D)) (1 / (2 * D)) 7 0 (x k) X
      (by rw [abs_of_pos hWi0]) (by norm_num) (by norm_num) (le_refl _)
      (by rw [add_zero]; exact hwie) (hX k hk)
      (by linarith only [hb1, hM4, ha0, hX00, hN0, hNb0])
  choose! t ht hte hta using hprod
  -- the sum
  have hlen : ((List.range' 1 (2 * N)).length : ℚ) = 2 * N := by
    rw [List.length_range']
    push_cast
    ring
  have hsumabs := list_sum_abs_le t _ (List.range' 1 (2 * N)) hta
  have hsumsub := list_sum_sub_le t (fun k => 1 / (2 * D) * x k) _ (List.range' 1 (2 * N)) hte
  rw [hlen] at hsumabs hsumsub
  have hNa : (N : ℚ) * (|lam / D| * X) ≤ 2 ^ 40 * (|lam / D| * X) :=
    mul_le_mul_of_nonneg_right hNq ha0
  have hNb : (N : ℚ) * ((N : ℚ) * (1 / (2 * D) * X)) ≤ 2 ^ 40 * ((N : ℚ) * (1 / (2 * D) * X)) :=
    mul_le_mul_of_nonneg_right hNq hNb0
  have hNc : (N : ℚ) * (η * X) ≤ 2 ^ 40 * (η * X) := mul_le_mul_of_nonneg_right hNq hc0
  have hNη0 : 0 ≤ (N : ℚ) * η := mul_nonneg hN0 hη
  have hNNη : (N : ℚ) * ((N : ℚ) * η) ≤ 2 ^ 40 * ((N : ℚ) * η) :=
    mul_le_mul_of_nonneg_right hNq hNη0
  have hNη1 : (N : ℚ) * η ≤ N * (1 / 2 ^ 55) := mul_le_mul_of_nonneg_left hηu hN0
  obtain ⟨y, hy, hye⟩ := foldl_round M η hη hround
    (fun k => (1 : Double) / ((2 : Double) * Double.finite D') * pts.getD k 0 r) t
    (|lam / D| * X * (1 + (5 + 2) / 2 ^ 53) + 2 * (η * X) + η
      + 2 * N * (1 / (2 * D) * X * (1 + (7 + 2) / 2 ^ 53) + 2 * (0 * X) + η))
    p0 (List.range' 1 (2 * N))
    (fun k hk => by
      show (1 : Double) / ((2 : Double) * Double.finite D') * pts.getD k 0 r = _
      rw [hwi, hpts k hk, ht k hk])
    (by linarith only [hp0a, hsumabs])
    (by rw [hlen]; linarith only [hNq])
    (by
      rw [hlen]
      have e1 : 2 * N * (1 / (2 * D) * X * (1 + (7 + 2) / 2 ^ 53) + 2 * (0 * X) + η)
          = 2 * ((N : ℚ) * (1 / (2 * D) * X)) * (1 + 9 / 2 ^ 53) + 2 * ((N : ℚ) * η) := by
        ring
      rw [e1]
      linarith only [hM4, ha0, hNb0, hc1, hX00, hN0, hηu, hNη1])
  rw [hlen] at hye
  refine ⟨y, ?_, ?_⟩
  · rw [meanFromSigmaPoints_apply, hD', hpt0, hw0, hp0]
    exact hy
  · have hid : y - (lam / D * x 0
          + ((List.range' 1 (2 * N)).map (fun k => 1 / (2 * D) * x k)).sum)
        = (y - (p0 + ((List.range' 1 (2 * N)).map t).sum)) + (p0 - lam / D * x 0)
          + (((List.range' 1 (2 * N)).map t).sum
            - ((List.range' 1 (2 * N)).map (fun k => 1 / (2 * D) * x k)).sum) := by ring
    rw [hid]
    have h1 := abs_add ((y - (p0 + ((List.range' 1 (2 * N)).map t).sum))
      + (p0 - lam / D * x 0)) (((List.range' 1 (2 * N)).map t).sum
            - ((List.range' 1 (2 * N)).map (fun k => 1 / (2 * D) * x k)).sum)
    have h2 := abs_add (y - (p0 + ((List.range' 1 (2 * N)).map t).sum))
      (p0 - lam / D * x 0)
    have hye' : |y - (p0 + ((List.range' 1 (2 * N)).map t).sum)| ≤ 4 * ((N : ℚ) * (|lam / D| * X)) * (1 + 7 / 2 ^ 53) / 2 ^ 53
        + 8 * ((N : ℚ) * (η * X)) / 2 ^ 53 + 4 * ((N : ℚ) * η) / 2 ^ 53
        + 8 * ((N : ℚ) * ((N : ℚ) * (1 / (2 * D) * X))) * (1 + 9 / 2 ^ 53) / 2 ^ 53
        + 8 * ((N : ℚ) * ((N : ℚ) * η)) / 2 ^ 53 + 4 * ((N : ℚ) * η) := by
      refine le_trans hye (le_of_eq ?_)
      ring
    have hsumsub' : |((List.range' 1 (2 * N)).map t).sum
            - ((List.range' 1 (2 * N)).map (fun k => 1 / (2 * D) * x k)).sum| ≤ 2 * ((N : ℚ) * (1 / (2 * D) * X)) * (9 / 2 ^ 53)
        + 2 * ((N : ℚ) * η) := by
      refine le_trans hsumsub (le_of_eq ?_)
      ring
    have hgoal : (4 * (N : ℚ) + 11) * (|lam / D| * X + 2 * ((N : ℚ) * (1 / (2 * D) * X)))
          / 2 ^ 53 + (8 * N + 2) * η
        = 4 * ((N : ℚ) * (|lam / D| * X)) / 2 ^ 53
          + 8 * ((N : ℚ) * ((N : ℚ) * (1 / (2 * D) * X))) / 2 ^ 53
          + 11 * (|lam / D| * X) / 2 ^ 53 + 22 * ((N : ℚ) * (1 / (2 * D) * X)) / 2 ^ 53
          + 8 * ((N : ℚ) * η) + 2 * η := by ring
    rw [hgoal]
    linarith only [h1, h2, hye', hp0e, hsumsub', hNa, hNb, hNc, hNNη, ha0, hNb0, hc0, hNη0, hη, hX00,
      hc1, hκ1]

/-- The ranges under which no intermediate result of meanFromSigmaPoints overflows and
the weights do not underflow: `N`, `|lambda|` and the coordinates at most `B`, and
`N + lambda` at least `1 / B`. -/
theorem unscented_box (B M η : ℚ) (n : ℕ) (lam X : ℚ) (hB1 : 1 ≤ B) (hnB : (n : ℚ) ≤ B)
    (hlo : 1 / B ≤ (n : ℚ) + lam) (hhi : |lam| ≤ B) (hX0 : 0 ≤ X) (hX : X ≤ B)
    (c1 : η ≤ 1 / B / 2 ^ 53) (c2 : η ≤ 1 / (4 * (2 * B)) / 2 ^ 53) (c3 : 4 * (2 * B) ≤ M)
    (c5 : 2 * (B * B) ≤ M) (c6 : 4 * (2 * B * B * B) + 4 * B + 8 * B + 2 ≤ M) :
    0 < (n : ℚ) + lam ∧ η ≤ ((n : ℚ) + lam) / 2 ^ 53 ∧
      η ≤ 1 / (4 * ((n : ℚ) + lam)) / 2 ^ 53 ∧ 4 * ((n : ℚ) + lam) ≤ M ∧
      2 / ((n : ℚ) + lam) ≤ M ∧ 2 * |lam / ((n : ℚ) + lam)| ≤ M ∧
      4 * ((|lam| + n) / ((n : ℚ) + lam) * X) + 4 * X + 8 * n + 2 ≤ M := by
  have hB0 : 0 < B := lt_of_lt_of_le one_pos hB1
  have hBinv : 0 < 1 / B := one_div_pos.2 hB0
  have hD : 0 < (n : ℚ) + lam := lt_of_lt_of_le hBinv hlo
  have hlam := le_abs_self lam
  have hDle : (n : ℚ) + lam ≤ 2 * B := by linarith only [hnB, hhi, hlam]
  have hinv : 1 / ((n : ℚ) + lam) ≤ B := by
    rw [div_le_iff₀ hD]
    have h1 : B * (1 / B) ≤ B * ((n : ℚ) + lam) := mul_le_mul_of_nonneg_left hlo (le_of_lt hB0)
    rw [mul_one_div_cancel (ne_of_gt hB0)] at h1
    exact h1
  have hBB : B ≤ B * B := le_mul_of_one_le_left (le_of_lt hB0) hB1
  have hw : |lam / ((n : ℚ) + lam)| ≤ B * B := by
    rw [abs_div, abs_of_pos hD, div_eq_mul_one_div]
    exact mul_le_mul hhi hinv (le_of_lt (one_div_pos.2 hD)) (le_of_lt hB0)
  have hκ : (|lam| + n) / ((n : ℚ) + lam) ≤ 2 * B * B := by
    rw [div_eq_mul_one_div]
    have h1 : |lam| + (n : ℚ) ≤ 2 * B := by linarith only [hhi, hnB]
    exact mul_le_mul h1 hinv (le_of_lt (one_div_pos.2 hD)) (by linarith only [hB0])
  have hκ0 : 0 ≤ (|lam| + n) / ((n : ℚ) + lam) :=
    div_nonneg (add_nonneg (abs_nonneg _) (Nat.cast_nonneg n)) (le_of_lt hD)
  have hκX : (|lam| + n) / ((n : ℚ) + lam) * X ≤ 2 * B * B * B :=
    mul_le_mul hκ hX hX0 (by positivity)
  refine ⟨hD, ?_, ?_, ?_, ?_, ?_, ?_⟩
  · exact le_trans c1 (div_le_div_of_nonneg_right hlo (by positivity))
  · refine le_trans c2 (div_le_div_of_nonneg_right ?_ (by positivity))
    exact div_le_div_of_nonneg_left zero_le_one (by linarith only [hD])
      (by linarith only [hDle])
  · linarith only [hDle, c3]
  · rw [show (2 : ℚ) / ((n : ℚ) + lam) = 2 * (1 / ((n : ℚ) + lam)) by ring]
    linarith only [hinv, hBB, c5]
  · linarith only [hw, c5]
  · linarith only [hκX, hX, hnB, c6]

theorem generateSigmaPoints_getD {F : Type} [Zero F] [Add F] [Sub F] [Mul F] [NatCast F]
    (env : Platform F) {n : Nat} (state : Fin n → F) (covariance : Matrix (Fin n) (Fin n) F)
    (lambda : F) :
    (generateSigmaPoints env state covariance lambda).getD 0 0 = state ∧
    (∀ j : Fin n, (generateSigmaPoints env state covariance lambda).getD ((j : Nat) + 1) 0
      = state + fun r => (env.sqrt ((n : F) + lambda) • env.llt covariance) r j) ∧
    (∀ j : Fin n, (generateSigmaPoints env state covariance lambda).getD (n + (j : Nat) + 1) 0
      = state - fun r => (env.sqrt ((n : F) + lambda) • env.llt covariance) r j) := by
  have heq : generateSigmaPoints env state covariance lambda =
      state :: ((List.finRange n).map
          (fun c => state + fun r => (env.sqrt ((n : F) + lambda) • env.llt covariance) r c) ++
        (List.finRange n).map
          (fun c => state - fun r => (env.sqrt ((n : F) + lambda) • env.llt covariance) r c)) := by
    simp [generateSigmaPoints, matrixSqrt]
  refine ⟨by rw [heq]; rfl, ?_, ?_⟩
  · intro j
    rw [List.getD_eq_getElem?_getD, heq, List.getElem?_cons_succ,
      List.getElem?_append_left (by simp)]
    simp [List.getElem?_map]
  · intro j
    rw [List.getD_eq_getElem?_getD, heq, List.getElem?_cons_succ,
      List.getElem?_append_right (by simp)]
    simp [List.getElem?_map]

/-- A pair of sigma points in binary64, one coordinate: `x + g s` and `x - g s` with
the product and the sum rounded; both are at most `B (1 + 2^-51) + 4 η` in magnitude
when `|x| + |g s| ≤ B`, and their sum is within twice the rounding error of `2 x`. -/
theorem sigma_pair_round (M η : ℚ) (hη : 0 ≤ η)
    (hround : ∀ z : ℚ, |z| ≤ M → ∃ y : ℚ, Double.round z = Double.finite y ∧
      |y - z| ≤ |z| / 2 ^ 53 + η)
    (x g s B : ℚ) (hB : |x| + |g * s| ≤ B) (hM : 2 * B + 2 ≤ M) (hηu : η ≤ 1 / 2 ^ 55) :
    ∃ pp pm : ℚ,
      Double.finite x + Double.finite g * Double.finite s = Double.finite pp ∧
      Double.finite x - Double.finite g * Double.finite s = Double.finite pm ∧
      |pp| ≤ B * (1 + 1 / 2 ^ 51) + 4 * η ∧ |pm| ≤ B * (1 + 1 / 2 ^ 51) + 4 * η ∧
      |pp + pm - 2 * x| ≤ 2 * ((B * (1 + 1 / 2 ^ 51) + 4 * η) / 2 ^ 53 + η) := by
  have hx0 := abs_nonneg x
  have hg0 := abs_nonneg (g * s)
  have hB0 : 0 ≤ B := by linarith only [hB, hx0, hg0]
  obtain ⟨t, ht, hte⟩ := hround (g * s) (by linarith only [hB, hx0, hM, hB0])
  have htabs : |t| ≤ |g * s| * (1 + 1 / 2 ^ 53) + η := by
    have h0 := abs_sub_abs_le_abs_sub t (g * s)
    linarith only [h0, hte]
  have hgs : |g * s| / 2 ^ 53 ≤ B / 2 ^ 53 :=
    div_le_div_of_nonneg_right (by linarith only [hB, hx0]) (by positivity)
  have hBu : B / 2 ^ 53 ≤ B := div_le_self hB0 (by norm_num)
  have hxt : |x| + |t| ≤ B * (1 + 1 / 2 ^ 53) + η := by linarith only [htabs, hB, hgs]
  have hp := abs_add x t
  have hm := abs_sub x t
  obtain ⟨pp, hpp, hppe⟩ := hround (x + t) (by linarith only [hp, hxt, hBu, hM, hηu])
  obtain ⟨pm, hpm, hpme⟩ := hround (x - t) (by linarith only [hm, hxt, hBu, hM, hηu])
  have h1 : |x + t| / 2 ^ 53 ≤ (B * (1 + 1 / 2 ^ 53) + η) / 2 ^ 53 :=
    div_le_div_of_nonneg_right (by linarith only [hp, hxt]) (by positivity)
  have h2 : |x - t| / 2 ^ 53 ≤ (B * (1 + 1 / 2 ^ 53) + η) / 2 ^ 53 :=
    div_le_div_of_nonneg_right (by linarith only [hm, hxt]) (by positivity)
  have h3 : (B * (1 + 1 / 2 ^ 53) + η) / 2 ^ 53
      = B / 2 ^ 53 + B / 2 ^ 53 / 2 ^ 53 + η / 2 ^ 53 := by ring
  have h4 : B / 2 ^ 53 / 2 ^ 53 ≤ B / 2 ^ 53 := div_le_self (by positivity) (by norm_num)
  have h5 : η / 2 ^ 53 ≤ η := div_le_self hη (by norm_num)
  have h6 : B * (1 + 1 / 2 ^ 51) = B + 4 * (B / 2 ^ 53) := by ring
  have h7 : (B * (1 + 1 / 2 ^ 51) + 4 * η) / 2 ^ 53
      = B / 2 ^ 53 + 4 * (B / 2 ^ 53 / 2 ^ 53) + 4 * (η / 2 ^ 53) := by ring
  have h8 : 0 ≤ B / 2 ^ 53 / 2 ^ 53 := by positivity
  have h9 : 0 ≤ η / 2 ^ 53 := by positivity
  refine ⟨pp, pm, ?_, ?_, ?_, ?_, ?_⟩
  · rw [finite_mul_finite, ht, finite_add_finite, hpp]
  · rw [finite_mul_finite, ht, finite_sub_finite, hpm]
  · have h0 := abs_sub_abs_le_abs_sub pp (x + t)
    linarith only [h0, hppe, h1, h3, h4, h5, hp, hxt, h6, hη]
  · have h0 := abs_sub_abs_le_abs_sub pm (x - t)
    linarith only [h0, hpme, h2, h3, h4, h5, hm, hxt, h6, hη]
  · have hid : pp + pm - 2 * x = (pp - (x + t)) + (pm - (x - t)) := by ring
    rw [hid]
    have h0 := abs_add (pp - (x + t)) (pm - (x - t))
    linarith only [h0, hppe, hpme, h1, h2, h3, h7, h8, h9, h4, h5]

/-- The error of the recombined mean in binary64, one coordinate: for the points of
generateSigmaPoints, with the square root `S` that the Cholesky routine returns and the
computed `g = sqrt (N + lambda)`, when `|mean r| + |g S r c| ≤ B` for every column `c`,
the coordinate `r` of meanFromSigmaPoints is within
`(4 N + 12) κ X / 2^53 + (8 N + 2 + κ) η` of `mean r`, where
`X = B (1 + 2^-51) + 4 η` and `κ = (|lambda| + N) / (N + lambda)`. -/
theorem meanFromSigmaPoints_generateSigmaPoints_round (M η : ℚ) (hη : 0 ≤ η)
    (hηu : η ≤ 1 / 2 ^ 55)
    (hround : ∀ z : ℚ, |z| ≤ M → ∃ y : ℚ, Double.round z = Double.finite y ∧
      |y - z| ≤ |z| / 2 ^ 53 + η)
    (env : Platform Double) {n : Nat} (mean : Fin n → ℚ) (S : Matrix (Fin n) (Fin n) ℚ)
    (covariance : Matrix (Fin n) (Fin n) Double) (lam g : ℚ) (r : Fin n) (B : ℚ)
    (hllt : ∀ c, env.llt covariance r c = Double.finite (S r c))
    (hsqrt : env.sqrt (((n : ℕ) : Double) + Double.finite lam) = Double.finite g)
    (hB : ∀ c, |mean r| + |g * S r c| ≤ B)
    (hN : n ≤ 2 ^ 40) (hD : 0 < (n : ℚ) + lam)
    (hηD : η ≤ ((n : ℚ) + lam) / 2 ^ 53)
    (hηw : η ≤ 1 / (4 * ((n : ℚ) + lam)) / 2 ^ 53)
    (hM1 : 4 * ((n : ℚ) + lam) ≤ M) (hM2 : 2 / ((n : ℚ) + lam) ≤ M)
    (hM3 : 2 * |lam / ((n : ℚ) + lam)| ≤ M)
    (hM4 : 4 * ((|lam| + n) / ((n : ℚ) + lam) * (B * (1 + 1 / 2 ^ 51) + 4 * η))
      + 4 * (B * (1 + 1 / 2 ^ 51) + 4 * η) + 8 * n + 2 ≤ M)
    (hM5 : 2 * B + 2 ≤ M) :
    ∃ y : ℚ,
      meanFromSigmaPoints
          (generateSigmaPoints env (fun i => Double.finite (mean i)) covariance
            (Double.finite lam)) n (Double.finite lam) r = Double.finite y ∧
      |y - mean r| ≤
        (4 * n + 12) * ((|lam| + n) / ((n : ℚ) + lam) * (B * (1 + 1 / 2 ^ 51) + 4 * η))
            / 2 ^ 53
          + (8 * n + 2 + (|lam| + n) / ((n : ℚ) + lam)) * η := by
  have hB0 : 0 ≤ B := le_trans (add_nonneg (abs_nonneg _) (abs_nonneg _)) (hB r)
  have hxB : |mean r| ≤ B := by
    have h1 := hB r
    have h2 := abs_nonneg (g * S r r)
    linarith only [h1, h2]
  have hBX : B ≤ B * (1 + 1 / 2 ^ 51) + 4 * η := by
    have e1 : B * (1 + 1 / 2 ^ 51) = B + B / 2 ^ 51 := by ring
    have e2 : 0 ≤ B / 2 ^ 51 := by positivity
    linarith only [e1, e2, hη]
  obtain ⟨hg0, hgp, hgm⟩ := generateSigmaPoints_getD env (fun i => Double.finite (mean i))
    covariance (Double.finite lam)
  have pair := fun c : Fin n =>
    sigma_pair_round M η hη hround (mean r) g (S r c) B (hB c) hM5 hηu
  choose pp pm hpp hpm hppa hpma hpair using pair
  generalize hXdef : B * (1 + 1 / 2 ^ 51) + 4 * η = X at *
  have hpts : ∀ c : Fin n,
      ((generateSigmaPoints env (fun i => Double.finite (mean i)) covariance
          (Double.finite lam)).getD ((c : ℕ) + 1) 0 r = Double.finite (pp c)) ∧
      ((generateSigmaPoints env (fun i => Double.finite (mean i)) covariance
          (Double.finite lam)).getD (n + (c : ℕ) + 1) 0 r = Double.finite (pm c)) := by
    intro c
    constructor
    · rw [hgp c]
      show Double.finite (mean r) + env.sqrt (((n : ℕ) : Double) + Double.finite lam)
        * env.llt covariance r c = _
      rw [hsqrt, hllt, hpp]
    · rw [hgm c]
      show Double.finite (mean r) - env.sqrt (((n : ℕ) : Double) + Double.finite lam)
        * env.llt covariance r c = _
      rw [hsqrt, hllt, hpm]
  have hx : ∃ x : ℕ → ℚ, x 0 = mean r ∧ (∀ c : Fin n, x ((c : ℕ) + 1) = pp c) ∧
      (∀ c : Fin n, x (n + (c : ℕ) + 1) = pm c) := by
    refine ⟨fun k => if k = 0 then mean r
      else if h : k - 1 < n then pp ⟨k - 1, h⟩
      else if h' : k - 1 - n < n then pm ⟨k - 1 - n, h'⟩ else 0, rfl, ?_, ?_⟩
    · intro c
      simp
    · intro c
      have h1 : ¬ (n + (c : ℕ) + 1 - 1 < n) := by omega
      have h2 : n + (c : ℕ) + 1 - 1 - n < n := by have := c.2; omega
      have h3 : (⟨n + (c : ℕ) + 1 - 1 - n, h2⟩ : Fin n) = c := by
        apply Fin.ext
        show n + (c : ℕ) + 1 - 1 - n = c
        omega
      simp only [Nat.add_one_ne_zero, if_false, dif_neg h1, dif_pos h2, h3]
  obtain ⟨x, hx0, hxp, hxm⟩ := hx
  have hcases : ∀ k ∈ List.range' 1 (2 * n),
      (∃ c : Fin n, k = (c : ℕ) + 1) ∨ (∃ c : Fin n, k = n + (c : ℕ) + 1) := by
    intro k hk
    have h1 := List.mem_range'_1.1 hk
    by_cases h : k - 1 < n
    · exact Or.inl ⟨⟨k - 1, h⟩, by show k = k - 1 + 1; omega⟩
    · exact Or.inr ⟨⟨k - 1 - n, by omega⟩, by show k = n + (k - 1 - n) + 1; omega⟩
  obtain ⟨y, hy, hye⟩ := meanFromSigmaPoints_round M η hη hηu hround
    (generateSigmaPoints env (fun i => Double.finite (mean i)) covariance (Double.finite lam))
    n lam r x X hN hD hηD hηw hM1 hM2 hM3 hM4
    (by rw [hg0, hx0])
    (by
      intro k hk
      rcases hcases k hk with ⟨c, rfl⟩ | ⟨c, rfl⟩
      · rw [(hpts c).1, hxp]
      · rw [(hpts c).2, hxm])
    (by rw [hx0]; linarith only [hxB, hBX])
    (by
      intro k hk
      rcases hcases k hk with ⟨c, rfl⟩ | ⟨c, rfl⟩
      · rw [hxp]; exact hppa c
      · rw [hxm]; exact hpma c)
  refine ⟨y, hy, ?_⟩
  -- the exactly weighted mean of the rounded points
  have hDne : (n : ℚ) + lam ≠ 0 := ne_of_gt hD
  have hWi0 : 0 ≤ 1 / (2 * ((n : ℚ) + lam)) := le_of_lt (one_div_pos.2 (mul_pos two_pos hD))
  have hsum : ((List.range' 1 (2 * n)).map (fun k => 1 / (2 * ((n : ℚ) + lam)) * x k)).sum
      = ∑ c : Fin n, 1 / (2 * ((n : ℚ) + lam)) * (pp c + pm c) := by
    rw [sum_map_range'_one, two_mul, Finset.sum_range_add, Finset.sum_range, Finset.sum_range,
      ← Finset.sum_add_distrib]
    refine Finset.sum_congr rfl (fun c _ => ?_)
    rw [hxp, hxm]
    ring
  have hmean : mean r = lam / ((n : ℚ) + lam) * mean r
      + ∑ _c : Fin n, 1 / (2 * ((n : ℚ) + lam)) * (2 * mean r) := by
    rw [Finset.sum_const, Finset.card_univ, Fintype.card_fin, nsmul_eq_mul]
    field_simp
    ring
  have hdiff : |(lam / ((n : ℚ) + lam) * x 0
        + ((List.range' 1 (2 * n)).map (fun k => 1 / (2 * ((n : ℚ) + lam)) * x k)).sum)
        - mean r| ≤ (|lam| + n) / ((n : ℚ) + lam) * (X / 2 ^ 53 + η) := by
    rw [hsum, hx0]
    have hid : lam / ((n : ℚ) + lam) * mean r
          + ∑ c : Fin n, 1 / (2 * ((n : ℚ) + lam)) * (pp c + pm c) - mean r
        = ∑ c : Fin n, 1 / (2 * ((n : ℚ) + lam)) * (pp c + pm c - 2 * mean r) := by
      nth_rewrite 2 [hmean]
      rw [add_sub_add_left_eq_sub, ← Finset.sum_sub_distrib]
      refine Finset.sum_congr rfl (fun c _ => ?_)
      ring
    rw [hid]
    refine le_trans (Finset.abs_sum_le_sum_abs _ _) ?_
    have hterm : ∀ c ∈ (Finset.univ : Finset (Fin n)),
        |1 / (2 * ((n : ℚ) + lam)) * (pp c + pm c - 2 * mean r)|
          ≤ 1 / (2 * ((n : ℚ) + lam)) * (2 * (X / 2 ^ 53 + η)) := by
      intro c _
      rw [abs_mul, abs_of_nonneg hWi0]
      exact mul_le_mul_of_nonneg_left (hpair c) hWi0
    refine le_trans (Finset.sum_le_sum hterm) ?_
    rw [Finset.sum_const, Finset.card_univ, Fintype.card_fin, nsmul_eq_mul]
    have hXη : 0 ≤ X / 2 ^ 53 + η := by
      have : 0 ≤ X := le_trans hB0 hBX
      positivity
    have hid2 : (n : ℚ) * (1 / (2 * ((n : ℚ) + lam)) * (2 * (X / 2 ^ 53 + η)))
        = (n : ℚ) / ((n : ℚ) + lam) * (X / 2 ^ 53 + η) := by
      field_simp
      ring
    rw [hid2]
    apply mul_le_mul_of_nonneg_right _ hXη
    apply div_le_div_of_nonneg_right _ (le_of_lt hD)
    have h0 := abs_nonneg lam
    linarith only [h0]
  have hsplit : y - mean r = (y - (lam / ((n : ℚ) + lam) * x 0
        + ((List.range' 1 (2 * n)).map (fun k => 1 / (2 * ((n : ℚ) + lam)) * x k)).sum))
      + ((lam / ((n : ℚ) + lam) * x 0
        + ((List.range' 1 (2 * n)).map (fun k => 1 / (2 * ((n : ℚ) + lam)) * x k)).sum)
        - mean r) := by ring
  rw [hsplit]
  refine le_trans (abs_add _ _) (le_trans (add_le_add hye hdiff) (le_of_eq ?_))
  ring

theorem generateSigmaPoints_zero_double (env : Platform Double) {n : Nat} (mean : Fin n → ℚ)
    (lambda : ℚ) (hrep : ∀ r, Double.round (mean r) = Double.finite (mean r))
    (hllt : env.llt (0 : Matrix (Fin n) (Fin n) Double) = 0)
    (hsqrt : ∃ g : ℚ, env.sqrt (((n : ℕ) : Double) + Double.finite lambda) = Double.finite g) :
    generateSigmaPoints env (fun i => Double.finite (mean i)) 0 (Double.finite lambda)
      = List.replicate (2 * n + 1) (fun i => Double.finite (mean i)) := by
  obtain ⟨g, hg⟩ := hsqrt
  unfold generateSigmaPoints matrixSqrt
  simp only [hllt, hg]
  have hplus : ∀ c : Fin n, ((fun i => Double.finite (mean i))
      + fun r => (Double.finite g • (0 : Matrix (Fin n) (Fin n) Double)) r c)
      = fun i => Double.finite (mean i) := by
    intro c
    funext r
    show Double.finite (mean r) + Double.finite g * Double.finite 0 = _
    rw [finite_mul_finite, mul_zero, round_zero, finite_add_finite, add_zero, hrep]
  have hminus : ∀ c : Fin n, ((fun i => Double.finite (mean i))
      - fun r => (Double.finite g • (0 : Matrix (Fin n) (Fin n) Double)) r c)
      = fun i => Double.finite (mean i) := by
    intro c
    funext r
    show Double.finite (mean r) - Double.finite g * Double.finite 0 = _
    rw [finite_mul_finite, mul_zero, round_zero, finite_sub_finite, sub_zero, hrep]
  have h : ∀ l : List (Fin n), l.map (fun _ => (fun i => Double.finite (mean i)))
      = List.replicate l.length (fun i => Double.finite (mean i)) := by
    intro l
    induction l with
    | nil => rfl
    | cons a l ih => simp [List.replicate_succ, ih]
  simp only [hplus, hminus, h, List.length_finRange]
  rw [List.append_assoc, ← List.replicate_add, List.singleton_append,
    ← List.replicate_succ]
  congr 1
  omega

theorem eta_le_55 : (1 : ℚ) / 2 ^ 1075 ≤ 1 / 2 ^ 55 := by
  decide!

theorem box_300 : (1 : ℚ) ≤ 2 ^ 300 ∧ (2 : ℚ) ^ 40 ≤ 2 ^ 300 ∧
    (1 : ℚ) / 2 ^ 1075 ≤ 1 / 2 ^ 300 / 2 ^ 53 ∧
    (1 : ℚ) / 2 ^ 1075 ≤ 1 / (4 * (2 * 2 ^ 300)) / 2 ^ 53 ∧
    (4 : ℚ) * (2 * 2 ^ 300) ≤ 2 ^ 1023 ∧ (2 : ℚ) * (2 ^ 300 * 2 ^ 300) ≤ 2 ^ 1023 ∧
    (4 : ℚ) * (2 * 2 ^ 300 * 2 ^ 300 * 2 ^ 300) + 4 * 2 ^ 300 + 8 * 2 ^ 300 + 2
      ≤ 2 ^ 1023 := by
  decide!

theorem meanFromSigmaPoints_replicate_double {n : Nat}
    (mean : Fin n → ℚ) (lambda : ℚ) (hn : n ≤ 2 ^ 40)
    (hlo : 1 / 2 ^ 300 ≤ (n : ℚ) + lambda) (hhi : |lambda| ≤ 2 ^ 300)
    (hmean : ∀ r, |mean r| ≤ 2 ^ 300) (r : Fin n) :
    ∃ y : ℚ,
      meanFromSigmaPoints (List.replicate (2 * n + 1) (fun i => Double.finite (mean i))) n
        (Double.finite lambda) r = Double.finite y ∧
      |y - mean r| ≤ (4 * n + 11) * ((|lambda| + n) / ((n : ℚ) + lambda) * |mean r|) / 2 ^ 53
        + (8 * n + 2) * (1 / 2 ^ 1075) := by
  obtain ⟨b1, b2, c1, c2, c3, c5, c6⟩ := box_300
  have hnq : (n : ℚ) ≤ 2 ^ 300 := le_trans (by exact_mod_cast hn) b2
  obtain ⟨hD, h1, h2, h3, h4, h5, h6⟩ := unscented_box (2 ^ 300) (2 ^ 1023) (1 / 2 ^ 1075) n
    lambda |mean r| b1 hnq hlo hhi (abs_nonneg _) (hmean r) c1 c2 c3 c5 c6
  have hget : ∀ k, k < 2 * n + 1 →
      (List.replicate (2 * n + 1) (fun i => Double.finite (mean i))).getD k 0 r
        = Double.finite (mean r) := by
    intro k hk
    simp [List.getD_eq_getElem?_getD, List.getElem?_replicate, hk]
  obtain ⟨y, hy, hye⟩ := meanFromSigmaPoints_round (2 ^ 1023) (1 / 2 ^ 1075)
    (le_of_lt (one_div_pos.2 (pow_pos (by norm_num) _))) eta_le_55 round_spec
    (List.replicate (2 * n + 1) (fun i => Double.finite (mean i))) n lambda r
    (fun _ => mean r) |mean r| hn hD h1 h2 h3 h4 h5 h6 (hget 0 (by omega))
    (fun k hk => hget k (by have := List.mem_range'_1.1 hk; omega)) (le_refl _)
    (fun _ _ => le_refl _)
  refine ⟨y, hy, ?_⟩
  have hsum : lambda / ((n : ℚ) + lambda) * mean r
      + ((List.range' 1 (2 * n)).map
          (fun _ => 1 / (2 * ((n : ℚ) + lambda)) * mean r)).sum = mean r := by
    rw [List.map_const', List.sum_replicate, List.length_range', nsmul_eq_mul]
    push_cast
    field_simp
    ring
  rw [hsum] at hye
  exact hye

section MeanRecovery

variable {K : Type} [LinearOrderedField K]

/-- C2 as amended: in exact arithmetic, when the Cholesky factor of the zero matrix is
the zero matrix and N + lambda > 0, meanFromSigmaPoints applied to the sigma points
generated from a mean and the zero covariance returns that mean.  In binary64
arithmetic it returns the mean within a tolerance: for N ≤ 2^40, N + lambda ≥ 2^-300,
|lambda| ≤ 2^300, a mean of binary64 numbers of magnitude at most 2^300, a Cholesky
factor 0 of the zero matrix and a finite std::sqrt of N + lambda, every coordinate r of
the result is finite and differs from mean[r] by at most
(4N + 11) · κ · |mean[r]| · 2^-53 + (8N + 2) · 2^-1075, where
κ = (|lambda| + N) / (N + lambda) is the sum of the magnitudes of the weights. -/
theorem meanFromSigmaPoints_generateSigmaPoints_zero (envK : Platform K) {n : Nat}
    (meanK : Fin n → K) (lambdaK : K) (hpos : 0 < (n : K) + lambdaK)
    (hlltK : envK.llt (0 : Matrix (Fin n) (Fin n) K) = 0)
    (env : Platform Double) (mean : Fin n → ℚ) (lambda : ℚ) (hn : n ≤ 2 ^ 40)
    (hlo : 1 / 2 ^ 300 ≤ (n : ℚ) + lambda) (hhi : |lambda| ≤ 2 ^ 300)
    (hmean : ∀ r, |mean r| ≤ 2 ^ 300)
    (hrep : ∀ r, Double.round (mean r) = Double.finite (mean r))
    (hllt : env.llt (0 : Matrix (Fin n) (Fin n) Double) = 0)
    (hsqrt : ∃ g : ℚ, env.sqrt (((n : ℕ) : Double) + Double.finite lambda) = Double.finite g) :
    meanFromSigmaPoints (generateSigmaPoints envK meanK 0 lambdaK) n lambdaK = meanK ∧
    ∀ r, ∃ y : ℚ,
      meanFromSigmaPoints
          (generateSigmaPoints env (fun i => Double.finite (mean i)) 0 (Double.finite lambda))
          n (Double.finite lambda) r = Double.finite y ∧
        |y - mean r| ≤
          (4 * n + 11) * ((|lambda| + n) / ((n : ℚ) + lambda) * |mean r|) / 2 ^ 53
            + (8 * n + 2) * (1 / 2 ^ 1075) := by
  constructor
  · rw [generateSigmaPoints_zero_covariance envK meanK lambdaK hlltK,
      meanFromSigmaPoints_replicate _ _ _ (ne_of_gt hpos)]
  · intro r
    rw [generateSigmaPoints_zero_double env mean lambda hrep hllt hsqrt]
    exact meanFromSigmaPoints_replicate_double mean lambda hn hlo hhi hmean r

theorem two_pow_300_facts : (1 : ℚ) / 2 ^ 300 ≤ 1 ∧ (2 : ℚ) ≤ 2 ^ 300 := by
  decide!

/-- Witness of C2 as amended: the mean (1, 2) with lambda = 1, on the rationals and on the
binary64 platform. -/
theorem meanFromSigmaPoints_generateSigmaPoints_zero_witness :
    meanFromSigmaPoints (generateSigmaPoints testPlatform ![(1 : ℚ), 2] 0 1) 2 1 = ![1, 2] ∧
    ∀ r, ∃ y : ℚ,
      meanFromSigmaPoints
          (generateSigmaPoints (doublePlatform (fun _ _ => 0))
            (fun i => Double.finite ((![1, 2] : Fin 2 → ℚ) i)) 0 (Double.finite 1))
          2 (Double.finite 1) r = Double.finite y ∧
        |y - (![1, 2] : Fin 2 → ℚ) r| ≤
          (4 * (2 : ℕ) + 11) * ((|(1 : ℚ)| + (2 : ℕ)) / (((2 : ℕ) : ℚ) + 1)
              * |(![1, 2] : Fin 2 → ℚ) r|) / 2 ^ 53
            + (8 * (2 : ℕ) + 2) * (1 / 2 ^ 1075) :=
  meanFromSigmaPoints_generateSigmaPoints_zero testPlatform ![(1 : ℚ), 2] 1 (by norm_num)
    (by ext i j; simp [testPlatform, ratSqrt, Matrix.diagonal])
    (doublePlatform (fun _ _ => 0)) ![1, 2] 1 (by norm_num)
    (le_trans two_pow_300_facts.1 (by norm_num))
    (le_trans (by norm_num) two_pow_300_facts.2)
    (fun r => le_trans (by fin_cases r <;> norm_num) two_pow_300_facts.2)
    (by decide!) rfl ⟨3900231685776981 / 2251799813685248, by decide!⟩

/-- Counterexample to C2 as stated: in binary64 arithmetic, with N = 2 and lambda = 1 the
weights 1/3 and 1/6 are rounded, and the sigma points of the mean (1, 2) and the zero
covariance (five copies of the mean) are averaged to
(0.9999999999999999, 1.9999999999999998). -/
theorem meanFromSigmaPoints_generateSigmaPoints_zero_inexact :
    meanFromSigmaPoints (generateSigmaPoints (doublePlatform (fun _ _ => 0)) ![1, 2] 0 1) 2 1
      = ![Double.finite (9007199254740991 / 9007199254740992),
          Double.finite (9007199254740991 / 4503599627370496)] := by
  decide!

end MeanRecovery

theorem covarianceFromSigmaPoints_center_double {m : Nat} (pts : List (Fin m → Double))
    (x : Fin m → ℚ) (noise : Matrix (Fin m) (Fin m) Double) (N : Nat)
    (alpha beta lambda : Double) (v : ℚ)
    (hcenter : pts.getD 0 0 = fun i => Double.finite (x i))
    (hweight : lambda / (((N : ℕ) : Double) + lambda) + (1 - alpha * alpha + beta)
      = Double.finite v) :
    covarianceFromSigmaPoints pts (fun i => Double.finite (x i)) noise N alpha beta lambda
      = (List.range' 1 (2 * N)).foldl
          (fun out i => out + Matrix.vecMulVec
            ((1 / (2 * (((N : ℕ) : Double) + lambda)))
              • (pts.getD i 0 - fun i => Double.finite (x i)))
            (pts.getD i 0 - fun i => Double.finite (x i)))
          (fun _ _ => Double.finite 0) + noise := by
  unfold covarianceFromSigmaPoints
  simp only [hcenter, hweight]
  congr 2
  funext i j
  show Double.finite v * (Double.finite (x i) - Double.finite (x i))
    * (Double.finite (x j) - Double.finite (x j)) = _
  rw [finite_sub_finite, finite_sub_finite, sub_self, sub_self, round_zero, finite_mul_finite,
    mul_zero, round_zero, finite_mul_finite, mul_zero, round_zero]

theorem box_299 : (2 : ℚ) ^ 299 * (1 + 1 / 2 ^ 51) + 4 * (1 / 2 ^ 1075) ≤ 2 ^ 300 ∧
    (2 : ℚ) * 2 ^ 299 + 2 ≤ 2 ^ 1023 := by
  decide!

theorem meanFromSigmaPoints_generateSigmaPoints_double (env : Platform Double) {n : Nat}
    (mean : Fin n → ℚ) (S : Matrix (Fin n) (Fin n) ℚ)
    (covariance : Matrix (Fin n) (Fin n) Double) (lambda g B : ℚ) (hn : n ≤ 2 ^ 40)
    (hlo : 1 / 2 ^ 300 ≤ (n : ℚ) + lambda) (hhi : |lambda| ≤ 2 ^ 300)
    (hllt : ∀ r c, env.llt covariance r c = Double.finite (S r c))
    (hsqrt : env.sqrt (((n : ℕ) : Double) + Double.finite lambda) = Double.finite g)
    (hB : ∀ r c, |mean r| + |g * S r c| ≤ B) (hB299 : B ≤ 2 ^ 299) (r : Fin n) :
    ∃ y : ℚ,
      meanFromSigmaPoints
          (generateSigmaPoints env (fun i => Double.finite (mean i)) covariance
            (Double.finite lambda)) n (Double.finite lambda) r = Double.finite y ∧
      |y - mean r| ≤
        (4 * n + 12) * ((|lambda| + n) / ((n : ℚ) + lambda)
            * (B * (1 + 1 / 2 ^ 51) + 4 * (1 / 2 ^ 1075))) / 2 ^ 53
          + (8 * n + 2 + (|lambda| + n) / ((n : ℚ) + lambda)) * (1 / 2 ^ 1075) := by
  obtain ⟨b1, b2, c1, c2, c3, c5, c6⟩ := box_300
  obtain ⟨d1, d2⟩ := box_299
  have hnq : (n : ℚ) ≤ 2 ^ 300 := le_trans (by exact_mod_cast hn) b2
  have hη0 : (0 : ℚ) ≤ 1 / 2 ^ 1075 := le_of_lt (one_div_pos.2 (pow_pos (by norm_num) _))
  have hB0 : 0 ≤ B := le_trans (add_nonneg (abs_nonneg _) (abs_nonneg _)) (hB r r)
  have hX0 : 0 ≤ B * (1 + 1 / 2 ^ 51) + 4 * (1 / 2 ^ 1075) :=
    add_nonneg (mul_nonneg hB0 (by norm_num)) (mul_nonneg (by norm_num) hη0)
  have hX : B * (1 + 1 / 2 ^ 51) + 4 * (1 / 2 ^ 1075) ≤ 2 ^ 300 :=
    le_trans (add_le_add_right (mul_le_mul_of_nonneg_right hB299 (by norm_num)) _) d1
  obtain ⟨hD, h1, h2, h3, h4, h5, h6⟩ := unscented_box (2 ^ 300) (2 ^ 1023) (1 / 2 ^ 1075) n
    lambda (B * (1 + 1 / 2 ^ 51) + 4 * (1 / 2 ^ 1075)) b1 hnq hlo hhi hX0 hX c1 c2 c3 c5 c6
  exact meanFromSigmaPoints_generateSigmaPoints_round (2 ^ 1023) (1 / 2 ^ 1075) hη0 eta_le_55
    round_spec env mean S covariance lambda g r B (hllt r) hsqrt (hB r) hn hD h1 h2 h3 h4 h5 h6
    (le_trans (add_le_add_right (mul_le_mul_of_nonneg_left hB299 (by norm_num)) _) d2)

section RoundTrip

variable {K : Type} [LinearOrderedField K]

theorem unscented_transform_exact (env : Platform K) {N : Nat} (mean : Fin N → K)
    (covariance noise : Matrix (Fin N) (Fin N) K) (alpha beta lambda : K)
    (hpos : 0 < (N : K) + lambda)
    (hsqrt : env.sqrt ((N : K) + lambda) * env.sqrt ((N : K) + lambda) = (N : K) + lambda) :
    meanFromSigmaPoints (generateSigmaPoints env mean covariance lambda) N lambda = mean ∧
    covarianceFromSigmaPoints (generateSigmaPoints env mean covariance lambda) mean noise N
        alpha beta lambda =
      env.llt covariance * (env.llt covariance).transpose + noise := by
  have hne : (N : K) + lambda ≠ 0 := ne_of_gt hpos
  constructor
  · rw [meanFromSigmaPoints_eq, sum_map_range'_one,
      sum_generateSigmaPoints env mean covariance lambda
        (fun p => (1 / (2 * ((N : K) + lambda))) • p),
      generateSigmaPoints_getD_zero]
    funext r
    simp only [Pi.add_apply, Pi.smul_apply, Pi.sub_apply, smul_eq_mul, Finset.sum_apply]
    have hterm : ∀ j : Fin N,
        1 / (2 * ((N : K) + lambda)) *
            (mean r + (env.sqrt ((N : K) + lambda) • env.llt covariance) r j) +
          1 / (2 * ((N : K) + lambda)) *
            (mean r - (env.sqrt ((N : K) + lambda) • env.llt covariance) r j) =
        mean r / ((N : K) + lambda) := by
      intro j
      field_simp
      ring
    rw [Finset.sum_congr rfl (fun j _ => hterm j)]
    simp only [Finset.sum_const, Finset.card_univ, Fintype.card_fin, nsmul_eq_mul]
    field_simp
    ring
  · rw [covarianceFromSigmaPoints_eq,
      sum_generateSigmaPoints env mean covariance lambda
        (fun p => (1 / (2 * ((N : K) + lambda))) • Matrix.vecMulVec (p - mean) (p - mean)),
      generateSigmaPoints_getD_zero]
    have h1 : 1 / (2 * ((N : K) + lambda)) *
        (env.sqrt ((N : K) + lambda) * env.sqrt ((N : K) + lambda)) * 2 = 1 := by
      rw [hsqrt]
      field_simp
      ring
    ext a b
    simp only [Matrix.add_apply, Matrix.smul_apply, Matrix.vecMulVec_apply, Pi.sub_apply,
      sub_self, mul_zero, smul_eq_mul, zero_add, Matrix.sum_apply, Pi.add_apply,
      add_sub_cancel_left, Matrix.mul_apply, Matrix.transpose_apply, Pi.zero_apply,
      zero_mul]
    congr 1
    apply Finset.sum_congr rfl
    intro j _
    linear_combination (env.llt covariance a j * env.llt covariance b j) * h1

theorem exists_of_isfinite (d : Double) (h : d.isfinite = true) :
    ∃ v : ℚ, d = Double.finite v := by
  cases d with
  | finite v => exact ⟨v, rfl⟩
  | inf s => exact absurd h (by simp [Double.isfinite])
  | nan => exact absurd h (by simp [Double.isfinite])

theorem box_witness : (1 : ℚ) / 2 ^ 300 ≤ 1 ∧ (7 : ℚ) ≤ 2 ^ 300 ∧ (11 : ℚ) ≤ 2 ^ 299 := by
  decide!

end RoundTrip

theorem foldl_add_apply {F : Type} [Add F] {m : Nat}
    (f : Nat → Matrix (Fin m) (Fin m) F) (l : List Nat) (out : Matrix (Fin m) (Fin m) F)
    (i j : Fin m) :
    (l.foldl (fun out k => out + f k) out) i j
      = l.foldl (fun o k => o + f k i j) (out i j) := by
  induction l generalizing out with
  | nil => rfl
  | cons a l ih =>
    simp only [List.foldl_cons]
    rw [ih]
    rfl

theorem covarianceFromSigmaPoints_entry_comm {F : Type} [Zero F] [One F] [Add F] [Sub F]
    [Mul F] [Div F] [NatCast F] [OfNat F 2] {m : Nat} (sigma_points : List (Fin m → F))
    (mean : Fin m → F) (noise : Matrix (Fin m) (Fin m) F) (n : Nat) (alpha beta lambda : F)
    (i j : Fin m) (hnoise : noise i j = noise j i)
    (hzero : (lambda / ((n : F) + lambda) + (1 - alpha * alpha + beta))
          * (sigma_points.getD 0 0 i - mean i) * (sigma_points.getD 0 0 j - mean j)
        = (lambda / ((n : F) + lambda) + (1 - alpha * alpha + beta))
          * (sigma_points.getD 0 0 j - mean j) * (sigma_points.getD 0 0 i - mean i))
    (hrest : ∀ k ∈ List.range' 1 (2 * n),
        1 / (2 * ((n : F) + lambda)) * (sigma_points.getD k 0 i - mean i)
          * (sigma_points.getD k 0 j - mean j)
        = 1 / (2 * ((n : F) + lambda)) * (sigma_points.getD k 0 j - mean j)
          * (sigma_points.getD k 0 i - mean i)) :
    covarianceFromSigmaPoints sigma_points mean noise n alpha beta lambda i j
      = covarianceFromSigmaPoints sigma_points mean noise n alpha beta lambda j i := by
  unfold covarianceFromSigmaPoints
  simp only [Matrix.add_apply]
  rw [foldl_add_apply, foldl_add_apply, hnoise]
  congr 1
  have h0 : Matrix.vecMulVec ((lambda / ((n : F) + lambda) + (1 - alpha * alpha + beta))
        • (sigma_points.getD 0 0 - mean)) (sigma_points.getD 0 0 - mean) i j
      = Matrix.vecMulVec ((lambda / ((n : F) + lambda) + (1 - alpha * alpha + beta))
        • (sigma_points.getD 0 0 - mean)) (sigma_points.getD 0 0 - mean) j i := hzero
  rw [h0]
  apply List.foldl_ext
  intro o k hk
  exact congrArg (fun z => o + z) (hrest k hk)

theorem covarianceFromSigmaPoints_apply {F : Type} [Zero F] [One F] [Add F] [Sub F]
    [Mul F] [Div F] [NatCast F] [OfNat F 2] {m : Nat} (sigma_points : List (Fin m → F))
    (mean : Fin m → F) (noise : Matrix (Fin m) (Fin m) F) (n : Nat) (alpha beta lambda : F)
    (i j : Fin m) :
    covarianceFromSigmaPoints sigma_points mean noise n alpha beta lambda i j
      = (List.range' 1 (2 * n)).foldl
          (fun o k => o + 1 / (2 * ((n : F) + lambda)) * (sigma_points.getD k 0 i - mean i)
            * (sigma_points.getD k 0 j - mean j))
          ((lambda / ((n : F) + lambda) + (1 - alpha * alpha + beta))
            * (sigma_points.getD 0 0 i - mean i) * (sigma_points.getD 0 0 j - mean j))
        + noise i j := by
  unfold covarianceFromSigmaPoints
  simp only [Matrix.add_apply]
  rw [foldl_add_apply]
  rfl

/-- A weighted product of two deviations in binary64: `(w d) e` with both products
rounded is within `(W Δ Δ) 4 / 2^53 + 2 η Δ + η` of the exact product when `|w| ≤ W`
and `|d|, |e| ≤ Δ`. -/
theorem outer_round (M η : ℚ) (hη : 0 ≤ η)
    (hround : ∀ z : ℚ, |z| ≤ M → ∃ y : ℚ, Double.round z = Double.finite y ∧
      |y - z| ≤ |z| / 2 ^ 53 + η)
    (w d e W Δ : ℚ) (hW : |w| ≤ W) (hd : |d| ≤ Δ) (he : |e| ≤ Δ)
    (hM : 2 * (W * Δ) + 2 * (W * Δ * Δ) + η * Δ ≤ M) :
    ∃ p : ℚ, Double.finite w * Double.finite d * Double.finite e = Double.finite p ∧
      |p - w * d * e| ≤ W * Δ * Δ * (4 / 2 ^ 53) + 2 * (η * Δ) + η ∧
      |p| ≤ W * Δ * Δ * (1 + 4 / 2 ^ 53) + 2 * (η * Δ) + η := by
  have hW0 : 0 ≤ W := le_trans (abs_nonneg _) hW
  have hΔ0 : 0 ≤ Δ := le_trans (abs_nonneg _) hd
  have hWΔ : 0 ≤ W * Δ := mul_nonneg hW0 hΔ0
  have hWΔΔ : 0 ≤ W * Δ * Δ := mul_nonneg hWΔ hΔ0
  have hηΔ : 0 ≤ η * Δ := mul_nonneg hη hΔ0
  obtain ⟨p1, hp1, hp1e, _⟩ := weighted_round M η hround w w W 0 0 d Δ hW (le_refl _)
    (by norm_num) (le_refl _) (by simp) hd
    (by linarith only [hM, hWΔΔ, hηΔ])
  have hwd : |w * d| ≤ W * Δ := by
    rw [abs_mul]
    exact mul_le_mul hW hd (abs_nonneg _) hW0
  have hp1e' : |p1 - w * d| ≤ W * Δ * (2 / 2 ^ 53) + η := by
    have h0 : W * Δ * ((0 + 2) / 2 ^ 53) + 2 * (0 * Δ) + η = W * Δ * (2 / 2 ^ 53) + η := by
      ring
    rw [h0] at hp1e
    exact hp1e
  obtain ⟨p2, hp2, hp2e, hp2a⟩ := weighted_round M η hround p1 (w * d) (W * Δ) 2 η e Δ hwd
    (by norm_num) (by norm_num) hη hp1e' he (by linarith only [hM, hWΔ])
  refine ⟨p2, by rw [hp1, hp2], ?_, ?_⟩
  · have h0 : W * Δ * Δ * ((2 + 2) / 2 ^ 53) = W * Δ * Δ * (4 / 2 ^ 53) := by norm_num
    rw [h0] at hp2e
    exact hp2e
  · have h0 : W * Δ * Δ * (1 + (2 + 2) / 2 ^ 53) = W * Δ * Δ * (1 + 4 / 2 ^ 53) := by norm_num
    rw [h0] at hp2a
    exact hp2a

/-- The error of one entry of covarianceFromSigmaPoints in binary64: when the computed
weights `w0` (centre) and `wi` are at most `W0` and `W` in magnitude and the computed
deviations of the points from the mean are at most `Δ` in the coordinates `i` and `j`,
the entry `(i, j)` is finite and within
`(4 N + 6) C / 2^53 + |q| / 2^53 + (8 N + 4) (Δ + 1) η` of the exactly weighted sum of
the products of the deviations plus the noise entry `q`, where
`C = (W0 + 2 N W) Δ Δ`. -/
theorem covarianceFromSigmaPoints_round (M η : ℚ) (hη : 0 ≤ η) (hηu : η ≤ 1 / 2 ^ 55)
    (hround : ∀ z : ℚ, |z| ≤ M → ∃ y : ℚ, Double.round z = Double.finite y ∧
      |y - z| ≤ |z| / 2 ^ 53 + η)
    {m : Nat} (pts : List (Fin m → Double)) (mean : Fin m → Double)
    (noise : Matrix (Fin m) (Fin m) Double) (N : ℕ) (alpha beta lambda : Double)
    (i j : Fin m) (w0 wi q : ℚ) (d e : ℕ → ℚ) (W0 W Δ : ℚ) (hN : N ≤ 2 ^ 40)
    (hw0 : lambda / (((N : ℕ) : Double) + lambda) + (1 - alpha * alpha + beta)
      = Double.finite w0)
    (hwi : 1 / (2 * (((N : ℕ) : Double) + lambda)) = Double.finite wi)
    (hq : noise i j = Double.finite q)
    (hd : ∀ k, k < 2 * N + 1 → pts.getD k 0 i - mean i = Double.finite (d k))
    (he : ∀ k, k < 2 * N + 1 → pts.getD k 0 j - mean j = Double.finite (e k))
    (hW0 : |w0| ≤ W0) (hW : |wi| ≤ W)
    (hΔd : ∀ k, k < 2 * N + 1 → |d k| ≤ Δ) (hΔe : ∀ k, k < 2 * N + 1 → |e k| ≤ Δ)
    (hM : 4 * ((W0 + 2 * N * W) * Δ * Δ) + 2 * ((W0 + W) * Δ) + 4 * Δ + 8 * N + 2 * |q| + 4
      ≤ M) :
    ∃ y : ℚ, covarianceFromSigmaPoints pts mean noise N alpha beta lambda i j
        = Double.finite y ∧
      |y - (w0 * d 0 * e 0
          + ((List.range' 1 (2 * N)).map (fun k => wi * d k * e k)).sum + q)|
        ≤ (4 * N + 6) * ((W0 + 2 * N * W) * Δ * Δ) / 2 ^ 53 + |q| / 2 ^ 53
          + (8 * N + 4) * (Δ + 1) * η := by
  have hNq : (N : ℚ) ≤ 2 ^ 40 := by exact_mod_cast hN
  have hN0 : (0 : ℚ) ≤ N := Nat.cast_nonneg N
  have hW00 : 0 ≤ W0 := le_trans (abs_nonneg _) hW0
  have hW0' : 0 ≤ W := le_trans (abs_nonneg _) hW
  have hΔ0 : 0 ≤ Δ := le_trans (abs_nonneg _) (hΔd 0 (by omega))
  have hq0 : 0 ≤ |q| := abs_nonneg q
  have hC : (W0 + 2 * N * W) * Δ * Δ = W0 * Δ * Δ + 2 * ((N : ℚ) * (W * Δ * Δ)) := by ring
  rw [hC] at hM ⊢
  have ha0 : 0 ≤ W0 * Δ * Δ := mul_nonneg (mul_nonneg hW00 hΔ0) hΔ0
  have hb0 : 0 ≤ W * Δ * Δ := mul_nonneg (mul_nonneg hW0' hΔ0) hΔ0
  have hNb0 : 0 ≤ (N : ℚ) * (W * Δ * Δ) := mul_nonneg hN0 hb0
  have hc0 : 0 ≤ η * Δ := mul_nonneg hη hΔ0
  have hc1 : η * Δ ≤ 1 / 2 ^ 55 * Δ := mul_le_mul_of_nonneg_right hηu hΔ0
  have hWΔ0 : 0 ≤ W0 * Δ := mul_nonneg hW00 hΔ0
  have hWΔ : 0 ≤ W * Δ := mul_nonneg hW0' hΔ0
  have hM2 : 2 * ((W0 + W) * Δ) = 2 * (W0 * Δ) + 2 * (W * Δ) := by ring
  rw [hM2] at hM
  -- the products
  obtain ⟨p0, hp0, hp0e, hp0a⟩ := outer_round M η hη hround w0 (d 0) (e 0) W0 Δ hW0
    (hΔd 0 (by omega)) (hΔe 0 (by omega))
    (by linarith only [hM, ha0, hNb0, hc1, hΔ0, hN0, hq0, hWΔ])
  have hprod : ∀ k, k ∈ List.range' 1 (2 * N) → ∃ p : ℚ,
      Double.finite wi * Double.finite (d k) * Double.finite (e k) = Double.finite p ∧
      |p - wi * d k * e k| ≤ W * Δ * Δ * (4 / 2 ^ 53) + 2 * (η * Δ) + η ∧
      |p| ≤ W * Δ * Δ * (1 + 4 / 2 ^ 53) + 2 * (η * Δ) + η := by
    intro k hk
    have hk1 := List.mem_range'_1.1 hk
    have hN1 : (1 : ℚ) ≤ N := by
      have h2 : 1 ≤ N := by omega
      exact_mod_cast h2
    have hb1 : W * Δ * Δ ≤ (N : ℚ) * (W * Δ * Δ) := le_mul_of_one_le_left hb0 hN1
    exact outer_round M η hη hround wi (d k) (e k) W Δ hW (hΔd k (by omega))
      (hΔe k (by omega))
      (by linarith only [hb1, hb0, hM, ha0, hc1, hΔ0, hN0, hq0, hWΔ0])
  choose! t ht hte hta using hprod
  have hlen : ((List.range' 1 (2 * N)).length : ℚ) = 2 * N := by
    rw [List.length_range']
    push_cast
    ring
  have hsumabs := list_sum_abs_le t _ (List.range' 1 (2 * N)) hta
  have hsumsub := list_sum_sub_le t (fun k => wi * d k * e k) _ (List.range' 1 (2 * N)) hte
  rw [hlen] at hsumabs hsumsub
  have hNa : (N : ℚ) * (W0 * Δ * Δ) ≤ 2 ^ 40 * (W0 * Δ * Δ) :=
    mul_le_mul_of_nonneg_right hNq ha0
  have hNb : (N : ℚ) * ((N : ℚ) * (W * Δ * Δ)) ≤ 2 ^ 40 * ((N : ℚ) * (W * Δ * Δ)) :=
    mul_le_mul_of_nonneg_right hNq hNb0
  have hNc0 : 0 ≤ (N : ℚ) * (η * Δ) := mul_nonneg hN0 hc0
  have hNc : (N : ℚ) * ((N : ℚ) * (η * Δ)) ≤ 2 ^ 40 * ((N : ℚ) * (η * Δ)) :=
    mul_le_mul_of_nonneg_right hNq hNc0
  have hNc1 : (N : ℚ) * (η * Δ) ≤ (N : ℚ) * (1 / 2 ^ 55 * Δ) :=
    mul_le_mul_of_nonneg_left hc1 hN0
  have hNΔ : (N : ℚ) * (1 / 2 ^ 55 * Δ) ≤ 2 ^ 40 * (1 / 2 ^ 55 * Δ) :=
    mul_le_mul_of_nonneg_right hNq (by positivity)
  have hNη0 : 0 ≤ (N : ℚ) * η := mul_nonneg hN0 hη
  have hNNη : (N : ℚ) * ((N : ℚ) * η) ≤ 2 ^ 40 * ((N : ℚ) * η) :=
    mul_le_mul_of_nonneg_right hNq hNη0
  have hNη1 : (N : ℚ) * η ≤ N * (1 / 2 ^ 55) := mul_le_mul_of_nonneg_left hηu hN0
  have hT : 2 * N * (W * Δ * Δ * (1 + 4 / 2 ^ 53) + 2 * (η * Δ) + η)
      = 2 * ((N : ℚ) * (W * Δ * Δ)) * (1 + 4 / 2 ^ 53) + 4 * ((N : ℚ) * (η * Δ))
        + 2 * ((N : ℚ) * η) := by ring
  rw [hT] at hsumabs
  obtain ⟨s, hs, hse⟩ := foldl_round M η hη hround
    (fun k => (1 : Double) / ((2 : Double) * (((N : ℕ) : Double) + lambda))
      * (pts.getD k 0 i - mean i) * (pts.getD k 0 j - mean j)) t
    (W0 * Δ * Δ * (1 + 4 / 2 ^ 53) + 2 * (η * Δ) + η
      + (2 * ((N : ℚ) * (W * Δ * Δ)) * (1 + 4 / 2 ^ 53) + 4 * ((N : ℚ) * (η * Δ))
        + 2 * ((N : ℚ) * η)))
    p0 (List.range' 1 (2 * N))
    (fun k hk => by
      have hk1 := List.mem_range'_1.1 hk
      show (1 : Double) / ((2 : Double) * (((N : ℕ) : Double) + lambda))
        * (pts.getD k 0 i - mean i) * (pts.getD k 0 j - mean j) = _
      rw [hwi, hd k (by omega), he k (by omega), ht k hk])
    (by linarith only [hp0a, hsumabs])
    (by rw [hlen]; linarith only [hNq])
    (by
      rw [hlen]
      linarith only [hM, ha0, hNb0, hc1, hΔ0, hN0, hηu, hNη1, hNc1, hNΔ, hq0, hWΔ0, hWΔ])
  rw [hlen] at hse
  have hsabs : |s| ≤ |p0 + ((List.range' 1 (2 * N)).map t).sum|
      + 2 * (2 * N) * ((W0 * Δ * Δ * (1 + 4 / 2 ^ 53) + 2 * (η * Δ) + η
      + (2 * ((N : ℚ) * (W * Δ * Δ)) * (1 + 4 / 2 ^ 53) + 4 * ((N : ℚ) * (η * Δ))
        + 2 * ((N : ℚ) * η))) / 2 ^ 53 + η) := by
    have h0 := abs_sub_abs_le_abs_sub s (p0 + ((List.range' 1 (2 * N)).map t).sum)
    linarith only [h0, hse]
  have hlsum : |((List.range' 1 (2 * N)).map t).sum|
      ≤ ((List.range' 1 (2 * N)).map (fun k => |t k|)).sum := by
    generalize List.range' 1 (2 * N) = l
    induction l with
    | nil => simp
    | cons b l ih =>
      simp only [List.map_cons, List.sum_cons]
      exact le_trans (abs_add _ _) (by linarith only [ih])
  have hpsum := abs_add p0 ((List.range' 1 (2 * N)).map t).sum
  have hfold : 2 * (2 * (N : ℚ)) * ((W0 * Δ * Δ * (1 + 4 / 2 ^ 53) + 2 * (η * Δ) + η
      + (2 * ((N : ℚ) * (W * Δ * Δ)) * (1 + 4 / 2 ^ 53) + 4 * ((N : ℚ) * (η * Δ))
        + 2 * ((N : ℚ) * η))) / 2 ^ 53 + η)
      = 4 * ((N : ℚ) * (W0 * Δ * Δ)) * (1 + 4 / 2 ^ 53) / 2 ^ 53
        + 8 * ((N : ℚ) * (η * Δ)) / 2 ^ 53 + 4 * ((N : ℚ) * η) / 2 ^ 53
        + 8 * ((N : ℚ) * ((N : ℚ) * (W * Δ * Δ))) * (1 + 4 / 2 ^ 53) / 2 ^ 53
        + 16 * ((N : ℚ) * ((N : ℚ) * (η * Δ))) / 2 ^ 53
        + 8 * ((N : ℚ) * ((N : ℚ) * η)) / 2 ^ 53 + 4 * ((N : ℚ) * η) := by ring
  rw [hfold] at hse hsabs
  have hsq := abs_add s q
  obtain ⟨y, hy, hye⟩ := hround (s + q) (by
    linarith only [hsq, hsabs, hpsum, hlsum, hp0a, hsumabs, hM, ha0, hNb0, hc0, hc1, hΔ0, hN0,
      hηu, hη, hNη1, hNη0, hNc1, hNc0, hNΔ, hq0, hNa, hNb, hNc, hNNη, hWΔ0, hWΔ])
  refine ⟨y, ?_, ?_⟩
  · rw [covarianceFromSigmaPoints_apply, hw0, hd 0 (by omega), he 0 (by omega), hp0, hq,
      ← hy, ← finite_add_finite, ← hs]
  · have hid : y - (w0 * d 0 * e 0
          + ((List.range' 1 (2 * N)).map (fun k => wi * d k * e k)).sum + q)
        = (y - (s + q)) + (s - (p0 + ((List.range' 1 (2 * N)).map t).sum))
          + (p0 - w0 * d 0 * e 0)
          + (((List.range' 1 (2 * N)).map t).sum
            - ((List.range' 1 (2 * N)).map (fun k => wi * d k * e k)).sum) := by ring
    rw [hid]
    have h1 := abs_add ((y - (s + q)) + (s - (p0 + ((List.range' 1 (2 * N)).map t).sum))
      + (p0 - w0 * d 0 * e 0)) (((List.range' 1 (2 * N)).map t).sum
            - ((List.range' 1 (2 * N)).map (fun k => wi * d k * e k)).sum)
    have h2 := abs_add ((y - (s + q)) + (s - (p0 + ((List.range' 1 (2 * N)).map t).sum)))
      (p0 - w0 * d 0 * e 0)
    have h3 := abs_add (y - (s + q)) (s - (p0 + ((List.range' 1 (2 * N)).map t).sum))
    have hsumsub' : |((List.range' 1 (2 * N)).map t).sum
            - ((List.range' 1 (2 * N)).map (fun k => wi * d k * e k)).sum|
        ≤ 2 * ((N : ℚ) * (W * Δ * Δ)) * (4 / 2 ^ 53) + 4 * ((N : ℚ) * (η * Δ))
          + 2 * ((N : ℚ) * η) := by
      refine le_trans hsumsub (le_of_eq ?_)
      ring
    have hdiv : |s + q| / 2 ^ 53 ≤ (|s| + |q|) / 2 ^ 53 :=
      div_le_div_of_nonneg_right hsq (by positivity)
    have hdiv2 : (|s| + |q|) / 2 ^ 53 = |s| / 2 ^ 53 + |q| / 2 ^ 53 := by ring
    have hsdiv : |s| / 2 ^ 53 ≤ |s| * (1 / 2 ^ 53) := le_of_eq (by ring)
    have hgoal : (4 * (N : ℚ) + 6) * (W0 * Δ * Δ + 2 * ((N : ℚ) * (W * Δ * Δ))) / 2 ^ 53
          + |q| / 2 ^ 53 + (8 * N + 4) * (Δ + 1) * η
        = 4 * ((N : ℚ) * (W0 * Δ * Δ)) / 2 ^ 53
          + 8 * ((N : ℚ) * ((N : ℚ) * (W * Δ * Δ))) / 2 ^ 53
          + 6 * (W0 * Δ * Δ) / 2 ^ 53 + 12 * ((N : ℚ) * (W * Δ * Δ)) / 2 ^ 53
          + |q| / 2 ^ 53 + 8 * ((N : ℚ) * (η * Δ)) + 8 * ((N : ℚ) * η) + 4 * (η * Δ)
          + 4 * η := by ring
    rw [hgoal]
    linarith only [h1, h2, h3, hye, hdiv, hdiv2, hse, hsabs, hpsum, hlsum, hp0a, hp0e,
      hsumabs, hsumsub', hNa, hNb, hNc, hNNη, ha0, hNb0, hc0, hNc0, hNη0, hη, hΔ0, hq0]

theorem covarianceFromSigmaPoints_near_symmetric {m : Nat}
    (pts : List (Fin m → Double)) (mean : Fin m → Double)
    (noise : Matrix (Fin m) (Fin m) Double) (n : Nat) (alpha beta lambda : Double)
    (i j : Fin m) (w0 wi q : ℚ) (d e : ℕ → ℚ) (W0 W Δ : ℚ) (hn : n ≤ 2 ^ 40)
    (hw0 : lambda / (((n : ℕ) : Double) + lambda) + (1 - alpha * alpha + beta)
      = Double.finite w0)
    (hwi : 1 / (2 * (((n : ℕ) : Double) + lambda)) = Double.finite wi)
    (hq : noise i j = Double.finite q) (hq' : noise j i = Double.finite q)
    (hd : ∀ k, k < 2 * n + 1 → pts.getD k 0 i - mean i = Double.finite (d k))
    (he : ∀ k, k < 2 * n + 1 → pts.getD k 0 j - mean j = Double.finite (e k))
    (hW0 : |w0| ≤ W0) (hW : |wi| ≤ W)
    (hΔd : ∀ k, k < 2 * n + 1 → |d k| ≤ Δ) (hΔe : ∀ k, k < 2 * n + 1 → |e k| ≤ Δ)
    (hrange : 4 * ((W0 + 2 * n * W) * Δ * Δ) + 2 * ((W0 + W) * Δ) + 4 * Δ + 8 * n
      + 2 * |q| + 4 ≤ 2 ^ 1023) :
    ∃ a b : ℚ,
      covarianceFromSigmaPoints pts mean noise n alpha beta lambda i j = Double.finite a ∧
      covarianceFromSigmaPoints pts mean noise n alpha beta lambda j i = Double.finite b ∧
      |a - b| ≤ 2 * ((4 * n + 6) * ((W0 + 2 * n * W) * Δ * Δ) / 2 ^ 53 + |q| / 2 ^ 53
        + (8 * n + 4) * (Δ + 1) * (1 / 2 ^ 1075)) := by
  have hη0 : (0 : ℚ) ≤ 1 / 2 ^ 1075 := le_of_lt (one_div_pos.2 (pow_pos (by norm_num) _))
  obtain ⟨a, ha, hae⟩ := covarianceFromSigmaPoints_round (2 ^ 1023) (1 / 2 ^ 1075) hη0
    eta_le_55 round_spec pts mean noise n alpha beta lambda i j w0 wi q d e W0 W Δ hn hw0 hwi
    hq hd he hW0 hW hΔd hΔe hrange
  obtain ⟨b, hb, hbe⟩ := covarianceFromSigmaPoints_round (2 ^ 1023) (1 / 2 ^ 1075) hη0
    eta_le_55 round_spec pts mean noise n alpha beta lambda j i w0 wi q e d W0 W Δ hn hw0 hwi
    hq' he hd hW0 hW hΔe hΔd hrange
  refine ⟨a, b, ha, hb, ?_⟩
  have hsum : (List.range' 1 (2 * n)).map (fun k => wi * e k * d k)
      = (List.range' 1 (2 * n)).map (fun k => wi * d k * e k) :=
    List.map_congr_left (fun k _ => by ring)
  have h0 : w0 * e 0 * d 0 = w0 * d 0 * e 0 := by ring
  rw [hsum, h0] at hbe
  have h1 := abs_sub_le a (w0 * d 0 * e 0
    + ((List.range' 1 (2 * n)).map (fun k => wi * d k * e k)).sum + q) b
  have h2 := abs_sub_comm b (w0 * d 0 * e 0
    + ((List.range' 1 (2 * n)).map (fun k => wi * d k * e k)).sum + q)
  generalize (4 * (n : ℚ) + 6) * ((W0 + 2 * n * W) * Δ * Δ) / 2 ^ 53 + |q| / 2 ^ 53
    + (8 * n + 4) * (Δ + 1) * (1 / 2 ^ 1075) = E at hae hbe ⊢
  linarith only [h1, h2, hae, hbe]

section CovarianceSymmetry

variable {K : Type} [LinearOrderedField K]

theorem thousand_le_two_pow_1023 : (1000 : ℚ) ≤ 2 ^ 1023 := by
  decide!

end CovarianceSymmetry

end Graft
